import Mathlib

/-!
# RuuviCloneESP: history log, NUS command handler and advertiser

Shallow embedding of `src/history/history_log.h` (class `HistoryLog`),
`src/history/history_nus.h` (class `HistoryNUS`) and of the payload encoder, the interval
scheduler, the movement detector, the USB inference, the sensor polling and the advertising
health check of `src/main.cpp`.

Conventions of the embedding

* `uint32_t` / `size_t` values are `Nat`, reduced modulo `U32 = 2^32` wherever the
  C++ arithmetic can wrap; `int16_t` / `int32_t` values are `Int`.
* Memory images of the packed structs are lists of bytes (`List Nat`, every
  byte below 256) in the little-endian order of the ESP32 targets.
* The flash filesystem is a pair of optional byte lists (the two files).  The
  results of the fallible storage calls (open, seek, short reads and writes) are
  inputs of every operation, collected in `...Outcome` records: the code is
  deterministic once they are fixed.
* `Serial` output is dropped and `delay` is a no-op; the health check lists its calls into
  the BLE stack, delays included, and takes the answers of the stack as arguments.
* `float` values are rational numbers (`ℚ`).  The operations of the payload encoders are
  rounded to binary32 (`fl32`: round to nearest, halfway cases to even; infinities and NaN
  are not represented); the filters of the USB inference are taken with exact arithmetic.
  `lroundf` is rounding to the nearest integer with halfway cases away from zero.
* Globals and function-static variables of `main.cpp` are fields of explicit state records
  or arguments; `millis()` is an argument of the function that calls it.
-/

namespace RuuviClone

/-! ## Machine integers and byte images -/

/-- Modulus of `uint32_t` and `size_t` arithmetic on the 32-bit target. -/
def U32 : Nat := 4294967296

/-- Little-endian memory image of an unsigned value stored in `n` bytes. -/
def leBytes : Nat → Nat → List Nat
  | 0, _ => []
  | n + 1, v => (v % 256) :: leBytes n (v / 256)

/-- Unsigned value of a little-endian memory image. -/
def leVal : List Nat → Nat
  | [] => 0
  | b :: bs => b + 256 * leVal bs

/-- Bit pattern of an `int16_t`. -/
def toU16 (i : Int) : Nat := (i % 65536).toNat

/-- The `int16_t` with a given 16-bit pattern. -/
def toI16 (n : Nat) : Int := if n < 32768 then (n : Int) else (n : Int) - 65536

/-- Unsigned field of `len` bytes at offset `off` of a memory image. -/
def fieldAt (b : List Nat) (off len : Nat) : Nat := leVal ((b.drop off).take len)

/-! ## `struct HistoryEntry` (packed) -/

/-- Record `HistoryEntry` of history_log.h, lines 36-48. -/
structure HistoryEntry where
  timestamp : Nat
  temperature : Int
  humidity : Nat
  pressure : Nat
  accel_x : Int
  accel_y : Int
  accel_z : Int
  battery_mv : Nat
  movement_count : Nat
  reserved : Nat
deriving DecidableEq, Repr

/-- The field values are values of the declared C++ field types. -/
def HistoryEntry.WF (e : HistoryEntry) : Prop :=
  e.timestamp < 4294967296 ∧
  (-32768 ≤ e.temperature ∧ e.temperature < 32768) ∧
  e.humidity < 65536 ∧ e.pressure < 65536 ∧
  (-32768 ≤ e.accel_x ∧ e.accel_x < 32768) ∧
  (-32768 ≤ e.accel_y ∧ e.accel_y < 32768) ∧
  (-32768 ≤ e.accel_z ∧ e.accel_z < 32768) ∧
  e.battery_mv < 65536 ∧ e.movement_count < 256 ∧ e.reserved < 256

instance (e : HistoryEntry) : Decidable e.WF := by
  unfold HistoryEntry.WF; infer_instance

/-- Value of `sizeof(HistoryEntry)` under `#pragma pack(push, 1)`: the sum of the field sizes. -/
def sizeof_HistoryEntry : Nat := 4 + 2 + 2 + 2 + 2 + 2 + 2 + 2 + 1 + 1

/-- Memory image of a `HistoryEntry`, as written by
`dataFile.write((const uint8_t *)&entry, sizeof(HistoryEntry))`. -/
def HistoryEntry.toBytes (e : HistoryEntry) : List Nat :=
  leBytes 4 e.timestamp ++ leBytes 2 (toU16 e.temperature) ++ leBytes 2 e.humidity ++
  leBytes 2 e.pressure ++ leBytes 2 (toU16 e.accel_x) ++ leBytes 2 (toU16 e.accel_y) ++
  leBytes 2 (toU16 e.accel_z) ++ leBytes 2 e.battery_mv ++ leBytes 1 e.movement_count ++
  leBytes 1 e.reserved

/-- The `HistoryEntry` with a given memory image, as filled by
`dataFile.read((uint8_t *)&entry, sizeof(HistoryEntry))`. -/
def HistoryEntry.ofBytes (b : List Nat) : HistoryEntry where
  timestamp := fieldAt b 0 4
  temperature := toI16 (fieldAt b 4 2)
  humidity := fieldAt b 6 2
  pressure := fieldAt b 8 2
  accel_x := toI16 (fieldAt b 10 2)
  accel_y := toI16 (fieldAt b 12 2)
  accel_z := toI16 (fieldAt b 14 2)
  battery_mv := fieldAt b 16 2
  movement_count := fieldAt b 18 1
  reserved := fieldAt b 19 1

/-! ## `struct HistoryMetadata` (packed) -/

/-- Record `HistoryMetadata` of history_log.h, lines 53-65; the seven reserved
bytes are kept as one little-endian number. -/
structure HistoryMetadata where
  magic : Nat
  version : Nat
  entry_count : Nat
  oldest_index : Nat
  newest_index : Nat
  max_entries : Nat
  rtc_offset : Nat
  last_write_time : Nat
  checksum : Nat
  reserved : Nat
deriving DecidableEq, Repr

/-- The field values are values of the declared C++ field types. -/
def HistoryMetadata.WF (m : HistoryMetadata) : Prop :=
  m.magic < 4294967296 ∧ m.version < 4294967296 ∧ m.entry_count < 4294967296 ∧
  m.oldest_index < 4294967296 ∧ m.newest_index < 4294967296 ∧ m.max_entries < 4294967296 ∧
  m.rtc_offset < 4294967296 ∧ m.last_write_time < 4294967296 ∧ m.checksum < 256 ∧
  m.reserved < 72057594037927936

instance (m : HistoryMetadata) : Decidable m.WF := by
  unfold HistoryMetadata.WF; infer_instance

/-- Value of `sizeof(HistoryMetadata)` under `#pragma pack(push, 1)`. -/
def sizeof_HistoryMetadata : Nat := 4 + 4 + 4 + 4 + 4 + 4 + 4 + 4 + 1 + 7

/-- Value of `sizeof(meta_.checksum)`. -/
def sizeof_checksum : Nat := 1

/-- Value of `sizeof(meta_.reserved)`. -/
def sizeof_reserved : Nat := 7

/-- Constant `HISTORY_MAGIC`. -/
def HISTORY_MAGIC : Nat := 0x52555649

/-- Memory image of a `HistoryMetadata`. -/
def HistoryMetadata.toBytes (m : HistoryMetadata) : List Nat :=
  leBytes 4 m.magic ++ leBytes 4 m.version ++ leBytes 4 m.entry_count ++
  leBytes 4 m.oldest_index ++ leBytes 4 m.newest_index ++ leBytes 4 m.max_entries ++
  leBytes 4 m.rtc_offset ++ leBytes 4 m.last_write_time ++ leBytes 1 m.checksum ++
  leBytes 7 m.reserved

/-- The `HistoryMetadata` with a given memory image. -/
def HistoryMetadata.ofBytes (b : List Nat) : HistoryMetadata where
  magic := fieldAt b 0 4
  version := fieldAt b 4 4
  entry_count := fieldAt b 8 4
  oldest_index := fieldAt b 12 4
  newest_index := fieldAt b 16 4
  max_entries := fieldAt b 20 4
  rtc_offset := fieldAt b 24 4
  last_write_time := fieldAt b 28 4
  checksum := fieldAt b 32 1
  reserved := fieldAt b 33 7

/-! ## Storage -/

/-- Contents of the two LittleFS files, `none` when the file does not exist. -/
structure FS where
  data : Option (List Nat)
  index : Option (List Nat)
deriving DecidableEq, Repr

/-- Positioned write: the bytes replace the file contents from `off` on, the
file growing (zero padded up to `off`) when needed. -/
def writeAt (file : List Nat) (off : Nat) (bytes : List Nat) : List Nat :=
  file.take off ++ List.replicate (off - file.length) 0 ++ bytes ++ file.drop (off + bytes.length)

/-- Positioned read of at most `len` bytes. -/
def readAt (file : List Nat) (off len : Nat) : List Nat := (file.drop off).take len

/-- Result of one `open` + `write` of the index file (`written` is the byte count the
write call returns). -/
structure SaveOutcome where
  openOk : Bool
  written : Nat
deriving DecidableEq, Repr

/-- Result of one `open` + `read` of the index file (`readLimit` bounds the byte
count the read call returns). -/
structure LoadOutcome where
  openOk : Bool
  readLimit : Nat
deriving DecidableEq, Repr

/-- Results of the storage calls of `createNewMetadata`: opening the data file, the
byte count accepted by the zero-fill write issued at each position, and the header save. -/
structure CreateOutcome where
  dataOpenOk : Bool
  chunkAccepted : Nat → Nat
  save : SaveOutcome

/-- Results of the storage calls of `logEntry`. -/
structure LogOutcome where
  dataOpenOk : Bool
  seekOk : Bool
  dataWritten : Nat
  save : SaveOutcome
deriving DecidableEq, Repr

/-- Results of the storage calls of `readEntries`: opening the data file, and for each
loop iteration whether the seek succeeds and a bound on the bytes the read returns. -/
structure ReadOutcome where
  openOk : Bool
  seekOk : Nat → Bool
  readLimit : Nat → Nat

/-- Result of `LittleFS.begin(true)`: mounted, mounted after formatting, or failed. -/
inductive MountResult where
  | mounted
  | formatted
  | failed
deriving DecidableEq, Repr

/-- Results of the storage calls of `begin`. -/
structure BeginOutcome where
  mount : MountResult
  load : LoadOutcome
  create : CreateOutcome

/-- Results of the storage calls of `clear`. -/
structure ClearOutcome where
  removeDataOk : Bool
  removeIndexOk : Bool
  create : CreateOutcome

/-- Every storage call of a header save succeeds. -/
def SaveOutcome.good : SaveOutcome := ⟨true, sizeof_HistoryMetadata⟩

/-- Every storage call of a header load succeeds. -/
def LoadOutcome.good : LoadOutcome := ⟨true, sizeof_HistoryMetadata⟩

/-- Every storage call of `createNewMetadata` succeeds. -/
def CreateOutcome.good : CreateOutcome := ⟨true, fun _ => 256, SaveOutcome.good⟩

/-- Every storage call of `logEntry` succeeds. -/
def LogOutcome.good : LogOutcome := ⟨true, true, sizeof_HistoryEntry, SaveOutcome.good⟩

/-- Every storage call of `readEntries` succeeds. -/
def ReadOutcome.good : ReadOutcome := ⟨true, fun _ => true, fun _ => sizeof_HistoryEntry⟩

/-- Every storage call of `begin` succeeds without formatting. -/
def BeginOutcome.good : BeginOutcome := ⟨MountResult.mounted, LoadOutcome.good, CreateOutcome.good⟩

/-! ## `class HistoryLog` -/

/-- Build flag `HISTORY_LOG_ENABLE` (default). -/
def HISTORY_LOG_ENABLE : Nat := 1

/-- Build flag `HISTORY_INTERVAL_SEC` (default). -/
def HISTORY_INTERVAL_SEC : Nat := 300

/-- Build flag `HISTORY_MAX_DAYS` (default). -/
def HISTORY_MAX_DAYS : Nat := 10

/-- Build flag `HISTORY_FS_SIZE_KB` (default). -/
def HISTORY_FS_SIZE_KB : Nat := 128

/-- Data members of `HistoryLog`. -/
structure HistoryLog where
  initialized_ : Bool
  meta_ : HistoryMetadata
  rtc_offset_ : Nat
  last_write_time_ : Nat
deriving DecidableEq, Repr

/-- Constructor `HistoryLog()`; `meta_` is not initialised by it, so its
contents `garbage` are arbitrary. -/
def HistoryLog.new (garbage : HistoryMetadata) : HistoryLog :=
  { initialized_ := false, meta_ := garbage, rtc_offset_ := 0, last_write_time_ := 0 }

/-- XOR of a byte range, the loop of `calculateChecksum`. -/
def xorBytes (data : List Nat) : Nat := data.foldl (fun checksum b => checksum ^^^ b) 0

/-- Method `calculateChecksum` (lines 356-363). -/
def calculateChecksum (m : HistoryMetadata) : HistoryMetadata :=
  { m with checksum :=
      xorBytes (m.toBytes.take (sizeof_HistoryMetadata - sizeof_checksum - sizeof_reserved)) }

/-- Method `verifyChecksum` (lines 365-371); `meta_` is restored, so only the verdict is returned. -/
def verifyChecksum (m : HistoryMetadata) : Bool :=
  let stored_checksum := m.checksum
  let m1 := calculateChecksum m
  stored_checksum == m1.checksum

/-- Method `loadMetadata` (lines 271-292).  The bytes read land in `meta_` whether or
not the header is then accepted. -/
def loadMetadata (s : HistoryLog) (fs : FS) (o : LoadOutcome) : Bool × HistoryLog :=
  match fs.index with
  | none => (false, s)
  | some file =>
    if !o.openOk then (false, s)
    else
      let got := readAt file 0 (min sizeof_HistoryMetadata o.readLimit)
      let read_size := got.length
      let m := HistoryMetadata.ofBytes (got ++ s.meta_.toBytes.drop read_size)
      let s1 := { s with meta_ := m }
      if read_size != sizeof_HistoryMetadata then (false, s1)
      else if m.magic != HISTORY_MAGIC || !verifyChecksum m then (false, s1)
      else (true, { s1 with rtc_offset_ := m.rtc_offset })

/-- Method `saveMetadata` (lines 294-308).  Opening with mode "w" truncates the file. -/
def saveMetadata (s : HistoryLog) (fs : FS) (o : SaveOutcome) : Bool × HistoryLog × FS :=
  let m := calculateChecksum { s.meta_ with magic := HISTORY_MAGIC, version := 1 }
  let s1 := { s with meta_ := m }
  if !o.openOk then (false, s1, fs)
  else
    let written := min o.written sizeof_HistoryMetadata
    (written == sizeof_HistoryMetadata, s1, { fs with index := some (m.toBytes.take written) })

/-- The zero-fill loop of `createNewMetadata` (lines 343-347); the results of the
writes are ignored by the code. -/
def zeroFill (total_size : Nat) (accepted : Nat → Nat) (written : Nat) (file : List Nat) :
    List Nat :=
  if written < total_size then
    let chunk := if total_size - written < 256 then total_size - written else 256
    zeroFill total_size accepted (written + 256)
      (file ++ List.replicate (min chunk (accepted written)) 0)
  else file
termination_by total_size - written
decreasing_by omega

/-- Capacity computed by `createNewMetadata` (lines 313-320). -/
def computeMaxEntries : Nat :=
  let available_bytes := (HISTORY_FS_SIZE_KB * 1024 - 4096) % U32
  let max_entries := available_bytes / sizeof_HistoryEntry
  let max_days_entries := (HISTORY_MAX_DAYS * 24 * 60) / (HISTORY_INTERVAL_SEC / 60)
  if max_entries > max_days_entries then max_days_entries else max_entries

/-- Method `createNewMetadata` (lines 310-354). -/
def createNewMetadata (s : HistoryLog) (fs : FS) (o : CreateOutcome) : Bool × HistoryLog × FS :=
  let max_entries := computeMaxEntries
  let m : HistoryMetadata :=
    { magic := HISTORY_MAGIC, version := 1, entry_count := 0, oldest_index := 0,
      newest_index := 0, max_entries := max_entries, rtc_offset := 0, last_write_time := 0,
      checksum := 0, reserved := 0 }
  let s1 := { s with meta_ := m }
  if !o.dataOpenOk then (false, s1, fs)
  else
    let total_size := (max_entries * sizeof_HistoryEntry) % U32
    let file := zeroFill total_size o.chunkAccepted 0 []
    saveMetadata s1 { fs with data := some file } o.save

/-- Method `begin` (lines 75-99). -/
def begin (s : HistoryLog) (fs : FS) (o : BeginOutcome) : Bool × HistoryLog × FS :=
  if HISTORY_LOG_ENABLE = 0 then (false, s, fs)
  else
    match o.mount with
    | MountResult.failed => (false, s, fs)
    | mr =>
      let fs0 : FS := if mr = MountResult.formatted then ⟨none, none⟩ else fs
      let (loaded, s1) := loadMetadata s fs0 o.load
      if loaded then (true, { s1 with initialized_ := true }, fs0)
      else
        let (created, s2, fs2) := createNewMetadata s1 fs0 o.create
        if !created then (false, s2, fs2)
        else (true, { s2 with initialized_ := true }, fs2)

/-- Slot chosen by `logEntry` (lines 108-111), for a capacity `max_entries > 0`.  With
`max_entries = 0` and a non-empty log the C++ `%` of line 110 divides by zero and the call
does not return; the value given here for that case has no counterpart in the code. -/
def writeIndex (m : HistoryMetadata) : Nat :=
  if m.entry_count > 0 then ((m.newest_index + 1) % U32) % m.max_entries else m.newest_index

/-- Byte offset of a slot, `index * sizeof(HistoryEntry)` in `size_t`. -/
def slotOffset (index : Nat) : Nat := (index * sizeof_HistoryEntry) % U32

/-- Header update of `logEntry` (lines 138-146), for a capacity `max_entries > 0`.  With
`max_entries = 0` the C++ `%` of line 144 divides by zero and the call does not return; the
value given here for that case has no counterpart in the code. -/
def advanceMeta (m : HistoryMetadata) (write_index : Nat) (entry : HistoryEntry) :
    HistoryMetadata :=
  let m1 := { m with newest_index := write_index, entry_count := (m.entry_count + 1) % U32,
                     last_write_time := entry.timestamp }
  if m1.entry_count > m1.max_entries then
    { m1 with oldest_index := ((m1.oldest_index + 1) % U32) % m1.max_entries,
              entry_count := m1.max_entries }
  else m1

/-- Data file after the data write of `logEntry` (lines 114-130): `none` when the
file could not be opened or the seek failed, in which case nothing is written. -/
def logEntryData (s : HistoryLog) (fs : FS) (entry : HistoryEntry) (o : LogOutcome) :
    Option (List Nat) :=
  match fs.data with
  | none => none
  | some file =>
    if !o.dataOpenOk then none
    else if !o.seekOk then none
    else
      let written := min o.dataWritten sizeof_HistoryEntry
      some (writeAt file (slotOffset (writeIndex s.meta_)) (entry.toBytes.take written))

/-- Method `logEntry` (lines 102-154). -/
def logEntry (s : HistoryLog) (fs : FS) (entry : HistoryEntry) (o : LogOutcome) :
    Bool × HistoryLog × FS :=
  if !s.initialized_ then (false, s, fs)
  else
    let write_index := writeIndex s.meta_
    match logEntryData s fs entry o with
    | none => (false, s, fs)
    | some file =>
      let fs1 := { fs with data := some file }
      let written := min o.dataWritten sizeof_HistoryEntry
      if written != sizeof_HistoryEntry then (false, s, fs1)
      else
        let s1 := { s with meta_ := advanceMeta s.meta_ write_index entry }
        let (_, s2, fs2) := saveMetadata s1 fs1 o.save
        (true, s2, fs2)

/-- The loop of `readEntries` (lines 173-196): `n` iterations remain, `i` is the loop
counter, `entries` the vector built so far. -/
def readLoop (m : HistoryMetadata) (file : List Nat) (o : ReadOutcome)
    (start_timestamp end_timestamp max_count : Nat) :
    Nat → Nat → List HistoryEntry → Nat → List HistoryEntry
  | 0, _, entries, _ => entries
  | n + 1, i, entries, read_count =>
    let index := ((m.oldest_index + i) % U32) % m.max_entries
    let offset := slotOffset index
    if !o.seekOk i then
      readLoop m file o start_timestamp end_timestamp max_count n (i + 1) entries read_count
    else
      let got := readAt file offset (min sizeof_HistoryEntry (o.readLimit i))
      if got.length != sizeof_HistoryEntry then
        readLoop m file o start_timestamp end_timestamp max_count n (i + 1) entries read_count
      else
        let entry := HistoryEntry.ofBytes got
        if entry.timestamp ≥ start_timestamp ∧ entry.timestamp ≤ end_timestamp then
          let entries1 := entries ++ [entry]
          let read_count1 := (read_count + 1) % U32
          if max_count > 0 ∧ read_count1 ≥ max_count then entries1
          else
            readLoop m file o start_timestamp end_timestamp max_count n (i + 1) entries1
              read_count1
        else
          readLoop m file o start_timestamp end_timestamp max_count n (i + 1) entries read_count

/-- Method `readEntries` (lines 157-202).  The vector is returned next to the verdict;
it is left as the caller passed it (`entries0`) when the call returns before `clear()`. -/
def readEntries (s : HistoryLog) (fs : FS) (o : ReadOutcome)
    (start_timestamp end_timestamp : Nat) (entries0 : List HistoryEntry) (max_count : Nat) :
    Bool × List HistoryEntry :=
  if !s.initialized_ || s.meta_.entry_count == 0 then (false, entries0)
  else
    match fs.data with
    | none => (false, [])
    | some file =>
      if !o.openOk then (false, [])
      else
        let count :=
          if s.meta_.entry_count < s.meta_.max_entries then s.meta_.entry_count
          else s.meta_.max_entries
        (true, readLoop s.meta_ file o start_timestamp end_timestamp max_count count 0 [] 0)

/-- Method `readAllEntries` (lines 205-207). -/
def readAllEntries (s : HistoryLog) (fs : FS) (o : ReadOutcome) (entries0 : List HistoryEntry) :
    Bool × List HistoryEntry :=
  readEntries s fs o 0 0xFFFFFFFF entries0 0

/-- Method `setRTCOffset` (lines 215-220). -/
def setRTCOffset (s : HistoryLog) (fs : FS) (offset : Nat) (o : SaveOutcome) :
    HistoryLog × FS :=
  let s1 := { s with rtc_offset_ := offset, meta_ := { s.meta_ with rtc_offset := offset } }
  let (_, s2, fs2) := saveMetadata s1 fs o
  (s2, fs2)

/-- Method `getCurrentTimestamp` (lines 223-225); `millis` is the value returned by `millis()`. -/
def getCurrentTimestamp (s : HistoryLog) (millis : Nat) : Nat :=
  ((millis / 1000) + s.rtc_offset_) % U32

/-- Method `clear` (lines 228-239). -/
def clear (s : HistoryLog) (fs : FS) (o : ClearOutcome) : Bool × HistoryLog × FS :=
  if !s.initialized_ then (false, s, fs)
  else
    let fs1 := if o.removeDataOk then { fs with data := none } else fs
    let fs2 := if o.removeIndexOk then { fs1 with index := none } else fs1
    createNewMetadata s fs2 o.create

/-! ## `class HistoryNUS` -/

/-- Constant `RESP_PREFIX`. -/
def RESP_PREFIX : Nat := 0x3A

/-- Constant `RESP_STREAM_TEMP`. -/
def RESP_STREAM_TEMP : Nat := 0x30

/-- Constant `RESP_STREAM_HUM`. -/
def RESP_STREAM_HUM : Nat := 0x31

/-- Constant `RESP_STREAM_PRES`. -/
def RESP_STREAM_PRES : Nat := 0x32

/-- Constant `CMD_READ_HISTORY`. -/
def CMD_READ_HISTORY : Nat := 0x11

/-- Constant `CMD_TIME_SYNC`. -/
def CMD_TIME_SYNC : Nat := 0x12

/-- Constant `NUS_MAX_PACKET_SIZE`. -/
def NUS_MAX_PACKET_SIZE : Nat := 20

/-- Data members of `HistoryNUS` the handlers depend on; `tx_char_` records whether
the pointer is non-null. -/
structure HistoryNUS where
  connected_ : Bool
  tx_char_ : Bool
  history_stream_active_ : Bool
deriving DecidableEq, Repr

/-- The handler object, the global `g_history_log` with its storage, and the
notifications emitted so far (oldest first). -/
structure World where
  nus : HistoryNUS
  log : HistoryLog
  fs : FS
  sent : List (List Nat)
deriving DecidableEq, Repr

/-- Method `sendNotification` (lines 121-133). -/
def sendNotification (w : World) (data : List Nat) : Bool × World :=
  if !w.nus.connected_ || !w.nus.tx_char_ then (false, w)
  else
    let length := if data.length > NUS_MAX_PACKET_SIZE then NUS_MAX_PACKET_SIZE else data.length
    (true, { w with sent := w.sent ++ [data.take length] })

/-- Big-endian `uint32_t` parsed from the first four parameter bytes
(lines 250-253 and 285-288). -/
def parseTimestamp (params : List Nat) : Nat :=
  (((params.getD 0 0) <<< 24) % U32) ||| (((params.getD 1 0) <<< 16) % U32) |||
  (((params.getD 2 0) <<< 8) % U32) ||| (params.getD 3 0)

/-- The acknowledgment built by `handleTimeSync` (lines 267-272). -/
def timeSyncAck (timestamp : Nat) : List Nat :=
  [RESP_PREFIX, 0x12, (timestamp >>> 24) &&& 0xFF, (timestamp >>> 16) &&& 0xFF,
   (timestamp >>> 8) &&& 0xFF]

/-- Clock offset computed by `handleTimeSync` (lines 258-259), a `uint32_t` subtraction. -/
def timeSyncOffset (timestamp millis : Nat) : Nat :=
  let current_millis_sec := millis / 1000
  (((timestamp : Int) - (current_millis_sec : Int)) % 4294967296).toNat

/-- Method `handleTimeSync` (lines 243-275). -/
def handleTimeSync (w : World) (params : List Nat) (millis : Nat) (o : SaveOutcome) : World :=
  if params.length < 4 then w
  else
    let timestamp := parseTimestamp params
    let offset := timeSyncOffset timestamp millis
    let (log1, fs1) := setRTCOffset w.log w.fs offset o
    let w1 := { w with log := log1, fs := fs1 }
    (sendNotification w1 (timeSyncAck timestamp)).2

/-- Byte `(value >> k) & 0xFF` of an `int32_t` (arithmetic shift). -/
def int32Byte (value : Int) (k : Nat) : Nat := ((value >>> k) % 256).toNat

/-- The packet built by `sendHistoryPacket` (lines 359-374). -/
def historyPacket (stream_id timestamp : Nat) (value : Int) : List Nat :=
  [RESP_PREFIX, stream_id, 0x10,
   (timestamp >>> 24) &&& 0xFF, (timestamp >>> 16) &&& 0xFF, (timestamp >>> 8) &&& 0xFF,
   timestamp &&& 0xFF,
   int32Byte value 24, int32Byte value 16, int32Byte value 8, int32Byte value 0]

/-- Method `sendHistoryPacket` (lines 351-377). -/
def sendHistoryPacket (w : World) (stream_id timestamp : Nat) (value : Int) : World :=
  (sendNotification w (historyPacket stream_id timestamp value)).2

/-- Local `temp_re` of `handleReadHistory` (line 325): C++ division truncates toward zero. -/
def temp_re (entry : HistoryEntry) : Int := Int.tdiv entry.temperature 2

/-- Local `hum_re` of `handleReadHistory` (line 329). -/
def hum_re (entry : HistoryEntry) : Int := Int.tdiv (entry.humidity : Int) 4

/-- Local `pres_re` of `handleReadHistory` (line 333). -/
def pres_re (entry : HistoryEntry) : Int := (entry.pressure : Int) + 50000

/-- The streaming loop of `handleReadHistory` (lines 313-346). -/
def streamEntries (start_timestamp : Nat) : World → List HistoryEntry → World
  | w, [] => w
  | w, entry :: rest =>
    if start_timestamp > 0 ∧ entry.timestamp < start_timestamp then
      streamEntries start_timestamp w rest
    else
      let w1 := sendHistoryPacket w RESP_STREAM_TEMP entry.timestamp (temp_re entry)
      let w2 := sendHistoryPacket w1 RESP_STREAM_HUM entry.timestamp (hum_re entry)
      let w3 := sendHistoryPacket w2 RESP_STREAM_PRES entry.timestamp (pres_re entry)
      streamEntries start_timestamp w3 rest

/-- Method `handleReadHistory` (lines 277-349). -/
def handleReadHistory (w : World) (params : List Nat) (o : ReadOutcome) : World :=
  let start_timestamp := if params.length ≥ 4 then parseTimestamp params else 0
  let (ok, entries) := readAllEntries w.log w.fs o []
  if !ok then w
  else if entries.length == 0 then
    (sendNotification w [0x3A, 0x3A, 0x10, 0, 0, 0, 0, 0, 0, 0, 0]).2
  else streamEntries start_timestamp w entries

/-- Method `handleCommand` (lines 227-241). -/
def handleCommand (w : World) (cmd : Nat) (params : List Nat) (millis : Nat)
    (so : SaveOutcome) (ro : ReadOutcome) : World :=
  if cmd = CMD_READ_HISTORY then handleReadHistory w params ro
  else if cmd = CMD_TIME_SYNC then handleTimeSync w params millis so
  else w

/-- Method `onWrite` (lines 175-217); `toRx` tells whether the written characteristic
is `rx_char_`, `value` is the written value. -/
def onWrite (w : World) (toRx : Bool) (value : List Nat) (millis : Nat)
    (so : SaveOutcome) (ro : ReadOutcome) : World :=
  if !toRx then w
  else if value.length < 3 then w
  else if value.length = 11 then
    let op := value.getD 2 0
    if op = 0x11 then handleCommand w op (value.drop 3) millis so ro
    else if op = 0x12 then handleCommand w op (value.drop 3) millis so ro
    else w
  else w

/-! ## Scenarios -/

/-- Log object and storage after a first boot: `begin()` on empty storage with every
storage call succeeding. -/
def firstBoot (garbage : HistoryMetadata) : Bool × HistoryLog × FS :=
  begin (HistoryLog.new garbage) ⟨none, none⟩ BeginOutcome.good

/-- Successive `logEntry` calls whose storage calls all succeed; the verdict tells whether
every call returned true. -/
def logAll : HistoryLog × FS → List HistoryEntry → Bool × HistoryLog × FS
  | st, [] => (true, st)
  | st, e :: es =>
    let r := logEntry st.1 st.2 e LogOutcome.good
    let r' := logAll r.2 es
    (r.1 && r'.1, r'.2)

/-- A restart: a new `HistoryLog` object runs `begin()` on the storage left behind. -/
def restart (garbage : HistoryMetadata) (fs : FS) (o : BeginOutcome) : Bool × HistoryLog × FS :=
  begin (HistoryLog.new garbage) fs o

/-- Big-endian image of a 32-bit value: the layout of the timestamp in the first four
payload bytes of a command. -/
def be32 (v : Nat) : List Nat :=
  [(v >>> 24) &&& 0xFF, (v >>> 16) &&& 0xFF, (v >>> 8) &&& 0xFF, v &&& 0xFF]

/-- A header with every field zero. -/
def zeroMeta : HistoryMetadata := ⟨0, 0, 0, 0, 0, 0, 0, 0, 0, 0⟩

/-- A connected handler next to a log object that has not run `begin()`, on empty storage. -/
def idleWorld : World :=
  { nus := ⟨true, true, false⟩, log := HistoryLog.new zeroMeta, fs := ⟨none, none⟩, sent := [] }

/-- A stored record with odd temperature and humidity counts. -/
def oddEntry : HistoryEntry := ⟨1700000000, 4001, 18001, 51325, 0, 0, 1000, 3000, 0, 0⟩

/-- A stored byte string with bit `j` of byte `i` flipped. -/
def flipBit (bytes : List Nat) (i j : Nat) : List Nat :=
  bytes.set i ((bytes.getD i 0) ^^^ (1 <<< j))

/-- The 40 bytes `saveMetadata` writes for the in-memory header `m`. -/
def savedHeader (m : HistoryMetadata) : List Nat :=
  (calculateChecksum { m with magic := HISTORY_MAGIC, version := 1 }).toBytes

/-- The log object `s` and its storage `fs` hold the sequence `L` of all entries appended
since the log was created: the header is valid and persisted, its indices and count are
those of a ring that has received `L.length` records, and the slot of each of the last
`max_entries` records holds its image. -/
structure Tracks (s : HistoryLog) (fs : FS) (L : List HistoryEntry) : Prop where
  init : s.initialized_ = true
  wf : s.meta_.WF
  magic : s.meta_.magic = HISTORY_MAGIC
  sum : verifyChecksum s.meta_ = true
  index : fs.index = some s.meta_.toBytes
  cap_pos : 0 < s.meta_.max_entries
  cap_small : 20 * s.meta_.max_entries + 20 < 4294967296
  count : s.meta_.entry_count = min L.length s.meta_.max_entries
  newest : s.meta_.newest_index = (L.length - 1) % s.meta_.max_entries
  oldest : s.meta_.oldest_index =
    if L.length ≤ s.meta_.max_entries then 0 else L.length % s.meta_.max_entries
  data : ∃ d, fs.data = some d ∧ d.length = 20 * s.meta_.max_entries ∧
    ∀ k e, L.length - s.meta_.max_entries ≤ k → L[k]? = some e →
      readAt d (20 * (k % s.meta_.max_entries)) 20 = e.toBytes

/-- A stored record with every field zero. -/
def zeroEntry : HistoryEntry := ⟨0, 0, 0, 0, 0, 0, 0, 0, 0, 0⟩

/-- The record `oddEntry` with timestamp `t`. -/
def stampedEntry (t : Nat) : HistoryEntry := { oddEntry with timestamp := t }

/-! ## Advertisement power field (`main.cpp`) -/

/-- Local `batt_bits` of `encodePower` (main.cpp lines 166-176), a function of the
`uint16_t` argument `battery_mv`. -/
def batt_bits (battery_mv : Nat) : Int :=
  let battery_mv1 := if battery_mv < 1600 then 1600 else battery_mv
  let battery_mv2 := if battery_mv1 > 3646 then 3646 else battery_mv1
  let bits : Int := (battery_mv2 : Int) - 1600
  let bits1 : Int := if bits < 0 then 0 else bits
  if bits1 > 0x7FE then 0x7FE else bits1

/-- Local `tx_bits` of `encodePower` (main.cpp lines 178-182); the C++ division
truncates toward zero. -/
def tx_bits (tx_dbm : Int) : Int :=
  let bits : Int := Int.tdiv (tx_dbm + 40) 2
  let bits1 : Int := if bits < 0 then 0 else bits
  if bits1 > 0x1F then 0x1F else bits1

/-- Function `encodePower` of main.cpp (lines 165-185).  After the clamps both operands
of `(batt_bits << 5) | tx_bits` are non-negative, so the bit operations are taken on their
natural-number values; `static_cast<uint16_t>` keeps the low 16 bits. -/
def encodePower (battery_mv : Nat) (tx_dbm : Int) : Nat :=
  (((batt_bits battery_mv).toNat <<< 5) ||| (tx_bits tx_dbm).toNat) % 65536

/-- The value `clamp(mv, 1600, 3646)` of the specification. -/
def clampMv (mv : Nat) : Nat := max 1600 (min mv 3646)

/-- The value `clamp((dbm + 40) / 2, 0, 31)` of the specification, the division
truncating toward zero. -/
def txCode (dbm : Int) : Nat := (max 0 (min (Int.tdiv (dbm + 40) 2) 31)).toNat

/-! ## Specification-side definitions for reads, streaming and reachability -/

/-- What iteration `i` of the read loop obtains from logical slot `i` (counted from the
oldest): the record stored there, or nothing when the seek fails or the read is short. -/
def visitedEntry (m : HistoryMetadata) (file : List Nat) (o : ReadOutcome) (i : Nat) :
    Option HistoryEntry :=
  if o.seekOk i then
    if (readAt file (slotOffset (((m.oldest_index + i) % U32) % m.max_entries))
        (min sizeof_HistoryEntry (o.readLimit i))).length = sizeof_HistoryEntry then
      some (HistoryEntry.ofBytes
        (readAt file (slotOffset (((m.oldest_index + i) % U32) % m.max_entries))
          (min sizeof_HistoryEntry (o.readLimit i))))
    else none
  else none

/-- Inclusive timestamp filter of `read_range`. -/
def inRange (start_ts end_ts : Nat) (e : HistoryEntry) : Bool :=
  decide (start_ts ≤ e.timestamp ∧ e.timestamp ≤ end_ts)

/-- The result of `read_range(start_ts, end_ts, limit)` in the words of the specification:
the logical slots are visited oldest to newest, the entries within the inclusive bounds are
kept, and the first `limit` of them are returned (all of them when `limit` is 0). -/
def readRangeSpec (m : HistoryMetadata) (file : List Nat) (o : ReadOutcome)
    (start_ts end_ts limit : Nat) : List HistoryEntry :=
  let count := min m.entry_count m.max_entries
  let visited := (List.range count).filterMap (visitedEntry m file o)
  let kept := visited.filter (inRange start_ts end_ts)
  if limit > 0 then kept.take limit else kept

/-- Bit pattern of an `int32_t`. -/
def toU32 (v : Int) : Nat := (v % 4294967296).toNat

/-- The `int32_t` with a given 32-bit pattern (two's complement). -/
def toI32 (n : Nat) : Int := if n < 2147483648 then (n : Int) else (n : Int) - 4294967296

/-- An 11-byte log-value packet in the words of the specification: destination tag,
channel tag, opcode 0x10, big-endian timestamp, big-endian two's-complement value. -/
def logValuePacket (channel timestamp : Nat) (value : Int) : List Nat :=
  [0x3A, channel, 0x10] ++ be32 timestamp ++ be32 (toU32 value)

/-- The three packets of one entry: temperature, humidity, pressure. -/
def entryPackets (e : HistoryEntry) : List (List Nat) :=
  [logValuePacket 0x30 e.timestamp (temp_re e), logValuePacket 0x31 e.timestamp (hum_re e),
   logValuePacket 0x32 e.timestamp (pres_re e)]

/-- Start filter of READ_HISTORY: no lower bound when the start timestamp is 0. -/
def wanted (start_timestamp : Nat) (e : HistoryEntry) : Bool :=
  decide (start_timestamp = 0 ∨ e.timestamp ≥ start_timestamp)

/-- Ring fields of a header that `createNewMetadata` created (capacity 2880 in the default
configuration) and that only `logEntry` has advanced since. -/
structure RingHeader (m : HistoryMetadata) : Prop where
  cap : m.max_entries = 2880
  count_le : m.entry_count ≤ 2880
  oldest_lt : m.oldest_index < 2880
  newest_eq : m.newest_index = (m.oldest_index + m.entry_count - 1) % 2880
  young : m.entry_count < 2880 → m.oldest_index = 0

/-- The index file, when present, holds a prefix of the image of a well-typed ring header
(the whole image unless the write was short). -/
def HeaderOnDisk (fs : FS) : Prop :=
  ∀ bytes, fs.index = some bytes → ∃ m n, m.WF ∧ RingHeader m ∧ bytes = m.toBytes.take n

/-- Log objects and storage contents reachable from a first boot on empty storage by
appends, clock synchronisations, restarts and `clear()`, with arbitrary outcomes of the
storage calls; a (re)start or `clear()` counts when it reports success. -/
inductive Reachable : HistoryLog → FS → Prop
  | boot (g : HistoryMetadata) (o : BeginOutcome) :
      (begin (HistoryLog.new g) ⟨none, none⟩ o).1 = true →
      Reachable (begin (HistoryLog.new g) ⟨none, none⟩ o).2.1
        (begin (HistoryLog.new g) ⟨none, none⟩ o).2.2
  | append {s : HistoryLog} {fs : FS} (e : HistoryEntry) (o : LogOutcome) :
      Reachable s fs → e.WF →
      Reachable (logEntry s fs e o).2.1 (logEntry s fs e o).2.2
  | sync {s : HistoryLog} {fs : FS} (offset : Nat) (o : SaveOutcome) :
      Reachable s fs → offset < 4294967296 →
      Reachable (setRTCOffset s fs offset o).1 (setRTCOffset s fs offset o).2
  | reboot {s : HistoryLog} {fs : FS} (g : HistoryMetadata) (o : BeginOutcome) :
      Reachable s fs → (begin (HistoryLog.new g) fs o).1 = true →
      Reachable (begin (HistoryLog.new g) fs o).2.1 (begin (HistoryLog.new g) fs o).2.2
  | wipe {s : HistoryLog} {fs : FS} (o : ClearOutcome) :
      Reachable s fs → (clear s fs o).1 = true →
      Reachable (clear s fs o).2.1 (clear s fs o).2.2

/-- An initialized log of default capacity holding the single record `oddEntry` in slot 0
of its 57600-byte data file. -/
def oneEntryLog : HistoryLog × FS :=
  (⟨true, ⟨HISTORY_MAGIC, 1, 1, 0, 0, 2880, 0, 1700000000, 0, 0⟩, 0, 0⟩,
   ⟨some (oddEntry.toBytes ++ List.replicate 57580 0), none⟩)

/-- A connected handler next to `oneEntryLog`. -/
def oneEntryWorld : World :=
  { nus := ⟨true, true, false⟩, log := oneEntryLog.1, fs := oneEntryLog.2, sent := [] }

/-- The log after a first boot and one append of `oddEntry`, every storage call succeeding. -/
def appendedOnce : Bool × HistoryLog × FS :=
  logEntry (firstBoot zeroMeta).2.1 (firstBoot zeroMeta).2.2 oddEntry LogOutcome.good

/-- Storage results of a `begin()` during which the index file cannot be opened, neither by
`loadMetadata` nor by the header save of `createNewMetadata`, while the data file is
re-created in full. -/
def failedReinit : BeginOutcome :=
  ⟨MountResult.mounted, ⟨false, 0⟩, ⟨true, fun _ => 256, ⟨false, 0⟩⟩⟩

/-! ## Advertisement payload (`main.cpp`) -/

/-- Type `SensorSample` of sensor_interface.h.  The three `float` fields are rational numbers
(every finite binary32 value is one). -/
structure SensorSample where
  temperature_c : ℚ
  humidity_rh : ℚ
  pressure_hpa : ℚ
  battery_mv : Nat
  tx_power_dbm : Int
  accel_x_mg : Int
  accel_y_mg : Int
  accel_z_mg : Int

/-- The integer fields of a sample lie in the ranges of their C types (`uint16_t`, `int8_t`,
`int16_t`). -/
def SensorSample.WF (s : SensorSample) : Prop :=
  s.battery_mv < 65536 ∧ (-128 ≤ s.tx_power_dbm ∧ s.tx_power_dbm < 128) ∧
  (-32768 ≤ s.accel_x_mg ∧ s.accel_x_mg < 32768) ∧
  (-32768 ≤ s.accel_y_mg ∧ s.accel_y_mg < 32768) ∧
  (-32768 ≤ s.accel_z_mg ∧ s.accel_z_mg < 32768)

/-- C library function `lroundf`: the nearest integer, halfway cases rounded away from
zero.  The result type `long` has 32 bits on the target; for an argument whose rounded value
does not fit, the value of the C function is unspecified and the definition gives the
mathematical one. -/
def lroundf (x : ℚ) : Int := if 0 ≤ x then ⌊x + 1 / 2⌋ else -⌊-x + 1 / 2⌋

/-- Rounding to the nearest integer, halfway cases to the even integer. -/
def roundHalfEven (x : ℚ) : Int :=
  if x - ⌊x⌋ < 1 / 2 then ⌊x⌋
  else if 1 / 2 < x - ⌊x⌋ then ⌊x⌋ + 1
  else if ⌊x⌋ % 2 = 0 then ⌊x⌋ else ⌊x⌋ + 1

/-- Rounding of a rational number to binary32 (`float`), IEEE 754 round to nearest with
halfway cases to even: the nearest multiple of `2 ^ (e - 23)`, where `2 ^ e ≤ |x| < 2 ^ (e + 1)`
and `e` is not taken below -126 (the subnormal range).  Values that round to a magnitude of
`2 ^ 128` or more become infinite in the format; they are outside the embedding. -/
def fl32 (x : ℚ) : ℚ :=
  (roundHalfEven (x / (2 : ℚ) ^ (max (Int.log 2 |x|) (-126) - 23)) : ℚ) *
    (2 : ℚ) ^ (max (Int.log 2 |x|) (-126) - 23)

/-- Function `encodeHumidity` of main.cpp (lines 138-145): the quotient by the `float`
constant `0.0025f` is rounded to binary32 before `lroundf`. -/
def encodeHumidity (rh : ℚ) : Nat :=
  let raw : Int := lroundf (fl32 (rh / fl32 0.0025))
  let raw1 : Int := if raw < 0 then 0 else raw
  let raw2 : Int := if raw1 > 0xFFFF then 0xFFFF else raw1
  toU16 raw2

/-- Function `encodeTemperature` of main.cpp (lines 147-154): the quotient by the `float`
constant `0.005f` is rounded to binary32 before `lroundf`; `INT16_MIN` is -32768 and
`INT16_MAX` is 32767. -/
def encodeTemperature (c : ℚ) : Int :=
  let raw : Int := lroundf (fl32 (c / fl32 0.005))
  let raw1 : Int := if raw < -32768 then -32768 else raw
  let raw2 : Int := if raw1 > 32767 then 32767 else raw1
  toI16 (toU16 raw2)

/-- Function `encodePressure` of main.cpp (lines 156-163): the product `hpa * 100.0f` and
the difference are each rounded to binary32 (100 and 50000 are binary32 values). -/
def encodePressure (hpa : ℚ) : Nat :=
  let raw : Int := lroundf (fl32 (fl32 (hpa * 100) - 50000))
  let raw1 : Int := if raw < 0 then 0 else raw
  let raw2 : Int := if raw1 > 0xFFFF then 0xFFFF else raw1
  toU16 raw2

/-- Function `writeBE16` of main.cpp (lines 133-136): `(val >> 8) & 0xFF` at `offset`,
`val & 0xFF` at `offset + 1`. -/
def writeBE16 (buf : List Nat) (offset : Nat) (val : Int) : List Nat :=
  (buf.set offset (int32Byte val 8)).set (offset + 1) (int32Byte val 0)

/-- Initial value of the global `gMeasurementSeq` (line 106). -/
def gMeasurementSeq_init : Nat := 1

/-- Function `buildDf5Payload` of main.cpp (lines 211-233).  The globals it reads,
`gMovementCounter` and `gMeasurementSeq`, are arguments; the result is the payload and the
value of `gMeasurementSeq` after the post-increment (a `uint16_t`). -/
def buildDf5Payload (sample : SensorSample) (mac : List Nat)
    (gMovementCounter gMeasurementSeq : Nat) : List Nat × Nat :=
  let df5 := List.replicate 24 0
  let df5 := df5.set 0 0x05
  let df5 := writeBE16 df5 1 (encodeTemperature sample.temperature_c)
  let df5 := writeBE16 df5 3 (encodeHumidity sample.humidity_rh)
  let df5 := writeBE16 df5 5 (encodePressure sample.pressure_hpa)
  let df5 := writeBE16 df5 7 sample.accel_x_mg
  let df5 := writeBE16 df5 9 sample.accel_y_mg
  let df5 := writeBE16 df5 11 sample.accel_z_mg
  let df5 := writeBE16 df5 13 (encodePower sample.battery_mv sample.tx_power_dbm)
  let df5 := df5.set 15 gMovementCounter
  let df5 := writeBE16 df5 16 gMeasurementSeq
  let df5 := (List.range 6).foldl (fun b i => b.set (18 + i) (mac.getD i 0)) df5
  (df5, (gMeasurementSeq + 1) % 65536)

/-- Successive calls of `buildDf5Payload`, each with its own sample, address and value of
`gMovementCounter`; `gMeasurementSeq` is threaded from call to call.  The result lists the
payloads in the order of the calls. -/
def buildPayloads : Nat → List (SensorSample × List Nat × Nat) → List (List Nat)
  | _, [] => []
  | gMeasurementSeq, (sample, mac, gMovementCounter) :: rest =>
      (buildDf5Payload sample mac gMovementCounter gMeasurementSeq).1 ::
        buildPayloads (buildDf5Payload sample mac gMovementCounter gMeasurementSeq).2 rest

/-- Unsigned big-endian 16-bit value at offset `off` of a payload. -/
def be16At (p : List Nat) (off : Nat) : Nat := p.getD off 0 * 256 + p.getD (off + 1) 0

/-! ## Advertising interval (`main.cpp`) -/

/-- Macro `DEV_ADV_MS`. -/
def DEV_ADV_MS : Nat := 211
/-- Macro `FAST_ADV_MS`. -/
def FAST_ADV_MS : Nat := 1285
/-- Macro `SLOW_ADV_MS`. -/
def SLOW_ADV_MS : Nat := 8995
/-- Macro `FAST_MODE_INITIAL_MS`. -/
def FAST_MODE_INITIAL_MS : Nat := 60000
/-- Macro `FAST_MODE_MOVEMENT_MS`. -/
def FAST_MODE_MOVEMENT_MS : Nat := 60000
/-- Macro `JITTER_MS_MAX`. -/
def JITTER_MS_MAX : Nat := 10

/-- Function `intervalUnitsFromMs` of main.cpp (lines 417-426); `ms * 1000` is a `uint32_t`
product. -/
def intervalUnitsFromMs (ms : Nat) : Nat :=
  let units := ((ms * 1000) % U32) / 625
  let units1 := if units < 32 then 32 else units
  let units2 := if units1 > 16384 then 16384 else units1
  units2 % 65536

/-- Local `minIntervalUnits` of `startAdvertising` (line 454). -/
def minIntervalUnits (adv_ms : Nat) : Nat := intervalUnitsFromMs adv_ms

/-- Local `maxIntervalUnits` of `startAdvertising` (line 455). -/
def maxIntervalUnits (adv_ms : Nat) : Nat := intervalUnitsFromMs ((adv_ms + JITTER_MS_MAX) % U32)

/-- The build-time switches that `loop()` consults: the macros `OPERATING_MODE`,
`DEV_MODE_ENABLE`, `DEBUG_LCD` and `DEBUG_LCD_FORCE_AWAKE`. -/
structure BuildConfig where
  OPERATING_MODE : Int
  DEV_MODE_ENABLE : Int
  DEBUG_LCD : Int
  DEBUG_LCD_FORCE_AWAKE : Int

/-- Function `board_dev_mode_enabled` of board_config.h. -/
def board_dev_mode_enabled (cfg : BuildConfig) : Bool := cfg.DEV_MODE_ENABLE == 1

/-- Local `dev_mode` of `loop()` (lines 538-539). -/
def dev_mode (cfg : BuildConfig) : Bool :=
  board_dev_mode_enabled cfg || (cfg.DEBUG_LCD != 0 && cfg.DEBUG_LCD_FORCE_AWAKE != 0)

/-- The three values of the local `mode_label` of `loop()`. -/
inductive ModeLabel where
  | DEV
  | FAST
  | SLOW
  deriving DecidableEq

/-- The locals that `loop()` sets while it determines the mode (lines 542-544). -/
structure ModeChoice where
  fast_mode : Bool
  slow_mode : Bool
  mode_label : ModeLabel
  adv_interval_ms : Nat
  deriving DecidableEq

/-- Mode determination of `loop()` (lines 546-569). -/
def loopMode (cfg : BuildConfig) (gUptimeMs gFastUntilMs : Nat) : ModeChoice :=
  if dev_mode cfg then
    ⟨false, false, ModeLabel.DEV, DEV_ADV_MS⟩
  else if cfg.OPERATING_MODE == 0 then
    ⟨true, false, ModeLabel.FAST, FAST_ADV_MS⟩
  else if cfg.OPERATING_MODE == 1 then
    ⟨false, true, ModeLabel.SLOW, SLOW_ADV_MS⟩
  else
    let fast_mode := decide (gUptimeMs < FAST_MODE_INITIAL_MS) || decide (gUptimeMs < gFastUntilMs)
    ⟨fast_mode, !fast_mode, if fast_mode then ModeLabel.FAST else ModeLabel.SLOW,
      if fast_mode then FAST_ADV_MS else SLOW_ADV_MS⟩

/-! ## Movement detection (`main.cpp`) -/

/-- The function-static variables of `updateMovementCounter` together with the global
`gMovementCounter` that it increments. -/
structure MovementState where
  last_ax : Int
  last_ay : Int
  last_az : Int
  last_movement_ms : Nat
  first_call : Bool
  gMovementCounter : Nat
  deriving DecidableEq

/-- Values at start-up (lines 107, 278-282). -/
def MovementState.init : MovementState := ⟨0, 0, 0, 0, true, 0⟩

/-- Constant `kDeltaThresholdMg`. -/
def kDeltaThresholdMg : Int := 120

/-- The initialiser `abs(a - last)` of the locals `dx`, `dy`, `dz` (lines 293-295): the
difference and `abs` are computed in `int`, the result is stored in an `int16_t`. -/
def axisDelta (a last : Int) : Int := toI16 (toU16 |a - last|)

/-- Function `updateMovementCounter` of main.cpp (lines 275-317); `now` is the value that
`millis()` returns inside the call. -/
def updateMovementCounter (st : MovementState) (sample : SensorSample) (now : Nat) :
    Bool × MovementState :=
  if st.first_call then
    (false, ⟨sample.accel_x_mg, sample.accel_y_mg, sample.accel_z_mg, st.last_movement_ms,
      false, st.gMovementCounter⟩)
  else
    let dx := axisDelta sample.accel_x_mg st.last_ax
    let dy := axisDelta sample.accel_y_mg st.last_ay
    let dz := axisDelta sample.accel_z_mg st.last_az
    let max_delta := max dx (max dy dz)
    if max_delta ≥ kDeltaThresholdMg ∧ (now + U32 - st.last_movement_ms) % U32 > 300 then
      (true, ⟨sample.accel_x_mg, sample.accel_y_mg, sample.accel_z_mg, now, false,
        (st.gMovementCounter + 1) % 256⟩)
    else
      (false, ⟨sample.accel_x_mg, sample.accel_y_mg, sample.accel_z_mg, st.last_movement_ms,
        false, st.gMovementCounter⟩)

/-- The instants, out of a list of calls of `updateMovementCounter` given with the time of
each call in milliseconds since start-up (`millis()` is that time modulo 2^32), at which a
movement is declared. -/
def declaredAt : MovementState → List (Nat × SensorSample) → List Nat
  | _, [] => []
  | st, (t, sample) :: rest =>
      if (updateMovementCounter st sample (t % U32)).1 then
        t :: declaredAt (updateMovementCounter st sample (t % U32)).2 rest
      else declaredAt (updateMovementCounter st sample (t % U32)).2 rest

/-! ## Scheduling of advertisements in `loop()` -/

/-- The variables of `loop()` that decide when an advertisement is due: the globals
`gUptimeMs` and `gFastUntilMs`, the statics `last_adv_ms`, `force_immediate_adv` and
`first_loop`, and the state of the movement detector. -/
structure LoopState where
  gUptimeMs : Nat
  gFastUntilMs : Nat
  last_adv_ms : Nat
  force_immediate_adv : Bool
  first_loop : Bool
  movement : MovementState
  deriving DecidableEq

/-- Values at start-up (lines 108-109, 521-527). -/
def LoopState.init : LoopState := ⟨0, 0, 0, false, true, MovementState.init⟩

/-- One iteration of `loop()` as far as the scheduling variables go (lines 528-531, 546-569,
636-673); the calls that touch none of them (USB inference, status output, health check,
sensor poll, `startAdvertising`) are left out.  `now_ms` is the value of `millis()` at line
528, `sample` the cached sample, `now` the value of `millis()` inside
`updateMovementCounter`.  The Boolean tells whether the advertisement branch ran. -/
def loop (cfg : BuildConfig) (st : LoopState) (now_ms : Nat) (sample : SensorSample)
    (now : Nat) : Bool × LoopState :=
  let gUptimeMs := now_ms
  let adv_interval_ms := (loopMode cfg gUptimeMs st.gFastUntilMs).adv_interval_ms
  let force_immediate_adv := if st.first_loop then true else st.force_immediate_adv
  if force_immediate_adv ∨ (now_ms + U32 - st.last_adv_ms) % U32 ≥ adv_interval_ms then
    let moved := updateMovementCounter st.movement sample now
    if moved.1 = true ∧ cfg.OPERATING_MODE = 2 then
      if (gUptimeMs + FAST_MODE_MOVEMENT_MS) % U32 > st.gFastUntilMs then
        (true, ⟨gUptimeMs, (gUptimeMs + FAST_MODE_MOVEMENT_MS) % U32, now_ms, true, false,
          moved.2⟩)
      else
        (true, ⟨gUptimeMs, st.gFastUntilMs, now_ms, false, false, moved.2⟩)
    else
      (true, ⟨gUptimeMs, st.gFastUntilMs, now_ms, false, false, moved.2⟩)
  else
    (false, ⟨gUptimeMs, st.gFastUntilMs, st.last_adv_ms, force_immediate_adv, false,
      st.movement⟩)

/-! ## USB inference from the battery voltage (`main.cpp`) -/

/-- Macro `VBAT_ALPHA`. -/
def VBAT_ALPHA : ℚ := 0.05
/-- Macro `VBAT_BETA`. -/
def VBAT_BETA : ℚ := 0.04
/-- Macro `VBAT_SPIKE_MV`. -/
def VBAT_SPIKE_MV : Int := 30
/-- Macro `VBAT_T_CHARGE`. -/
def VBAT_T_CHARGE : ℚ := 8
/-- Macro `VBAT_T_DISCHARGE`. -/
def VBAT_T_DISCHARGE : ℚ := 3
/-- Macro `VBAT_SCORE_MAX`. -/
def VBAT_SCORE_MAX : Int := 12

/-- The globals of the USB inference (lines 110-117); the `float` globals are taken as exact
rational numbers. -/
structure PowerFilter where
  gLastBattMv : Nat
  gUsbState : Bool
  gVf : ℚ
  gSf : ℚ
  gPowerScore : Int
  gPowerState : Nat
  gVfPrev : ℚ

/-- Values at start-up. -/
def PowerFilter.init : PowerFilter := ⟨0, false, 0, 0, 0, 0, 0⟩

/-- Local `delta_raw` of `detectUsbFromBattery` (line 362): both readings are cast to
`int16_t`, and so is their difference. -/
def delta_raw (batt_mv gLastBattMv : Nat) : Int :=
  toI16 (toU16 (toI16 (batt_mv % 65536) - toI16 (gLastBattMv % 65536)))

/-- Local `spike` of `detectUsbFromBattery` (line 363). -/
def spike (batt_mv gLastBattMv : Nat) : Bool :=
  gLastBattMv != 0 && decide (|delta_raw batt_mv gLastBattMv| > VBAT_SPIKE_MV)

/-- The value of `gVf` after lines 356-366: initialised with the first sample, then
smoothed. -/
def filteredVoltage (g : PowerFilter) (batt_mv : Nat) : ℚ :=
  let gVf := if g.gVf = 0 then (batt_mv : ℚ) else g.gVf
  gVf + VBAT_ALPHA * ((batt_mv : ℚ) - gVf)

/-- The value of `gSf` after line 372. -/
def filteredSlope (g : PowerFilter) (batt_mv : Nat) : ℚ :=
  let gVfPrev := if g.gVf = 0 then (batt_mv : ℚ) else g.gVfPrev
  let slope := filteredVoltage g batt_mv - gVfPrev
  g.gSf + VBAT_BETA * (slope - g.gSf)

/-- The value of `gPowerScore` after lines 375-393. -/
def updatedScore (g : PowerFilter) (batt_mv : Nat) : Int :=
  let slope_mV_min := filteredSlope g batt_mv * 60
  if !spike batt_mv g.gLastBattMv then
    let score :=
      if slope_mV_min > VBAT_T_CHARGE then g.gPowerScore + 2
      else if slope_mV_min < -VBAT_T_DISCHARGE then g.gPowerScore - 1
      else if g.gPowerScore > 0 then g.gPowerScore - 1
      else if g.gPowerScore < 0 then g.gPowerScore + 1
      else g.gPowerScore
    let score1 := if score > VBAT_SCORE_MAX then VBAT_SCORE_MAX else score
    if score1 < -VBAT_SCORE_MAX then -VBAT_SCORE_MAX else score1
  else g.gPowerScore

/-- Function `detectUsbFromBattery` of main.cpp (lines 323-415); `override` is the value of
`board_usb_override_mode()`, and the power states are 0 (unknown), 1 (charging) and
2 (discharging). -/
def detectUsbFromBattery (override : Int) (g : PowerFilter) (batt_mv : Nat) :
    Bool × PowerFilter :=
  if override = 0 then (false, g)
  else if override = 1 then (true, g)
  else
    let gVf := filteredVoltage g batt_mv
    let gSf := filteredSlope g batt_mv
    let slope_mV_min := gSf * 60
    let gPowerScore := updatedScore g batt_mv
    let gPowerState :=
      if gPowerScore ≥ VBAT_SCORE_MAX then 1
      else if gPowerScore ≤ -VBAT_SCORE_MAX then 2
      else g.gPowerState
    let gPowerState1 := if gVf > 4150 ∧ slope_mV_min > -2 then 1 else gPowerState
    let gUsbState :=
      if gPowerState1 = 1 then true else if gPowerState1 = 2 then false else g.gUsbState
    (gUsbState, ⟨batt_mv, gUsbState, gVf, gSf, gPowerScore, gPowerState1, gVf⟩)

/-- The globals after `detectUsbFromBattery` has been called, in order, with each of a list
of battery readings. -/
def usbTicks (override : Int) (g : PowerFilter) (readings : List Nat) : PowerFilter :=
  readings.foldl (fun g batt_mv => (detectUsbFromBattery override g batt_mv).2) g

/-! ## Sensor polling and health check (`main.cpp`) -/

/-- Function `mapBatteryMv` of main.cpp (lines 187-209) for `BATTERY_REPORT_MODE` 1, the
default of the generic board profile. -/
def mapBatteryMv (real_mv : Nat) : Nat :=
  if real_mv < 1600 then 1600 else if real_mv > 3646 then 3646 else real_mv

/-- Macro `BLE_TX_POWER_DBM`. -/
def BLE_TX_POWER_DBM : Int := 3

/-- Function `readSensors` of main.cpp (lines 243-263).  `last` is the function-static
variable, `none` before the first call; its initialiser `sensors_read()` runs in the first
call and yields `driver_init`.  `driver` is the result of the `sensors_read()` of line 245,
`batt_raw` that of `board_read_battery_mv()`, and `ax`, `ay`, `az` are what
`board_read_accel_mg` stores.  The result is the returned sample and the new `last`. -/
def readSensors (last : Option SensorSample) (driver_init driver : SensorSample)
    (batt_raw : Nat) (ax ay az : Int) : SensorSample × Option SensorSample :=
  let last0 : SensorSample := match last with
    | none => driver_init
    | some l => l
  if driver.humidity_rh < 0 ∨ driver.humidity_rh > 100 ∨ driver.temperature_c < -40 ∨
      driver.temperature_c > 85 then
    (⟨last0.temperature_c, last0.humidity_rh, last0.pressure_hpa, mapBatteryMv batt_raw,
      BLE_TX_POWER_DBM, ax, ay, az⟩, some last0)
  else
    (⟨driver.temperature_c, driver.humidity_rh, driver.pressure_hpa, mapBatteryMv batt_raw,
      BLE_TX_POWER_DBM, ax, ay, az⟩, some driver)

/-- The calls that the health check of `loop()` makes: to `startAdvertising` (recorded with
the sample and interval passed), to `delay`, and to the BLE stack. -/
inductive BleCall where
  | startAdvertising (sample : SensorSample) (adv_ms : Nat)
  | delay (ms : Nat)
  | deinit
  | init
  | setPower

/-- The variables of the health check: the static `last_adv_health_check_ms` of `loop()` and
the global `gAdvRestartCount`. -/
structure HealthState where
  last_adv_health_check_ms : Nat
  gAdvRestartCount : Nat
  deriving DecidableEq

/-- The health check of `loop()` (lines 594-623).  `isAdvertising` is what the BLE stack
answers at line 599 and `isAdvertisingAfter` what it answers at line 611, after the first
restart.  The result is the new state and the calls made, in order. -/
def healthCheck (st : HealthState) (now_ms : Nat) (cached_sample : SensorSample)
    (adv_interval_ms : Nat) (isAdvertising isAdvertisingAfter : Bool) :
    HealthState × List BleCall :=
  if (now_ms + U32 - st.last_adv_health_check_ms) % U32 ≥ 1000 ∨
      st.last_adv_health_check_ms = 0 then
    if !isAdvertising then
      if !isAdvertisingAfter then
        (⟨now_ms, (st.gAdvRestartCount + 1) % U32⟩,
          [BleCall.startAdvertising cached_sample adv_interval_ms, BleCall.delay 100,
            BleCall.deinit, BleCall.delay 500, BleCall.init, BleCall.setPower,
            BleCall.startAdvertising cached_sample adv_interval_ms])
      else
        (⟨now_ms, (st.gAdvRestartCount + 1) % U32⟩,
          [BleCall.startAdvertising cached_sample adv_interval_ms, BleCall.delay 100])
    else (⟨now_ms, st.gAdvRestartCount⟩, [])
  else (st, [])

/-! ## Reachable log states with the written slots -/

/-- Log objects and storage contents reachable from `createNewMetadata` (a first boot on empty
storage) by `logEntry` calls, `setRTCOffset` calls and restarts, with arbitrary outcomes of
the storage calls, together with the list of the slots that have received a complete
`logEntry` data write since the data file was created (most recent first).  A `logEntry`
call returns true exactly when its data write is complete; a restart that accepts the
persisted header keeps the data file, one that does not creates a new one. -/
inductive Logged : HistoryLog → FS → List Nat → Prop
  | boot (g : HistoryMetadata) (o : BeginOutcome) :
      (begin (HistoryLog.new g) ⟨none, none⟩ o).1 = true →
      Logged (begin (HistoryLog.new g) ⟨none, none⟩ o).2.1
        (begin (HistoryLog.new g) ⟨none, none⟩ o).2.2 []
  | append {s : HistoryLog} {fs : FS} {W : List Nat} (e : HistoryEntry) (o : LogOutcome) :
      Logged s fs W → e.WF →
      Logged (logEntry s fs e o).2.1 (logEntry s fs e o).2.2
        (if (logEntry s fs e o).1 = true then writeIndex s.meta_ :: W else W)
  | sync {s : HistoryLog} {fs : FS} {W : List Nat} (offset : Nat) (o : SaveOutcome) :
      Logged s fs W → offset < 4294967296 →
      Logged (setRTCOffset s fs offset o).1 (setRTCOffset s fs offset o).2 W
  | restart {s : HistoryLog} {fs : FS} {W : List Nat} (g : HistoryMetadata)
      (o : BeginOutcome) :
      Logged s fs W → (begin (HistoryLog.new g) fs o).1 = true →
      Logged (begin (HistoryLog.new g) fs o).2.1 (begin (HistoryLog.new g) fs o).2.2
        (if (loadMetadata (HistoryLog.new g)
              (if o.mount = MountResult.formatted then ⟨none, none⟩ else fs) o.load).1 = true
         then W else [])

/-- The slots below the entry count of the persisted header, when the index file holds a
complete header image, are all in `W`. -/
def PersistedIn (fs : FS) (W : List Nat) : Prop :=
  ∀ m : HistoryMetadata, m.WF → fs.index = some m.toBytes → ∀ j, j < m.entry_count → j ∈ W

/-! ## Readings with a constant slope -/

/-- A raw voltage sequence of `n` readings that starts at `v0` mV and rises by `r` mV per
tick. -/
def risingReadings (v0 r n : Nat) : List Nat := (List.range n).map (fun k => v0 + k * r)

/-- A raw voltage sequence of `n` readings that starts at `v0` mV and falls by `r` mV per
tick. -/
def fallingReadings (v0 r n : Nat) : List Nat := (List.range n).map (fun k => v0 - k * r)

/-- The filter state after reading number `k` (counted from 0) of a rising sequence: the
filtered voltage lags the reading by at least `a * r`, the smoothed slope is at least
`b * r`, and the score is between 0 and 12. -/
def Rising (v0 r k : Nat) (a b : ℚ) (g : PowerFilter) : Prop :=
  g.gLastBattMv = v0 + k * r ∧ g.gVfPrev = g.gVf ∧ (v0 : ℚ) ≤ g.gVf ∧
  a * (r : ℚ) ≤ ((v0 + k * r : Nat) : ℚ) - g.gVf ∧ b * (r : ℚ) ≤ g.gSf ∧
  0 ≤ g.gPowerScore ∧ g.gPowerScore ≤ 12

/-- The filter state after reading number `k` (counted from 0) of a falling sequence: the
filtered voltage is above the reading by at least `a * r` and at most `v0`, the smoothed
slope is at most `-b * r`, and the score is between -12 and 0. -/
def Falling (v0 r k : Nat) (a b : ℚ) (g : PowerFilter) : Prop :=
  g.gLastBattMv = v0 - k * r ∧ g.gVfPrev = g.gVf ∧ g.gVf ≤ (v0 : ℚ) ∧
  a * (r : ℚ) ≤ g.gVf - ((v0 - k * r : Nat) : ℚ) ∧ g.gSf ≤ -(b * (r : ℚ)) ∧
  -12 ≤ g.gPowerScore ∧ g.gPowerScore ≤ 0

/-- Lower bound, in units of the step `r`, on the distance between the reading and the
filtered voltage after reading number `k` of a sequence with constant step: the distance
`d` obeys `d' = 0.95 * (d + r)` (from `gVf += 0.05 * (batt - gVf)`). -/
def lagBound : Nat → ℚ
  | 0 => 0
  | k + 1 => 0.95 * (lagBound k + 1)

/-- Lower bound, in units of the step `r`, on the size of the smoothed slope after reading
number `k` of a sequence with constant step: the slope `s` obeys
`s' = 0.96 * s + 0.04 * 0.05 * (d + r)` (from `gSf += 0.04 * (slope - gSf)`). -/
def slopeBound : Nat → ℚ
  | 0 => 0
  | k + 1 => 0.96 * slopeBound k + 0.002 * (lagBound k + 1)

/-! ## Byte images: basic facts -/

theorem leBytes_length (n v : Nat) : (leBytes n v).length = n := by
  induction n generalizing v with
  | zero => rfl
  | succ n ih => simp [leBytes, ih]

theorem leBytes_lt (n v : Nat) : ∀ b ∈ leBytes n v, b < 256 := by
  induction n generalizing v with
  | zero => simp [leBytes]
  | succ n ih =>
    intro b hb
    simp only [leBytes, List.mem_cons] at hb
    rcases hb with rfl | hb
    · exact Nat.mod_lt _ (by norm_num)
    · exact ih _ b hb

theorem leVal_leBytes (n v : Nat) : leVal (leBytes n v) = v % 256 ^ n := by
  induction n generalizing v with
  | zero => simp [leBytes, leVal, Nat.mod_one]
  | succ n ih =>
    simp only [leBytes, leVal, ih]
    rw [pow_succ, Nat.mul_comm (256 ^ n) 256, Nat.mod_mul]

theorem leBytes_leVal (bs : List Nat) (hb : ∀ b ∈ bs, b < 256) :
    leBytes bs.length (leVal bs) = bs := by
  induction bs with
  | nil => rfl
  | cons b bs ih =>
    have h1 : b < 256 := hb b (List.mem_cons_self _ _)
    have h2 : ∀ x ∈ bs, x < 256 := fun x hx => hb x (List.mem_cons_of_mem _ hx)
    simp only [List.length_cons, leBytes, leVal]
    have e1 : (b + 256 * leVal bs) % 256 = b := by omega
    have e2 : (b + 256 * leVal bs) / 256 = leVal bs := by omega
    rw [e1, e2, ih h2]

theorem toI16_toU16 (i : Int) (h1 : -32768 ≤ i) (h2 : i < 32768) : toI16 (toU16 i) = i := by
  unfold toI16 toU16
  split <;> omega

theorem HistoryEntry.toBytes_length (e : HistoryEntry) : e.toBytes.length = 20 := by
  simp [HistoryEntry.toBytes, leBytes_length]

theorem HistoryEntry.toBytes_lt (e : HistoryEntry) : ∀ b ∈ e.toBytes, b < 256 := by
  intro b hb
  simp only [HistoryEntry.toBytes, List.mem_append] at hb
  rcases hb with ((((((((hb | hb) | hb) | hb) | hb) | hb) | hb) | hb) | hb) | hb <;>
    exact leBytes_lt _ _ b hb

theorem HistoryEntry.ofBytes_toBytes (e : HistoryEntry) (h : e.WF) :
    HistoryEntry.ofBytes e.toBytes = e := by
  obtain ⟨h0, ⟨h1, h1'⟩, h2, h3, ⟨h4, h4'⟩, ⟨h5, h5'⟩, ⟨h6, h6'⟩, h7, h8, h9⟩ := h
  have k1 := toI16_toU16 _ h1 h1'
  have k4 := toI16_toU16 _ h4 h4'
  have k5 := toI16_toU16 _ h5 h5'
  have k6 := toI16_toU16 _ h6 h6'
  have fld : ∀ v : Nat, v < 65536 → v % 256 + 256 * (v / 256 % 256) = v := by
    intro v hv; omega
  have fld4 : ∀ v : Nat, v < 4294967296 →
      v % 256 + 256 * (v / 256 % 256 + 256 * (v / 256 / 256 % 256 +
        256 * (v / 256 / 256 / 256 % 256))) = v := by
    intro v hv; omega
  have u16 : ∀ i : Int, toU16 i < 65536 := by
    intro i; unfold toU16; omega
  cases e
  simp only [HistoryEntry.toBytes, HistoryEntry.ofBytes, fieldAt, leBytes, leVal,
    List.cons_append, List.nil_append, List.drop_succ_cons, List.drop_zero, List.take_succ_cons,
    List.take_zero, Nat.mul_zero, Nat.add_zero] at *
  simp only [fld _ (u16 _), fld4 _ h0, fld _ h2, fld _ h3, fld _ h7, k1, k4, k5, k6,
    Nat.mod_eq_of_lt h8, Nat.mod_eq_of_lt h9]

/-! ## Positioned reads and writes -/

theorem writeAt_eq (file : List Nat) (off : Nat) (bytes : List Nat) :
    writeAt file off bytes =
      (file.take off ++ List.replicate (off - file.length) 0) ++
        (bytes ++ file.drop (off + bytes.length)) := by
  simp [writeAt, List.append_assoc]

theorem writeAt_pre_length (file : List Nat) (off : Nat) :
    (file.take off ++ List.replicate (off - file.length) 0).length = off := by
  simp only [List.length_append, List.length_take, List.length_replicate]; omega

theorem readAt_writeAt_same (file : List Nat) (off : Nat) (bytes : List Nat) :
    readAt (writeAt file off bytes) off bytes.length = bytes := by
  rw [writeAt_eq]
  unfold readAt
  rw [List.drop_left' (writeAt_pre_length file off), List.take_left' rfl]

/-! ## C9: record size -/

/-- C9 (as the code behaves): the packed `HistoryEntry` record has `sizeof` 20, not 22:
every entry serialises to exactly 20 bytes, the byte offset computed for slot `k` is
`20 * k` (in `size_t`), and the record written there is what a 20-byte read at that
offset returns. -/
theorem C9_record_is_20_bytes (e : HistoryEntry) (k : Nat) (file : List Nat) :
    sizeof_HistoryEntry = 20 ∧ e.toBytes.length = 20 ∧
    slotOffset k = (20 * k) % 4294967296 ∧ slotOffset 1 = 20 ∧
    readAt (writeAt file (slotOffset k) e.toBytes) (slotOffset k) 20 = e.toBytes := by
  refine ⟨rfl, e.toBytes_length, ?_, rfl, ?_⟩
  · unfold slotOffset sizeof_HistoryEntry U32
    rw [Nat.mul_comm]
  · have h := readAt_writeAt_same file (slotOffset k) e.toBytes
    rwa [e.toBytes_length] at h

/-! ## Command payloads -/

theorem and_255 (x : Nat) : x &&& 0xFF = x % 256 := Nat.and_pow_two_sub_one_eq_mod x 8

theorem be_or (a b c d : Nat) (ha : a < 256) (hb : b < 256) (hc : c < 256) (hd : d < 256) :
    ((a <<< 24) % 4294967296) ||| ((b <<< 16) % 4294967296) ||| ((c <<< 8) % 4294967296) ||| d
      = 16777216 * a + 65536 * b + 256 * c + d := by
  simp only [Nat.shiftLeft_eq]
  have a1 : a * 2 ^ 24 % 4294967296 = 2 ^ 24 * a := by omega
  have a2 : b * 2 ^ 16 % 4294967296 = 2 ^ 16 * b := by omega
  have a3 : c * 2 ^ 8 % 4294967296 = 2 ^ 8 * c := by omega
  rw [a1, a2, a3]
  have h1 : 2 ^ 24 * a ||| 2 ^ 16 * b = 2 ^ 16 * (256 * a + b) := by
    rw [← Nat.mul_add_lt_is_or (by omega) a]; omega
  have h2 : 2 ^ 16 * (256 * a + b) ||| 2 ^ 8 * c = 2 ^ 8 * (65536 * a + 256 * b + c) := by
    rw [← Nat.mul_add_lt_is_or (by omega) (256 * a + b)]; omega
  have h3 : 2 ^ 8 * (65536 * a + 256 * b + c) ||| d
      = 2 ^ 8 * (65536 * a + 256 * b + c) + d := by
    rw [← Nat.mul_add_lt_is_or (by omega) (65536 * a + 256 * b + c)]
  rw [h1, h2, h3]; omega

theorem parseTimestamp_be32 (T : Nat) (pad : List Nat) (hT : T < 4294967296) :
    parseTimestamp (be32 T ++ pad) = T := by
  simp only [parseTimestamp, be32, U32, List.cons_append, List.getD_cons_zero,
    List.getD_cons_succ, and_255, Nat.shiftRight_eq_div_pow]
  rw [be_or _ _ _ _ (Nat.mod_lt _ (by norm_num)) (Nat.mod_lt _ (by norm_num))
    (Nat.mod_lt _ (by norm_num)) (Nat.mod_lt _ (by norm_num))]
  omega

theorem saveMetadata_rtc_offset_ (s : HistoryLog) (fs : FS) (o : SaveOutcome) :
    (saveMetadata s fs o).2.1.rtc_offset_ = s.rtc_offset_ := by
  unfold saveMetadata
  by_cases h : o.openOk <;> simp [h]

theorem handleTimeSync_log (w : World) (params : List Nat) (millis : Nat) (o : SaveOutcome)
    (h : 4 ≤ params.length) :
    (handleTimeSync w params millis o).log.rtc_offset_
      = timeSyncOffset (parseTimestamp params) millis := by
  have h' : ¬ params.length < 4 := by omega
  simp only [handleTimeSync, h', if_false, setRTCOffset, sendNotification]
  split <;> simp [saveMetadata_rtc_offset_]

/-! ## C7: clock offset -/

/-- C7: handling TIME_SYNC with payload timestamp `T` (32-bit) when `millis()` is `m`
sets the clock offset to `(T - m / 1000) mod 2^32`, and `getCurrentTimestamp` called when
`millis()` is `m'`, with `m / 1000 ≤ m' / 1000`, returns
`(T + (m' / 1000 - m / 1000)) mod 2^32`, whatever the result of the header save. -/
theorem C7_time_sync_sets_clock (w : World) (T m m' : Nat) (pad : List Nat) (o : SaveOutcome)
    (hT : T < 4294967296) (hu : m / 1000 ≤ m' / 1000) :
    (((handleTimeSync w (be32 T ++ pad) m o).log.rtc_offset_ : Nat) : Int)
        = ((T : Int) - ((m / 1000 : Nat) : Int)) % 4294967296 ∧
    getCurrentTimestamp (handleTimeSync w (be32 T ++ pad) m o).log m'
        = (T + (m' / 1000 - m / 1000)) % 4294967296 := by
  have hlen : 4 ≤ (be32 T ++ pad).length := by simp [be32]
  have hoff := handleTimeSync_log w (be32 T ++ pad) m o hlen
  rw [parseTimestamp_be32 T pad hT] at hoff
  unfold getCurrentTimestamp U32
  rw [hoff]
  simp only [timeSyncOffset]
  constructor <;> omega

/-- Witness for C7: the scenario of the specification, `T = 1700000000` at uptime 100 s
gives offset 1699999900 and timestamp 1700000100 at uptime 200 s. -/
theorem C7_time_sync_sets_clock_witness :
    (handleTimeSync idleWorld (be32 1700000000 ++ [0, 0, 0, 0]) 100000
        SaveOutcome.good).log.rtc_offset_ = 1699999900 ∧
    getCurrentTimestamp (handleTimeSync idleWorld (be32 1700000000 ++ [0, 0, 0, 0]) 100000
        SaveOutcome.good).log 200000 = 1700000100 := by
  have h := C7_time_sync_sets_clock idleWorld 1700000000 100000 200000 [0, 0, 0, 0]
    SaveOutcome.good (by norm_num) (by norm_num)
  constructor
  · have h1 := h.1
    omega
  · rw [h.2]

/-! ## C6: TIME_SYNC acknowledgment -/

/-- C6 (as the code behaves): the 5-byte acknowledgment carries the prefix, the opcode
0x12 and only the three most significant bytes of the timestamp, so the timestamps
1700000000 and 1700000001 are acknowledged by the same notification `3A 12 65 53 F1`. -/
theorem C6_ack_drops_low_timestamp_byte :
    (handleTimeSync idleWorld (be32 1700000000 ++ [0, 0, 0, 0]) 100000 SaveOutcome.good).sent
      = [[0x3A, 0x12, 0x65, 0x53, 0xF1]] ∧
    (handleTimeSync idleWorld (be32 1700000001 ++ [0, 0, 0, 0]) 100000 SaveOutcome.good).sent
      = [[0x3A, 0x12, 0x65, 0x53, 0xF1]] := by
  constructor <;> rfl

/-! ## C8: storage-to-wire rescaling -/

/-- C8 (as stated) fails: the stored temperature 4001 (20.005 C) streams as 2000 and the
stored humidity 18001 streams as 4500, so doubling resp. quadrupling the wire value does
not give back the stored value. -/
theorem C8_rescale_not_exact :
    oddEntry.WF ∧
    ¬ (2 * temp_re oddEntry = oddEntry.temperature ∧
       4 * hum_re oddEntry = (oddEntry.humidity : Int) ∧
       pres_re oddEntry - 50000 = (oddEntry.pressure : Int)) := by
  decide

/-- C8 (amended): the pressure rescaling is exact for every stored value; the temperature
rescaling is exact exactly for even stored values and the humidity rescaling exactly for
stored values that are multiples of 4 (the divisions truncate). -/
theorem C8_rescale_exact_iff (e : HistoryEntry) :
    pres_re e - 50000 = (e.pressure : Int) ∧
    (2 * temp_re e = e.temperature ↔ e.temperature % 2 = 0) ∧
    (4 * hum_re e = (e.humidity : Int) ↔ e.humidity % 4 = 0) := by
  refine ⟨by unfold pres_re; omega, ?_, ?_⟩
  · unfold temp_re
    constructor
    · intro h; omega
    · intro h
      exact Int.mul_tdiv_cancel' (Int.dvd_of_emod_eq_zero h)
  · unfold hum_re
    have hc : Int.tdiv (e.humidity : Int) 4 = ((e.humidity / 4 : Nat) : Int) :=
      (Int.ofNat_tdiv e.humidity 4).symm
    rw [hc]
    constructor <;> intro h <;> omega

/-! ## Header images and the checksum -/

theorem HistoryMetadata.hdr_length (m : HistoryMetadata) : m.toBytes.length = 40 := by
  simp [HistoryMetadata.toBytes, leBytes_length]

theorem HistoryMetadata.hdr_lt (m : HistoryMetadata) : ∀ b ∈ m.toBytes, b < 256 := by
  intro b hb
  simp only [HistoryMetadata.toBytes, List.mem_append] at hb
  rcases hb with ((((((((hb | hb) | hb) | hb) | hb) | hb) | hb) | hb) | hb) | hb <;>
    exact leBytes_lt _ _ b hb

theorem leBytes_leVal_of (n : Nat) (bs : List Nat) (hn : bs.length = n)
    (hb : ∀ b ∈ bs, b < 256) : leBytes n (leVal bs) = bs := by
  subst hn; exact leBytes_leVal bs hb

theorem HistoryMetadata.toBytes_ofBytes (b : List Nat) (hlen : b.length = 40)
    (hb : ∀ x ∈ b, x < 256) : (HistoryMetadata.ofBytes b).toBytes = b := by
  iterate 40 (rcases b with _ | ⟨_, b⟩; · simp at hlen)
  cases b with
  | cons _ _ => simp at hlen
  | nil =>
    simp only [HistoryMetadata.toBytes, HistoryMetadata.ofBytes, fieldAt,
      List.drop_succ_cons, List.drop_zero, List.take_succ_cons, List.take_zero]
    have sub : ∀ (n : Nat) (bs : List Nat), bs.length = n → (∀ x ∈ bs, x ∈ _) →
        leBytes n (leVal bs) = bs :=
      fun n bs hn hs => leBytes_leVal_of n bs hn (fun x hx => hb x (hs x hx))
    rw [sub 4 _ (by rfl) (by simp), sub 4 _ (by rfl) (by simp), sub 4 _ (by rfl) (by simp),
      sub 4 _ (by rfl) (by simp), sub 4 _ (by rfl) (by simp), sub 4 _ (by rfl) (by simp),
      sub 4 _ (by rfl) (by simp), sub 4 _ (by rfl) (by simp), sub 1 _ (by rfl) (by simp),
      sub 7 _ (by rfl) (by simp)]
    rfl

theorem xorBytes_foldl (a : Nat) (l : List Nat) :
    l.foldl (fun checksum b => checksum ^^^ b) a = a ^^^ xorBytes l := by
  induction l generalizing a with
  | nil => simp [xorBytes]
  | cons b l ih =>
    simp only [xorBytes, List.foldl_cons, Nat.zero_xor]
    rw [ih (a ^^^ b), ih b, Nat.xor_assoc]

theorem xorBytes_cons (b : Nat) (l : List Nat) : xorBytes (b :: l) = b ^^^ xorBytes l := by
  simp only [xorBytes, List.foldl_cons, Nat.zero_xor]
  exact xorBytes_foldl b l

theorem xorBytes_lt (l : List Nat) (h : ∀ b ∈ l, b < 256) : xorBytes l < 256 := by
  induction l with
  | nil => simp [xorBytes]
  | cons b l ih =>
    rw [xorBytes_cons]
    exact Nat.xor_lt_two_pow (n := 8) (h b (List.mem_cons_self _ _))
      (ih (fun x hx => h x (List.mem_cons_of_mem _ hx)))

theorem xorBytes_set (l : List Nat) (i v : Nat) (hi : i < l.length) :
    xorBytes (l.set i (l.getD i 0 ^^^ v)) = xorBytes l ^^^ v := by
  induction l generalizing i with
  | nil => simp at hi
  | cons b l ih =>
    cases i with
    | zero =>
      simp only [List.set_cons_zero, List.getD_cons_zero, xorBytes_cons]
      rw [Nat.xor_assoc, Nat.xor_comm v, ← Nat.xor_assoc]
    | succ i =>
      simp only [List.set_cons_succ, List.getD_cons_succ, xorBytes_cons]
      rw [ih i (by simpa using hi), Nat.xor_assoc]

theorem HistoryMetadata.toBytes_take32 (m : HistoryMetadata) :
    m.toBytes.take 32 =
      leBytes 4 m.magic ++ leBytes 4 m.version ++ leBytes 4 m.entry_count ++
      leBytes 4 m.oldest_index ++ leBytes 4 m.newest_index ++ leBytes 4 m.max_entries ++
      leBytes 4 m.rtc_offset ++ leBytes 4 m.last_write_time := by
  unfold HistoryMetadata.toBytes
  rw [List.append_assoc _ (leBytes 1 m.checksum)]
  exact List.take_left' (by simp [leBytes_length])

theorem calculateChecksum_take32 (m : HistoryMetadata) :
    (calculateChecksum m).toBytes.take 32 = m.toBytes.take 32 := by
  rw [HistoryMetadata.toBytes_take32, HistoryMetadata.toBytes_take32]
  rfl

theorem HistoryMetadata.toBytes_get32 (m : HistoryMetadata) :
    m.toBytes.getD 32 0 = m.checksum % 256 := by
  simp [HistoryMetadata.toBytes, leBytes]

theorem HistoryMetadata.ofBytes_checksum (b : List Nat) (hlen : b.length = 40) :
    (HistoryMetadata.ofBytes b).checksum = b.getD 32 0 := by
  iterate 40 (rcases b with _ | ⟨_, b⟩; · simp at hlen)
  simp [HistoryMetadata.ofBytes, fieldAt, leVal]

theorem calculateChecksum_checksum_lt (m : HistoryMetadata) :
    (calculateChecksum m).checksum < 256 := by
  unfold calculateChecksum
  exact xorBytes_lt _ (fun b hb => m.hdr_lt b (List.mem_of_mem_take hb))

theorem savedHeader_length (m : HistoryMetadata) : (savedHeader m).length = 40 :=
  HistoryMetadata.hdr_length _

theorem savedHeader_lt (m : HistoryMetadata) : ∀ b ∈ savedHeader m, b < 256 :=
  HistoryMetadata.hdr_lt _

theorem savedHeader_checksum (m : HistoryMetadata) :
    (savedHeader m).getD 32 0 = xorBytes ((savedHeader m).take 32) := by
  unfold savedHeader
  rw [HistoryMetadata.toBytes_get32, Nat.mod_eq_of_lt (calculateChecksum_checksum_lt _),
    calculateChecksum_take32]
  rfl

theorem verifyChecksum_ofBytes (b : List Nat) (hlen : b.length = 40)
    (hb : ∀ x ∈ b, x < 256) :
    verifyChecksum (HistoryMetadata.ofBytes b) = (b.getD 32 0 == xorBytes (b.take 32)) := by
  simp only [verifyChecksum]
  rw [HistoryMetadata.ofBytes_checksum b hlen]
  have h : (calculateChecksum (HistoryMetadata.ofBytes b)).checksum = xorBytes (b.take 32) := by
    simp only [calculateChecksum, sizeof_HistoryMetadata, sizeof_checksum, sizeof_reserved]
    rw [HistoryMetadata.toBytes_ofBytes b hlen hb]
  rw [h]

theorem loadMetadata_rejects (s : HistoryLog) (d : Option (List Nat)) (file : List Nat)
    (o : LoadOutcome) (hlen : file.length = 40)
    (hbad : verifyChecksum (HistoryMetadata.ofBytes file) = false) :
    (loadMetadata s ⟨d, some file⟩ o).1 = false := by
  have e40 : sizeof_HistoryMetadata = 40 := rfl
  simp only [loadMetadata, e40]
  by_cases ho : o.openOk
  · simp only [ho, Bool.not_true, Bool.false_eq_true, if_false]
    by_cases hr : (readAt file 0 (min 40 o.readLimit)).length = 40
    · have hgot : readAt file 0 (min 40 o.readLimit) = file := by
        unfold readAt at *
        simp only [List.drop_zero, List.length_take] at hr ⊢
        exact List.take_of_length_le (by omega)
      have hdrop : List.drop 40 s.meta_.toBytes = [] :=
        List.drop_of_length_le (by rw [s.meta_.hdr_length])
      simp [hgot, hlen, hdrop, hbad]
    · simp [hr]
  · simp [ho]

theorem flipBit_length (b : List Nat) (i j : Nat) : (flipBit b i j).length = b.length := by
  simp [flipBit]

theorem flipBit_lt (b : List Nat) (i j : Nat) (hj : j < 8) (hb : ∀ x ∈ b, x < 256) :
    ∀ x ∈ flipBit b i j, x < 256 := by
  intro x hx
  rcases List.mem_or_eq_of_mem_set hx with h | h
  · exact hb x h
  · subst h
    have h1 : b.getD i 0 < 2 ^ 8 := by
      rw [List.getD_eq_getElem?_getD]
      cases hgi : b[i]? with
      | none => simp
      | some y => exact hb y (List.getElem?_mem hgi)
    have h2 : 1 <<< j < 2 ^ 8 := by
      rw [Nat.one_shiftLeft]; exact Nat.pow_lt_pow_right (by norm_num) hj
    exact Nat.xor_lt_two_pow h1 h2

theorem flipBit_rejected (b : List Nat) (i j : Nat) (hlen : b.length = 40) (hi : i < 32)
    (hj : j < 8) (hb : ∀ x ∈ b, x < 256) (hsum : b.getD 32 0 = xorBytes (b.take 32)) :
    verifyChecksum (HistoryMetadata.ofBytes (flipBit b i j)) = false := by
  rw [verifyChecksum_ofBytes _ (by rw [flipBit_length, hlen]) (flipBit_lt b i j hj hb)]
  have h32 : (flipBit b i j).getD 32 0 = b.getD 32 0 := by
    simp only [flipBit, List.getD_eq_getElem?_getD]
    rw [List.getElem?_set_ne (by omega)]
  have htake : (flipBit b i j).take 32 = (b.take 32).set i ((b.take 32).getD i 0 ^^^ 1 <<< j) := by
    simp only [flipBit, List.set_take, List.getD_eq_getElem?_getD, List.getElem?_take, hi,
      if_true]
  rw [h32, htake, xorBytes_set _ _ _ (by simp [hlen]; omega), hsum]
  have hne : xorBytes (List.take 32 b) ≠ xorBytes (List.take 32 b) ^^^ 1 <<< j := by
    intro h
    have h0 : xorBytes (List.take 32 b) ^^^ 0 = xorBytes (List.take 32 b) ^^^ 1 <<< j := by
      rw [Nat.xor_zero]; exact h
    have h1 := Nat.xor_right_injective h0
    rw [Nat.one_shiftLeft] at h1
    exact absurd h1.symm (Nat.pos_iff_ne_zero.mp (Nat.two_pow_pos j))
  simpa using hne

theorem saveMetadata_good_index (s : HistoryLog) (fs : FS) :
    (saveMetadata s fs SaveOutcome.good).2.2.index = some (savedHeader s.meta_) := by
  simp only [saveMetadata, SaveOutcome.good, savedHeader, Bool.not_true, Bool.false_eq_true,
    if_false, Nat.min_self]
  rw [List.take_of_length_le (by rw [HistoryMetadata.hdr_length]; decide)]

theorem begin_of_load_failed (s0 : HistoryLog) (fs : FS) (o : BeginOutcome)
    (hmount : o.mount = MountResult.mounted) (hload : (loadMetadata s0 fs o.load).1 = false) :
    begin s0 fs o =
      (if (createNewMetadata (loadMetadata s0 fs o.load).2 fs o.create).1 then
        (true,
          { (createNewMetadata (loadMetadata s0 fs o.load).2 fs o.create).2.1 with
              initialized_ := true },
          (createNewMetadata (loadMetadata s0 fs o.load).2 fs o.create).2.2)
      else
        (false, (createNewMetadata (loadMetadata s0 fs o.load).2 fs o.create).2.1,
          (createNewMetadata (loadMetadata s0 fs o.load).2 fs o.create).2.2)) := by
  have hen : ¬ HISTORY_LOG_ENABLE = 0 := by decide
  simp only [begin, hen, if_false, hmount]
  by_cases hc : (createNewMetadata (loadMetadata s0 fs o.load).2 fs o.create).1 = true <;>
    simp [hload, hc]

/-! ## C5: single bit flips in the stored header -/

/-- C5: the index file written by a complete `saveMetadata` is the 40-byte header image;
when any single bit of its first 32 bytes is flipped, `loadMetadata` returns false
whatever the outcome of its storage calls, and `begin()` on a mounted filesystem then
continues with `createNewMetadata` and returns its verdict. -/
theorem C5_single_bit_flip_rejected (s s0 : HistoryLog) (fs : FS) (d : Option (List Nat))
    (i j : Nat) (bo : BeginOutcome) (hi : i < 32) (hj : j < 8)
    (hmount : bo.mount = MountResult.mounted) :
    (saveMetadata s fs SaveOutcome.good).2.2.index = some (savedHeader s.meta_) ∧
    (∀ lo, (loadMetadata s0 ⟨d, some (flipBit (savedHeader s.meta_) i j)⟩ lo).1 = false) ∧
    begin s0 ⟨d, some (flipBit (savedHeader s.meta_) i j)⟩ bo =
      (if (createNewMetadata
            (loadMetadata s0 ⟨d, some (flipBit (savedHeader s.meta_) i j)⟩ bo.load).2
            ⟨d, some (flipBit (savedHeader s.meta_) i j)⟩ bo.create).1 then
        (true,
          { (createNewMetadata
              (loadMetadata s0 ⟨d, some (flipBit (savedHeader s.meta_) i j)⟩ bo.load).2
              ⟨d, some (flipBit (savedHeader s.meta_) i j)⟩ bo.create).2.1 with
              initialized_ := true },
          (createNewMetadata
            (loadMetadata s0 ⟨d, some (flipBit (savedHeader s.meta_) i j)⟩ bo.load).2
            ⟨d, some (flipBit (savedHeader s.meta_) i j)⟩ bo.create).2.2)
      else
        (false,
          (createNewMetadata
            (loadMetadata s0 ⟨d, some (flipBit (savedHeader s.meta_) i j)⟩ bo.load).2
            ⟨d, some (flipBit (savedHeader s.meta_) i j)⟩ bo.create).2.1,
          (createNewMetadata
            (loadMetadata s0 ⟨d, some (flipBit (savedHeader s.meta_) i j)⟩ bo.load).2
            ⟨d, some (flipBit (savedHeader s.meta_) i j)⟩ bo.create).2.2)) := by
  have hrej : ∀ lo, (loadMetadata s0 ⟨d, some (flipBit (savedHeader s.meta_) i j)⟩ lo).1
      = false := fun lo =>
    loadMetadata_rejects s0 d _ lo (by rw [flipBit_length, savedHeader_length])
      (flipBit_rejected _ i j (savedHeader_length _) hi hj (savedHeader_lt _)
        (savedHeader_checksum _))
  exact ⟨saveMetadata_good_index s fs, hrej, begin_of_load_failed s0 _ bo hmount (hrej bo.load)⟩

/-- Witness for C5: the header of an all-zero in-memory state with the lowest bit of its
first magic byte flipped. -/
theorem C5_single_bit_flip_rejected_witness :
    (loadMetadata (HistoryLog.new zeroMeta)
      ⟨none, some (flipBit (savedHeader zeroMeta) 0 0)⟩ LoadOutcome.good).1 = false :=
  (C5_single_bit_flip_rejected (HistoryLog.new zeroMeta) (HistoryLog.new zeroMeta) ⟨none, none⟩
    none 0 0 BeginOutcome.good (by decide) (by decide) rfl).2.1 LoadOutcome.good

/-! ## Slots of the data file -/

theorem writeAt_inside (file : List Nat) (off : Nat) (bytes : List Nat)
    (h : off + bytes.length ≤ file.length) :
    writeAt file off bytes = file.take off ++ (bytes ++ file.drop (off + bytes.length)) := by
  have h0 : off - file.length = 0 := by omega
  simp [writeAt, h0, List.append_assoc]

theorem writeAt_length (file : List Nat) (off : Nat) (bytes : List Nat)
    (h : off + bytes.length ≤ file.length) : (writeAt file off bytes).length = file.length := by
  rw [writeAt_inside file off bytes h]
  simp only [List.length_append, List.length_take, List.length_drop]
  omega

theorem getElem?_writeAt_outside (file : List Nat) (off : Nat) (bytes : List Nat) (p : Nat)
    (h : off + bytes.length ≤ file.length) (hp : p < off ∨ off + bytes.length ≤ p) :
    (writeAt file off bytes)[p]? = file[p]? := by
  rw [writeAt_inside file off bytes h]
  have hl : (file.take off).length = off := by
    rw [List.length_take]; omega
  rcases hp with hp | hp
  · rw [List.getElem?_append_left (by omega), List.getElem?_take, if_pos hp]
  · rw [List.getElem?_append_right (by omega), hl,
      List.getElem?_append_right (by omega), List.getElem?_drop]
    congr 1
    omega

theorem readAt_writeAt_other (file : List Nat) (off off' n : Nat) (bytes : List Nat)
    (h : off + bytes.length ≤ file.length) (hd : off' + n ≤ off ∨ off + bytes.length ≤ off') :
    readAt (writeAt file off bytes) off' n = readAt file off' n := by
  unfold readAt
  apply List.ext_getElem?
  intro i
  simp only [List.getElem?_take, List.getElem?_drop]
  by_cases hi : i < n
  · simp only [hi, if_true]
    exact getElem?_writeAt_outside file off bytes (off' + i) h (by omega)
  · simp only [hi, if_false]

theorem readAt_length (file : List Nat) (off n : Nat) (h : off + n ≤ file.length) :
    (readAt file off n).length = n := by
  unfold readAt
  simp only [List.length_take, List.length_drop]
  omega

theorem zeroFill_good_aux (total_size : Nat) :
    ∀ (n written : Nat) (file : List Nat), total_size - written = n →
      zeroFill total_size (fun _ => 256) written file
        = file ++ List.replicate (total_size - written) 0 := by
  intro n
  induction n using Nat.strong_induction_on with
  | _ n ih =>
    intro written file h
    rw [zeroFill]
    by_cases hlt : written < total_size
    · simp only [hlt, if_true]
      rw [ih (total_size - (written + 256)) (by omega) (written + 256) _ rfl]
      rw [List.append_assoc, ← List.replicate_add]
      have hn : min (if total_size - written < 256 then total_size - written else 256) 256
          + (total_size - (written + 256)) = total_size - written := by
        split <;> omega
      rw [hn]
    · have h0 : total_size - written = 0 := by omega
      simp [hlt, h0]

theorem zeroFill_good (total_size : Nat) :
    zeroFill total_size (fun _ => 256) 0 [] = List.replicate total_size 0 := by
  rw [zeroFill_good_aux total_size total_size 0 [] rfl]
  simp

theorem computeMaxEntries_eq : computeMaxEntries = 2880 := by decide

theorem succ_mod_mod (a M : Nat) : (a % M + 1) % M = (a + 1) % M := by
  rw [Nat.add_mod a 1 M, Nat.add_mod (a % M) 1 M, Nat.mod_mod]

theorem mod_ne_of_lt_add (k n M : Nat) (h1 : k < n) (h2 : n < k + M) : k % M ≠ n % M := by
  intro h
  have h3 : (n - k) % M = 0 := Nat.sub_mod_eq_zero_of_mod_eq h.symm
  rw [Nat.mod_eq_of_lt (by omega)] at h3
  omega

/-! ## Header saves -/

theorem saveMetadata_meta (s : HistoryLog) (fs : FS) (o : SaveOutcome) :
    (saveMetadata s fs o).2.1.meta_
      = calculateChecksum { s.meta_ with magic := HISTORY_MAGIC, version := 1 } := by
  unfold saveMetadata
  by_cases h : o.openOk <;> simp [h]

theorem saveMetadata_data (s : HistoryLog) (fs : FS) (o : SaveOutcome) :
    (saveMetadata s fs o).2.2.data = fs.data := by
  unfold saveMetadata
  by_cases h : o.openOk <;> simp [h]

theorem saveMetadata_index_of_open_failed (s : HistoryLog) (fs : FS) (n : Nat) :
    (saveMetadata s fs ⟨false, n⟩).2.2.index = fs.index := by
  simp [saveMetadata]

theorem createNewMetadata_rtc_offset_ (s : HistoryLog) (fs : FS) (o : CreateOutcome) :
    (createNewMetadata s fs o).2.1.rtc_offset_ = s.rtc_offset_ := by
  unfold createNewMetadata
  by_cases h : o.dataOpenOk
  · simp [h, saveMetadata_rtc_offset_]
  · simp [h]

theorem createNewMetadata_meta_rtc_offset (s : HistoryLog) (fs : FS) (o : CreateOutcome) :
    (createNewMetadata s fs o).2.1.meta_.rtc_offset = 0 := by
  unfold createNewMetadata
  by_cases h : o.dataOpenOk
  · simp [h, saveMetadata_meta, calculateChecksum]
  · simp [h]

theorem logEntry_good_data (s : HistoryLog) (d : List Nat) (idx : Option (List Nat))
    (e : HistoryEntry) (so : SaveOutcome) (hinit : s.initialized_ = true) :
    logEntry s ⟨some d, idx⟩ e ⟨true, true, sizeof_HistoryEntry, so⟩ =
      (true,
        (saveMetadata { s with meta_ := advanceMeta s.meta_ (writeIndex s.meta_) e }
          ⟨some (writeAt d (slotOffset (writeIndex s.meta_)) e.toBytes), idx⟩ so).2) := by
  have ht : List.take sizeof_HistoryEntry e.toBytes = e.toBytes :=
    List.take_of_length_le (by rw [e.toBytes_length]; decide)
  simp [logEntry, logEntryData, hinit, ht]

/-! ## C2: the result of the header write -/

/-- C2 (as the code behaves): when the data write of `logEntry` succeeds, the call returns
true whatever the outcome `so` of the header save (index file not opened, or fewer than 40
bytes written), and the in-memory header is advanced: newest index and last-write time
are updated, and the entry count of an empty log becomes 1 while the index file is left
as it was. -/
theorem C2_header_write_result_ignored (m : HistoryMetadata) (r l n : Nat) (d : List Nat)
    (idx : Option (List Nat)) (e : HistoryEntry) (so : SaveOutcome) :
    (logEntry ⟨true, m, r, l⟩ ⟨some d, idx⟩ e ⟨true, true, sizeof_HistoryEntry, so⟩).1 = true ∧
    (logEntry ⟨true, m, r, l⟩ ⟨some d, idx⟩ e
      ⟨true, true, sizeof_HistoryEntry, so⟩).2.1.meta_.newest_index = writeIndex m ∧
    (logEntry ⟨true, m, r, l⟩ ⟨some d, idx⟩ e
      ⟨true, true, sizeof_HistoryEntry, so⟩).2.1.meta_.last_write_time = e.timestamp ∧
    (logEntry ⟨true, { zeroMeta with max_entries := 2880 }, r, l⟩ ⟨some d, idx⟩ oddEntry
      ⟨true, true, sizeof_HistoryEntry, ⟨false, n⟩⟩).2.1.meta_.entry_count = 1 ∧
    (logEntry ⟨true, { zeroMeta with max_entries := 2880 }, r, l⟩ ⟨some d, idx⟩ oddEntry
      ⟨true, true, sizeof_HistoryEntry, ⟨false, n⟩⟩).2.2.index = idx := by
  refine ⟨?_, ?_, ?_, ?_, ?_⟩
  · rw [logEntry_good_data _ _ _ _ _ rfl]
  · rw [logEntry_good_data _ _ _ _ _ rfl]
    simp only [saveMetadata_meta, calculateChecksum, advanceMeta]
    split <;> rfl
  · rw [logEntry_good_data _ _ _ _ _ rfl]
    simp only [saveMetadata_meta, calculateChecksum, advanceMeta]
    split <;> rfl
  · rw [logEntry_good_data _ _ _ _ _ rfl]
    simp only [saveMetadata_meta, calculateChecksum, advanceMeta]
    rfl
  · rw [logEntry_good_data _ _ _ _ _ rfl]
    exact saveMetadata_index_of_open_failed _ _ n

/-! ## C4: READ_HISTORY on an empty log -/

/-- C4 (as the code behaves): with a connected client and a log holding zero entries,
`readAllEntries` reports failure and handling READ_HISTORY leaves the world as it was:
no notification is emitted, in particular not the 11-byte acknowledgment frame. -/
theorem C4_empty_log_sends_nothing (a i : Bool) (m : HistoryMetadata) (r l millis : Nat)
    (fs : FS) (sent : List (List Nat)) (params : List Nat) (so : SaveOutcome)
    (ro : ReadOutcome) :
    (readAllEntries ⟨i, { m with entry_count := 0 }, r, l⟩ fs ro []).1 = false ∧
    handleReadHistory ⟨⟨true, true, a⟩, ⟨i, { m with entry_count := 0 }, r, l⟩, fs, sent⟩
        params ro
      = ⟨⟨true, true, a⟩, ⟨i, { m with entry_count := 0 }, r, l⟩, fs, sent⟩ ∧
    (onWrite ⟨⟨true, true, a⟩, ⟨i, { m with entry_count := 0 }, r, l⟩, fs, sent⟩ true
        [0x3A, 0x3A, 0x11, 0, 0, 0, 0, 0, 0, 0, 0] millis so ro).sent = sent := by
  have h1 : readAllEntries ⟨i, { m with entry_count := 0 }, r, l⟩ fs ro [] = (false, []) := by
    simp [readAllEntries, readEntries]
  refine ⟨by rw [h1], ?_, ?_⟩
  · simp only [handleReadHistory, h1]
    rfl
  · simp only [onWrite, handleCommand, CMD_READ_HISTORY, handleReadHistory, h1]
    rfl

/-! ## C10: `clear()` and the in-memory clock offset -/

/-- C10 (as the code behaves): `clear()` never touches the in-memory clock offset
`rtc_offset_`, while the header it creates has clock offset 0; after a first boot the
in-memory offset is 0.  So after a time sync to offset 1699999900, `clear()` leaves
`getCurrentTimestamp` at uptime 200 s returning 1700000100, where a first-boot log
returns 200. -/
theorem C10_clear_keeps_memory_offset (s : HistoryLog) (m g : HistoryMetadata) (fs : FS)
    (o : ClearOutcome) :
    (clear s fs o).2.1.rtc_offset_ = s.rtc_offset_ ∧
    (clear ⟨true, m, 1699999900, 0⟩ fs o).2.1.meta_.rtc_offset = 0 ∧
    getCurrentTimestamp (clear ⟨true, m, 1699999900, 0⟩ fs o).2.1 200000 = 1700000100 ∧
    (firstBoot g).2.1.rtc_offset_ = 0 ∧
    getCurrentTimestamp (firstBoot g).2.1 200000 = 200 := by
  have hclear : ∀ s' : HistoryLog, (clear s' fs o).2.1.rtc_offset_ = s'.rtc_offset_ := by
    intro s'
    unfold clear
    by_cases h : s'.initialized_
    · simp [h, createNewMetadata_rtc_offset_]
    · simp [h]
  have hboot : (firstBoot g).2.1.rtc_offset_ = 0 := by
    have hl : loadMetadata (HistoryLog.new g) ⟨none, none⟩ BeginOutcome.good.load
        = (false, HistoryLog.new g) := by simp [loadMetadata]
    have hb := begin_of_load_failed (HistoryLog.new g) ⟨none, none⟩ BeginOutcome.good rfl
      (by rw [hl])
    unfold firstBoot
    rw [hb, hl]
    split <;> simp [createNewMetadata_rtc_offset_, HistoryLog.new]
  refine ⟨hclear s, ?_, ?_, hboot, ?_⟩
  · simp [clear, createNewMetadata_meta_rtc_offset]
  · unfold getCurrentTimestamp U32
    rw [hclear]
    norm_num
  · unfold getCurrentTimestamp U32
    rw [hboot]

/-! ## Header round trip and reload -/

theorem HistoryMetadata.hdr_ofBytes_toBytes (m : HistoryMetadata) (h : m.WF) :
    HistoryMetadata.ofBytes m.toBytes = m := by
  obtain ⟨h0, h1, h2, h3, h4, h5, h6, h7, h8, h9⟩ := h
  have fld4 : ∀ v : Nat, v < 4294967296 →
      v % 256 + 256 * (v / 256 % 256 + 256 * (v / 256 / 256 % 256 +
        256 * (v / 256 / 256 / 256 % 256))) = v := by
    intro v hv; omega
  have fld7 : ∀ v : Nat, v < 72057594037927936 →
      v % 256 + 256 * (v / 256 % 256 + 256 * (v / 256 / 256 % 256 +
        256 * (v / 256 / 256 / 256 % 256 + 256 * (v / 256 / 256 / 256 / 256 % 256 +
        256 * (v / 256 / 256 / 256 / 256 / 256 % 256 +
        256 * (v / 256 / 256 / 256 / 256 / 256 / 256 % 256)))))) = v := by
    intro v hv; omega
  cases m
  simp only [HistoryMetadata.toBytes, HistoryMetadata.ofBytes, fieldAt, leBytes, leVal,
    List.cons_append, List.nil_append, List.drop_succ_cons, List.drop_zero, List.take_succ_cons,
    List.take_zero, List.take_nil, Nat.mul_zero, Nat.add_zero] at *
  simp only [fld4 _ h0, fld4 _ h1, fld4 _ h2, fld4 _ h3, fld4 _ h4, fld4 _ h5, fld4 _ h6,
    fld4 _ h7, fld7 _ h9, Nat.mod_eq_of_lt h8]

theorem verifyChecksum_calculateChecksum (m : HistoryMetadata) :
    verifyChecksum (calculateChecksum m) = true := by
  simp only [verifyChecksum, beq_iff_eq]
  simp only [calculateChecksum, sizeof_HistoryMetadata, sizeof_checksum, sizeof_reserved]
  have h := calculateChecksum_take32 m
  simp only [calculateChecksum, sizeof_HistoryMetadata, sizeof_checksum, sizeof_reserved] at h
  rw [h]

theorem loadMetadata_good (s0 : HistoryLog) (d : Option (List Nat)) (m : HistoryMetadata)
    (hwf : m.WF) (hmagic : m.magic = HISTORY_MAGIC) (hsum : verifyChecksum m = true) :
    loadMetadata s0 ⟨d, some m.toBytes⟩ LoadOutcome.good
      = (true, { s0 with meta_ := m, rtc_offset_ := m.rtc_offset }) := by
  have e40 : sizeof_HistoryMetadata = 40 := rfl
  have hgot : readAt m.toBytes 0 40 = m.toBytes := by
    unfold readAt
    rw [List.drop_zero]
    exact List.take_of_length_le (by rw [m.hdr_length])
  have hdrop : List.drop 40 s0.meta_.toBytes = [] :=
    List.drop_of_length_le (by rw [s0.meta_.hdr_length])
  simp [loadMetadata, LoadOutcome.good, e40, hgot, m.hdr_length, hdrop,
    HistoryMetadata.hdr_ofBytes_toBytes m hwf, hmagic, hsum]

/-! ## One append on a tracked log -/

theorem writeIndex_of_tracks (m : HistoryMetadata) (n : Nat) (hM : 0 < m.max_entries)
    (hsmall : 20 * m.max_entries + 20 < 4294967296)
    (hc : m.entry_count = min n m.max_entries)
    (hn : m.newest_index = (n - 1) % m.max_entries) : writeIndex m = n % m.max_entries := by
  unfold writeIndex U32
  rcases Nat.eq_zero_or_pos n with h0 | hpos
  · subst h0
    have : m.entry_count = 0 := by rw [hc]; simp
    simp [this, hn]
  · have hcp : m.entry_count > 0 := by rw [hc]; exact lt_min hpos hM
    have hlt : (n - 1) % m.max_entries < m.max_entries := Nat.mod_lt _ hM
    have h32 : ((n - 1) % m.max_entries + 1) % 4294967296 = (n - 1) % m.max_entries + 1 :=
      Nat.mod_eq_of_lt (by omega)
    rw [if_pos hcp, hn, h32, succ_mod_mod]
    congr 1
    omega

theorem advanceMeta_of_tracks (m : HistoryMetadata) (n w : Nat) (e : HistoryEntry)
    (hM : 0 < m.max_entries) (hsmall : 20 * m.max_entries + 20 < 4294967296)
    (hc : m.entry_count = min n m.max_entries)
    (ho : m.oldest_index = if n ≤ m.max_entries then 0 else n % m.max_entries) :
    advanceMeta m w e =
      { m with newest_index := w, entry_count := min (n + 1) m.max_entries,
               last_write_time := e.timestamp,
               oldest_index := if n + 1 ≤ m.max_entries then 0 else (n + 1) % m.max_entries } := by
  unfold advanceMeta U32
  simp only
  by_cases hfull : n + 1 ≤ m.max_entries
  · have h1 : m.entry_count = n := by rw [hc]; exact min_eq_left (by omega)
    have h2 : (n + 1) % 4294967296 = n + 1 := Nat.mod_eq_of_lt (by omega)
    have h3 : ¬ (n + 1 > m.max_entries) := by omega
    have h4 : n ≤ m.max_entries := by omega
    simp [h1, h2, h3, hfull, ho, h4, min_eq_left hfull]
  · have h1 : m.entry_count = m.max_entries := by rw [hc]; exact min_eq_right (by omega)
    have h2 : (m.max_entries + 1) % 4294967296 = m.max_entries + 1 :=
      Nat.mod_eq_of_lt (by omega)
    have h5 : m.oldest_index = n % m.max_entries := by
      rw [ho]
      by_cases hle : n ≤ m.max_entries
      · have : n = m.max_entries := by omega
        simp [this]
      · simp [hle]
    have hlt : n % m.max_entries < m.max_entries := Nat.mod_lt _ hM
    have h6 : (n % m.max_entries + 1) % 4294967296 = n % m.max_entries + 1 :=
      Nat.mod_eq_of_lt (by omega)
    have h7 : min (n + 1) m.max_entries = m.max_entries := min_eq_right (by omega)
    simp [h1, h2, hfull, h5, h6, h7, succ_mod_mod]

theorem saveMetadata_good (s : HistoryLog) (fs : FS) :
    saveMetadata s fs SaveOutcome.good =
      (true,
        { s with meta_ := calculateChecksum { s.meta_ with magic := HISTORY_MAGIC, version := 1 } },
        { fs with index := some (savedHeader s.meta_) }) := by
  have ht : ∀ m : HistoryMetadata, List.take sizeof_HistoryMetadata m.toBytes = m.toBytes :=
    fun m => List.take_of_length_le (by rw [m.hdr_length]; decide)
  simp [saveMetadata, SaveOutcome.good, ht, savedHeader]

theorem slotOffset_of_lt (w M : Nat) (hw : w < M) (hsmall : 20 * M + 20 < 4294967296) :
    slotOffset w = 20 * w := by
  unfold slotOffset sizeof_HistoryEntry U32
  rw [Nat.mod_eq_of_lt (by omega)]
  omega

theorem Tracks.logEntry_eq {s : HistoryLog} {fs : FS} {L : List HistoryEntry}
    (h : Tracks s fs L) (e : HistoryEntry) (he : e.timestamp < 4294967296) :
    ∃ d m', fs.data = some d ∧
      logEntry s fs e LogOutcome.good =
        (true, { s with meta_ := m' },
          ⟨some (writeAt d (20 * (L.length % s.meta_.max_entries)) e.toBytes),
            some m'.toBytes⟩) ∧
      m'.WF ∧ m'.magic = HISTORY_MAGIC ∧ verifyChecksum m' = true ∧
      m'.max_entries = s.meta_.max_entries ∧
      m'.entry_count = min (L.length + 1) s.meta_.max_entries ∧
      m'.newest_index = L.length % s.meta_.max_entries ∧
      m'.oldest_index = (if L.length + 1 ≤ s.meta_.max_entries then 0
        else (L.length + 1) % s.meta_.max_entries) ∧
      m'.rtc_offset = s.meta_.rtc_offset := by
  obtain ⟨d, hd, hlen, hslots⟩ := h.data
  have hM := h.cap_pos
  have hsmall := h.cap_small
  have hfs : fs = ⟨some d, some s.meta_.toBytes⟩ := by
    cases fs
    simp only [FS.mk.injEq]
    exact ⟨hd, h.index⟩
  have hw := writeIndex_of_tracks s.meta_ L.length hM hsmall h.count h.newest
  have hwlt : L.length % s.meta_.max_entries < s.meta_.max_entries := Nat.mod_lt _ hM
  have hadv := advanceMeta_of_tracks s.meta_ L.length (writeIndex s.meta_) e hM hsmall
    h.count h.oldest
  have hgood : LogOutcome.good = ⟨true, true, sizeof_HistoryEntry, SaveOutcome.good⟩ := rfl
  obtain ⟨w0, w1, w2, w3, w4, w5, w6, w7, w8, w9⟩ := h.wf
  have hmin : min (L.length + 1) s.meta_.max_entries ≤ s.meta_.max_entries := min_le_right _ _
  have hold : (if L.length + 1 ≤ s.meta_.max_entries then 0
      else (L.length + 1) % s.meta_.max_entries) < s.meta_.max_entries := by
    split
    · exact hM
    · exact Nat.mod_lt _ hM
  refine ⟨d, calculateChecksum { advanceMeta s.meta_ (writeIndex s.meta_) e with magic := HISTORY_MAGIC, version := 1 }, hd, ?_, ?_, rfl,
    verifyChecksum_calculateChecksum _, ?_, ?_, ?_, ?_, ?_⟩
  · rw [hgood]
    conv_lhs => rw [hfs]
    rw [logEntry_good_data s d _ e SaveOutcome.good h.init, saveMetadata_good, hw,
      slotOffset_of_lt _ _ hwlt hsmall]
    rfl
  · rw [hadv]
    refine ⟨(by show HISTORY_MAGIC < 4294967296; decide), (by show 1 < 4294967296; decide),
      ?_, ?_, ?_, ?_, ?_, ?_, calculateChecksum_checksum_lt _, ?_⟩
    · show min (L.length + 1) s.meta_.max_entries < 4294967296
      omega
    · show (if L.length + 1 ≤ s.meta_.max_entries then 0
        else (L.length + 1) % s.meta_.max_entries) < 4294967296
      omega
    · show writeIndex s.meta_ < 4294967296
      omega
    · exact w5
    · exact w6
    · exact he
    · exact w9
  · rw [hadv]; rfl
  · rw [hadv]; rfl
  · rw [hadv]; exact hw
  · rw [hadv]; rfl
  · rw [hadv]; rfl

theorem Tracks.logEntry_good {s : HistoryLog} {fs : FS} {L : List HistoryEntry}
    (h : Tracks s fs L) (e : HistoryEntry) (he : e.timestamp < 4294967296) :
    (logEntry s fs e LogOutcome.good).1 = true ∧
    (logEntry s fs e LogOutcome.good).2.1.meta_.max_entries = s.meta_.max_entries ∧
    Tracks (logEntry s fs e LogOutcome.good).2.1 (logEntry s fs e LogOutcome.good).2.2
      (L ++ [e]) := by
  obtain ⟨d, m', hd, heq, hwf, hmagic, hsum, hmax, hcount, hnew, hold, -⟩ := h.logEntry_eq e he
  obtain ⟨d0, hd0, hlen, hslots⟩ := h.data
  have hdd : d0 = d := by rw [hd] at hd0; exact (Option.some.inj hd0).symm
  subst hdd
  have hM := h.cap_pos
  have hsmall := h.cap_small
  have hwlt : L.length % s.meta_.max_entries < s.meta_.max_entries := Nat.mod_lt _ hM
  rw [heq]
  refine ⟨rfl, hmax, ?_⟩
  have hbl : e.toBytes.length = 20 := e.toBytes_length
  have hin : 20 * (L.length % s.meta_.max_entries) + e.toBytes.length ≤ d0.length := by
    rw [hbl, hlen]; omega
  refine ⟨h.init, hwf, hmagic, hsum, rfl, ?_, ?_, ?_, ?_, ?_, ?_⟩
  · show 0 < m'.max_entries
    rw [hmax]; exact hM
  · show 20 * m'.max_entries + 20 < 4294967296
    rw [hmax]; exact hsmall
  · show m'.entry_count = min (L ++ [e]).length m'.max_entries
    rw [hcount, hmax]; simp
  · show m'.newest_index = ((L ++ [e]).length - 1) % m'.max_entries
    rw [hnew, hmax]; simp
  · show m'.oldest_index = if (L ++ [e]).length ≤ m'.max_entries then 0
        else (L ++ [e]).length % m'.max_entries
    rw [hold, hmax]; simp
  · refine ⟨_, rfl, ?_, ?_⟩
    · show (writeAt d0 _ _).length = 20 * m'.max_entries
      rw [writeAt_length _ _ _ hin, hmax]
      exact hlen
    · intro k x hk hx
      have hk' : (L ++ [e]).length - s.meta_.max_entries ≤ k := by
        have : (L ++ [e]).length - m'.max_entries ≤ k := hk
        rwa [hmax] at this
      show readAt (writeAt d0 (20 * (L.length % s.meta_.max_entries)) e.toBytes)
        (20 * (k % m'.max_entries)) 20 = x.toBytes
      rw [hmax]
      simp only [List.length_append, List.length_singleton] at hk'
      rcases Nat.lt_trichotomy k L.length with hlt | heq | hgt
      · rw [List.getElem?_append_left hlt] at hx
        have hne := mod_ne_of_lt_add k L.length s.meta_.max_entries hlt (by omega)
        have hklt : k % s.meta_.max_entries < s.meta_.max_entries := Nat.mod_lt _ hM
        rw [readAt_writeAt_other _ _ _ _ _ hin (by rw [hbl]; omega)]
        exact hslots k x (by omega) hx
      · subst heq
        rw [List.getElem?_append_right (le_refl _)] at hx
        simp only [Nat.sub_self, List.getElem?_cons_zero, Option.some.injEq] at hx
        subst hx
        have := readAt_writeAt_same d0 (20 * (L.length % s.meta_.max_entries)) e.toBytes
        rwa [hbl] at this
      · rw [List.getElem?_eq_none (by simp; omega)] at hx
        exact absurd hx (by simp)

/-! ## Reading a tracked log -/

theorem readLoop_good (m : HistoryMetadata) (d : List Nat) (xs : List HistoryEntry) :
    ∀ (n i : Nat) (acc : List HistoryEntry) (rc : Nat),
      (∀ j, j < n → ∃ x, xs[i + j]? = some x ∧ x.WF ∧
        readAt d (slotOffset (((m.oldest_index + (i + j)) % U32) % m.max_entries)) 20
          = x.toBytes) →
      i + n = xs.length →
      readLoop m d ReadOutcome.good 0 0xFFFFFFFF 0 n i acc rc = acc ++ xs.drop i := by
  intro n
  induction n with
  | zero =>
    intro i acc rc _ hlen
    simp only [readLoop]
    rw [List.drop_of_length_le (by omega), List.append_nil]
  | succ n ih =>
    intro i acc rc hslots hlen
    obtain ⟨x, hx, hwf, hread⟩ := hslots 0 (by omega)
    rw [Nat.add_zero] at hx hread
    have hts : x.timestamp ≤ 4294967295 := by
      have := hwf.1
      omega
    have hdrop : xs.drop i = x :: xs.drop (i + 1) := by
      obtain ⟨hi, hxi⟩ := List.getElem?_eq_some.mp hx
      rw [← hxi]
      exact List.drop_eq_getElem_cons hi
    have hrec := ih (i + 1) (acc ++ [x]) ((rc + 1) % U32)
      (fun j hj => by
        obtain ⟨y, hy, hywf, hyread⟩ := hslots (j + 1) (by omega)
        refine ⟨y, ?_, hywf, ?_⟩
        · rw [← hy]; congr 1; omega
        · rw [← hyread]; congr 4; omega)
      (by omega)
    have hmin : min sizeof_HistoryEntry sizeof_HistoryEntry = 20 := rfl
    have hsz : sizeof_HistoryEntry = 20 := rfl
    simp only [readLoop, ReadOutcome.good, Bool.not_true, Bool.false_eq_true, if_false, hsz,
      Nat.min_self, hread, x.toBytes_length, bne_self_eq_false,
      HistoryEntry.ofBytes_toBytes x hwf, ge_iff_le, Nat.zero_le, true_and, hts, if_true,
      gt_iff_lt, Nat.lt_irrefl, false_and]
    have hrec' := hrec
    simp only [ReadOutcome.good, hsz] at hrec'
    rw [hrec', hdrop, List.append_assoc]
    rfl

theorem ring_slot_index (n M j oldest : Nat) (hM : 0 < M) (hsmall : 20 * M + 20 < 4294967296)
    (ho : oldest = if n ≤ M then 0 else n % M) (hj : j < min n M) :
    ((oldest + j) % U32) % M = (n - M + j) % M := by
  unfold U32
  by_cases hle : n ≤ M
  · have h0 : n - M = 0 := by omega
    have hjn : j < n := lt_of_lt_of_le hj (min_le_left _ _)
    rw [ho, if_pos hle, h0]
    simp only [Nat.zero_add]
    rw [      Nat.mod_eq_of_lt (a := j) (b := 4294967296) (by omega)]
  · have hlt : n % M < M := Nat.mod_lt _ hM
    have hjM : j < M := lt_of_lt_of_le hj (min_le_right _ _)
    rw [ho, if_neg hle, Nat.mod_eq_of_lt (a := n % M + j) (by omega), Nat.mod_add_mod]
    have : n + j = (n - M + j) + M := by omega
    rw [this, Nat.add_mod_right]

theorem Tracks.readAll {s : HistoryLog} {fs : FS} {L : List HistoryEntry} (h : Tracks s fs L)
    (hwf : ∀ e ∈ L, e.WF) (hne : L ≠ []) (entries0 : List HistoryEntry) :
    readAllEntries s fs ReadOutcome.good entries0
      = (true, L.drop (L.length - s.meta_.max_entries)) := by
  obtain ⟨d, hd, hlen, hslots⟩ := h.data
  have hM := h.cap_pos
  have hsmall := h.cap_small
  have hpos : 0 < L.length := List.length_pos.mpr hne
  have hcnt : s.meta_.entry_count ≠ 0 := by
    rw [h.count]
    exact Nat.pos_iff_ne_zero.mp (lt_min hpos hM)
  have hcount : (if s.meta_.entry_count < s.meta_.max_entries then s.meta_.entry_count
      else s.meta_.max_entries) = min L.length s.meta_.max_entries := by
    rw [h.count]
    split <;> omega
  have hloop := readLoop_good s.meta_ d (L.drop (L.length - s.meta_.max_entries))
    (min L.length s.meta_.max_entries) 0 [] 0
    (fun j hj => by
      have hjlt : L.length - s.meta_.max_entries + j < L.length := by omega
      refine ⟨L[L.length - s.meta_.max_entries + j], ?_, hwf _ (List.getElem_mem _), ?_⟩
      · rw [Nat.zero_add, List.getElem?_drop, List.getElem?_eq_getElem hjlt]
      · rw [Nat.zero_add, ring_slot_index L.length s.meta_.max_entries j s.meta_.oldest_index hM
          hsmall h.oldest hj]
        rw [slotOffset_of_lt _ _ (Nat.mod_lt _ hM) hsmall]
        exact hslots _ _ (by omega) (List.getElem?_eq_getElem hjlt))
    (by simp only [List.length_drop]; omega)
  simp only [readAllEntries, readEntries, h.init, hd, Bool.not_true, Bool.false_or, beq_iff_eq,
    hcnt, if_false, ReadOutcome.good, hcount]
  simp only [ReadOutcome.good] at hloop
  simp [hloop]

theorem Tracks.readAll_empty {s : HistoryLog} {fs : FS} (h : Tracks s fs [])
    (o : ReadOutcome) (entries0 : List HistoryEntry) :
    readAllEntries s fs o entries0 = (false, entries0) := by
  have hc : s.meta_.entry_count = 0 := by rw [h.count]; simp
  simp [readAllEntries, readEntries, hc]

theorem Tracks.logAll_good {s : HistoryLog} {fs : FS} {L : List HistoryEntry}
    (h : Tracks s fs L) (es : List HistoryEntry) (hes : ∀ e ∈ es, e.timestamp < 4294967296) :
    (logAll (s, fs) es).1 = true ∧
    (logAll (s, fs) es).2.1.meta_.max_entries = s.meta_.max_entries ∧
    Tracks (logAll (s, fs) es).2.1 (logAll (s, fs) es).2.2 (L ++ es) := by
  induction es generalizing s fs L with
  | nil => simpa [logAll] using h
  | cons e es ih =>
    have he := hes e (List.mem_cons_self _ _)
    obtain ⟨hok, hmax, htr⟩ := h.logEntry_good e he
    obtain ⟨hok', hmax', htr'⟩ := ih htr (fun x hx => hes x (List.mem_cons_of_mem _ hx))
    simp only [logAll, hok, Bool.true_and]
    refine ⟨hok', hmax'.trans hmax, ?_⟩
    rw [List.append_assoc] at htr'
    exact htr'

/-! ## The first-boot state -/

theorem createNewMetadata_good (s : HistoryLog) (fs : FS) :
    createNewMetadata s fs CreateOutcome.good =
      (true,
        { s with meta_ := calculateChecksum ⟨HISTORY_MAGIC, 1, 0, 0, 0, 2880, 0, 0, 0, 0⟩ },
        ⟨some (List.replicate 57600 0),
          some (calculateChecksum ⟨HISTORY_MAGIC, 1, 0, 0, 0, 2880, 0, 0, 0, 0⟩).toBytes⟩) := by
  have htotal : (2880 * sizeof_HistoryEntry) % U32 = 57600 := by decide
  simp only [createNewMetadata, CreateOutcome.good, computeMaxEntries_eq, Bool.not_true,
    Bool.false_eq_true, if_false, htotal]
  rw [zeroFill_good, saveMetadata_good]
  rfl

theorem firstBoot_eq (g : HistoryMetadata) :
    firstBoot g =
      (true,
        ⟨true, calculateChecksum ⟨HISTORY_MAGIC, 1, 0, 0, 0, 2880, 0, 0, 0, 0⟩, 0, 0⟩,
        ⟨some (List.replicate 57600 0),
          some (calculateChecksum ⟨HISTORY_MAGIC, 1, 0, 0, 0, 2880, 0, 0, 0, 0⟩).toBytes⟩) := by
  have hl : loadMetadata (HistoryLog.new g) ⟨none, none⟩ BeginOutcome.good.load
      = (false, HistoryLog.new g) := by simp [loadMetadata]
  have hb := begin_of_load_failed (HistoryLog.new g) ⟨none, none⟩ BeginOutcome.good rfl
    (by rw [hl])
  have hc : BeginOutcome.good.create = CreateOutcome.good := rfl
  unfold firstBoot
  rw [hb, hl, hc, createNewMetadata_good]
  rfl

theorem firstBoot_tracks (g : HistoryMetadata) :
    (firstBoot g).1 = true ∧ (firstBoot g).2.1.meta_.max_entries = 2880 ∧
    Tracks (firstBoot g).2.1 (firstBoot g).2.2 [] := by
  rw [firstBoot_eq]
  refine ⟨rfl, rfl, ?_⟩
  constructor
  · rfl
  · exact ⟨by decide, by decide, by decide, by decide, by decide, by decide, by decide,
      by decide, calculateChecksum_checksum_lt _, by decide⟩
  · rfl
  · exact verifyChecksum_calculateChecksum _
  · rfl
  · show 0 < 2880
    decide
  · show 20 * 2880 + 20 < 4294967296
    decide
  · rfl
  · rfl
  · rfl
  · refine ⟨_, rfl, ?_, ?_⟩
    · rw [List.length_replicate]; rfl
    · intro k e _ hk
      simp at hk

theorem stampedEntry_WF (t : Nat) (ht : t < 4294967296) : (stampedEntry t).WF :=
  ⟨ht, (by decide : oddEntry.WF).2⟩

theorem begin_of_load_ok (s0 s1 : HistoryLog) (fs : FS) (o : BeginOutcome)
    (hmount : o.mount = MountResult.mounted) (hload : loadMetadata s0 fs o.load = (true, s1)) :
    begin s0 fs o = (true, { s1 with initialized_ := true }, fs) := by
  have hen : ¬ HISTORY_LOG_ENABLE = 0 := by decide
  simp [begin, hen, hmount, hload]

theorem firstBoot_logAll (g : HistoryMetadata) (es : List HistoryEntry)
    (hwf : ∀ e ∈ es, e.WF) :
    (logAll (firstBoot g).2 es).1 = true ∧
    (logAll (firstBoot g).2 es).2.1.meta_.max_entries = 2880 ∧
    Tracks (logAll (firstBoot g).2 es).2.1 (logAll (firstBoot g).2 es).2.2 es := by
  obtain ⟨-, hcap, htr⟩ := firstBoot_tracks g
  obtain ⟨hok, hmax, htr'⟩ := htr.logAll_good es (fun e he => (hwf e he).1)
  rw [List.nil_append] at htr'
  exact ⟨hok, hmax.trans hcap, htr'⟩

/-! ## C1: the ring keeps the last `capacity` entries -/

/-- C1: on a log freshly created by a first boot (capacity 2880), appending any sequence
of more than `capacity` well-typed entries with every write succeeding makes every
`logEntry` return true, and `readAllEntries` then returns exactly the last `capacity`
entries appended, in the order of appending: `capacity` entries in all. -/
theorem C1_ring_keeps_last_capacity (g : HistoryMetadata) (es entries0 : List HistoryEntry)
    (hwf : ∀ e ∈ es, e.WF) (hN : (firstBoot g).2.1.meta_.max_entries < es.length) :
    (firstBoot g).2.1.meta_.max_entries = 2880 ∧
    (logAll (firstBoot g).2 es).1 = true ∧
    readAllEntries (logAll (firstBoot g).2 es).2.1 (logAll (firstBoot g).2 es).2.2
        ReadOutcome.good entries0
      = (true, es.drop (es.length - (firstBoot g).2.1.meta_.max_entries)) ∧
    (es.drop (es.length - (firstBoot g).2.1.meta_.max_entries)).length
      = (firstBoot g).2.1.meta_.max_entries := by
  obtain ⟨-, hcap, -⟩ := firstBoot_tracks g
  obtain ⟨hok, hmax, htr⟩ := firstBoot_logAll g es hwf
  have hne : es ≠ [] := by
    intro h; rw [h] at hN; simp at hN
  refine ⟨hcap, hok, ?_, ?_⟩
  · rw [htr.readAll hwf hne entries0, hmax, hcap]
  · rw [List.length_drop]; omega

/-- Witness for C1: 2881 entries with timestamps 0..2880 are appended; the entries read
back are those with timestamps 1..2880. -/
theorem C1_ring_keeps_last_capacity_witness :
    readAllEntries
        (logAll (firstBoot zeroMeta).2 ((List.range 2881).map stampedEntry)).2.1
        (logAll (firstBoot zeroMeta).2 ((List.range 2881).map stampedEntry)).2.2
        ReadOutcome.good []
      = (true,
          ((List.range 2881).map stampedEntry).drop
            (((List.range 2881).map stampedEntry).length
              - (firstBoot zeroMeta).2.1.meta_.max_entries)) :=
  (C1_ring_keeps_last_capacity zeroMeta ((List.range 2881).map stampedEntry) []
    (by
      intro e he
      obtain ⟨i, hi, rfl⟩ := List.mem_map.mp he
      have hi' : i < 2881 := List.mem_range.mp hi
      exact stampedEntry_WF i (by omega))
    (by
      rw [(firstBoot_tracks zeroMeta).2.1, List.length_map, List.length_range]
      decide)).2.2.1

/-! ## Interrupted appends -/

theorem logEntryData_eq (s : HistoryLog) (fs : FS) (e : HistoryEntry) (o : LogOutcome)
    (file d : List Nat) (hd : fs.data = some d) (h : logEntryData s fs e o = some file) :
    file = writeAt d (slotOffset (writeIndex s.meta_))
      (e.toBytes.take (min o.dataWritten sizeof_HistoryEntry)) := by
  simp only [logEntryData, hd] at h
  by_cases h1 : o.dataOpenOk <;> by_cases h2 : o.seekOk <;> simp [h1, h2] at h
  exact h.symm

theorem Tracks.crash_restart {s : HistoryLog} {fs : FS} {L : List HistoryEntry}
    (h : Tracks s fs L) (e : HistoryEntry) (o : LogOutcome) (file : List Nat)
    (hdata : logEntryData s fs e o = some file) (g : HistoryMetadata)
    (L' : List HistoryEntry) (hlen : L'.length = L.length)
    (hslots' : ∀ k x, L.length - s.meta_.max_entries ≤ k → L'[k]? = some x →
      readAt file (20 * (k % s.meta_.max_entries)) 20 = x.toBytes) :
    (restart g ⟨some file, fs.index⟩ BeginOutcome.good).1 = true ∧
    Tracks (restart g ⟨some file, fs.index⟩ BeginOutcome.good).2.1
      (restart g ⟨some file, fs.index⟩ BeginOutcome.good).2.2 L' := by
  obtain ⟨d, hd, hdlen, hslots⟩ := h.data
  have hM := h.cap_pos
  have hsmall := h.cap_small
  have hfile := logEntryData_eq s fs e o file d hd hdata
  have hw := writeIndex_of_tracks s.meta_ L.length hM hsmall h.count h.newest
  have hwlt : L.length % s.meta_.max_entries < s.meta_.max_entries := Nat.mod_lt _ hM
  have hfs : (⟨some file, fs.index⟩ : FS) = ⟨some file, some s.meta_.toBytes⟩ := by
    rw [h.index]
  have hload := loadMetadata_good (HistoryLog.new g) (some file) s.meta_ h.wf h.magic h.sum
  have hbegin := begin_of_load_ok (HistoryLog.new g) _ ⟨some file, some s.meta_.toBytes⟩
    BeginOutcome.good rfl hload
  unfold restart
  rw [hfs, hbegin]
  refine ⟨rfl, ?_⟩
  have hflen : file.length = 20 * s.meta_.max_entries := by
    rw [hfile, writeAt_length, hdlen]
    rw [hw, slotOffset_of_lt _ _ hwlt hsmall, List.length_take, e.toBytes_length, hdlen]
    have : min (min o.dataWritten sizeof_HistoryEntry) 20 ≤ 20 := min_le_right _ _
    omega
  exact ⟨rfl, h.wf, h.magic, h.sum, rfl, hM, hsmall, by rw [hlen]; exact h.count,
    by rw [hlen]; exact h.newest, by rw [hlen]; exact h.oldest,
    ⟨file, rfl, hflen, by rw [hlen]; exact hslots'⟩⟩

theorem Tracks.crash_keeps_other_slots {s : HistoryLog} {fs : FS} {L : List HistoryEntry}
    (h : Tracks s fs L) (e : HistoryEntry) (o : LogOutcome) (file : List Nat)
    (hdata : logEntryData s fs e o = some file) (k : Nat) (x : HistoryEntry)
    (hk : L.length - s.meta_.max_entries ≤ k) (hx : L[k]? = some x)
    (hne : k % s.meta_.max_entries ≠ L.length % s.meta_.max_entries) :
    readAt file (20 * (k % s.meta_.max_entries)) 20 = x.toBytes := by
  obtain ⟨d, hd, hdlen, hslots⟩ := h.data
  have hM := h.cap_pos
  have hsmall := h.cap_small
  have hfile := logEntryData_eq s fs e o file d hd hdata
  have hw := writeIndex_of_tracks s.meta_ L.length hM hsmall h.count h.newest
  have hwlt : L.length % s.meta_.max_entries < s.meta_.max_entries := Nat.mod_lt _ hM
  have hklt : k % s.meta_.max_entries < s.meta_.max_entries := Nat.mod_lt _ hM
  have hbl : (e.toBytes.take (min o.dataWritten sizeof_HistoryEntry)).length ≤ 20 := by
    rw [List.length_take, e.toBytes_length]
    exact le_trans (min_le_right _ _) (le_refl _)
  rw [hfile, hw, slotOffset_of_lt _ _ hwlt hsmall,
    readAt_writeAt_other _ _ _ _ _ (by rw [hdlen]; omega) (by omega)]
  exact hslots k x hk hx

/-! ## C3: restart between the data write and the header write -/

/-- C3 (amended): for every log reached from a first boot by successful appends that is
not yet full (fewer entries than the capacity) and every entry `e`: when `logEntry(e)` has
performed its data write (in full or in part) and the device restarts before the header
is written, the restart accepts the persisted header and `readAllEntries` returns exactly
what it returned before the append. -/
theorem C3_crash_before_header_not_full (g g' : HistoryMetadata) (es entries0 : List HistoryEntry)
    (e : HistoryEntry) (o : LogOutcome) (file : List Nat) (hwf : ∀ x ∈ es, x.WF)
    (hroom : es.length < (firstBoot g).2.1.meta_.max_entries)
    (hdata : logEntryData (logAll (firstBoot g).2 es).2.1 (logAll (firstBoot g).2 es).2.2 e o
      = some file) :
    (restart g' ⟨some file, (logAll (firstBoot g).2 es).2.2.index⟩ BeginOutcome.good).1
      = true ∧
    readAllEntries
        (restart g' ⟨some file, (logAll (firstBoot g).2 es).2.2.index⟩
          BeginOutcome.good).2.1
        (restart g' ⟨some file, (logAll (firstBoot g).2 es).2.2.index⟩
          BeginOutcome.good).2.2
        ReadOutcome.good entries0
      = readAllEntries (logAll (firstBoot g).2 es).2.1 (logAll (firstBoot g).2 es).2.2
          ReadOutcome.good entries0 := by
  obtain ⟨-, hcap, -⟩ := firstBoot_tracks g
  obtain ⟨-, hmax, htr⟩ := firstBoot_logAll g es hwf
  rw [hcap] at hroom
  obtain ⟨hok, htr'⟩ := htr.crash_restart e o file hdata g' es rfl
    (fun k x hk hx => by
      have hklt : k < es.length := (List.getElem?_eq_some.mp hx).1
      exact htr.crash_keeps_other_slots e o file hdata k x hk hx
        (mod_ne_of_lt_add k es.length _ hklt (by rw [hmax]; omega)))
  refine ⟨hok, ?_⟩
  by_cases hne : es = []
  · subst hne
    rw [htr'.readAll_empty, htr.readAll_empty]
  · rw [htr'.readAll hwf hne, htr.readAll hwf hne]
    have hsame : (restart g' ⟨some file, (logAll (firstBoot g).2 es).2.2.index⟩
        BeginOutcome.good).2.1.meta_.max_entries
        = (logAll (firstBoot g).2 es).2.1.meta_.max_entries := by
      have hfs : (⟨some file, (logAll (firstBoot g).2 es).2.2.index⟩ : FS)
          = ⟨some file, some (logAll (firstBoot g).2 es).2.1.meta_.toBytes⟩ := by
        rw [htr.index]
      have hload := loadMetadata_good (HistoryLog.new g') (some file) _ htr.wf htr.magic htr.sum
      have hbegin := begin_of_load_ok (HistoryLog.new g') _
        ⟨some file, some (logAll (firstBoot g).2 es).2.1.meta_.toBytes⟩
        BeginOutcome.good rfl hload
      unfold restart
      rw [hfs, hbegin]
    rw [hsame]

theorem Tracks.restart_max_entries {s : HistoryLog} {fs : FS} {L : List HistoryEntry}
    (h : Tracks s fs L) (file : List Nat) (g : HistoryMetadata) :
    (restart g ⟨some file, fs.index⟩ BeginOutcome.good).2.1.meta_.max_entries
      = s.meta_.max_entries := by
  have hfs : (⟨some file, fs.index⟩ : FS) = ⟨some file, some s.meta_.toBytes⟩ := by
    rw [h.index]
  have hload := loadMetadata_good (HistoryLog.new g) (some file) s.meta_ h.wf h.magic h.sum
  have hbegin := begin_of_load_ok (HistoryLog.new g) _ ⟨some file, some s.meta_.toBytes⟩
    BeginOutcome.good rfl hload
  unfold restart
  rw [hfs, hbegin]

theorem logEntryData_good (s : HistoryLog) (fs : FS) (e : HistoryEntry) (d : List Nat)
    (hd : fs.data = some d) :
    logEntryData s fs e LogOutcome.good
      = some (writeAt d (slotOffset (writeIndex s.meta_)) e.toBytes) := by
  have ht : List.take sizeof_HistoryEntry e.toBytes = e.toBytes :=
    List.take_of_length_le (by rw [e.toBytes_length]; decide)
  simp [logEntryData, hd, LogOutcome.good, ht]

/-- C3 (as stated) fails on a full log: after 2880 appends of the all-zero record, the data
write of one more append lands in the slot of the oldest entry; when the device restarts
before the header write, `readAllEntries` returns the new record in place of the oldest
one, which differs from what it returned before the append. -/
theorem C3_full_log_crash_replaces_oldest :
    ∃ file,
      logEntryData (logAll (firstBoot zeroMeta).2 (List.replicate 2880 zeroEntry)).2.1
        (logAll (firstBoot zeroMeta).2 (List.replicate 2880 zeroEntry)).2.2 oddEntry
        LogOutcome.good = some file ∧
      (restart zeroMeta
        ⟨some file,
          (logAll (firstBoot zeroMeta).2 (List.replicate 2880 zeroEntry)).2.2.index⟩ BeginOutcome.good).1 = true ∧
      readAllEntries (logAll (firstBoot zeroMeta).2 (List.replicate 2880 zeroEntry)).2.1
        (logAll (firstBoot zeroMeta).2 (List.replicate 2880 zeroEntry)).2.2 ReadOutcome.good []
        = (true, List.replicate 2880 zeroEntry) ∧
      readAllEntries
        (restart zeroMeta
          ⟨some file,
          (logAll (firstBoot zeroMeta).2 (List.replicate 2880 zeroEntry)).2.2.index⟩ BeginOutcome.good).2.1
        (restart zeroMeta
          ⟨some file,
          (logAll (firstBoot zeroMeta).2 (List.replicate 2880 zeroEntry)).2.2.index⟩ BeginOutcome.good).2.2 ReadOutcome.good []
        = (true, oddEntry :: List.replicate 2879 zeroEntry) ∧
      readAllEntries
        (restart zeroMeta
          ⟨some file,
          (logAll (firstBoot zeroMeta).2 (List.replicate 2880 zeroEntry)).2.2.index⟩ BeginOutcome.good).2.1
        (restart zeroMeta
          ⟨some file,
          (logAll (firstBoot zeroMeta).2 (List.replicate 2880 zeroEntry)).2.2.index⟩ BeginOutcome.good).2.2 ReadOutcome.good []
        ≠ readAllEntries (logAll (firstBoot zeroMeta).2 (List.replicate 2880 zeroEntry)).2.1
          (logAll (firstBoot zeroMeta).2 (List.replicate 2880 zeroEntry)).2.2
          ReadOutcome.good [] := by
  have hwf0 : ∀ x ∈ List.replicate 2880 zeroEntry, x.WF := by
    intro x hx
    rw [List.eq_of_mem_replicate hx]
    decide
  have hwf1 : ∀ x ∈ oddEntry :: List.replicate 2879 zeroEntry, x.WF := by
    intro x hx
    rcases List.mem_cons.mp hx with rfl | hx
    · decide
    · rw [List.eq_of_mem_replicate hx]
      decide
  have hlen0 : (List.replicate 2880 zeroEntry).length = 2880 := List.length_replicate _ _
  have hlen1 : (oddEntry :: List.replicate 2879 zeroEntry).length = 2880 := by
    rw [List.length_cons, List.length_replicate]
  have hsucc : List.replicate 2880 zeroEntry = zeroEntry :: List.replicate 2879 zeroEntry :=
    List.replicate_succ (n := 2879) zeroEntry
  obtain ⟨-, hmax, htr⟩ := firstBoot_logAll zeroMeta (List.replicate 2880 zeroEntry) hwf0
  obtain ⟨d, hd, hdlen, hslots⟩ := htr.data
  have hw := writeIndex_of_tracks _ _ htr.cap_pos htr.cap_small htr.count htr.newest
  rw [hmax, hlen0] at hw
  have hw0 : writeIndex (logAll (firstBoot zeroMeta).2
      (List.replicate 2880 zeroEntry)).2.1.meta_ = 0 := by rw [hw]
  have hdata := logEntryData_good
    (logAll (firstBoot zeroMeta).2 (List.replicate 2880 zeroEntry)).2.1 _ oddEntry d hd
  rw [hw0] at hdata
  have hoff0 : slotOffset 0 = 0 := rfl
  rw [hoff0] at hdata
  obtain ⟨hok, htr'⟩ := htr.crash_restart oddEntry LogOutcome.good _ hdata zeroMeta
    (oddEntry :: List.replicate 2879 zeroEntry) (by rw [hlen1, hlen0])
    (fun k x hk hx => by
      rw [hmax]
      cases k with
      | zero =>
        simp only [List.getElem?_cons_zero, Option.some.injEq] at hx
        subst hx
        have := readAt_writeAt_same d 0 oddEntry.toBytes
        rw [oddEntry.toBytes_length] at this
        exact this
      | succ k =>
        rw [List.getElem?_cons_succ, List.getElem?_replicate] at hx
        have hk2879 : k < 2879 := by
          by_contra hcon
          rw [if_neg hcon] at hx
          exact absurd hx (by simp)
        rw [if_pos hk2879, Option.some.injEq] at hx
        subst hx
        have hold : (List.replicate 2880 zeroEntry)[k + 1]? = some zeroEntry := by
          rw [List.getElem?_replicate, if_pos (by omega)]
        have := htr.crash_keeps_other_slots oddEntry LogOutcome.good _ hdata (k + 1) zeroEntry
          hk hold (by
            rw [hmax, hlen0, Nat.mod_eq_of_lt (by omega : k + 1 < 2880)]
            omega)
        rw [hmax] at this
        exact this)
  have hmax' := htr.restart_max_entries
    (writeAt d 0 oddEntry.toBytes) zeroMeta
  have hbefore := htr.readAll hwf0 (by rw [hsucc]; exact List.cons_ne_nil _ _) []
  rw [hmax, hlen0, Nat.sub_self, List.drop_zero] at hbefore
  have hafter := htr'.readAll hwf1 (List.cons_ne_nil _ _) []
  rw [hmax', hmax, hlen1, Nat.sub_self, List.drop_zero] at hafter
  refine ⟨_, hdata, hok, hbefore, hafter, ?_⟩
  rw [hafter, hbefore, hsucc]
  intro hcontra
  have h1 := (Prod.mk.injEq _ _ _ _ ▸ hcontra).2
  have h2 := List.head_eq_of_cons_eq h1
  exact absurd h2 (by decide)

/-- Witness for C3 (amended): a log holding two entries, an interrupted append of a third
whose data write completed. -/
theorem C3_crash_before_header_not_full_witness :
    ∃ file,
      logEntryData (logAll (firstBoot zeroMeta).2 [stampedEntry 1, stampedEntry 2]).2.1
        (logAll (firstBoot zeroMeta).2 [stampedEntry 1, stampedEntry 2]).2.2 oddEntry
        LogOutcome.good = some file ∧
      (restart zeroMeta
        ⟨some file, (logAll (firstBoot zeroMeta).2 [stampedEntry 1, stampedEntry 2]).2.2.index⟩
        BeginOutcome.good).1 = true ∧
      readAllEntries
        (restart zeroMeta
          ⟨some file,
            (logAll (firstBoot zeroMeta).2 [stampedEntry 1, stampedEntry 2]).2.2.index⟩
          BeginOutcome.good).2.1
        (restart zeroMeta
          ⟨some file,
            (logAll (firstBoot zeroMeta).2 [stampedEntry 1, stampedEntry 2]).2.2.index⟩
          BeginOutcome.good).2.2 ReadOutcome.good []
        = readAllEntries (logAll (firstBoot zeroMeta).2 [stampedEntry 1, stampedEntry 2]).2.1
          (logAll (firstBoot zeroMeta).2 [stampedEntry 1, stampedEntry 2]).2.2
          ReadOutcome.good [] := by
  have hwf : ∀ x ∈ [stampedEntry 1, stampedEntry 2], x.WF := by
    intro x hx
    simp only [List.mem_cons, List.mem_nil_iff, or_false] at hx
    rcases hx with rfl | rfl <;> exact stampedEntry_WF _ (by norm_num)
  obtain ⟨-, -, htr⟩ := firstBoot_logAll zeroMeta [stampedEntry 1, stampedEntry 2] hwf
  obtain ⟨d, hd, -, -⟩ := htr.data
  have hdata := logEntryData_good
    (logAll (firstBoot zeroMeta).2 [stampedEntry 1, stampedEntry 2]).2.1 _ oddEntry d hd
  have hroom : [stampedEntry 1, stampedEntry 2].length
      < (firstBoot zeroMeta).2.1.meta_.max_entries := by
    rw [(firstBoot_tracks zeroMeta).2.1]
    decide
  obtain ⟨h1, h2⟩ := C3_crash_before_header_not_full zeroMeta zeroMeta
    [stampedEntry 1, stampedEntry 2] [] oddEntry LogOutcome.good _ hwf hroom hdata
  exact ⟨_, hdata, h1, h2⟩

/-! ## The power field -/

theorem shl5_or (a b : Nat) (hb : b < 32) : a <<< 5 ||| b = 32 * a + b := by
  rw [Nat.shiftLeft_eq]
  have h := Nat.mul_add_lt_is_or (i := 5) hb a
  simp only [Nat.reducePow] at h
  have e : a * 2 ^ 5 = 32 * a := by omega
  rw [e, ← h]

theorem batt_bits_eq (battery_mv : Nat) :
    (batt_bits battery_mv).toNat = clampMv battery_mv - 1600 := by
  simp only [batt_bits, clampMv]
  split <;> split <;> split <;> split <;> omega

theorem tx_bits_eq (tx_dbm : Int) : (tx_bits tx_dbm).toNat = txCode tx_dbm := by
  simp only [tx_bits, txCode]
  split <;> split <;> omega

/-! ## C20: the power field -/

/-- C20: for every battery voltage and transmit power (in particular every `uint16_t` and
`int8_t` value) `encodePower` returns `((clamp(mv,1600,3646) - 1600) << 5) |
clamp((dbm + 40) / 2, 0, 31)` with the division truncating toward zero; the value is below
2^16 both before and after the cast, `(result >> 5) + 1600` is the clamped voltage and
`result & 31` is the clamped transmit-power code. -/
theorem C20_encodePower_packs (battery_mv : Nat) (tx_dbm : Int) :
    encodePower battery_mv tx_dbm = ((clampMv battery_mv - 1600) <<< 5) ||| txCode tx_dbm ∧
    encodePower battery_mv tx_dbm < 65536 ∧
    ((clampMv battery_mv - 1600) <<< 5) ||| txCode tx_dbm < 65536 ∧
    (encodePower battery_mv tx_dbm >>> 5) + 1600 = clampMv battery_mv ∧
    encodePower battery_mv tx_dbm &&& 31 = txCode tx_dbm := by
  have htx : txCode tx_dbm < 32 := by
    unfold txCode
    omega
  have hmvc : clampMv battery_mv - 1600 ≤ 2046 := by
    unfold clampMv
    omega
  have hclamp : 1600 ≤ clampMv battery_mv := by
    unfold clampMv
    omega
  have hspec := shl5_or (clampMv battery_mv - 1600) (txCode tx_dbm) htx
  have henc : encodePower battery_mv tx_dbm
      = 32 * (clampMv battery_mv - 1600) + txCode tx_dbm := by
    unfold encodePower
    rw [batt_bits_eq, tx_bits_eq, hspec]
    omega
  refine ⟨by rw [henc, hspec], by rw [henc]; omega, by rw [hspec]; omega, ?_, ?_⟩
  · rw [henc, Nat.shiftRight_eq_div_pow]
    omega
  · rw [henc]
    have h31 : ∀ x : Nat, x &&& 31 = x % 32 := fun x => Nat.and_pow_two_sub_one_eq_mod x 5
    rw [h31]
    omega

theorem createNewMetadata_max_entries (s : HistoryLog) (fs : FS) (o : CreateOutcome) :
    (createNewMetadata s fs o).2.1.meta_.max_entries = computeMaxEntries := by
  unfold createNewMetadata
  by_cases h : o.dataOpenOk
  · simp [h, saveMetadata_meta, calculateChecksum]
  · simp [h]

/-! ## C19: capacity -/

/-- C19: whatever the outcome of its storage calls, `createNewMetadata` sets the capacity to
`min(storage_budget / record_size, days_cap * 24 * 60 / interval_minutes)` in integer
arithmetic with `storage_budget = 128 * 1024 - 4096`; in the default configuration this is
2880 entries, and `capacity * record_size` does not exceed the storage budget. -/
theorem C19_capacity_formula (s : HistoryLog) (fs : FS) (o : CreateOutcome) :
    (createNewMetadata s fs o).2.1.meta_.max_entries
      = min ((HISTORY_FS_SIZE_KB * 1024 - 4096) / sizeof_HistoryEntry)
          (HISTORY_MAX_DAYS * 24 * 60 / (HISTORY_INTERVAL_SEC / 60)) ∧
    HISTORY_FS_SIZE_KB * 1024 - 4096 = 128 * 1024 - 4096 ∧
    (createNewMetadata s fs o).2.1.meta_.max_entries = 2880 ∧
    (createNewMetadata s fs o).2.1.meta_.max_entries * sizeof_HistoryEntry
      ≤ 128 * 1024 - 4096 := by
  rw [createNewMetadata_max_entries, computeMaxEntries_eq]
  exact ⟨by decide, by decide, rfl, by decide⟩

/-! ## C17: unrecognised writes -/

/-- C17: an inbound write whose length is not 11, or whose third byte is neither 0x11 nor
0x12, leaves the whole world as it was: no notification is emitted and the handler state,
the log object and the storage are unchanged. -/
theorem C17_unrecognised_write_ignored (w : World) (toRx : Bool) (value : List Nat)
    (millis : Nat) (so : SaveOutcome) (ro : ReadOutcome)
    (h : value.length ≠ 11 ∨ (value.getD 2 0 ≠ 0x11 ∧ value.getD 2 0 ≠ 0x12)) :
    onWrite w toRx value millis so ro = w := by
  unfold onWrite
  rcases h with h | ⟨h1, h2⟩
  · simp [h]
  · simp only [List.getD_eq_getElem?_getD] at h1 h2
    simp [h1, h2]

/-! ## C12: failed data writes -/

/-- C12: for a log of non-zero capacity (the slot computation of line 110 divides by the
capacity): when the data file is missing or cannot be opened, the seek fails, or the data
write returns fewer bytes than the record size, `logEntry` returns false, the log object
(header, clock offset) is exactly what it was, the index file is untouched, and the next
append targets the same slot, which lies below the capacity once the log holds an entry. -/
theorem C12_failed_data_write_keeps_header (s : HistoryLog) (fs : FS) (e : HistoryEntry)
    (o : LogOutcome) (hcap : 0 < s.meta_.max_entries)
    (h : fs.data = none ∨ o.dataOpenOk = false ∨ o.seekOk = false ∨
      o.dataWritten < sizeof_HistoryEntry) :
    (logEntry s fs e o).1 = false ∧ (logEntry s fs e o).2.1 = s ∧
    (logEntry s fs e o).2.2.index = fs.index ∧
    writeIndex (logEntry s fs e o).2.1.meta_ = writeIndex s.meta_ ∧
    (0 < s.meta_.entry_count → writeIndex (logEntry s fs e o).2.1.meta_ < s.meta_.max_entries) := by
  have key : (logEntry s fs e o).1 = false ∧ (logEntry s fs e o).2.1 = s ∧
      (logEntry s fs e o).2.2.index = fs.index := by
    unfold logEntry logEntryData
    by_cases hi : s.initialized_
    · rcases h with h | h | h | h
      · simp [hi, h]
      · cases hd : fs.data <;> simp [hi, h, hd]
      · cases hd : fs.data <;> by_cases ho : o.dataOpenOk <;> simp [hi, h, hd, ho]
      · have hne : min o.dataWritten sizeof_HistoryEntry ≠ sizeof_HistoryEntry := by
          rw [min_eq_left (le_of_lt h)]; exact ne_of_lt h
        cases hd : fs.data <;> by_cases ho : o.dataOpenOk <;> by_cases hs : o.seekOk <;>
          simp [hi, hd, ho, hs, hne]
    · simp [hi]
  refine ⟨key.1, key.2.1, key.2.2, by rw [key.2.1], ?_⟩
  intro hc
  rw [key.2.1]
  unfold writeIndex
  rw [if_pos hc]
  exact Nat.mod_lt _ hcap

theorem saveMetadata_ok_iff (s : HistoryLog) (fs : FS) (o : SaveOutcome) :
    (saveMetadata s fs o).1 = true ↔
      (o.openOk = true ∧ sizeof_HistoryMetadata ≤ o.written) := by
  unfold saveMetadata
  by_cases h : o.openOk
  · simp [h]
  · simp [h]

theorem createNewMetadata_ok_iff (s : HistoryLog) (fs : FS) (o : CreateOutcome) :
    (createNewMetadata s fs o).1 = true ↔
      (o.dataOpenOk = true ∧ o.save.openOk = true ∧ sizeof_HistoryMetadata ≤ o.save.written) := by
  unfold createNewMetadata
  by_cases h : o.dataOpenOk
  · simp [h, saveMetadata_ok_iff]
  · simp [h]

theorem begin_ok_iff (s : HistoryLog) (fs : FS) (o : BeginOutcome)
    (hm : o.mount ≠ MountResult.failed) :
    (begin s fs o).1 = true ↔
      ((loadMetadata s (if o.mount = MountResult.formatted then ⟨none, none⟩ else fs)
          o.load).1 = true ∨
        (o.create.dataOpenOk = true ∧ o.create.save.openOk = true ∧
          sizeof_HistoryMetadata ≤ o.create.save.written)) := by
  have hen : ¬ HISTORY_LOG_ENABLE = 0 := by decide
  rw [← createNewMetadata_ok_iff
    (loadMetadata s (if o.mount = MountResult.formatted then ⟨none, none⟩ else fs) o.load).2
    (if o.mount = MountResult.formatted then ⟨none, none⟩ else fs) o.create]
  unfold begin
  rw [if_neg hen]
  cases hmo : o.mount with
  | failed => exact absurd hmo hm
  | mounted =>
    simp only [reduceCtorEq, if_false]
    by_cases hl : (loadMetadata s fs o.load).1 = true
    · simp [hl]
    · by_cases hc : (createNewMetadata (loadMetadata s fs o.load).2 fs o.create).1 = true
      · simp [hl, hc]
      · simp [hl, hc]
  | formatted =>
    simp only [if_true]
    by_cases hl : (loadMetadata s ⟨none, none⟩ o.load).1 = true
    · simp [hl]
    · by_cases hc : (createNewMetadata (loadMetadata s ⟨none, none⟩ o.load).2 ⟨none, none⟩
          o.create).1 = true
      · simp [hl, hc]
      · simp [hl, hc]

theorem begin_mount_failed (s : HistoryLog) (fs : FS) (o : BeginOutcome)
    (hm : o.mount = MountResult.failed) : begin s fs o = (false, s, fs) := by
  unfold begin
  simp [hm]


/-! ## C11: when `begin()` succeeds -/

/-- C11 (amended): `begin()` returns true exactly when the mount does not fail and either
the stored header is accepted or the reinitialisation succeeds, that is the data file can
be opened for writing and the 40-byte header is written in full; the outcomes of the
zero-fill writes play no part. -/
theorem C11_begin_true_iff (s : HistoryLog) (fs : FS) (o : BeginOutcome) :
    (begin s fs o).1 = true ↔
      (o.mount ≠ MountResult.failed ∧
        ((loadMetadata s (if o.mount = MountResult.formatted then ⟨none, none⟩ else fs)
            o.load).1 = true ∨
          (o.create.dataOpenOk = true ∧ o.create.save.openOk = true ∧
            sizeof_HistoryMetadata ≤ o.create.save.written))) := by
  by_cases hm : o.mount = MountResult.failed
  · rw [begin_mount_failed s fs o hm]
    simp [hm]
  · rw [begin_ok_iff s fs o hm]
    simp [hm]

/-- C11 (as stated) fails: on mounted empty storage (header absent), `begin()` returns false
when the data file cannot be opened for writing, and also when the header file cannot be
opened. -/
theorem C11_begin_fails_when_reinit_fails :
    (begin (HistoryLog.new zeroMeta) ⟨none, none⟩
      ⟨MountResult.mounted, LoadOutcome.good, ⟨false, fun _ => 256, SaveOutcome.good⟩⟩).1
      = false ∧
    (begin (HistoryLog.new zeroMeta) ⟨none, none⟩
      ⟨MountResult.mounted, LoadOutcome.good, ⟨true, fun _ => 256, ⟨false, 0⟩⟩⟩).1
      = false := by
  constructor
  · rw [Bool.eq_false_iff]
    intro h
    rw [begin_ok_iff _ _ _ (by simp)] at h
    simp [loadMetadata] at h
  · rw [Bool.eq_false_iff]
    intro h
    rw [begin_ok_iff _ _ _ (by simp)] at h
    simp [loadMetadata] at h

theorem setRTCOffset_good (s : HistoryLog) (fs : FS) (x : Nat) :
    setRTCOffset s fs x SaveOutcome.good =
      (⟨s.initialized_,
          calculateChecksum ⟨HISTORY_MAGIC, 1, s.meta_.entry_count, s.meta_.oldest_index,
            s.meta_.newest_index, s.meta_.max_entries, x, s.meta_.last_write_time,
            s.meta_.checksum, s.meta_.reserved⟩,
          x, s.last_write_time_⟩,
        ⟨fs.data,
          some (calculateChecksum ⟨HISTORY_MAGIC, 1, s.meta_.entry_count, s.meta_.oldest_index,
            s.meta_.newest_index, s.meta_.max_entries, x, s.meta_.last_write_time,
            s.meta_.checksum, s.meta_.reserved⟩).toBytes⟩) := by
  simp only [setRTCOffset, saveMetadata_good]
  rfl

/-! ## Header saves that do not complete -/

theorem loadMetadata_short (s : HistoryLog) (d : Option (List Nat)) (file : List Nat)
    (o : LoadOutcome) (h : file.length < 40) : (loadMetadata s ⟨d, some file⟩ o).1 = false := by
  have e40 : sizeof_HistoryMetadata = 40 := rfl
  have hlen : (readAt file 0 (min 40 o.readLimit)).length ≠ 40 := by
    unfold readAt
    simp only [List.length_take, List.length_drop]
    omega
  unfold loadMetadata
  by_cases ho : o.openOk
  · simp [ho, e40, hlen]
  · simp [ho]

theorem setRTCOffset_complete (s : HistoryLog) (fs : FS) (x : Nat) (o : SaveOutcome)
    (ho : o.openOk = true) (hw : 40 ≤ o.written) :
    setRTCOffset s fs x o = setRTCOffset s fs x SaveOutcome.good := by
  have e40 : sizeof_HistoryMetadata = 40 := rfl
  simp only [setRTCOffset, saveMetadata, ho, SaveOutcome.good, e40, min_eq_right hw,
    min_self]

theorem setRTCOffset_memory (s : HistoryLog) (fs : FS) (x : Nat) (o : SaveOutcome) :
    (setRTCOffset s fs x o).1 =
      ⟨s.initialized_,
        calculateChecksum ⟨HISTORY_MAGIC, 1, s.meta_.entry_count, s.meta_.oldest_index,
          s.meta_.newest_index, s.meta_.max_entries, x, s.meta_.last_write_time,
          s.meta_.checksum, s.meta_.reserved⟩,
        x, s.last_write_time_⟩ ∧
    (setRTCOffset s fs x o).2.data = fs.data ∧
    (setRTCOffset s fs x o).2.index =
      if o.openOk = true then
        some ((setRTCOffset s fs x o).1.meta_.toBytes.take (min o.written 40))
      else fs.index := by
  have e40 : sizeof_HistoryMetadata = 40 := rfl
  unfold setRTCOffset saveMetadata
  by_cases ho : o.openOk
  · simp only [ho, e40]
    refine ⟨rfl, rfl, ?_⟩
    simp
  · simp only [ho]
    refine ⟨rfl, rfl, ?_⟩
    simp

/-! ## C18: `setRTCOffset` -/

/-- C18 (amended): for every outcome of the header save, `setRTCOffset(x)` sets the in-memory
clock offset and the clock offset of the in-memory header to `x` and leaves entry count,
oldest and newest index, capacity, last-write time and the data file unchanged.  When the
index file cannot be opened it is left as it was; when the save completes (file opened, 40
bytes written) the index file holds the image of the new header, and a restart accepts it and
restores offset `x`; when fewer than 40 bytes are written the index file is cut short and no
later load accepts it. -/
theorem C18_set_offset_persists (s : HistoryLog) (fs : FS) (x : Nat) (g : HistoryMetadata)
    (o : SaveOutcome) (hwf : s.meta_.WF) (hx : x < 4294967296) :
    (setRTCOffset s fs x o).1.rtc_offset_ = x ∧
    (setRTCOffset s fs x o).1.meta_.rtc_offset = x ∧
    (setRTCOffset s fs x o).1.meta_.entry_count = s.meta_.entry_count ∧
    (setRTCOffset s fs x o).1.meta_.oldest_index = s.meta_.oldest_index ∧
    (setRTCOffset s fs x o).1.meta_.newest_index = s.meta_.newest_index ∧
    (setRTCOffset s fs x o).1.meta_.max_entries = s.meta_.max_entries ∧
    (setRTCOffset s fs x o).1.meta_.last_write_time = s.meta_.last_write_time ∧
    (setRTCOffset s fs x o).2.data = fs.data ∧
    (o.openOk = false → (setRTCOffset s fs x o).2.index = fs.index) ∧
    (o.openOk = true → 40 ≤ o.written →
      (setRTCOffset s fs x o).2.index = some (setRTCOffset s fs x o).1.meta_.toBytes ∧
      (restart g (setRTCOffset s fs x o).2 BeginOutcome.good).1 = true ∧
      (restart g (setRTCOffset s fs x o).2 BeginOutcome.good).2.1.rtc_offset_ = x ∧
      (restart g (setRTCOffset s fs x o).2 BeginOutcome.good).2.1.meta_
        = (setRTCOffset s fs x o).1.meta_) ∧
    (o.openOk = true → o.written < 40 →
      ∀ (s0 : HistoryLog) (lo : LoadOutcome),
        (loadMetadata s0 (setRTCOffset s fs x o).2 lo).1 = false) := by
  obtain ⟨m1, m2, m3⟩ := setRTCOffset_memory s fs x o
  refine ⟨by rw [m1], by rw [m1]; rfl, by rw [m1]; rfl, by rw [m1]; rfl, by rw [m1]; rfl,
    by rw [m1]; rfl, by rw [m1]; rfl, m2, ?_, ?_, ?_⟩
  · intro ho
    rw [m3, ho]
    simp
  · intro ho hw
    rw [setRTCOffset_complete s fs x o ho hw, setRTCOffset_good]
    obtain ⟨w0, w1, w2, w3, w4, w5, w6, w7, w8, w9⟩ := hwf
    have hwf' : (calculateChecksum ⟨HISTORY_MAGIC, 1, s.meta_.entry_count,
        s.meta_.oldest_index, s.meta_.newest_index, s.meta_.max_entries, x,
        s.meta_.last_write_time, s.meta_.checksum, s.meta_.reserved⟩).WF :=
      ⟨(by show HISTORY_MAGIC < 4294967296; decide), (by show 1 < 4294967296; decide),
        w2, w3, w4, w5, hx, w7, calculateChecksum_checksum_lt _, w9⟩
    have hload := loadMetadata_good (HistoryLog.new g) fs.data _ hwf' rfl
      (verifyChecksum_calculateChecksum _)
    have hbegin := begin_of_load_ok (HistoryLog.new g) _ _ BeginOutcome.good rfl hload
    unfold restart
    rw [hbegin]
    exact ⟨rfl, rfl, rfl, rfl⟩
  · intro ho hw s0 lo
    have hidx := m3
    rw [if_pos ho] at hidx
    have hfs : (setRTCOffset s fs x o).2 =
        ⟨(setRTCOffset s fs x o).2.data,
          some ((setRTCOffset s fs x o).1.meta_.toBytes.take (min o.written 40))⟩ := by
      rw [← hidx]
    rw [hfs]
    apply loadMetadata_short
    rw [List.length_take, HistoryMetadata.hdr_length]
    omega

theorem firstBoot_restart (g g' : HistoryMetadata) (d : Option (List Nat)) :
    restart g' ⟨d, (firstBoot g).2.2.index⟩ BeginOutcome.good =
      (true,
        ⟨true, calculateChecksum ⟨HISTORY_MAGIC, 1, 0, 0, 0, 2880, 0, 0, 0, 0⟩, 0, 0⟩,
        ⟨d, (firstBoot g).2.2.index⟩) := by
  rw [firstBoot_eq]
  have hwf : (calculateChecksum ⟨HISTORY_MAGIC, 1, 0, 0, 0, 2880, 0, 0, 0, 0⟩).WF :=
    ⟨by decide, by decide, by decide, by decide, by decide, by decide, by decide, by decide,
      calculateChecksum_checksum_lt _, by decide⟩
  have hload := loadMetadata_good (HistoryLog.new g') d _ hwf rfl
    (verifyChecksum_calculateChecksum _)
  have hbegin := begin_of_load_ok (HistoryLog.new g') _ _ BeginOutcome.good rfl hload
  unfold restart
  rw [hbegin]
  rfl

theorem loadMetadata_failed_frame (s : HistoryLog) (fs : FS) (o : LoadOutcome)
    (h : (loadMetadata s fs o).1 = false) :
    (loadMetadata s fs o).2.rtc_offset_ = s.rtc_offset_ ∧
    (loadMetadata s fs o).2.last_write_time_ = s.last_write_time_ ∧
    (loadMetadata s fs o).2.initialized_ = s.initialized_ := by
  unfold loadMetadata at h ⊢
  cases hi : fs.index with
  | none => simp
  | some file =>
    simp only [hi] at h ⊢
    split_ifs at h ⊢ <;> exact ⟨rfl, rfl, rfl⟩

theorem restart_of_short_index (g : HistoryMetadata) (d : Option (List Nat)) (file : List Nat)
    (h : file.length < 40) :
    restart g ⟨d, some file⟩ BeginOutcome.good =
      (true,
        ⟨true, calculateChecksum ⟨HISTORY_MAGIC, 1, 0, 0, 0, 2880, 0, 0, 0, 0⟩, 0, 0⟩,
        ⟨some (List.replicate 57600 0),
          some (calculateChecksum ⟨HISTORY_MAGIC, 1, 0, 0, 0, 2880, 0, 0, 0, 0⟩).toBytes⟩) := by
  have hl := loadMetadata_short (HistoryLog.new g) d file BeginOutcome.good.load h
  have hb := begin_of_load_failed (HistoryLog.new g) ⟨d, some file⟩ BeginOutcome.good rfl hl
  have hc := createNewMetadata_good
    (loadMetadata (HistoryLog.new g) ⟨d, some file⟩ BeginOutcome.good.load).2 ⟨d, some file⟩
  have hr := loadMetadata_failed_frame (HistoryLog.new g) ⟨d, some file⟩
    BeginOutcome.good.load hl
  unfold restart
  rw [hb]
  have hc' : createNewMetadata
      (loadMetadata (HistoryLog.new g) ⟨d, some file⟩ BeginOutcome.good.load).2 ⟨d, some file⟩
      BeginOutcome.good.create = _ := hc
  rw [hc']
  simp only [if_true]
  rw [hr.1, hr.2.1]
  rfl

/-- C18 (as stated) fails when the header save does not complete.  After a first boot
(persisted clock offset 0), `setRTCOffset(1699999900)` with an index file that cannot be
opened sets the in-memory offset but leaves the persisted header as it was, and a restart
restores offset 0; with a save that writes 10 of the 40 bytes the index file is cut short,
and a restart does not accept it and creates a new log with offset 0. -/
theorem C18_failed_save_loses_offset :
    (setRTCOffset (firstBoot zeroMeta).2.1 (firstBoot zeroMeta).2.2 1699999900
      ⟨false, 0⟩).1.rtc_offset_ = 1699999900 ∧
    (setRTCOffset (firstBoot zeroMeta).2.1 (firstBoot zeroMeta).2.2 1699999900
      ⟨false, 0⟩).2.index = (firstBoot zeroMeta).2.2.index ∧
    (restart zeroMeta (setRTCOffset (firstBoot zeroMeta).2.1 (firstBoot zeroMeta).2.2 1699999900
      ⟨false, 0⟩).2 BeginOutcome.good).1 = true ∧
    (restart zeroMeta (setRTCOffset (firstBoot zeroMeta).2.1 (firstBoot zeroMeta).2.2 1699999900
      ⟨false, 0⟩).2 BeginOutcome.good).2.1.rtc_offset_ = 0 ∧
    (setRTCOffset (firstBoot zeroMeta).2.1 (firstBoot zeroMeta).2.2 1699999900
      ⟨true, 10⟩).1.rtc_offset_ = 1699999900 ∧
    (loadMetadata (HistoryLog.new zeroMeta)
      (setRTCOffset (firstBoot zeroMeta).2.1 (firstBoot zeroMeta).2.2 1699999900 ⟨true, 10⟩).2
      LoadOutcome.good).1 = false ∧
    (restart zeroMeta (setRTCOffset (firstBoot zeroMeta).2.1 (firstBoot zeroMeta).2.2 1699999900
      ⟨true, 10⟩).2 BeginOutcome.good).1 = true ∧
    (restart zeroMeta (setRTCOffset (firstBoot zeroMeta).2.1 (firstBoot zeroMeta).2.2 1699999900
      ⟨true, 10⟩).2 BeginOutcome.good).2.1.rtc_offset_ = 0 := by
  obtain ⟨a1, a2, a3⟩ := setRTCOffset_memory (firstBoot zeroMeta).2.1 (firstBoot zeroMeta).2.2
    1699999900 ⟨false, 0⟩
  obtain ⟨b1, b2, b3⟩ := setRTCOffset_memory (firstBoot zeroMeta).2.1 (firstBoot zeroMeta).2.2
    1699999900 ⟨true, 10⟩
  have a3' : (setRTCOffset (firstBoot zeroMeta).2.1 (firstBoot zeroMeta).2.2 1699999900
      ⟨false, 0⟩).2.index = (firstBoot zeroMeta).2.2.index := by
    rw [a3]; simp
  have afs : (setRTCOffset (firstBoot zeroMeta).2.1 (firstBoot zeroMeta).2.2 1699999900
      ⟨false, 0⟩).2 = ⟨(firstBoot zeroMeta).2.2.data, (firstBoot zeroMeta).2.2.index⟩ := by
    rw [← a2, ← a3']
  have b3' : (setRTCOffset (firstBoot zeroMeta).2.1 (firstBoot zeroMeta).2.2 1699999900
      ⟨true, 10⟩).2.index =
      some ((setRTCOffset (firstBoot zeroMeta).2.1 (firstBoot zeroMeta).2.2 1699999900
        ⟨true, 10⟩).1.meta_.toBytes.take 10) := by
    rw [b3]; simp
  have bfs : (setRTCOffset (firstBoot zeroMeta).2.1 (firstBoot zeroMeta).2.2 1699999900
      ⟨true, 10⟩).2 = ⟨(firstBoot zeroMeta).2.2.data,
        some ((setRTCOffset (firstBoot zeroMeta).2.1 (firstBoot zeroMeta).2.2 1699999900
          ⟨true, 10⟩).1.meta_.toBytes.take 10)⟩ := by
    rw [← b2, ← b3']
  have hshort : ((setRTCOffset (firstBoot zeroMeta).2.1 (firstBoot zeroMeta).2.2 1699999900
      ⟨true, 10⟩).1.meta_.toBytes.take 10).length < 40 := by
    rw [List.length_take, HistoryMetadata.hdr_length]
    omega
  refine ⟨by rw [a1], a3', ?_, ?_, by rw [b1], ?_, ?_, ?_⟩
  · rw [afs, firstBoot_restart]
  · rw [afs, firstBoot_restart]
  · rw [bfs]
    exact loadMetadata_short _ _ _ _ hshort
  · rw [bfs, restart_of_short_index _ _ _ hshort]
  · rw [bfs, restart_of_short_index _ _ _ hshort]

/-! ## The read loop -/

theorem readLoop_spec (m : HistoryMetadata) (file : List Nat) (o : ReadOutcome)
    (start_ts end_ts limit : Nat) (hlim : limit < 4294967296) :
    ∀ (n i : Nat) (acc : List HistoryEntry) (rc : Nat), (limit > 0 → rc < limit) →
      readLoop m file o start_ts end_ts limit n i acc rc =
        acc ++ (if limit > 0 then
          (((List.range' i n).filterMap (visitedEntry m file o)).filter
            (inRange start_ts end_ts)).take (limit - rc)
          else ((List.range' i n).filterMap (visitedEntry m file o)).filter
            (inRange start_ts end_ts)) := by
  intro n
  induction n with
  | zero =>
    intro i acc rc _
    simp [readLoop]
  | succ n ih =>
    intro i acc rc hrc
    rw [List.range'_succ, List.filterMap_cons]
    simp only [readLoop]
    by_cases hs : o.seekOk i = true
    · by_cases hl : (readAt file (slotOffset (((m.oldest_index + i) % U32) % m.max_entries))
          (min sizeof_HistoryEntry (o.readLimit i))).length = sizeof_HistoryEntry
      · have hv : visitedEntry m file o i = some (HistoryEntry.ofBytes
            (readAt file (slotOffset (((m.oldest_index + i) % U32) % m.max_entries))
              (min sizeof_HistoryEntry (o.readLimit i)))) := by
          simp [visitedEntry, hs, hl]
        rw [hv]
        simp only [hs, Bool.not_true, Bool.false_eq_true, if_false, hl, bne_self_eq_false]
        generalize HistoryEntry.ofBytes
          (readAt file (slotOffset (((m.oldest_index + i) % U32) % m.max_entries))
            (min sizeof_HistoryEntry (o.readLimit i))) = e
        by_cases hp : e.timestamp ≥ start_ts ∧ e.timestamp ≤ end_ts
        · have hin : inRange start_ts end_ts e = true := by
            simp only [inRange, decide_eq_true_eq]
            exact ⟨hp.1, hp.2⟩
          rw [if_pos hp, List.filter_cons_of_pos hin]
          by_cases hpos : limit > 0
          · have hrc' := hrc hpos
            have hmod : (rc + 1) % U32 = rc + 1 := Nat.mod_eq_of_lt (by unfold U32; omega)
            rw [hmod]
            simp only [hpos, true_and, if_true]
            by_cases hbr : rc + 1 ≥ limit
            · have h1 : limit - rc = 1 := by omega
              rw [if_pos hbr, h1]
              simp
            · rw [if_neg hbr, ih (i + 1) (acc ++ [e]) (rc + 1) (fun _ => by omega)]
              simp only [hpos, if_true]
              have h1 : limit - rc = (limit - (rc + 1)) + 1 := by omega
              rw [h1, List.take_succ_cons, List.append_assoc]
              rfl
          · have h0 : limit = 0 := by omega
            subst h0
            simp only [gt_iff_lt, Nat.lt_irrefl, false_and, if_false]
            rw [ih (i + 1) (acc ++ [e]) _ (fun h => absurd h (Nat.lt_irrefl 0))]
            simp
        · have hin : inRange start_ts end_ts e = false := by
            simp only [inRange, decide_eq_false_iff_not]
            intro h
            exact hp ⟨h.1, h.2⟩
          rw [if_neg hp, List.filter_cons_of_neg (by simp [hin])]
          exact ih (i + 1) acc rc hrc
      · have hv : visitedEntry m file o i = none := by
          simp [visitedEntry, hs, hl]
        rw [hv]
        have hb : ((readAt file (slotOffset (((m.oldest_index + i) % U32) % m.max_entries))
            (min sizeof_HistoryEntry (o.readLimit i))).length != sizeof_HistoryEntry) = true := by
          simpa using hl
        simp only [hs, Bool.not_true, Bool.false_eq_true, if_false, hb, if_true]
        exact ih (i + 1) acc rc hrc
    · have hv : visitedEntry m file o i = none := by
        simp [visitedEntry, hs]
      have hs' : o.seekOk i = false := by simpa using hs
      rw [hv]
      simp only [hs', Bool.not_false, if_true]
      exact ih (i + 1) acc rc hrc

theorem readEntries_refines (s : HistoryLog) (fs : FS) (o : ReadOutcome)
    (file : List Nat) (start_ts end_ts limit : Nat) (entries0 : List HistoryEntry)
    (hinit : s.initialized_ = true) (hne : s.meta_.entry_count ≠ 0)
    (hfile : fs.data = some file) (hopen : o.openOk = true) (hlim : limit < 4294967296) :
    readEntries s fs o start_ts end_ts entries0 limit
      = (true, readRangeSpec s.meta_ file o start_ts end_ts limit) := by
  have hcount : (if s.meta_.entry_count < s.meta_.max_entries then s.meta_.entry_count
      else s.meta_.max_entries) = min s.meta_.entry_count s.meta_.max_entries := by
    split <;> omega
  simp only [readEntries, hinit, hfile, hopen, Bool.not_true, Bool.false_or, beq_iff_eq, hne,
    if_false, hcount, readRangeSpec, List.range_eq_range']
  rw [readLoop_spec _ _ _ _ _ _ hlim _ _ _ _ (fun h => h)]
  simp


/-! ## C14: `readEntries` against `read_range` -/

/-- C14: on an initialized non-empty log whose data file opens, `readEntries` returns true
and exactly the result of `read_range` as the specification words it: the stored entries
visited from the oldest logical slot to the newest, those with `start_ts <= timestamp <=
end_ts` kept, cut to the first `limit` of them when `limit > 0` and not cut when
`limit = 0`. -/
theorem C14_readEntries_refines_spec (s : HistoryLog) (fs : FS) (o : ReadOutcome)
    (file : List Nat) (start_ts end_ts limit : Nat) (entries0 : List HistoryEntry)
    (hinit : s.initialized_ = true) (hne : s.meta_.entry_count ≠ 0)
    (hfile : fs.data = some file) (hopen : o.openOk = true) (hlim : limit < 4294967296) :
    readEntries s fs o start_ts end_ts entries0 limit
      = (true, readRangeSpec s.meta_ file o start_ts end_ts limit) ∧
    (∀ e ∈ (readEntries s fs o start_ts end_ts entries0 limit).2,
      start_ts ≤ e.timestamp ∧ e.timestamp ≤ end_ts) ∧
    (limit > 0 → (readEntries s fs o start_ts end_ts entries0 limit).2.length ≤ limit) ∧
    (limit = 0 → (readEntries s fs o start_ts end_ts entries0 limit).2
      = ((List.range (min s.meta_.entry_count s.meta_.max_entries)).filterMap
          (visitedEntry s.meta_ file o)).filter (inRange start_ts end_ts)) := by
  have h := readEntries_refines s fs o file start_ts end_ts limit entries0 hinit hne hfile hopen
    hlim
  rw [h]
  refine ⟨rfl, ?_, ?_, ?_⟩
  · intro e he
    simp only [readRangeSpec] at he
    have hmem : e ∈ ((List.range (min s.meta_.entry_count s.meta_.max_entries)).filterMap
        (visitedEntry s.meta_ file o)).filter (inRange start_ts end_ts) := by
      split at he
      · exact List.mem_of_mem_take he
      · exact he
    have := (List.mem_filter.mp hmem).2
    simpa [inRange] using this
  · intro hpos
    simp only [readRangeSpec, hpos, if_true, List.length_take]
    exact min_le_left _ _
  · intro h0
    simp [readRangeSpec, h0]

/-! ## Streaming -/

theorem int32Byte_eq (v : Int) :
    int32Byte v 24 = (toU32 v >>> 24) &&& 0xFF ∧ int32Byte v 16 = (toU32 v >>> 16) &&& 0xFF ∧
    int32Byte v 8 = (toU32 v >>> 8) &&& 0xFF ∧ int32Byte v 0 = toU32 v &&& 0xFF := by
  simp only [int32Byte, toU32, and_255, Nat.shiftRight_eq_div_pow, Int.shiftRight_eq_div_pow]
  norm_num
  refine ⟨?_, ?_, ?_, ?_⟩ <;> omega

theorem historyPacket_eq (channel timestamp : Nat) (value : Int) :
    historyPacket channel timestamp value = logValuePacket channel timestamp value := by
  obtain ⟨h1, h2, h3, h4⟩ := int32Byte_eq value
  simp only [historyPacket, logValuePacket, be32, h1, h2, h3, h4, RESP_PREFIX]
  rfl

theorem logValuePacket_length (channel timestamp : Nat) (value : Int) :
    (logValuePacket channel timestamp value).length = 11 := by
  simp [logValuePacket, be32]

theorem sendHistoryPacket_connected (w : World) (channel timestamp : Nat) (value : Int)
    (hc : w.nus.connected_ = true) (ht : w.nus.tx_char_ = true) :
    sendHistoryPacket w channel timestamp value
      = { w with sent := w.sent ++ [logValuePacket channel timestamp value] } := by
  have hlen := logValuePacket_length channel timestamp value
  have hgt : ¬ (logValuePacket channel timestamp value).length > NUS_MAX_PACKET_SIZE := by
    rw [hlen]; decide
  simp only [sendHistoryPacket, sendNotification, historyPacket_eq, hc, ht, Bool.not_true,
    Bool.or_self, Bool.false_eq_true, if_false, hgt]
  rw [List.take_of_length_le (le_refl _)]

theorem streamEntries_connected (start_timestamp : Nat) (es : List HistoryEntry) :
    ∀ w : World, w.nus.connected_ = true → w.nus.tx_char_ = true →
      streamEntries start_timestamp w es
        = { w with sent := w.sent ++ (es.filter (wanted start_timestamp)).flatMap entryPackets } := by
  induction es with
  | nil => intro w _ _; simp [streamEntries]
  | cons e es ih =>
    intro w hc ht
    simp only [streamEntries]
    by_cases hskip : start_timestamp > 0 ∧ e.timestamp < start_timestamp
    · have hw : wanted start_timestamp e = false := by
        simp only [wanted, decide_eq_false_iff_not]
        omega
      rw [if_pos hskip, ih w hc ht, List.filter_cons_of_neg (by simp [hw])]
    · have hw : wanted start_timestamp e = true := by
        simp only [wanted, decide_eq_true_eq]
        omega
      rw [if_neg hskip, List.filter_cons_of_pos hw]
      have hc' : ∀ snt, (⟨w.nus, w.log, w.fs, snt⟩ : World).nus.connected_ = true :=
        fun _ => hc
      have ht' : ∀ snt, (⟨w.nus, w.log, w.fs, snt⟩ : World).nus.tx_char_ = true :=
        fun _ => ht
      rw [sendHistoryPacket_connected w _ _ _ hc ht]
      rw [sendHistoryPacket_connected _ _ _ _ (hc' _) (ht' _)]
      rw [sendHistoryPacket_connected _ _ _ _ (hc' _) (ht' _)]
      rw [ih _ (hc' _) (ht' _)]
      simp [entryPackets, RESP_STREAM_TEMP, RESP_STREAM_HUM, RESP_STREAM_PRES,
        List.flatMap_cons]

theorem be32_decode (v : Nat) (hv : v < 4294967296) : parseTimestamp (be32 v) = v := by
  have h := parseTimestamp_be32 v [] hv
  rwa [List.append_nil] at h

theorem toI32_toU32 (v : Int) (h1 : -2147483648 ≤ v) (h2 : v < 2147483648) :
    toI32 (toU32 v) = v := by
  unfold toI32 toU32
  split <;> omega

theorem toU32_lt (v : Int) : toU32 v < 4294967296 := by
  unfold toU32; omega

theorem logValuePacket_decode (channel timestamp : Nat) (value : Int)
    (ht : timestamp < 4294967296) (h1 : -2147483648 ≤ value) (h2 : value < 2147483648) :
    (logValuePacket channel timestamp value).take 3 = [0x3A, channel, 0x10] ∧
    parseTimestamp (((logValuePacket channel timestamp value).drop 3).take 4) = timestamp ∧
    toI32 (parseTimestamp ((logValuePacket channel timestamp value).drop 7)) = value := by
  have e1 : ((logValuePacket channel timestamp value).drop 3).take 4 = be32 timestamp := by
    simp [logValuePacket, be32]
  have e2 : (logValuePacket channel timestamp value).drop 7 = be32 (toU32 value) := by
    simp [logValuePacket, be32]
  rw [e1, e2, be32_decode _ ht, be32_decode _ (toU32_lt _), toI32_toU32 _ h1 h2]
  exact ⟨by simp [logValuePacket], rfl, rfl⟩

theorem wire_values_in_range (e : HistoryEntry) (h : e.WF) :
    (-2147483648 ≤ temp_re e ∧ temp_re e < 2147483648) ∧
    (-2147483648 ≤ hum_re e ∧ hum_re e < 2147483648) ∧
    (-2147483648 ≤ pres_re e ∧ pres_re e < 2147483648) := by
  obtain ⟨-, ⟨a1, a2⟩, b, c, -⟩ := h
  have ht : temp_re e = if 0 ≤ e.temperature then e.temperature / 2
      else -((-e.temperature) / 2) := by
    unfold temp_re
    split
    · rename_i hpos
      exact Int.tdiv_eq_ediv hpos (by norm_num)
    · rename_i hneg
      have h1 := Int.tdiv_eq_ediv (a := -e.temperature) (b := 2) (by omega) (by norm_num)
      have h2 : Int.tdiv (-e.temperature) 2 = -(Int.tdiv e.temperature 2) :=
        Int.neg_tdiv e.temperature 2
      omega
  have hh : hum_re e = ((e.humidity / 4 : Nat) : Int) := (Int.ofNat_tdiv e.humidity 4).symm
  refine ⟨?_, ?_, ?_⟩
  · rw [ht]; split <;> omega
  · rw [hh]; omega
  · unfold pres_re; omega

/-! ## C16: the history stream -/

/-- C16: for a connected client and a log whose `readAllEntries` yields the non-empty
sequence `es`, READ_HISTORY with start timestamp `s` appends to the notifications, for each
entry in order with `s = 0` or `timestamp >= s`, the three packets temperature (0x30),
humidity (0x31), pressure (0x32) and changes nothing else; each packet has 11 bytes, starts
`3A channel 10`, and its bytes 3..6 and 7..10 decode (big-endian, two's complement) to the
timestamp and the rescaled value. -/
theorem C16_history_stream (w : World) (start_timestamp : Nat) (pad : List Nat)
    (o : ReadOutcome) (es : List HistoryEntry)
    (hc : w.nus.connected_ = true) (ht : w.nus.tx_char_ = true)
    (hs : start_timestamp < 4294967296)
    (hread : readAllEntries w.log w.fs o [] = (true, es)) (hne : es ≠ [])
    (hwf : ∀ e ∈ es, e.WF) :
    handleReadHistory w (be32 start_timestamp ++ pad) o
      = { w with sent := w.sent ++ (es.filter (wanted start_timestamp)).flatMap entryPackets } ∧
    ∀ e ∈ es,
      entryPackets e = [logValuePacket 0x30 e.timestamp (temp_re e),
        logValuePacket 0x31 e.timestamp (hum_re e),
        logValuePacket 0x32 e.timestamp (pres_re e)] ∧
      ∀ p ∈ entryPackets e, p.length = 11 ∧ p.getD 0 0 = 0x3A ∧ p.getD 2 0 = 0x10 ∧
        parseTimestamp ((p.drop 3).take 4) = e.timestamp ∧
        ((p.getD 1 0 = 0x30 ∧ toI32 (parseTimestamp (p.drop 7)) = temp_re e) ∨
         (p.getD 1 0 = 0x31 ∧ toI32 (parseTimestamp (p.drop 7)) = hum_re e) ∨
         (p.getD 1 0 = 0x32 ∧ toI32 (parseTimestamp (p.drop 7)) = pres_re e)) := by
  constructor
  · have hlen : (be32 start_timestamp ++ pad).length ≥ 4 := by simp [be32]
    have hne' : ¬ es.length = 0 := fun h => hne (List.length_eq_zero.mp h)
    simp only [handleReadHistory, hread, hlen, if_true, Bool.not_true, Bool.false_eq_true,
      if_false, beq_iff_eq, hne', parseTimestamp_be32 start_timestamp pad hs]
    exact streamEntries_connected start_timestamp es w hc ht
  · intro e he
    refine ⟨rfl, ?_⟩
    obtain ⟨r1, r2, r3⟩ := wire_values_in_range e (hwf e he)
    have hts := (hwf e he).1
    intro p hp
    simp only [entryPackets, List.mem_cons, List.mem_nil_iff, or_false] at hp
    rcases hp with rfl | rfl | rfl
    · obtain ⟨-, d2, d3⟩ := logValuePacket_decode 0x30 e.timestamp (temp_re e) hts r1.1 r1.2
      exact ⟨logValuePacket_length _ _ _, by simp [logValuePacket], by simp [logValuePacket],
        d2, Or.inl ⟨by simp [logValuePacket], d3⟩⟩
    · obtain ⟨-, d2, d3⟩ := logValuePacket_decode 0x31 e.timestamp (hum_re e) hts r2.1 r2.2
      exact ⟨logValuePacket_length _ _ _, by simp [logValuePacket], by simp [logValuePacket],
        d2, Or.inr (Or.inl ⟨by simp [logValuePacket], d3⟩)⟩
    · obtain ⟨-, d2, d3⟩ := logValuePacket_decode 0x32 e.timestamp (pres_re e) hts r3.1 r3.2
      exact ⟨logValuePacket_length _ _ _, by simp [logValuePacket], by simp [logValuePacket],
        d2, Or.inr (Or.inr ⟨by simp [logValuePacket], d3⟩)⟩

theorem filterMap_range'_eq {α : Type} (f : Nat → Option α) (xs : List α) :
    ∀ i, (∀ j x, xs[j]? = some x → f (i + j) = some x) →
      (List.range' i xs.length).filterMap f = xs := by
  induction xs with
  | nil => intro i _; simp
  | cons x xs ih =>
    intro i h
    rw [List.length_cons, List.range'_succ, List.filterMap_cons]
    have h0 := h 0 x (by simp)
    rw [Nat.add_zero] at h0
    rw [h0]
    simp only
    rw [ih (i + 1) (fun j y hy => by
      have := h (j + 1) y (by simpa using hy)
      rw [← this]; congr 1; omega)]

theorem Tracks.visited {s : HistoryLog} {fs : FS} {L : List HistoryEntry} (h : Tracks s fs L)
    (hwf : ∀ e ∈ L, e.WF) (d : List Nat) (hd : fs.data = some d) :
    (List.range (min s.meta_.entry_count s.meta_.max_entries)).filterMap
        (visitedEntry s.meta_ d ReadOutcome.good)
      = L.drop (L.length - s.meta_.max_entries) := by
  obtain ⟨d0, hd0, hlen, hslots⟩ := h.data
  have hdd : d0 = d := by rw [hd] at hd0; exact (Option.some.inj hd0).symm
  subst hdd
  have hM := h.cap_pos
  have hsmall := h.cap_small
  have hcount : min s.meta_.entry_count s.meta_.max_entries
      = (L.drop (L.length - s.meta_.max_entries)).length := by
    rw [h.count, List.length_drop]; omega
  rw [hcount, List.range_eq_range']
  apply filterMap_range'_eq
  intro j x hx
  rw [List.getElem?_drop] at hx
  have hjlt : L.length - s.meta_.max_entries + j < L.length :=
    (List.getElem?_eq_some.mp hx).1
  have hj : j < min L.length s.meta_.max_entries := by omega
  have hread := hslots _ x (by omega) hx
  rw [Nat.zero_add]
  have hidx := ring_slot_index L.length s.meta_.max_entries j s.meta_.oldest_index hM hsmall
    h.oldest hj
  have hsz : sizeof_HistoryEntry = 20 := rfl
  simp only [visitedEntry, ReadOutcome.good, if_true, hidx, Nat.min_self, hsz,
    slotOffset_of_lt _ _ (Nat.mod_lt _ hM) hsmall, hread, x.toBytes_length,
    HistoryEntry.ofBytes_toBytes x (hwf x (List.getElem?_mem hx))]

theorem Tracks.readEntries_good {s : HistoryLog} {fs : FS} {L : List HistoryEntry}
    (h : Tracks s fs L) (hwf : ∀ e ∈ L, e.WF) (hne : L ≠ [])
    (start_ts end_ts limit : Nat) (hlim : limit < 4294967296) (entries0 : List HistoryEntry) :
    readEntries s fs ReadOutcome.good start_ts end_ts entries0 limit
      = (true,
          if limit > 0 then
            ((L.drop (L.length - s.meta_.max_entries)).filter (inRange start_ts end_ts)).take limit
          else (L.drop (L.length - s.meta_.max_entries)).filter (inRange start_ts end_ts)) := by
  obtain ⟨d, hd, -, -⟩ := h.data
  have hpos : 0 < L.length := List.length_pos.mpr hne
  have hcnt : s.meta_.entry_count ≠ 0 := by
    rw [h.count]
    exact Nat.pos_iff_ne_zero.mp (lt_min hpos h.cap_pos)
  rw [readEntries_refines s fs ReadOutcome.good d start_ts end_ts limit entries0 h.init
    hcnt hd rfl hlim]
  simp only [readRangeSpec, h.visited hwf d hd]


/-! ## C15: order of the entries read -/

/-- C15 (amended): after appending any non-empty sequence of entries to a first-boot log
(every write succeeding), `readEntries` returns a subsequence of the appended sequence in
the order of appending; its timestamps are non-decreasing whenever the appended timestamps
were. -/
theorem C15_read_order_is_append_order (g : HistoryMetadata) (es entries0 : List HistoryEntry)
    (start_ts end_ts limit : Nat) (hwf : ∀ e ∈ es, e.WF) (hne : es ≠ [])
    (hlim : limit < 4294967296) :
    (readEntries (logAll (firstBoot g).2 es).2.1 (logAll (firstBoot g).2 es).2.2
      ReadOutcome.good start_ts end_ts entries0 limit).1 = true ∧
    List.Sublist
      (readEntries (logAll (firstBoot g).2 es).2.1 (logAll (firstBoot g).2 es).2.2
        ReadOutcome.good start_ts end_ts entries0 limit).2 es ∧
    (List.Pairwise (fun a b : HistoryEntry => a.timestamp ≤ b.timestamp) es →
      List.Pairwise (fun a b : HistoryEntry => a.timestamp ≤ b.timestamp)
        (readEntries (logAll (firstBoot g).2 es).2.1 (logAll (firstBoot g).2 es).2.2
          ReadOutcome.good start_ts end_ts entries0 limit).2) := by
  obtain ⟨-, -, htr⟩ := firstBoot_logAll g es hwf
  rw [htr.readEntries_good hwf hne start_ts end_ts limit hlim entries0]
  have hsub : List.Sublist
      (if limit > 0 then
        ((es.drop (es.length - (logAll (firstBoot g).2 es).2.1.meta_.max_entries)).filter
          (inRange start_ts end_ts)).take limit
      else (es.drop (es.length - (logAll (firstBoot g).2 es).2.1.meta_.max_entries)).filter
          (inRange start_ts end_ts)) es := by
    split
    · exact ((List.take_sublist _ _).trans (List.filter_sublist _)).trans (List.drop_sublist _ _)
    · exact (List.filter_sublist _).trans (List.drop_sublist _ _)
  exact ⟨rfl, hsub, fun hp => hp.sublist hsub⟩

/-- Witness for C15 (amended): two entries appended with timestamps 2 then 1. -/
theorem C15_read_order_is_append_order_witness :
    List.Sublist
      (readEntries (logAll (firstBoot zeroMeta).2 [stampedEntry 2, stampedEntry 1]).2.1
        (logAll (firstBoot zeroMeta).2 [stampedEntry 2, stampedEntry 1]).2.2
        ReadOutcome.good 0 4294967295 [] 0).2 [stampedEntry 2, stampedEntry 1] :=
  (C15_read_order_is_append_order zeroMeta [stampedEntry 2, stampedEntry 1] [] 0 4294967295 0
    (by
      intro x hx
      simp only [List.mem_cons, List.mem_nil_iff, or_false] at hx
      rcases hx with rfl | rfl <;> exact stampedEntry_WF _ (by norm_num))
    (List.cons_ne_nil _ _) (by norm_num)).2.1

/-- C15 (as stated) fails: entries appended with timestamps 2 then 1 are read back in that
order, so the returned timestamps decrease. -/
theorem C15_timestamps_can_decrease :
    readAllEntries (logAll (firstBoot zeroMeta).2 [stampedEntry 2, stampedEntry 1]).2.1
      (logAll (firstBoot zeroMeta).2 [stampedEntry 2, stampedEntry 1]).2.2 ReadOutcome.good []
      = (true, [stampedEntry 2, stampedEntry 1]) ∧
    (stampedEntry 2).timestamp = 2 ∧ (stampedEntry 1).timestamp = 1 ∧
    ¬ List.Pairwise (fun a b : HistoryEntry => a.timestamp ≤ b.timestamp)
      (readAllEntries (logAll (firstBoot zeroMeta).2 [stampedEntry 2, stampedEntry 1]).2.1
        (logAll (firstBoot zeroMeta).2 [stampedEntry 2, stampedEntry 1]).2.2
        ReadOutcome.good []).2 := by
  have hwf : ∀ x ∈ [stampedEntry 2, stampedEntry 1], x.WF := by
    intro x hx
    simp only [List.mem_cons, List.mem_nil_iff, or_false] at hx
    rcases hx with rfl | rfl <;> exact stampedEntry_WF _ (by norm_num)
  obtain ⟨-, hmax, htr⟩ := firstBoot_logAll zeroMeta [stampedEntry 2, stampedEntry 1] hwf
  have hread := htr.readAll hwf (List.cons_ne_nil _ _) []
  rw [hmax] at hread
  have hdrop : List.drop ([stampedEntry 2, stampedEntry 1].length - 2880)
      [stampedEntry 2, stampedEntry 1] = [stampedEntry 2, stampedEntry 1] := rfl
  rw [hdrop] at hread
  rw [hread]
  refine ⟨rfl, rfl, rfl, ?_⟩
  intro hp
  have h21 := List.rel_of_pairwise_cons hp (List.mem_cons_self _ _)
  exact absurd h21 (by decide)

/-! ## Reachable states -/

theorem RingHeader.of_fields {m m' : HistoryMetadata} (h : RingHeader m)
    (h1 : m'.max_entries = m.max_entries) (h2 : m'.entry_count = m.entry_count)
    (h3 : m'.oldest_index = m.oldest_index) (h4 : m'.newest_index = m.newest_index) :
    RingHeader m' :=
  ⟨by rw [h1]; exact h.cap, by rw [h2]; exact h.count_le, by rw [h3]; exact h.oldest_lt,
    by rw [h4, h3, h2]; exact h.newest_eq, by rw [h2, h3]; exact h.young⟩

theorem saveMetadata_wf (s : HistoryLog) (fs : FS) (o : SaveOutcome) (hwf : s.meta_.WF) :
    (saveMetadata s fs o).2.1.meta_.WF := by
  obtain ⟨w0, w1, w2, w3, w4, w5, w6, w7, w8, w9⟩ := hwf
  rw [saveMetadata_meta]
  exact ⟨(by show HISTORY_MAGIC < 4294967296; decide), (by show 1 < 4294967296; decide),
    w2, w3, w4, w5, w6, w7, calculateChecksum_checksum_lt _, w9⟩

theorem saveMetadata_ring (s : HistoryLog) (fs : FS) (o : SaveOutcome)
    (h : RingHeader s.meta_) : RingHeader (saveMetadata s fs o).2.1.meta_ := by
  rw [saveMetadata_meta]
  exact h.of_fields rfl rfl rfl rfl

theorem saveMetadata_initialized_ (s : HistoryLog) (fs : FS) (o : SaveOutcome) :
    (saveMetadata s fs o).2.1.initialized_ = s.initialized_ := by
  unfold saveMetadata
  by_cases h : o.openOk <;> simp [h]

theorem saveMetadata_disk (s : HistoryLog) (fs : FS) (o : SaveOutcome) (hwf : s.meta_.WF)
    (h : RingHeader s.meta_) (hd : HeaderOnDisk ⟨none, fs.index⟩) :
    HeaderOnDisk (saveMetadata s fs o).2.2 := by
  have hwf' := saveMetadata_wf s fs o hwf
  have hr' := saveMetadata_ring s fs o h
  rw [saveMetadata_meta] at hwf' hr'
  intro bytes hb
  unfold saveMetadata at hb
  by_cases ho : o.openOk
  · simp only [ho, Bool.not_true, Bool.false_eq_true, if_false, Option.some.injEq] at hb
    exact ⟨_, _, hwf', hr', hb.symm⟩
  · simp only [ho, Bool.not_false, if_true] at hb
    exact hd bytes hb

theorem HeaderOnDisk.of_index {fs fs' : FS} (h : HeaderOnDisk fs) (hi : fs'.index = fs.index) :
    HeaderOnDisk fs' := by
  intro bytes hb
  exact h bytes (by rw [← hi]; exact hb)

theorem headerOnDisk_none (d : Option (List Nat)) : HeaderOnDisk ⟨d, none⟩ := by
  intro bytes hb
  simp at hb

theorem freshMeta_wf_ring :
    (⟨HISTORY_MAGIC, 1, 0, 0, 0, computeMaxEntries, 0, 0, 0, 0⟩ : HistoryMetadata).WF ∧
    RingHeader ⟨HISTORY_MAGIC, 1, 0, 0, 0, computeMaxEntries, 0, 0, 0, 0⟩ := by
  rw [computeMaxEntries_eq]
  exact ⟨by decide, ⟨rfl, by decide, by decide, by decide, fun _ => rfl⟩⟩

theorem createNewMetadata_inv (s : HistoryLog) (fs : FS) (o : CreateOutcome)
    (hd : HeaderOnDisk fs) :
    (createNewMetadata s fs o).2.1.initialized_ = s.initialized_ ∧
    (createNewMetadata s fs o).2.1.meta_.WF ∧ RingHeader (createNewMetadata s fs o).2.1.meta_ ∧
    HeaderOnDisk (createNewMetadata s fs o).2.2 := by
  obtain ⟨hwf, hring⟩ := freshMeta_wf_ring
  unfold createNewMetadata
  by_cases h : o.dataOpenOk
  · simp only [h, Bool.not_true, Bool.false_eq_true, if_false]
    exact ⟨by rw [saveMetadata_initialized_], saveMetadata_wf _ _ _ hwf,
      saveMetadata_ring _ _ _ hring,
      saveMetadata_disk _ _ _ hwf hring (hd.of_index rfl)⟩
  · simp only [h, Bool.not_false, if_true]
    exact ⟨trivial, hwf, hring, hd⟩

theorem loadMetadata_inv (s : HistoryLog) (fs : FS) (o : LoadOutcome) (hd : HeaderOnDisk fs)
    (hok : (loadMetadata s fs o).1 = true) :
    (loadMetadata s fs o).2.meta_.WF ∧ RingHeader (loadMetadata s fs o).2.meta_ ∧
    (loadMetadata s fs o).2.initialized_ = s.initialized_ := by
  have e40 : sizeof_HistoryMetadata = 40 := rfl
  unfold loadMetadata at hok ⊢
  cases hidx : fs.index with
  | none => simp [hidx] at hok
  | some file =>
    obtain ⟨m, n, hwf, hring, hfile⟩ := hd file hidx
    simp only [hidx, e40] at hok ⊢
    by_cases ho : o.openOk
    · simp only [ho, Bool.not_true, Bool.false_eq_true, if_false] at hok ⊢
      by_cases hr : (readAt file 0 (min 40 o.readLimit)).length = 40
      · have hgot : readAt file 0 (min 40 o.readLimit) = m.toBytes := by
          unfold readAt at hr ⊢
          rw [List.drop_zero] at hr ⊢
          rw [hfile, List.take_take] at hr ⊢
          rw [List.length_take, m.hdr_length] at hr
          exact List.take_of_length_le (by rw [m.hdr_length]; omega)
        have hdrop : List.drop 40 s.meta_.toBytes = [] :=
          List.drop_of_length_le (by rw [s.meta_.hdr_length])
        have hm : HistoryMetadata.ofBytes (m.toBytes ++ []) = m := by
          rw [List.append_nil]; exact HistoryMetadata.hdr_ofBytes_toBytes m hwf
        simp only [hgot, m.hdr_length, hdrop, hm, bne_self_eq_false, Bool.false_eq_true,
          if_false] at hok ⊢
        split <;> exact ⟨hwf, hring, rfl⟩
      · have hb : ((readAt file 0 (min 40 o.readLimit)).length != 40) = true := by
          simpa using hr
        simp [hb] at hok
    · simp [ho] at hok

theorem begin_loaded (s : HistoryLog) (fs : FS) (o : BeginOutcome)
    (hm : o.mount ≠ MountResult.failed)
    (hl : (loadMetadata s (if o.mount = MountResult.formatted then ⟨none, none⟩ else fs)
      o.load).1 = true) :
    begin s fs o =
      (true,
        { (loadMetadata s (if o.mount = MountResult.formatted then ⟨none, none⟩ else fs)
            o.load).2 with initialized_ := true },
        if o.mount = MountResult.formatted then ⟨none, none⟩ else fs) := by
  have hen : ¬ HISTORY_LOG_ENABLE = 0 := by decide
  unfold begin
  rw [if_neg hen]
  cases hmo : o.mount with
  | failed => exact absurd hmo hm
  | mounted =>
    rw [hmo] at hl
    simp only [reduceCtorEq, if_false] at hl ⊢
    simp [hl]
  | formatted =>
    rw [hmo] at hl
    simp only [if_true] at hl ⊢
    simp [hl]

theorem begin_created (s : HistoryLog) (fs : FS) (o : BeginOutcome)
    (hm : o.mount ≠ MountResult.failed)
    (hl : (loadMetadata s (if o.mount = MountResult.formatted then ⟨none, none⟩ else fs)
      o.load).1 = false)
    (hc : (createNewMetadata
      (loadMetadata s (if o.mount = MountResult.formatted then ⟨none, none⟩ else fs) o.load).2
      (if o.mount = MountResult.formatted then ⟨none, none⟩ else fs) o.create).1 = true) :
    begin s fs o =
      (true,
        { (createNewMetadata
            (loadMetadata s (if o.mount = MountResult.formatted then ⟨none, none⟩ else fs)
              o.load).2
            (if o.mount = MountResult.formatted then ⟨none, none⟩ else fs) o.create).2.1 with
          initialized_ := true },
        (createNewMetadata
          (loadMetadata s (if o.mount = MountResult.formatted then ⟨none, none⟩ else fs)
            o.load).2
          (if o.mount = MountResult.formatted then ⟨none, none⟩ else fs) o.create).2.2) := by
  have hen : ¬ HISTORY_LOG_ENABLE = 0 := by decide
  unfold begin
  rw [if_neg hen]
  cases hmo : o.mount with
  | failed => exact absurd hmo hm
  | mounted =>
    rw [hmo] at hl hc
    simp only [reduceCtorEq, if_false] at hl hc ⊢
    simp [hl, hc]
  | formatted =>
    rw [hmo] at hl hc
    simp only [if_true] at hl hc ⊢
    simp [hl, hc]

theorem begin_inv (g : HistoryMetadata) (fs : FS) (o : BeginOutcome) (hd : HeaderOnDisk fs)
    (hok : (begin (HistoryLog.new g) fs o).1 = true) :
    (begin (HistoryLog.new g) fs o).2.1.initialized_ = true ∧
    (begin (HistoryLog.new g) fs o).2.1.meta_.WF ∧
    RingHeader (begin (HistoryLog.new g) fs o).2.1.meta_ ∧
    HeaderOnDisk (begin (HistoryLog.new g) fs o).2.2 := by
  have hm : o.mount ≠ MountResult.failed := by
    intro h
    rw [begin_mount_failed _ _ _ h] at hok
    exact absurd hok (by simp)
  have hd0 : HeaderOnDisk (if o.mount = MountResult.formatted then ⟨none, none⟩ else fs) := by
    split
    · exact headerOnDisk_none none
    · exact hd
  by_cases hl : (loadMetadata (HistoryLog.new g)
      (if o.mount = MountResult.formatted then ⟨none, none⟩ else fs) o.load).1 = true
  · obtain ⟨h1, h2, -⟩ := loadMetadata_inv _ _ _ hd0 hl
    rw [begin_loaded _ _ _ hm hl]
    exact ⟨rfl, h1, h2, hd0⟩
  · have hl' : (loadMetadata (HistoryLog.new g)
        (if o.mount = MountResult.formatted then ⟨none, none⟩ else fs) o.load).1 = false := by
      simpa using hl
    have hc : (createNewMetadata
        (loadMetadata (HistoryLog.new g)
          (if o.mount = MountResult.formatted then ⟨none, none⟩ else fs) o.load).2
        (if o.mount = MountResult.formatted then ⟨none, none⟩ else fs) o.create).1 = true := by
      rw [createNewMetadata_ok_iff]
      rcases (begin_ok_iff _ _ _ hm).mp hok with h | h
      · exact absurd h hl
      · exact h
    obtain ⟨-, h1, h2, h3⟩ := createNewMetadata_inv
      (loadMetadata (HistoryLog.new g)
        (if o.mount = MountResult.formatted then ⟨none, none⟩ else fs) o.load).2
      (if o.mount = MountResult.formatted then ⟨none, none⟩ else fs) o.create hd0
    rw [begin_created _ _ _ hm hl' hc]
    exact ⟨rfl, h1, h2, h3⟩

theorem writeIndex_ring (m : HistoryMetadata) (h : RingHeader m) :
    writeIndex m = if m.entry_count > 0 then (m.newest_index + 1) % 2880 else 0 := by
  obtain ⟨hcap, hcnt, hold, hnew, hyoung⟩ := h
  unfold writeIndex U32
  rw [hcap]
  split
  · rw [Nat.mod_eq_of_lt (a := m.newest_index + 1) (b := 4294967296) (by omega)]
  · have : m.entry_count = 0 := by omega
    have h0 := hyoung (by omega)
    omega

theorem advanceMeta_full (m : HistoryMetadata) (w : Nat) (e : HistoryEntry)
    (hcap : m.max_entries = 2880) (hc : m.entry_count = 2880) (ho : m.oldest_index < 2880) :
    advanceMeta m w e =
      ⟨m.magic, m.version, 2880, (m.oldest_index + 1) % 2880, w, 2880, m.rtc_offset,
        e.timestamp, m.checksum, m.reserved⟩ := by
  have ho1 : (m.oldest_index + 1) % 4294967296 = m.oldest_index + 1 :=
    Nat.mod_eq_of_lt (by omega)
  dsimp only [advanceMeta, U32]
  rw [hc, hcap, if_pos (by norm_num), ho1]

theorem advanceMeta_room (m : HistoryMetadata) (w : Nat) (e : HistoryEntry)
    (hcap : m.max_entries = 2880) (hc : m.entry_count < 2880) :
    advanceMeta m w e =
      ⟨m.magic, m.version, m.entry_count + 1, m.oldest_index, w, 2880, m.rtc_offset,
        e.timestamp, m.checksum, m.reserved⟩ := by
  have hc1 : (m.entry_count + 1) % 4294967296 = m.entry_count + 1 :=
    Nat.mod_eq_of_lt (by omega)
  dsimp only [advanceMeta, U32]
  rw [hc1, hcap, if_neg (by omega)]

theorem advanceMeta_ring (m : HistoryMetadata) (e : HistoryEntry) (h : RingHeader m) :
    (advanceMeta m (writeIndex m) e).max_entries = 2880 ∧
    (advanceMeta m (writeIndex m) e).entry_count = min (m.entry_count + 1) 2880 ∧
    (advanceMeta m (writeIndex m) e).oldest_index
      = (if m.entry_count = 2880 then (m.oldest_index + 1) % 2880 else m.oldest_index) ∧
    (advanceMeta m (writeIndex m) e).newest_index
      = (if m.entry_count > 0 then (m.newest_index + 1) % 2880 else 0) ∧
    (advanceMeta m (writeIndex m) e).last_write_time = e.timestamp ∧
    (advanceMeta m (writeIndex m) e).rtc_offset = m.rtc_offset ∧
    (advanceMeta m (writeIndex m) e).reserved = m.reserved ∧
    RingHeader (advanceMeta m (writeIndex m) e) := by
  have hw := writeIndex_ring m h
  obtain ⟨hcap, hcnt, hold, hnew, hyoung⟩ := h
  by_cases hfull : m.entry_count = 2880
  · rw [advanceMeta_full m _ e hcap hfull hold, hw]
    refine ⟨rfl, ?_, ?_, rfl, rfl, rfl, rfl, ?_⟩
    · show 2880 = min (m.entry_count + 1) 2880
      omega
    · show (m.oldest_index + 1) % 2880 = _
      rw [if_pos hfull]
    · refine ⟨rfl, le_refl _, Nat.mod_lt _ (by norm_num), ?_, fun h => absurd h (by simp)⟩
      show (if m.entry_count > 0 then (m.newest_index + 1) % 2880 else 0)
        = ((m.oldest_index + 1) % 2880 + 2880 - 1) % 2880
      rw [hfull] at hnew
      rw [if_pos (by omega)]
      omega
  · have hlt : m.entry_count < 2880 := by omega
    have ho0 := hyoung hlt
    rw [advanceMeta_room m _ e hcap hlt, hw]
    refine ⟨rfl, ?_, ?_, rfl, rfl, rfl, rfl, ?_⟩
    · show m.entry_count + 1 = min (m.entry_count + 1) 2880
      omega
    · show m.oldest_index = _
      rw [if_neg hfull]
    · refine ⟨rfl, by show m.entry_count + 1 ≤ 2880; omega, hold, ?_, fun _ => ho0⟩
      show (if m.entry_count > 0 then (m.newest_index + 1) % 2880 else 0)
        = (m.oldest_index + (m.entry_count + 1) - 1) % 2880
      split <;> omega

theorem logEntry_written (s : HistoryLog) (d : List Nat) (idx : Option (List Nat))
    (e : HistoryEntry) (o : LogOutcome) (hinit : s.initialized_ = true)
    (ho : o.dataOpenOk = true) (hs : o.seekOk = true)
    (hw : sizeof_HistoryEntry ≤ o.dataWritten) :
    logEntry s ⟨some d, idx⟩ e o =
      (true,
        (saveMetadata { s with meta_ := advanceMeta s.meta_ (writeIndex s.meta_) e }
          ⟨some (writeAt d (slotOffset (writeIndex s.meta_)) e.toBytes), idx⟩ o.save).2) := by
  have hmin : min o.dataWritten sizeof_HistoryEntry = sizeof_HistoryEntry := min_eq_right hw
  have ht : List.take sizeof_HistoryEntry e.toBytes = e.toBytes :=
    List.take_of_length_le (by rw [e.toBytes_length]; decide)
  simp [logEntry, logEntryData, hinit, ho, hs, hmin, ht]

theorem logEntry_cases (s : HistoryLog) (fs : FS) (e : HistoryEntry) (o : LogOutcome) :
    ((logEntry s fs e o).2.1 = s ∧ (logEntry s fs e o).2.2.index = fs.index) ∨
    (∃ d, fs.data = some d ∧
      logEntry s fs e o =
        (true,
          (saveMetadata { s with meta_ := advanceMeta s.meta_ (writeIndex s.meta_) e }
            ⟨some (writeAt d (slotOffset (writeIndex s.meta_)) e.toBytes), fs.index⟩
            o.save).2)) := by
  by_cases hgood : s.initialized_ = true ∧ fs.data ≠ none ∧ o.dataOpenOk = true ∧
      o.seekOk = true ∧ sizeof_HistoryEntry ≤ o.dataWritten
  · obtain ⟨h1, h2, h3, h4, h5⟩ := hgood
    right
    cases hd : fs.data with
    | none => exact absurd hd h2
    | some d =>
      refine ⟨d, rfl, ?_⟩
      have hfs : fs = ⟨some d, fs.index⟩ := by
        cases fs
        simp only [FS.mk.injEq, and_true]
        exact hd
      conv_lhs => rw [hfs]
      exact logEntry_written s d fs.index e o h1 h3 h4 h5
  · left
    unfold logEntry logEntryData
    by_cases hi : s.initialized_ = true
    · cases hd : fs.data with
      | none => simp [hi]
      | some d =>
        by_cases ho : o.dataOpenOk = true
        · by_cases hs : o.seekOk = true
          · have hw : ¬ sizeof_HistoryEntry ≤ o.dataWritten := by
              intro hw
              exact hgood ⟨hi, by rw [hd]; simp, ho, hs, hw⟩
            have hne : min o.dataWritten sizeof_HistoryEntry ≠ sizeof_HistoryEntry := by
              rw [min_eq_left (by omega)]; omega
            simp [hi, ho, hs, hne]
          · simp [hi, ho, hs]
        · simp [hi, ho]
    · simp [hi]

theorem advanceMeta_frame (m : HistoryMetadata) (w : Nat) (e : HistoryEntry) :
    (advanceMeta m w e).magic = m.magic ∧ (advanceMeta m w e).version = m.version ∧
    (advanceMeta m w e).checksum = m.checksum := by
  dsimp only [advanceMeta]
  split <;> exact ⟨rfl, rfl, rfl⟩

theorem logEntry_inv (s : HistoryLog) (fs : FS) (e : HistoryEntry) (o : LogOutcome)
    (he : e.WF) (hinit : s.initialized_ = true) (hwf : s.meta_.WF)
    (hring : RingHeader s.meta_) (hd : HeaderOnDisk fs) :
    (logEntry s fs e o).2.1.initialized_ = true ∧ (logEntry s fs e o).2.1.meta_.WF ∧
    RingHeader (logEntry s fs e o).2.1.meta_ ∧ HeaderOnDisk (logEntry s fs e o).2.2 := by
  rcases logEntry_cases s fs e o with ⟨h1, h2⟩ | ⟨d, -, heq⟩
  · rw [h1]
    exact ⟨hinit, hwf, hring, hd.of_index h2⟩
  · obtain ⟨a1, a2, a3, a4, a5, a6, a7, aring⟩ := advanceMeta_ring s.meta_ e hring
    obtain ⟨w0, w1, w2, w3, w4, w5, w6, w7, w8, w9⟩ := hwf
    have hwf' : (advanceMeta s.meta_ (writeIndex s.meta_) e).WF := by
      have hc := aring.count_le
      have ho := aring.oldest_lt
      have hn := aring.newest_eq
      obtain ⟨f1, f2, f3⟩ := advanceMeta_frame s.meta_ (writeIndex s.meta_) e
      refine ⟨by omega, by omega, by omega, by omega, by omega, by omega, by omega, ?_,
        by omega, by omega⟩
      rw [a5]; exact he.1
    rw [heq]
    exact ⟨by rw [saveMetadata_initialized_]; exact hinit, saveMetadata_wf _ _ _ hwf',
      saveMetadata_ring _ _ _ aring,
      saveMetadata_disk _ _ _ hwf' aring (hd.of_index rfl)⟩

theorem setRTCOffset_inv (s : HistoryLog) (fs : FS) (x : Nat) (o : SaveOutcome)
    (hx : x < 4294967296) (hinit : s.initialized_ = true) (hwf : s.meta_.WF)
    (hring : RingHeader s.meta_) (hd : HeaderOnDisk fs) :
    (setRTCOffset s fs x o).1.initialized_ = true ∧ (setRTCOffset s fs x o).1.meta_.WF ∧
    RingHeader (setRTCOffset s fs x o).1.meta_ ∧ HeaderOnDisk (setRTCOffset s fs x o).2 := by
  obtain ⟨w0, w1, w2, w3, w4, w5, w6, w7, w8, w9⟩ := hwf
  have hwf' : (⟨s.meta_.magic, s.meta_.version, s.meta_.entry_count, s.meta_.oldest_index,
      s.meta_.newest_index, s.meta_.max_entries, x, s.meta_.last_write_time, s.meta_.checksum,
      s.meta_.reserved⟩ : HistoryMetadata).WF := ⟨w0, w1, w2, w3, w4, w5, hx, w7, w8, w9⟩
  have hring' : RingHeader ⟨s.meta_.magic, s.meta_.version, s.meta_.entry_count,
      s.meta_.oldest_index, s.meta_.newest_index, s.meta_.max_entries, x,
      s.meta_.last_write_time, s.meta_.checksum, s.meta_.reserved⟩ :=
    hring.of_fields rfl rfl rfl rfl
  have heq : setRTCOffset s fs x o =
      ((saveMetadata ⟨s.initialized_, ⟨s.meta_.magic, s.meta_.version, s.meta_.entry_count,
        s.meta_.oldest_index, s.meta_.newest_index, s.meta_.max_entries, x,
        s.meta_.last_write_time, s.meta_.checksum, s.meta_.reserved⟩, x,
        s.last_write_time_⟩ fs o).2.1,
       (saveMetadata ⟨s.initialized_, ⟨s.meta_.magic, s.meta_.version, s.meta_.entry_count,
        s.meta_.oldest_index, s.meta_.newest_index, s.meta_.max_entries, x,
        s.meta_.last_write_time, s.meta_.checksum, s.meta_.reserved⟩, x,
        s.last_write_time_⟩ fs o).2.2) := rfl
  rw [heq]
  exact ⟨by rw [saveMetadata_initialized_]; exact hinit, saveMetadata_wf _ _ _ hwf',
    saveMetadata_ring _ _ _ hring', saveMetadata_disk _ _ _ hwf' hring' (hd.of_index rfl)⟩

theorem clear_inv (s : HistoryLog) (fs : FS) (o : ClearOutcome)
    (hinit : s.initialized_ = true) (hd : HeaderOnDisk fs) :
    (clear s fs o).2.1.initialized_ = true ∧ (clear s fs o).2.1.meta_.WF ∧
    RingHeader (clear s fs o).2.1.meta_ ∧ HeaderOnDisk (clear s fs o).2.2 := by
  unfold clear
  simp only [hinit, Bool.not_true, Bool.false_eq_true, if_false]
  have hd' : HeaderOnDisk
      (if o.removeIndexOk = true then
        ({ (if o.removeDataOk = true then ({ fs with data := none } : FS) else fs) with
            index := none } : FS)
      else (if o.removeDataOk = true then ({ fs with data := none } : FS) else fs)) := by
    split
    · exact headerOnDisk_none _
    · split
      · exact hd.of_index rfl
      · exact hd
  obtain ⟨h0, h1, h2, h3⟩ := createNewMetadata_inv s _ o.create hd'
  exact ⟨by rw [h0]; exact hinit, h1, h2, h3⟩

theorem Reachable.inv {s : HistoryLog} {fs : FS} (h : Reachable s fs) :
    s.initialized_ = true ∧ s.meta_.WF ∧ RingHeader s.meta_ ∧ HeaderOnDisk fs := by
  induction h with
  | boot g o hok => exact begin_inv g _ o (headerOnDisk_none none) hok
  | append e o _ he ih => exact logEntry_inv _ _ e o he ih.1 ih.2.1 ih.2.2.1 ih.2.2.2
  | sync x o _ hx ih => exact setRTCOffset_inv _ _ x o hx ih.1 ih.2.1 ih.2.2.1 ih.2.2.2
  | reboot g o _ hok ih => exact begin_inv g _ o ih.2.2.2 hok
  | wipe o _ _ ih => exact clear_inv _ _ o ih.1 ih.2.2.2

/-! ## C13: one successful append -/

/-- C13: in every reachable log state, when the data file exists and the data write of
`logEntry(e)` succeeds, the call returns true, the record is written at slot `w`, with
`w = (newest + 1) mod c` if entries exist and `w = 0` otherwise, and the header has
`newest = w`, `entry_count = min(old + 1, c)`, `oldest` advanced by one modulo `c` exactly
when the log was full, `last_write_time = e.timestamp`, and capacity and clock offset
unchanged. -/
theorem C13_append_advances_ring (s : HistoryLog) (fs : FS) (hr : Reachable s fs)
    (e : HistoryEntry) (o : LogOutcome) (d : List Nat) (hd : fs.data = some d)
    (ho : o.dataOpenOk = true) (hs : o.seekOk = true)
    (hw : sizeof_HistoryEntry ≤ o.dataWritten) :
    (logEntry s fs e o).1 = true ∧
    (logEntry s fs e o).2.2.data
      = some (writeAt d
          (sizeof_HistoryEntry *
            (if s.meta_.entry_count > 0 then (s.meta_.newest_index + 1) % s.meta_.max_entries
             else 0)) e.toBytes) ∧
    readAt (writeAt d
          (sizeof_HistoryEntry *
            (if s.meta_.entry_count > 0 then (s.meta_.newest_index + 1) % s.meta_.max_entries
             else 0)) e.toBytes)
        (sizeof_HistoryEntry *
          (if s.meta_.entry_count > 0 then (s.meta_.newest_index + 1) % s.meta_.max_entries
           else 0)) sizeof_HistoryEntry = e.toBytes ∧
    (logEntry s fs e o).2.1.meta_.newest_index
      = (if s.meta_.entry_count > 0 then (s.meta_.newest_index + 1) % s.meta_.max_entries
         else 0) ∧
    (logEntry s fs e o).2.1.meta_.entry_count
      = min (s.meta_.entry_count + 1) s.meta_.max_entries ∧
    (logEntry s fs e o).2.1.meta_.oldest_index
      = (if s.meta_.entry_count = s.meta_.max_entries then
          (s.meta_.oldest_index + 1) % s.meta_.max_entries
         else s.meta_.oldest_index) ∧
    (logEntry s fs e o).2.1.meta_.last_write_time = e.timestamp ∧
    (logEntry s fs e o).2.1.meta_.max_entries = s.meta_.max_entries ∧
    (logEntry s fs e o).2.1.meta_.rtc_offset = s.meta_.rtc_offset ∧
    (logEntry s fs e o).2.1.rtc_offset_ = s.rtc_offset_ := by
  obtain ⟨hinit, -, hring, -⟩ := hr.inv
  obtain ⟨a1, a2, a3, a4, a5, a6, -, aring⟩ := advanceMeta_ring s.meta_ e hring
  have hcap := hring.cap
  have hfs : fs = ⟨some d, fs.index⟩ := by
    cases fs
    simp only [FS.mk.injEq, and_true]
    exact hd
  have heq := logEntry_written s d fs.index e o hinit ho hs hw
  rw [← hfs] at heq
  have hwi := writeIndex_ring s.meta_ hring
  have hwlt : writeIndex s.meta_ < 2880 := by
    rw [hwi]; split
    · exact Nat.mod_lt _ (by norm_num)
    · norm_num
  have hoff : slotOffset (writeIndex s.meta_) = sizeof_HistoryEntry * writeIndex s.meta_ := by
    have e20 : sizeof_HistoryEntry = 20 := rfl
    unfold slotOffset U32
    rw [e20, Nat.mod_eq_of_lt (by omega)]
    omega
  rw [heq, hcap, ← hwi, ← hoff]
  refine ⟨rfl, ?_, ?_, ?_, ?_, ?_, ?_, ?_, ?_, ?_⟩
  · show (saveMetadata _ _ _).2.2.data = _
    rw [saveMetadata_data]
  · have := readAt_writeAt_same d (slotOffset (writeIndex s.meta_)) e.toBytes
    rwa [e.toBytes_length] at this
  · show (saveMetadata _ _ _).2.1.meta_.newest_index = _
    rw [saveMetadata_meta]
    exact a4.trans hwi.symm
  · show (saveMetadata _ _ _).2.1.meta_.entry_count = _
    rw [saveMetadata_meta]
    exact a2
  · show (saveMetadata _ _ _).2.1.meta_.oldest_index = _
    rw [saveMetadata_meta]
    exact a3
  · show (saveMetadata _ _ _).2.1.meta_.last_write_time = _
    rw [saveMetadata_meta]
    exact a5
  · show (saveMetadata _ _ _).2.1.meta_.max_entries = _
    rw [saveMetadata_meta]
    exact a1
  · show (saveMetadata _ _ _).2.1.meta_.rtc_offset = _
    rw [saveMetadata_meta]
    exact a6
  · show (saveMetadata _ _ _).2.1.rtc_offset_ = _
    rw [saveMetadata_rtc_offset_]

/-! ## Witnesses -/

theorem oneEntryWorld_read :
    readAllEntries oneEntryWorld.log oneEntryWorld.fs ReadOutcome.good [] = (true, [oddEntry]) := by
  decide

/-- Witness for C12: a data write that returns 7 of the 20 bytes. -/
theorem C12_failed_data_write_keeps_header_witness :
    (logEntry oneEntryLog.1 oneEntryLog.2 oddEntry ⟨true, true, 7, SaveOutcome.good⟩).1 = false ∧
    (logEntry oneEntryLog.1 oneEntryLog.2 oddEntry ⟨true, true, 7, SaveOutcome.good⟩).2.1
      = oneEntryLog.1 :=
  ⟨(C12_failed_data_write_keeps_header oneEntryLog.1 oneEntryLog.2 oddEntry
      ⟨true, true, 7, SaveOutcome.good⟩ (by decide) (Or.inr (Or.inr (Or.inr (by decide))))).1,
   (C12_failed_data_write_keeps_header oneEntryLog.1 oneEntryLog.2 oddEntry
      ⟨true, true, 7, SaveOutcome.good⟩ (by decide) (Or.inr (Or.inr (Or.inr (by decide))))).2.1⟩

/-- Witness for C13: the first append on a first-boot log. -/
theorem C13_append_advances_ring_witness :
    (logEntry (firstBoot zeroMeta).2.1 (firstBoot zeroMeta).2.2 oddEntry LogOutcome.good).1
      = true ∧
    (logEntry (firstBoot zeroMeta).2.1 (firstBoot zeroMeta).2.2 oddEntry
      LogOutcome.good).2.1.meta_.entry_count
      = min ((firstBoot zeroMeta).2.1.meta_.entry_count + 1)
          (firstBoot zeroMeta).2.1.meta_.max_entries := by
  have hr : Reachable (firstBoot zeroMeta).2.1 (firstBoot zeroMeta).2.2 :=
    Reachable.boot zeroMeta BeginOutcome.good (firstBoot_tracks zeroMeta).1
  have hd : (firstBoot zeroMeta).2.2.data = some (List.replicate 57600 0) := by
    rw [firstBoot_eq]
  have h := C13_append_advances_ring (firstBoot zeroMeta).2.1 (firstBoot zeroMeta).2.2 hr
    oddEntry LogOutcome.good (List.replicate 57600 0) hd rfl rfl (le_refl _)
  exact ⟨h.1, h.2.2.2.2.1⟩

/-- Witness for C14: a one-entry log read with bounds around its timestamp and limit 1. -/
theorem C14_readEntries_refines_spec_witness :
    readEntries oneEntryLog.1 oneEntryLog.2 ReadOutcome.good 1600000000 1800000000 [] 1
      = (true, readRangeSpec oneEntryLog.1.meta_ (oddEntry.toBytes ++ List.replicate 57580 0)
          ReadOutcome.good 1600000000 1800000000 1) :=
  (C14_readEntries_refines_spec oneEntryLog.1 oneEntryLog.2 ReadOutcome.good
    (oddEntry.toBytes ++ List.replicate 57580 0) 1600000000 1800000000 1 [] rfl (by decide)
    rfl rfl (by norm_num)).1

/-- Witness for C16: a one-entry log streamed with start timestamp 1600000000. -/
theorem C16_history_stream_witness :
    handleReadHistory oneEntryWorld (be32 1600000000 ++ [0, 0, 0, 0]) ReadOutcome.good
      = { oneEntryWorld with
          sent := oneEntryWorld.sent ++
            ([oddEntry].filter (wanted 1600000000)).flatMap entryPackets } :=
  (C16_history_stream oneEntryWorld 1600000000 [0, 0, 0, 0] ReadOutcome.good [oddEntry] rfl rfl
    (by norm_num) oneEntryWorld_read (List.cons_ne_nil _ _)
    (by
      intro e he
      rw [List.mem_singleton.mp he]
      decide)).1

/-- Witness for C17: an 11-byte frame with opcode 0x13. -/
theorem C17_unrecognised_write_ignored_witness :
    onWrite idleWorld true [0x3A, 0x3A, 0x13, 0, 0, 0, 0, 0, 0, 0, 0] 5000 SaveOutcome.good
      ReadOutcome.good = idleWorld :=
  C17_unrecognised_write_ignored idleWorld true [0x3A, 0x3A, 0x13, 0, 0, 0, 0, 0, 0, 0, 0] 5000
    SaveOutcome.good ReadOutcome.good (Or.inr (by decide))

/-- Witness for C18 (amended): offset 1699999900 set on a one-entry log with a save that
completes. -/
theorem C18_set_offset_persists_witness :
    (setRTCOffset oneEntryLog.1 oneEntryLog.2 1699999900 SaveOutcome.good).1.rtc_offset_
      = 1699999900 ∧
    (restart zeroMeta (setRTCOffset oneEntryLog.1 oneEntryLog.2 1699999900 SaveOutcome.good).2
      BeginOutcome.good).2.1.rtc_offset_ = 1699999900 :=
  ⟨(C18_set_offset_persists oneEntryLog.1 oneEntryLog.2 1699999900 zeroMeta SaveOutcome.good
      (by decide) (by norm_num)).1,
   ((C18_set_offset_persists oneEntryLog.1 oneEntryLog.2 1699999900 zeroMeta SaveOutcome.good
      (by decide) (by norm_num)).2.2.2.2.2.2.2.2.2.1 (by decide) (by decide)).2.2.1⟩


/-! ## Rounding and clamping of the encoders -/

theorem lroundf_near (x : ℚ) : |((lroundf x : Int) : ℚ) - x| ≤ 1 / 2 := by
  unfold lroundf
  split
  · have h1 := Int.floor_le (x + 1 / 2)
    have h2 := Int.lt_floor_add_one (x + 1 / 2)
    rw [abs_le]; constructor <;> linarith
  · have h1 := Int.floor_le (-x + 1 / 2)
    have h2 := Int.lt_floor_add_one (-x + 1 / 2)
    push_cast
    rw [abs_le]; constructor <;> linarith

theorem lroundf_tie_away (x : ℚ) (h : |((lroundf x : Int) : ℚ) - x| = 1 / 2) :
    |x| < |((lroundf x : Int) : ℚ)| := by
  unfold lroundf at h ⊢
  split at h
  · rename_i hx
    simp only [hx, if_true]
    have h1 := Int.floor_le (x + 1 / 2)
    have h2 := Int.lt_floor_add_one (x + 1 / 2)
    have h3 : ((⌊x + 1 / 2⌋ : Int) : ℚ) - x = 1 / 2 := by
      rcases abs_eq (by norm_num : (0 : ℚ) ≤ 1 / 2) |>.mp h with h | h
      · exact h
      · linarith
    rw [abs_of_nonneg hx, abs_of_nonneg (by linarith)]
    linarith
  · rename_i hx
    simp only [hx, if_false]
    push_cast at h ⊢
    have h1 := Int.floor_le (-x + 1 / 2)
    have h2 := Int.lt_floor_add_one (-x + 1 / 2)
    have hx' : x < 0 := not_le.mp hx
    have h3 : -((⌊-x + 1 / 2⌋ : Int) : ℚ) - x = -(1 / 2) := by
      rcases abs_eq (by norm_num : (0 : ℚ) ≤ 1 / 2) |>.mp h with h | h
      · linarith
      · exact h
    rw [abs_of_neg hx', abs_of_nonpos (by linarith)]
    linarith

theorem lroundf_mono {x y : ℚ} (h : x ≤ y) : lroundf x ≤ lroundf y := by
  unfold lroundf
  by_cases hx : 0 ≤ x
  · have hy : 0 ≤ y := le_trans hx h
    simp only [hx, hy, if_true]
    exact Int.floor_le_floor (by linarith)
  · by_cases hy : 0 ≤ y
    · simp only [hx, hy, if_true, if_false]
      have a : (0 : Int) ≤ ⌊-x + 1 / 2⌋ := Int.floor_nonneg.mpr (by linarith [not_le.mp hx])
      have b : (0 : Int) ≤ ⌊y + 1 / 2⌋ := Int.floor_nonneg.mpr (by linarith)
      omega
    · simp only [hx, hy, if_false]
      have := Int.floor_le_floor (show -y + 1 / 2 ≤ -x + 1 / 2 by linarith)
      omega

theorem lroundf_intCast (n : Int) : lroundf (n : ℚ) = n := by
  unfold lroundf
  split
  · rw [Int.floor_eq_iff]; constructor <;> linarith
  · have : ⌊-(n : ℚ) + 1 / 2⌋ = -n := by
      rw [Int.floor_eq_iff]; constructor <;> push_cast <;> linarith
    rw [this]; omega

/-! ## Rounding to binary32 -/

theorem roundHalfEven_near (x : ℚ) : |((roundHalfEven x : Int) : ℚ) - x| ≤ 1 / 2 := by
  have h1 := Int.floor_le x
  have h2 := Int.lt_floor_add_one x
  unfold roundHalfEven
  rw [abs_le]
  split_ifs <;> push_cast <;> constructor <;> linarith

theorem roundHalfEven_eq (n : Int) (x : ℚ) (h1 : (n : ℚ) - 1 / 2 < x) (h2 : x < (n : ℚ) + 1 / 2) :
    roundHalfEven x = n := by
  unfold roundHalfEven
  by_cases hx : (n : ℚ) ≤ x
  · have hf : ⌊x⌋ = n := by
      rw [Int.floor_eq_iff]; constructor <;> linarith
    rw [hf, if_pos (by linarith)]
  · have hf : ⌊x⌋ = n - 1 := by
      rw [Int.floor_eq_iff]; push_cast; constructor <;> linarith
    rw [hf]
    push_cast
    rw [if_neg (by linarith), if_pos (by linarith)]
    ring

theorem roundHalfEven_nonpos (x : ℚ) (h : x ≤ 0) : roundHalfEven x ≤ 0 := by
  have h1 := roundHalfEven_near x
  rw [abs_le] at h1
  have : ((roundHalfEven x : Int) : ℚ) < 1 := by linarith
  have : roundHalfEven x < 1 := by exact_mod_cast this
  omega

theorem two_zpow_pos (e : Int) : (0 : ℚ) < (2 : ℚ) ^ e := zpow_pos (by norm_num) e

theorem fl32_zero : fl32 0 = 0 := by
  have : roundHalfEven 0 = 0 := roundHalfEven_eq 0 0 (by norm_num) (by norm_num)
  simp [fl32, this]

theorem log_two_le (x : ℚ) (hx : x ≠ 0) (k : Int) (h : |x| < (2 : ℚ) ^ (k + 1)) :
    Int.log 2 |x| ≤ k := by
  have hpos : 0 < |x| := abs_pos.mpr hx
  have := (Int.lt_zpow_iff_log_lt (b := 2) (by norm_num) hpos (x := k + 1)).mp
    (by simpa using h)
  omega

theorem le_log_two (x : ℚ) (hx : x ≠ 0) (k : Int) (h : (2 : ℚ) ^ k ≤ |x|) :
    k ≤ Int.log 2 |x| := by
  have hpos : 0 < |x| := abs_pos.mpr hx
  exact (Int.zpow_le_iff_le_log (b := 2) (by norm_num) hpos (x := k)).mp (by simpa using h)

theorem fl32_of_binade (x : ℚ) (e : Int) (he : -126 ≤ e) (h1 : (2 : ℚ) ^ e ≤ |x|)
    (h2 : |x| < (2 : ℚ) ^ (e + 1)) :
    fl32 x = (roundHalfEven (x / (2 : ℚ) ^ (e - 23)) : ℚ) * (2 : ℚ) ^ (e - 23) := by
  have hx : x ≠ 0 := by
    intro h0
    rw [h0, abs_zero] at h1
    have := two_zpow_pos e
    linarith
  have hl : Int.log 2 |x| = e := le_antisymm (log_two_le x hx e h2) (le_log_two x hx e h1)
  unfold fl32
  rw [hl, max_eq_left he]

theorem fl32_err (x : ℚ) :
    |fl32 x - x| ≤ (2 : ℚ) ^ (max (Int.log 2 |x|) (-126) - 24) := by
  have hu := two_zpow_pos (max (Int.log 2 |x|) (-126) - 23)
  have hr := roundHalfEven_near (x / (2 : ℚ) ^ (max (Int.log 2 |x|) (-126) - 23))
  have e1 : fl32 x - x =
      (((roundHalfEven (x / (2 : ℚ) ^ (max (Int.log 2 |x|) (-126) - 23)) : Int) : ℚ) -
        x / (2 : ℚ) ^ (max (Int.log 2 |x|) (-126) - 23)) *
        (2 : ℚ) ^ (max (Int.log 2 |x|) (-126) - 23) := by
    unfold fl32
    field_simp
  have e2 : (2 : ℚ) ^ (max (Int.log 2 |x|) (-126) - 24) =
      1 / 2 * (2 : ℚ) ^ (max (Int.log 2 |x|) (-126) - 23) := by
    rw [show max (Int.log 2 |x|) (-126) - 23 = (max (Int.log 2 |x|) (-126) - 24) + 1 by ring,
      zpow_add_one₀ (by norm_num)]
    ring
  rw [e1, abs_mul, abs_of_pos hu, e2]
  exact mul_le_mul_of_nonneg_right hr hu.le

/-- Absolute error of the rounding below `2 ^ (k + 1)`: half a unit in the last place. -/
theorem fl32_near (x : ℚ) (k : Int) (hk : -126 ≤ k) (hx : |x| < (2 : ℚ) ^ (k + 1)) :
    |fl32 x - x| ≤ (2 : ℚ) ^ (k - 24) := by
  by_cases h0 : x = 0
  · rw [h0, fl32_zero, sub_zero, abs_zero]
    exact (two_zpow_pos _).le
  · have hl := log_two_le x h0 k hx
    refine le_trans (fl32_err x) ?_
    exact zpow_le_zpow_right₀ (by norm_num) (by omega)

/-- Relative error of the rounding in the normal range: `2 ^ (-24)`. -/
theorem fl32_near_rel (x : ℚ) (hx : (2 : ℚ) ^ (-126 : Int) ≤ |x|) :
    |fl32 x - x| ≤ |x| * (2 : ℚ) ^ (-24 : Int) := by
  have h0 : x ≠ 0 := by
    intro h
    rw [h, abs_zero] at hx
    have := two_zpow_pos (-126)
    linarith
  have hl := le_log_two x h0 (-126) hx
  have hpos : 0 < |x| := abs_pos.mpr h0
  have hle := Int.zpow_log_le_self (b := 2) (by norm_num) hpos
  refine le_trans (fl32_err x) ?_
  rw [max_eq_left hl, show Int.log 2 |x| - 24 = Int.log 2 |x| + (-24) by ring,
    zpow_add₀ (by norm_num)]
  exact mul_le_mul_of_nonneg_right (by simpa using hle) (two_zpow_pos _).le

theorem fl32_nonpos (x : ℚ) (h : x ≤ 0) : fl32 x ≤ 0 := by
  unfold fl32
  have hu := two_zpow_pos (max (Int.log 2 |x|) (-126) - 23)
  have : x / (2 : ℚ) ^ (max (Int.log 2 |x|) (-126) - 23) ≤ 0 :=
    div_nonpos_of_nonpos_of_nonneg h hu.le
  have hr := roundHalfEven_nonpos _ this
  have : ((roundHalfEven (x / (2 : ℚ) ^ (max (Int.log 2 |x|) (-126) - 23)) : Int) : ℚ) ≤ 0 := by
    exact_mod_cast hr
  exact mul_nonpos_of_nonpos_of_nonneg this hu.le

/-- The `float` constant `0.005f`. -/
theorem fl32_0005 : fl32 0.005 = 5368709 / 1073741824 := by
  rw [fl32_of_binade 0.005 (-8) (by norm_num) (by norm_num [abs_of_pos])
    (by norm_num [abs_of_pos]),
    roundHalfEven_eq 10737418 _ (by norm_num) (by norm_num)]
  norm_num

/-- The `float` constant `0.0025f`. -/
theorem fl32_00025 : fl32 0.0025 = 5368709 / 2147483648 := by
  rw [fl32_of_binade 0.0025 (-9) (by norm_num) (by norm_num [abs_of_pos])
    (by norm_num [abs_of_pos]),
    roundHalfEven_eq 10737418 _ (by norm_num) (by norm_num)]
  norm_num

/-! ## The encoders in binary32 -/

theorem encodeTemperature_eq (c : ℚ) :
    encodeTemperature c = max (-32768) (min 32767 (lroundf (fl32 (c / fl32 0.005)))) := by
  simp only [encodeTemperature]
  generalize lroundf (fl32 (c / fl32 0.005)) = r
  unfold toI16 toU16
  split_ifs <;> omega

theorem encodeHumidity_eq (rh : ℚ) :
    (encodeHumidity rh : Int) = max 0 (min 65535 (lroundf (fl32 (rh / fl32 0.0025)))) := by
  simp only [encodeHumidity]
  generalize lroundf (fl32 (rh / fl32 0.0025)) = r
  unfold toU16
  split_ifs <;> omega

theorem encodePressure_eq (hpa : ℚ) :
    (encodePressure hpa : Int) =
      max 0 (min 65535 (lroundf (fl32 (fl32 (hpa * 100) - 50000)))) := by
  simp only [encodePressure]
  generalize lroundf (fl32 (fl32 (hpa * 100) - 50000)) = r
  unfold toU16
  split_ifs <;> omega

theorem zpow_vals :
    (2 : ℚ) ^ (-10 : Int) = 1 / 1024 ∧ (2 : ℚ) ^ (-9 : Int) = 1 / 512 ∧
    (2 : ℚ) ^ (-8 : Int) = 1 / 256 ∧ (2 : ℚ) ^ (15 : Int) = 32768 ∧
    (2 : ℚ) ^ (16 : Int) = 65536 ∧ (2 : ℚ) ^ (17 : Int) = 131072 ∧
    (2 : ℚ) ^ (-24 : Int) = 1 / 16777216 := by
  norm_num [zpow_neg]

/-- Two integers whose distance as rationals is below 2 differ by at most 1. -/
theorem int_close (a b : Int) (h : |(a : ℚ) - (b : ℚ)| < 2) : |a - b| ≤ 1 := by
  have h' : |((a - b : Int) : ℚ)| < ((2 : Int) : ℚ) := by push_cast; exact h
  rw [← Int.cast_abs, Int.cast_lt] at h'
  omega

theorem scaledTemperature_near (c : ℚ) (h1 : -40 ≤ c) (h2 : c ≤ 85) :
    |fl32 (c / fl32 0.005) - c / 0.005| ≤ 1 / 1024 + 1 / 2500 := by
  obtain ⟨z10, -, -, z15, -, -, -⟩ := zpow_vals
  rw [fl32_0005]
  have e : c / (5368709 / 1073741824 : ℚ) = c * (1073741824 / 5368709) := by
    field_simp
  have e' : c / 0.005 = 200 * c := by norm_num; ring
  have hq : |c / (5368709 / 1073741824 : ℚ)| < (2 : ℚ) ^ ((14 : Int) + 1) := by
    rw [show ((14 : Int) + 1) = 15 by norm_num, z15, e, abs_lt]
    constructor <;> linarith
  have hn := fl32_near _ 14 (by norm_num) hq
  rw [show ((14 : Int) - 24) = -10 by norm_num, z10] at hn
  rw [abs_le] at hn ⊢
  rw [e'] 
  rw [e] at hn ⊢
  constructor <;> linarith

theorem scaledHumidity_near (rh : ℚ) (h1 : 0 ≤ rh) (h2 : rh ≤ 100) :
    |fl32 (rh / fl32 0.0025) - rh / 0.0025| ≤ 1 / 512 + 1 / 1000 := by
  obtain ⟨-, z9, -, -, z16, -, -⟩ := zpow_vals
  rw [fl32_00025]
  have e : rh / (5368709 / 2147483648 : ℚ) = rh * (2147483648 / 5368709) := by
    field_simp
  have e' : rh / 0.0025 = 400 * rh := by norm_num; ring
  have hq : |rh / (5368709 / 2147483648 : ℚ)| < (2 : ℚ) ^ ((15 : Int) + 1) := by
    rw [show ((15 : Int) + 1) = 16 by norm_num, z16, e, abs_lt]
    constructor <;> linarith
  have hn := fl32_near _ 15 (by norm_num) hq
  rw [show ((15 : Int) - 24) = -9 by norm_num, z9] at hn
  rw [abs_le] at hn ⊢
  rw [e']
  rw [e] at hn ⊢
  constructor <;> linarith

theorem scaledPressure_near (hpa : ℚ) (h1 : 500 ≤ hpa) (h2 : hpa ≤ 1155.35) :
    |fl32 (fl32 (hpa * 100) - 50000) - (hpa * 100 - 50000)| ≤ 1 / 256 + 1 / 512 := by
  obtain ⟨-, z9, z8, -, z16, z17, -⟩ := zpow_vals
  have h2' : hpa * 100 ≤ 115535 := by norm_num at h2; linarith
  have hp : |hpa * 100| < (2 : ℚ) ^ ((16 : Int) + 1) := by
    rw [show ((16 : Int) + 1) = 17 by norm_num, z17, abs_lt]
    constructor <;> linarith
  have hn := fl32_near _ 16 (by norm_num) hp
  rw [show ((16 : Int) - 24) = -8 by norm_num, z8, abs_le] at hn
  have hd : |fl32 (hpa * 100) - 50000| < (2 : ℚ) ^ ((15 : Int) + 1) := by
    rw [show ((15 : Int) + 1) = 16 by norm_num, z16, abs_lt]
    constructor <;> linarith
  have hm := fl32_near _ 15 (by norm_num) hd
  rw [show ((15 : Int) - 24) = -9 by norm_num, z9, abs_le] at hm
  rw [abs_le]
  constructor <;> linarith

theorem encodeTemperature_in_range (c : ℚ) (h1 : -40 ≤ c) (h2 : c ≤ 85) :
    encodeTemperature c = lroundf (fl32 (c / fl32 0.005)) ∧
      |((encodeTemperature c : Int) : ℚ) * 0.005 - c| ≤ 0.00255 ∧
      |encodeTemperature c - lroundf (c / 0.005)| ≤ 1 := by
  have e : c / 0.005 = 200 * c := by norm_num; ring
  have hs := abs_le.mp (scaledTemperature_near c h1 h2)
  have hr := abs_le.mp (lroundf_near (fl32 (c / fl32 0.005)))
  have hx := abs_le.mp (lroundf_near (c / 0.005))
  rw [e] at hs hx
  have b1 : ((-8001 : Int) : ℚ) < ((lroundf (fl32 (c / fl32 0.005)) : Int) : ℚ) := by
    push_cast; linarith
  have b2 : ((lroundf (fl32 (c / fl32 0.005)) : Int) : ℚ) < ((17001 : Int) : ℚ) := by
    push_cast; linarith
  have b1' := Int.cast_lt.mp b1
  have b2' := Int.cast_lt.mp b2
  have eq : encodeTemperature c = lroundf (fl32 (c / fl32 0.005)) := by
    rw [encodeTemperature_eq]; omega
  refine ⟨eq, ?_, ?_⟩
  · rw [eq, abs_le]
    constructor <;> norm_num <;> linarith
  · rw [eq]
    apply int_close
    rw [e, abs_lt]
    constructor <;> linarith

theorem encodeHumidity_in_range (rh : ℚ) (h1 : 0 ≤ rh) (h2 : rh ≤ 100) :
    (encodeHumidity rh : Int) = lroundf (fl32 (rh / fl32 0.0025)) ∧
      |((encodeHumidity rh : Nat) : ℚ) * 0.0025 - rh| ≤ 0.001275 ∧
      |(encodeHumidity rh : Int) - lroundf (rh / 0.0025)| ≤ 1 := by
  have e : rh / 0.0025 = 400 * rh := by norm_num; ring
  have hs := abs_le.mp (scaledHumidity_near rh h1 h2)
  have hr := abs_le.mp (lroundf_near (fl32 (rh / fl32 0.0025)))
  have hx := abs_le.mp (lroundf_near (rh / 0.0025))
  rw [e] at hs hx
  have b1 : ((-1 : Int) : ℚ) < ((lroundf (fl32 (rh / fl32 0.0025)) : Int) : ℚ) := by
    push_cast; linarith
  have b2 : ((lroundf (fl32 (rh / fl32 0.0025)) : Int) : ℚ) < ((40001 : Int) : ℚ) := by
    push_cast; linarith
  have b1' := Int.cast_lt.mp b1
  have b2' := Int.cast_lt.mp b2
  have eq : (encodeHumidity rh : Int) = lroundf (fl32 (rh / fl32 0.0025)) := by
    rw [encodeHumidity_eq]; omega
  have c1 : ((encodeHumidity rh : Nat) : ℚ) =
      ((lroundf (fl32 (rh / fl32 0.0025)) : Int) : ℚ) := by
    rw [← eq]; push_cast; rfl
  refine ⟨eq, ?_, ?_⟩
  · rw [c1, abs_le]
    constructor <;> norm_num <;> linarith
  · rw [eq]
    apply int_close
    rw [e, abs_lt]
    constructor <;> linarith

theorem encodePressure_in_range (hpa : ℚ) (h1 : 500 ≤ hpa) (h2 : hpa ≤ 1155.35) :
    (encodePressure hpa : Int) = lroundf (fl32 (fl32 (hpa * 100) - 50000)) ∧
      |(((encodePressure hpa : Nat) : ℚ) + 50000) - hpa * 100| ≤ 0.51 ∧
      |(encodePressure hpa : Int) - lroundf (hpa * 100 - 50000)| ≤ 1 := by
  have hs := abs_le.mp (scaledPressure_near hpa h1 h2)
  have hr := abs_le.mp (lroundf_near (fl32 (fl32 (hpa * 100) - 50000)))
  have hx := abs_le.mp (lroundf_near (hpa * 100 - 50000))
  have h2' : hpa * 100 ≤ 115535 := by norm_num at h2; linarith
  have b1 : ((-1 : Int) : ℚ) < ((lroundf (fl32 (fl32 (hpa * 100) - 50000)) : Int) : ℚ) := by
    push_cast; linarith
  have b2 : ((lroundf (fl32 (fl32 (hpa * 100) - 50000)) : Int) : ℚ) < ((65536 : Int) : ℚ) := by
    push_cast; linarith
  have b1' := Int.cast_lt.mp b1
  have b2' := Int.cast_lt.mp b2
  have eq : (encodePressure hpa : Int) = lroundf (fl32 (fl32 (hpa * 100) - 50000)) := by
    rw [encodePressure_eq]; omega
  have c1 : ((encodePressure hpa : Nat) : ℚ) =
      ((lroundf (fl32 (fl32 (hpa * 100) - 50000)) : Int) : ℚ) := by
    rw [← eq]; push_cast; rfl
  refine ⟨eq, ?_, ?_⟩
  · rw [c1, abs_le]
    constructor <;> norm_num <;> linarith
  · rw [eq]
    apply int_close
    rw [abs_lt]
    constructor <;> linarith

theorem lroundf_eq (n : Int) (x : ℚ) (h0 : 0 ≤ x) (h1 : (n : ℚ) - 1 / 2 ≤ x)
    (h2 : x < (n : ℚ) + 1 / 2) : lroundf x = n := by
  unfold lroundf
  rw [if_pos h0, Int.floor_eq_iff]
  constructor <;> linarith

theorem two_zpow_neg126_le_one : (2 : ℚ) ^ (-126 : Int) ≤ 1 := by
  norm_num [zpow_neg]

/-- A value of at least 1 loses at most the fraction `2 ^ (-24)` in the rounding. -/
theorem fl32_ge_of_one_le (x : ℚ) (h : 1 ≤ x) : x - x / 16777216 ≤ fl32 x := by
  have hz := zpow_vals.2.2.2.2.2.2
  have hx : |x| = x := abs_of_pos (by linarith)
  have hr := fl32_near_rel x (by rw [hx]; linarith [two_zpow_neg126_le_one])
  rw [hx, hz, abs_le] at hr
  linarith

theorem fl32_le_of_le_neg_one (x : ℚ) (h : x ≤ -1) : fl32 x ≤ x - x / 16777216 := by
  have hz := zpow_vals.2.2.2.2.2.2
  have hx : |x| = -x := abs_of_neg (by linarith)
  have hr := fl32_near_rel x (by rw [hx]; linarith [two_zpow_neg126_le_one])
  rw [hx, hz, abs_le] at hr
  linarith

theorem lroundf_ge (n : Int) (x : ℚ) (h : (n : ℚ) - 1 / 2 < x) : n ≤ lroundf x := by
  have hr := abs_le.mp (lroundf_near x)
  have : ((n : Int) : ℚ) - 1 < ((lroundf x : Int) : ℚ) := by linarith
  have : ((n - 1 : Int) : ℚ) < ((lroundf x : Int) : ℚ) := by push_cast; linarith
  have := Int.cast_lt.mp this
  omega

theorem lroundf_le (n : Int) (x : ℚ) (h : x < (n : ℚ) + 1 / 2) : lroundf x ≤ n := by
  have hr := abs_le.mp (lroundf_near x)
  have : ((lroundf x : Int) : ℚ) < ((n + 1 : Int) : ℚ) := by push_cast; linarith
  have := Int.cast_lt.mp this
  omega

theorem encodeTemperature_upper (c : ℚ) (h : 32767 ≤ c / 0.005) :
    encodeTemperature c = 32767 := by
  have e' : c / 0.005 = 200 * c := by norm_num; ring
  rw [e'] at h
  have e : c / (5368709 / 1073741824 : ℚ) = c * (1073741824 / 5368709) := by field_simp
  have hq : (32767 : ℚ) ≤ c / (5368709 / 1073741824 : ℚ) := by rw [e]; linarith
  have hy := fl32_ge_of_one_le _ (by linarith : (1 : ℚ) ≤ c / (5368709 / 1073741824 : ℚ))
  have := lroundf_ge 32767 (fl32 (c / (5368709 / 1073741824 : ℚ))) (by push_cast; linarith)
  rw [encodeTemperature_eq, fl32_0005]
  omega

theorem encodeTemperature_lower (c : ℚ) (h : c / 0.005 ≤ -32768) :
    encodeTemperature c = -32768 := by
  have e' : c / 0.005 = 200 * c := by norm_num; ring
  rw [e'] at h
  have e : c / (5368709 / 1073741824 : ℚ) = c * (1073741824 / 5368709) := by field_simp
  have hq : c / (5368709 / 1073741824 : ℚ) ≤ -32768 := by rw [e]; linarith
  have hy := fl32_le_of_le_neg_one _ (by linarith : c / (5368709 / 1073741824 : ℚ) ≤ -1)
  have := lroundf_le (-32768) (fl32 (c / (5368709 / 1073741824 : ℚ))) (by push_cast; linarith)
  rw [encodeTemperature_eq, fl32_0005]
  omega

theorem encodeHumidity_upper (rh : ℚ) (h : 65535 ≤ rh / 0.0025) :
    encodeHumidity rh = 65535 := by
  have e' : rh / 0.0025 = 400 * rh := by norm_num; ring
  rw [e'] at h
  have e : rh / (5368709 / 2147483648 : ℚ) = rh * (2147483648 / 5368709) := by field_simp
  have hq : (65535 : ℚ) ≤ rh / (5368709 / 2147483648 : ℚ) := by rw [e]; linarith
  have hy := fl32_ge_of_one_le _ (by linarith : (1 : ℚ) ≤ rh / (5368709 / 2147483648 : ℚ))
  have := lroundf_ge 65535 (fl32 (rh / (5368709 / 2147483648 : ℚ))) (by push_cast; linarith)
  have he := encodeHumidity_eq rh
  rw [fl32_00025] at he
  omega

theorem encodeHumidity_lower (rh : ℚ) (h : rh / 0.0025 ≤ 0) : encodeHumidity rh = 0 := by
  have e' : rh / 0.0025 = 400 * rh := by norm_num; ring
  rw [e'] at h
  have e : rh / (5368709 / 2147483648 : ℚ) = rh * (2147483648 / 5368709) := by field_simp
  have hq : rh / (5368709 / 2147483648 : ℚ) ≤ 0 := by rw [e]; linarith
  have hy := fl32_nonpos _ hq
  have := lroundf_le 0 (fl32 (rh / (5368709 / 2147483648 : ℚ))) (by push_cast; linarith)
  have he := encodeHumidity_eq rh
  rw [fl32_00025] at he
  omega

theorem encodePressure_upper (hpa : ℚ) (h : 65535 ≤ hpa * 100 - 50000) :
    encodePressure hpa = 65535 := by
  have hy := fl32_ge_of_one_le (hpa * 100) (by linarith)
  have hd := fl32_ge_of_one_le (fl32 (hpa * 100) - 50000) (by linarith)
  have := lroundf_ge 65535 (fl32 (fl32 (hpa * 100) - 50000)) (by push_cast; linarith)
  have he := encodePressure_eq hpa
  omega

theorem encodePressure_lower (hpa : ℚ) (h : hpa * 100 - 50000 ≤ 0) :
    encodePressure hpa = 0 := by
  obtain ⟨-, z9, -, -, z16, -, -⟩ := zpow_vals
  have he := encodePressure_eq hpa
  have key : fl32 (fl32 (hpa * 100) - 50000) < 1 / 2 := by
    by_cases hp : hpa * 100 ≤ 0
    · have h1 := fl32_nonpos _ hp
      have h2 := fl32_nonpos (fl32 (hpa * 100) - 50000) (by linarith)
      linarith
    · have hp' : 0 < hpa * 100 := lt_of_not_le hp
      have hb : |hpa * 100| < (2 : ℚ) ^ ((15 : Int) + 1) := by
        rw [show ((15 : Int) + 1) = 16 by norm_num, z16, abs_lt]
        constructor <;> linarith
      have hn := fl32_near _ 15 (by norm_num) hb
      rw [show ((15 : Int) - 24) = -9 by norm_num, z9, abs_le] at hn
      by_cases hd : fl32 (hpa * 100) - 50000 ≤ 0
      · have := fl32_nonpos _ hd
        linarith
      · have hd' : 0 < fl32 (hpa * 100) - 50000 := lt_of_not_le hd
        have hb2 : |fl32 (hpa * 100) - 50000| < (2 : ℚ) ^ ((15 : Int) + 1) := by
          rw [show ((15 : Int) + 1) = 16 by norm_num, z16, abs_lt]
          constructor <;> linarith
        have hm := fl32_near _ 15 (by norm_num) hb2
        rw [show ((15 : Int) - 24) = -9 by norm_num, z9, abs_le] at hm
        linarith
  have := lroundf_le 0 (fl32 (fl32 (hpa * 100) - 50000)) (by push_cast; linarith)
  omega

/-- The binary32 value nearest to 53.2575 is `6980567 / 2 ^ 17`; its quotient by `0.005f`
rounds to 10651.5. -/
theorem scaled_53_2575 :
    fl32 53.2575 = 6980567 / 131072 ∧
    fl32 ((6980567 / 131072 : ℚ) / fl32 0.005) = 10651.5 := by
  constructor
  · rw [fl32_of_binade 53.2575 5 (by norm_num) (by norm_num [abs_of_pos])
      (by norm_num [abs_of_pos]),
      roundHalfEven_eq 13961134 _ (by norm_num) (by norm_num)]
    norm_num
  · rw [fl32_0005,
      fl32_of_binade _ 13 (by norm_num) (by norm_num [abs_of_pos])
        (by norm_num [abs_of_pos]),
      roundHalfEven_eq 10907136 _ (by norm_num) (by norm_num)]
    norm_num

/-- The binary32 value nearest to 1007.535 is `16507453 / 2 ^ 14`; its product with 100
rounds to 100753.5. -/
theorem scaled_1007_535 :
    fl32 1007.535 = 16507453 / 16384 ∧
    fl32 ((16507453 / 16384 : ℚ) * 100) = 100753.5 ∧
    fl32 ((100753.5 : ℚ) - 50000) = 50753.5 := by
  refine ⟨?_, ?_, ?_⟩
  · rw [fl32_of_binade 1007.535 9 (by norm_num) (by norm_num [abs_of_pos])
      (by norm_num [abs_of_pos]),
      roundHalfEven_eq 16507453 _ (by norm_num) (by norm_num)]
    norm_num
  · rw [fl32_of_binade _ 16 (by norm_num) (by norm_num [abs_of_pos])
      (by norm_num [abs_of_pos]),
      roundHalfEven_eq 12896448 _ (by norm_num) (by norm_num)]
    norm_num
  · rw [fl32_of_binade _ 15 (by norm_num) (by norm_num [abs_of_pos])
      (by norm_num [abs_of_pos]),
      roundHalfEven_eq 12992896 _ (by norm_num) (by norm_num)]
    norm_num

/-! ## The advertisement payload -/

theorem writeBE16_cons (a : Nat) (l : List Nat) (n : Nat) (v : Int) :
    writeBE16 (a :: l) (n + 1) v = a :: writeBE16 l n v := rfl

theorem writeBE16_zero (a b : Nat) (l : List Nat) (v : Int) :
    writeBE16 (a :: b :: l) 0 v = int32Byte v 8 :: int32Byte v 0 :: l := rfl

theorem writeBE16_chain (t h p x y z pw q : Int) (c : Nat) (mac : List Nat) :
    (List.range 6).foldl (fun b i => b.set (18 + i) (mac.getD i 0))
      (writeBE16 ((writeBE16 (writeBE16 (writeBE16 (writeBE16 (writeBE16 (writeBE16 (writeBE16
        ((List.replicate 24 0).set 0 0x05) 1 t) 3 h) 5 p) 7 x) 9 y) 11 z) 13 pw).set 15 c) 16 q) =
      [0x05, int32Byte t 8, int32Byte t 0, int32Byte h 8, int32Byte h 0,
        int32Byte p 8, int32Byte p 0, int32Byte x 8, int32Byte x 0,
        int32Byte y 8, int32Byte y 0, int32Byte z 8, int32Byte z 0,
        int32Byte pw 8, int32Byte pw 0, c, int32Byte q 8, int32Byte q 0,
        mac.getD 0 0, mac.getD 1 0, mac.getD 2 0, mac.getD 3 0, mac.getD 4 0, mac.getD 5 0] := by
  have hr : List.range 6 = [0, 1, 2, 3, 4, 5] := by decide
  have h24 : List.replicate 24 (0 : Nat) = [0,0,0,0,0,0,0,0,0,0,0,0,0,0,0,0,0,0,0,0,0,0,0,0] := by
    decide
  rw [hr, h24]
  simp only [writeBE16_cons, writeBE16_zero, List.set_cons_succ, List.set_cons_zero,
    List.foldl_cons, List.foldl_nil, Nat.reduceAdd]

theorem buildDf5Payload_eq (sample : SensorSample) (mac : List Nat) (c s : Nat) :
    buildDf5Payload sample mac c s =
      ([0x05,
        int32Byte (encodeTemperature sample.temperature_c) 8,
        int32Byte (encodeTemperature sample.temperature_c) 0,
        int32Byte (encodeHumidity sample.humidity_rh) 8,
        int32Byte (encodeHumidity sample.humidity_rh) 0,
        int32Byte (encodePressure sample.pressure_hpa) 8,
        int32Byte (encodePressure sample.pressure_hpa) 0,
        int32Byte sample.accel_x_mg 8, int32Byte sample.accel_x_mg 0,
        int32Byte sample.accel_y_mg 8, int32Byte sample.accel_y_mg 0,
        int32Byte sample.accel_z_mg 8, int32Byte sample.accel_z_mg 0,
        int32Byte (encodePower sample.battery_mv sample.tx_power_dbm) 8,
        int32Byte (encodePower sample.battery_mv sample.tx_power_dbm) 0,
        c, int32Byte s 8, int32Byte s 0,
        mac.getD 0 0, mac.getD 1 0, mac.getD 2 0, mac.getD 3 0, mac.getD 4 0, mac.getD 5 0],
       (s + 1) % 65536) := by
  simp only [buildDf5Payload]
  rw [writeBE16_chain]

theorem int32Byte_lt (v : Int) (k : Nat) : int32Byte v k < 256 := by
  unfold int32Byte
  omega

theorem be16_bytes (v : Int) : int32Byte v 8 * 256 + int32Byte v 0 = toU16 v := by
  simp only [int32Byte, toU16, Int.shiftRight_eq_div_pow]
  norm_num
  omega

theorem toU16_natCast (n : Nat) (h : n < 65536) : toU16 (n : Int) = n := by
  unfold toU16
  omega

theorem encodeTemperature_range (c : ℚ) :
    -32768 ≤ encodeTemperature c ∧ encodeTemperature c ≤ 32767 := by
  rw [encodeTemperature_eq]
  omega

theorem encodeHumidity_le (rh : ℚ) : encodeHumidity rh ≤ 65535 := by
  have := encodeHumidity_eq rh
  omega

theorem encodePressure_le (hpa : ℚ) : encodePressure hpa ≤ 65535 := by
  have := encodePressure_eq hpa
  omega

theorem encodePower_lt (battery_mv : Nat) (tx_dbm : Int) :
    encodePower battery_mv tx_dbm < 65536 := by
  unfold encodePower
  exact Nat.mod_lt _ (by norm_num)

theorem list_of_length_six (mac : List Nat) (h : mac.length = 6) :
    mac = [mac.getD 0 0, mac.getD 1 0, mac.getD 2 0, mac.getD 3 0, mac.getD 4 0,
      mac.getD 5 0] := by
  match mac, h with
  | [a, b, c, d, e, f], _ => rfl

theorem payload_field (sample : SensorSample) (mac : List Nat) (c s : Nat) :
    be16At (buildDf5Payload sample mac c s).1 1 = toU16 (encodeTemperature sample.temperature_c) ∧
    be16At (buildDf5Payload sample mac c s).1 3 = toU16 (encodeHumidity sample.humidity_rh) ∧
    be16At (buildDf5Payload sample mac c s).1 5 = toU16 (encodePressure sample.pressure_hpa) ∧
    be16At (buildDf5Payload sample mac c s).1 7 = toU16 sample.accel_x_mg ∧
    be16At (buildDf5Payload sample mac c s).1 9 = toU16 sample.accel_y_mg ∧
    be16At (buildDf5Payload sample mac c s).1 11 = toU16 sample.accel_z_mg ∧
    be16At (buildDf5Payload sample mac c s).1 13 =
      toU16 (encodePower sample.battery_mv sample.tx_power_dbm) ∧
    be16At (buildDf5Payload sample mac c s).1 16 = toU16 s := by
  rw [buildDf5Payload_eq]
  simp only [be16At, List.getD_cons_succ, List.getD_cons_zero, Nat.reduceAdd]
  exact ⟨be16_bytes _, be16_bytes _, be16_bytes _, be16_bytes _, be16_bytes _, be16_bytes _,
    be16_bytes _, be16_bytes _⟩

/-! ## C23: layout of the payload -/

/-- C23: for every sample, movement counter, sequence number and address (all within their C
types), `buildDf5Payload` returns 24 bytes: byte 0 is 0x05, the big-endian 16-bit fields at
offsets 1, 3, 5 hold the encoded temperature, humidity and pressure, those at 7, 9, 11 decode
(two's complement) to the unchanged acceleration values, offset 13 holds the power field,
offset 15 the movement counter, offset 16 the sequence number, and offsets 18..23 the six
address bytes in order. -/
theorem C23_payload_layout (sample : SensorSample) (mac : List Nat)
    (gMovementCounter gMeasurementSeq : Nat) (hs : sample.WF) (hmac : mac.length = 6)
    (hmacb : ∀ b ∈ mac, b < 256) (hc : gMovementCounter < 256)
    (hq : gMeasurementSeq < 65536) :
    (buildDf5Payload sample mac gMovementCounter gMeasurementSeq).1.length = 24 ∧
    (∀ b ∈ (buildDf5Payload sample mac gMovementCounter gMeasurementSeq).1, b < 256) ∧
    (buildDf5Payload sample mac gMovementCounter gMeasurementSeq).1.getD 0 0 = 0x05 ∧
    toI16 (be16At (buildDf5Payload sample mac gMovementCounter gMeasurementSeq).1 1) =
      encodeTemperature sample.temperature_c ∧
    be16At (buildDf5Payload sample mac gMovementCounter gMeasurementSeq).1 3 =
      encodeHumidity sample.humidity_rh ∧
    be16At (buildDf5Payload sample mac gMovementCounter gMeasurementSeq).1 5 =
      encodePressure sample.pressure_hpa ∧
    toI16 (be16At (buildDf5Payload sample mac gMovementCounter gMeasurementSeq).1 7) =
      sample.accel_x_mg ∧
    toI16 (be16At (buildDf5Payload sample mac gMovementCounter gMeasurementSeq).1 9) =
      sample.accel_y_mg ∧
    toI16 (be16At (buildDf5Payload sample mac gMovementCounter gMeasurementSeq).1 11) =
      sample.accel_z_mg ∧
    be16At (buildDf5Payload sample mac gMovementCounter gMeasurementSeq).1 13 =
      encodePower sample.battery_mv sample.tx_power_dbm ∧
    (buildDf5Payload sample mac gMovementCounter gMeasurementSeq).1.getD 15 0 =
      gMovementCounter ∧
    be16At (buildDf5Payload sample mac gMovementCounter gMeasurementSeq).1 16 =
      gMeasurementSeq ∧
    (buildDf5Payload sample mac gMovementCounter gMeasurementSeq).1.drop 18 = mac := by
  obtain ⟨f1, f3, f5, f7, f9, f11, f13, f16⟩ :=
    payload_field sample mac gMovementCounter gMeasurementSeq
  obtain ⟨-, -, hx, hy, hz⟩ := hs
  have tr := encodeTemperature_range sample.temperature_c
  refine ⟨?_, ?_, ?_, ?_, ?_, ?_, ?_, ?_, ?_, ?_, ?_, ?_, ?_⟩
  · rw [buildDf5Payload_eq]; rfl
  · rw [buildDf5Payload_eq]
    intro b hb
    have hm : ∀ i, mac.getD i 0 < 256 := by
      intro i
      rw [List.getD_eq_getElem?_getD]
      cases hi : mac[i]? with
      | none => simp
      | some v => exact hmacb v (List.getElem?_mem hi)
    simp only [List.mem_cons, List.mem_singleton, List.not_mem_nil, or_false] at hb
    rcases hb with h | h | h | h | h | h | h | h | h | h | h | h | h | h | h | h | h | h | h |
      h | h | h | h | h <;> subst h <;>
      first | exact int32Byte_lt _ _ | exact hm _ | exact hc | norm_num
  · rw [buildDf5Payload_eq]; rfl
  · rw [f1]; exact toI16_toU16 _ tr.1 (by omega)
  · rw [f3]; exact toU16_natCast _ (by have := encodeHumidity_le sample.humidity_rh; omega)
  · rw [f5]; exact toU16_natCast _ (by have := encodePressure_le sample.pressure_hpa; omega)
  · rw [f7]; exact toI16_toU16 _ hx.1 hx.2
  · rw [f9]; exact toI16_toU16 _ hy.1 hy.2
  · rw [f11]; exact toI16_toU16 _ hz.1 hz.2
  · rw [f13]; exact toU16_natCast _ (encodePower_lt _ _)
  · rw [buildDf5Payload_eq]; rfl
  · rw [f16]; exact toU16_natCast _ hq
  · rw [buildDf5Payload_eq]
    exact (list_of_length_six mac hmac).symm

/-! ## C21: round trip of the environmental fields -/

/-- C21: for a sample with temperature in [-40, 85] C, humidity in [0, 100] % and pressure
in [500, 1155.35] hPa, the inverse scaling of the temperature, humidity and pressure fields
of the payload (raw * 0.005 C, raw * 0.0025 %, raw + 50000 Pa) recovers the value within one
quantization step (0.005 C, 0.0025 %, 1 Pa), the `float` operations of the encoders being
rounded to binary32; the error is in fact at most 0.51 of a step. -/
theorem C21_roundtrip_within_step (sample : SensorSample) (mac : List Nat)
    (gMovementCounter gMeasurementSeq : Nat)
    (ht : -40 ≤ sample.temperature_c ∧ sample.temperature_c ≤ 85)
    (hh : 0 ≤ sample.humidity_rh ∧ sample.humidity_rh ≤ 100)
    (hp : 500 ≤ sample.pressure_hpa ∧ sample.pressure_hpa ≤ 1155.35) :
    |((toI16 (be16At (buildDf5Payload sample mac gMovementCounter gMeasurementSeq).1 1) : Int)
        : ℚ) * 0.005 - sample.temperature_c| ≤ 0.005 ∧
    |((be16At (buildDf5Payload sample mac gMovementCounter gMeasurementSeq).1 3 : Nat) : ℚ)
        * 0.0025 - sample.humidity_rh| ≤ 0.0025 ∧
    |(((be16At (buildDf5Payload sample mac gMovementCounter gMeasurementSeq).1 5 : Nat) : ℚ)
        + 50000) - sample.pressure_hpa * 100| ≤ 1 ∧
    |((toI16 (be16At (buildDf5Payload sample mac gMovementCounter gMeasurementSeq).1 1) : Int)
        : ℚ) * 0.005 - sample.temperature_c| ≤ 0.00255 ∧
    |((be16At (buildDf5Payload sample mac gMovementCounter gMeasurementSeq).1 3 : Nat) : ℚ)
        * 0.0025 - sample.humidity_rh| ≤ 0.001275 ∧
    |(((be16At (buildDf5Payload sample mac gMovementCounter gMeasurementSeq).1 5 : Nat) : ℚ)
        + 50000) - sample.pressure_hpa * 100| ≤ 0.51 := by
  obtain ⟨f1, f3, f5, -⟩ := payload_field sample mac gMovementCounter gMeasurementSeq
  have tr := encodeTemperature_range sample.temperature_c
  have g1 : toI16 (be16At (buildDf5Payload sample mac gMovementCounter gMeasurementSeq).1 1) =
      encodeTemperature sample.temperature_c := by
    rw [f1]; exact toI16_toU16 _ tr.1 (by omega)
  have g3 : be16At (buildDf5Payload sample mac gMovementCounter gMeasurementSeq).1 3 =
      encodeHumidity sample.humidity_rh := by
    rw [f3]; exact toU16_natCast _ (by have := encodeHumidity_le sample.humidity_rh; omega)
  have g5 : be16At (buildDf5Payload sample mac gMovementCounter gMeasurementSeq).1 5 =
      encodePressure sample.pressure_hpa := by
    rw [f5]; exact toU16_natCast _ (by have := encodePressure_le sample.pressure_hpa; omega)
  rw [g1, g3, g5]
  have a := (encodeTemperature_in_range _ ht.1 ht.2).2.1
  have b := (encodeHumidity_in_range _ hh.1 hh.2).2.1
  have c := (encodePressure_in_range _ hp.1 hp.2).2.1
  refine ⟨le_trans a (by norm_num), le_trans b (by norm_num), le_trans c (by norm_num),
    a, b, c⟩

/-! ## C22: rounding and clamping of the encoders -/

/-- C22 (amended): `encodeTemperature`, `encodeHumidity` and `encodePressure` return `lroundf`
(nearest integer, halfway cases away from zero) of the scaled value as computed in binary32,
that is of the rounded quotient by `0.005f`, of the rounded quotient by `0.0025f`, and of
`hPa * 100.0f - 50000.0f` with the product and the difference rounded, clamped to
[-32768, 32767], [0, 65535] and [0, 65535].  For every input the results lie in these
ranges; an input whose exact scaled value `celsius / 0.005`, `percent / 0.0025`,
`hPa * 100 - 50000` lies at or beyond a bound, with magnitude at most 2000000000 so that the
rounded value fits `long`, is mapped to that bound; and for a temperature in [-40, 85] C, a
humidity in [0, 100] % and a pressure in [500, 1155.35] hPa the result differs by at most 1
from the exact scaled value rounded to the nearest integer. -/
theorem C22_encoders_round_and_clamp (c rh hpa : ℚ) :
    encodeTemperature c = max (-32768) (min 32767 (lroundf (fl32 (c / fl32 0.005)))) ∧
    (encodeHumidity rh : Int) = max 0 (min 65535 (lroundf (fl32 (rh / fl32 0.0025)))) ∧
    (encodePressure hpa : Int) =
      max 0 (min 65535 (lroundf (fl32 (fl32 (hpa * 100) - 50000)))) ∧
    (∀ x : ℚ, |((lroundf x : Int) : ℚ) - x| ≤ 1 / 2 ∧
      (|((lroundf x : Int) : ℚ) - x| = 1 / 2 → |x| < |((lroundf x : Int) : ℚ)|)) ∧
    (-32768 ≤ encodeTemperature c ∧ encodeTemperature c ≤ 32767) ∧
    encodeHumidity rh ≤ 65535 ∧ encodePressure hpa ≤ 65535 ∧
    (32767 ≤ c / 0.005 → c / 0.005 ≤ 2000000000 → encodeTemperature c = 32767) ∧
    (c / 0.005 ≤ -32768 → -2000000000 ≤ c / 0.005 → encodeTemperature c = -32768) ∧
    (65535 ≤ rh / 0.0025 → rh / 0.0025 ≤ 2000000000 → encodeHumidity rh = 65535) ∧
    (rh / 0.0025 ≤ 0 → -2000000000 ≤ rh / 0.0025 → encodeHumidity rh = 0) ∧
    (65535 ≤ hpa * 100 - 50000 → hpa * 100 - 50000 ≤ 2000000000 →
      encodePressure hpa = 65535) ∧
    (hpa * 100 - 50000 ≤ 0 → -2000000000 ≤ hpa * 100 - 50000 → encodePressure hpa = 0) ∧
    (-40 ≤ c → c ≤ 85 → |encodeTemperature c - lroundf (c / 0.005)| ≤ 1) ∧
    (0 ≤ rh → rh ≤ 100 → |(encodeHumidity rh : Int) - lroundf (rh / 0.0025)| ≤ 1) ∧
    (500 ≤ hpa → hpa ≤ 1155.35 →
      |(encodePressure hpa : Int) - lroundf (hpa * 100 - 50000)| ≤ 1) :=
  ⟨encodeTemperature_eq c, encodeHumidity_eq rh, encodePressure_eq hpa,
    fun x => ⟨lroundf_near x, lroundf_tie_away x⟩,
    encodeTemperature_range c, encodeHumidity_le rh, encodePressure_le hpa,
    fun h _ => encodeTemperature_upper c h, fun h _ => encodeTemperature_lower c h,
    fun h _ => encodeHumidity_upper rh h, fun h _ => encodeHumidity_lower rh h,
    fun h _ => encodePressure_upper hpa h, fun h _ => encodePressure_lower hpa h,
    fun h1 h2 => (encodeTemperature_in_range c h1 h2).2.2,
    fun h1 h2 => (encodeHumidity_in_range rh h1 h2).2.2,
    fun h1 h2 => (encodePressure_in_range hpa h1 h2).2.2⟩

/-- C22 (as stated) fails: for the `float` value nearest to 53.2575 the quotient by `0.005f`
rounds to 10651.5 in binary32, so `encodeTemperature` returns 10652, while the exact quotient
by 0.005 is below 10651.5 and rounds to 10651; for the `float` value nearest to 1007.535 the
product with 100 rounds to 100753.5, so `encodePressure` returns 50754, while the exact value
of `hPa * 100 - 50000` rounds to 50753. -/
theorem C22_binary32_rounding_differs :
    fl32 53.2575 = 6980567 / 131072 ∧
    encodeTemperature (6980567 / 131072) = 10652 ∧
    max (-32768) (min 32767 (lroundf ((6980567 / 131072 : ℚ) / 0.005))) = 10651 ∧
    fl32 1007.535 = 16507453 / 16384 ∧
    encodePressure (16507453 / 16384) = 50754 ∧
    max 0 (min 65535 (lroundf ((16507453 / 16384 : ℚ) * 100 - 50000))) = 50753 := by
  have l1 : lroundf (10651.5 : ℚ) = 10652 := lroundf_eq 10652 _ (by norm_num) (by norm_num)
    (by norm_num)
  have l2 : lroundf ((6980567 / 131072 : ℚ) / 0.005) = 10651 :=
    lroundf_eq 10651 _ (by norm_num) (by norm_num) (by norm_num)
  have l3 : lroundf (50753.5 : ℚ) = 50754 := lroundf_eq 50754 _ (by norm_num) (by norm_num)
    (by norm_num)
  have l4 : lroundf ((16507453 / 16384 : ℚ) * 100 - 50000) = 50753 :=
    lroundf_eq 50753 _ (by norm_num) (by norm_num) (by norm_num)
  refine ⟨scaled_53_2575.1, ?_, ?_, scaled_1007_535.1, ?_, ?_⟩
  · rw [encodeTemperature_eq, scaled_53_2575.2, l1]
    decide
  · rw [l2]
    decide
  · have he := encodePressure_eq (16507453 / 16384)
    rw [scaled_1007_535.2.1, scaled_1007_535.2.2, l3] at he
    omega
  · rw [l4]
    decide

/-! ## C24: the sequence counter -/

theorem buildPayloads_length (calls : List (SensorSample × List Nat × Nat)) (s : Nat) :
    (buildPayloads s calls).length = calls.length := by
  induction calls generalizing s with
  | nil => rfl
  | cons x rest ih =>
    obtain ⟨sample, mac, c⟩ := x
    simp only [buildPayloads, List.length_cons, ih]

theorem buildPayloads_seq (calls : List (SensorSample × List Nat × Nat)) (s k : Nat)
    (hs : s < 65536) (hk : k < calls.length) :
    be16At ((buildPayloads s calls).getD k []) 16 = (s + k) % 65536 := by
  induction calls generalizing s k with
  | nil => simp at hk
  | cons x rest ih =>
    obtain ⟨sample, mac, c⟩ := x
    cases k with
    | zero =>
      simp only [buildPayloads, List.getD_cons_zero]
      rw [(payload_field sample mac c s).2.2.2.2.2.2.2, toU16_natCast _ hs]
      omega
    | succ k =>
      simp only [buildPayloads, List.getD_cons_succ]
      have hk' : k < rest.length := by simpa using hk
      rw [ih _ k (by rw [buildDf5Payload_eq]; exact Nat.mod_lt _ (by norm_num)) hk']
      rw [buildDf5Payload_eq]
      show ((s + 1) % 65536 + k) % 65536 = (s + (k + 1)) % 65536
      omega

/-- C24: every call of `buildDf5Payload` puts the current sequence counter at offset 16 and
leaves the counter advanced by one modulo 2^16; starting from the initial value 1, the
payload of call number `k + 1` carries `(k + 1) mod 65536`, every call yields a payload, and
the payload after one that carries 65535 carries 0. -/
theorem C24_sequence_counter (calls : List (SensorSample × List Nat × Nat)) (k : Nat)
    (hk : k < calls.length) :
    (buildPayloads gMeasurementSeq_init calls).length = calls.length ∧
    be16At ((buildPayloads gMeasurementSeq_init calls).getD k []) 16 = (k + 1) % 65536 ∧
    (k + 1 < calls.length →
      be16At ((buildPayloads gMeasurementSeq_init calls).getD k []) 16 = 65535 →
      be16At ((buildPayloads gMeasurementSeq_init calls).getD (k + 1) []) 16 = 0) ∧
    (∀ (sample : SensorSample) (mac : List Nat) (c s : Nat), s < 65536 →
      be16At (buildDf5Payload sample mac c s).1 16 = s ∧
      (buildDf5Payload sample mac c s).2 = (s + 1) % 65536) := by
  have h1 : gMeasurementSeq_init < 65536 := by decide
  have e1 : gMeasurementSeq_init = 1 := rfl
  refine ⟨buildPayloads_length _ _, ?_, ?_, ?_⟩
  · rw [buildPayloads_seq _ _ _ h1 hk, e1]; omega
  · intro hk1 h
    rw [buildPayloads_seq _ _ _ h1 hk, e1] at h
    rw [buildPayloads_seq _ _ _ h1 hk1, e1]
    omega
  · intro sample mac c s hs
    refine ⟨?_, ?_⟩
    · rw [(payload_field sample mac c s).2.2.2.2.2.2.2, toU16_natCast _ hs]
    · rw [buildDf5Payload_eq]

/-! ## C25: the advertising interval class -/

/-- C25: on every tick the interval class is DEV (211 ms) when the developer-mode flag
`dev_mode` is set, whatever the other inputs (and `dev_mode` is set whenever
`DEV_MODE_ENABLE` is 1); otherwise it is FAST (1285 ms) in fast-only mode, SLOW (8995 ms) in
slow-only mode, and in hybrid mode FAST exactly when `uptime < 60000` or
`uptime < fast_until_deadline`, SLOW otherwise. -/
theorem C25_interval_class (cfg : BuildConfig) (gUptimeMs gFastUntilMs : Nat) :
    (dev_mode cfg = true →
      loopMode cfg gUptimeMs gFastUntilMs = ⟨false, false, ModeLabel.DEV, 211⟩) ∧
    (cfg.DEV_MODE_ENABLE = 1 → dev_mode cfg = true) ∧
    (dev_mode cfg = false → cfg.OPERATING_MODE = 0 →
      loopMode cfg gUptimeMs gFastUntilMs = ⟨true, false, ModeLabel.FAST, 1285⟩) ∧
    (dev_mode cfg = false → cfg.OPERATING_MODE = 1 →
      loopMode cfg gUptimeMs gFastUntilMs = ⟨false, true, ModeLabel.SLOW, 8995⟩) ∧
    (dev_mode cfg = false → cfg.OPERATING_MODE = 2 →
      (gUptimeMs < 60000 ∨ gUptimeMs < gFastUntilMs) →
      loopMode cfg gUptimeMs gFastUntilMs = ⟨true, false, ModeLabel.FAST, 1285⟩) ∧
    (dev_mode cfg = false → cfg.OPERATING_MODE = 2 →
      ¬ (gUptimeMs < 60000 ∨ gUptimeMs < gFastUntilMs) →
      loopMode cfg gUptimeMs gFastUntilMs = ⟨false, true, ModeLabel.SLOW, 8995⟩) := by
  refine ⟨?_, ?_, ?_, ?_, ?_, ?_⟩
  · intro h
    simp [loopMode, h, DEV_ADV_MS]
  · intro h
    simp [dev_mode, board_dev_mode_enabled, h]
  · intro h h0
    simp [loopMode, h, h0, FAST_ADV_MS]
  · intro h h1
    simp [loopMode, h, h1, SLOW_ADV_MS]
  · intro h h2 hf
    have hd : (decide (gUptimeMs < FAST_MODE_INITIAL_MS) || decide (gUptimeMs < gFastUntilMs))
        = true := by
      simpa [FAST_MODE_INITIAL_MS] using hf
    simp only [loopMode, h, h2, hd]
    simp [FAST_ADV_MS]
  · intro h h2 hf
    have hd : (decide (gUptimeMs < FAST_MODE_INITIAL_MS) || decide (gUptimeMs < gFastUntilMs))
        = false := by
      rw [Bool.eq_false_iff]
      simpa [FAST_MODE_INITIAL_MS] using hf
    simp only [loopMode, h, h2, hd]
    simp [SLOW_ADV_MS]

/-! ## C29: interval units -/

theorem intervalUnitsFromMs_eq (ms : Nat) (h : ms * 1000 < 4294967296) :
    intervalUnitsFromMs ms = max 32 (min 16384 (ms * 1000 / 625)) := by
  simp only [intervalUnitsFromMs, U32]
  rw [Nat.mod_eq_of_lt h]
  split_ifs <;> omega

theorem intervalUnitsFromMs_range (ms : Nat) :
    32 ≤ intervalUnitsFromMs ms ∧ intervalUnitsFromMs ms ≤ 16384 := by
  simp only [intervalUnitsFromMs]
  split_ifs <;> omega

/-- C29: `intervalUnitsFromMs(ms)` is `clamp(floor(ms * 1000 / 625), 32, 16384)` whenever
`ms * 1000 < 2^32`, and lies in [32, 16384] for every `ms`; for the interval classes 211,
1285 and 8995 ms the minimum interval is 337, 2056 and 14392 units, the maximum interval
(from `ms + 10`) is 353, 2072 and 14408 units, and the minimum does not exceed the maximum
(nor does it for any interval with `(ms + 10) * 1000 < 2^32`). -/
theorem C29_interval_units (ms : Nat) :
    (ms * 1000 < 4294967296 → intervalUnitsFromMs ms = max 32 (min 16384 (ms * 1000 / 625))) ∧
    (32 ≤ intervalUnitsFromMs ms ∧ intervalUnitsFromMs ms ≤ 16384) ∧
    (minIntervalUnits DEV_ADV_MS = 337 ∧ minIntervalUnits FAST_ADV_MS = 2056 ∧
      minIntervalUnits SLOW_ADV_MS = 14392) ∧
    (maxIntervalUnits DEV_ADV_MS = 353 ∧ maxIntervalUnits FAST_ADV_MS = 2072 ∧
      maxIntervalUnits SLOW_ADV_MS = 14408) ∧
    (DEV_ADV_MS = 211 ∧ FAST_ADV_MS = 1285 ∧ SLOW_ADV_MS = 8995 ∧ JITTER_MS_MAX = 10) ∧
    ((ms + 10) * 1000 < 4294967296 → minIntervalUnits ms ≤ maxIntervalUnits ms) := by
  refine ⟨intervalUnitsFromMs_eq ms, intervalUnitsFromMs_range ms, by decide, by decide,
    by decide, ?_⟩
  intro h
  have h1 : ms * 1000 < 4294967296 := by omega
  have h2 : (ms + JITTER_MS_MAX) % U32 = ms + 10 := by
    simp only [JITTER_MS_MAX, U32]; omega
  simp only [minIntervalUnits, maxIntervalUnits, h2]
  rw [intervalUnitsFromMs_eq ms h1, intervalUnitsFromMs_eq (ms + 10) h]
  omega

/-! ## C27, C28: movement detection -/

theorem axisDelta_of_le (a last : Int) (h : |a - last| ≤ 32767) : axisDelta a last = |a - last| := by
  unfold axisDelta
  exact toI16_toU16 _ (by have := abs_nonneg (a - last); omega) (by omega)

theorem updateMovementCounter_first (st : MovementState) (sample : SensorSample) (now : Nat)
    (h : st.first_call = true) :
    updateMovementCounter st sample now =
      (false, ⟨sample.accel_x_mg, sample.accel_y_mg, sample.accel_z_mg, st.last_movement_ms,
        false, st.gMovementCounter⟩) := by
  simp [updateMovementCounter, h]

theorem updateMovementCounter_true_iff (st : MovementState) (sample : SensorSample) (now : Nat) :
    (updateMovementCounter st sample now).1 = true ↔
      st.first_call = false ∧
      120 ≤ max (axisDelta sample.accel_x_mg st.last_ax)
        (max (axisDelta sample.accel_y_mg st.last_ay) (axisDelta sample.accel_z_mg st.last_az)) ∧
      300 < (now + 4294967296 - st.last_movement_ms) % 4294967296 := by
  unfold updateMovementCounter
  cases hf : st.first_call
  · simp only [Bool.false_eq_true, if_false, kDeltaThresholdMg, U32, ge_iff_le, gt_iff_lt]
    split
    · rename_i h; simpa using h
    · rename_i h; simpa using h
  · simp

theorem updateMovementCounter_of_true (st : MovementState) (sample : SensorSample) (now : Nat)
    (h : (updateMovementCounter st sample now).1 = true) :
    (updateMovementCounter st sample now).2 =
      ⟨sample.accel_x_mg, sample.accel_y_mg, sample.accel_z_mg, now, false,
        (st.gMovementCounter + 1) % 256⟩ := by
  obtain ⟨hf, hd, ht⟩ := (updateMovementCounter_true_iff st sample now).mp h
  have hc : max (axisDelta sample.accel_x_mg st.last_ax)
      (max (axisDelta sample.accel_y_mg st.last_ay) (axisDelta sample.accel_z_mg st.last_az)) ≥
        kDeltaThresholdMg ∧ (now + U32 - st.last_movement_ms) % U32 > 300 := ⟨hd, ht⟩
  simp only [updateMovementCounter]
  rw [if_neg (by simp [hf]), if_pos hc]

theorem updateMovementCounter_of_false (st : MovementState) (sample : SensorSample) (now : Nat)
    (h : (updateMovementCounter st sample now).1 = false) :
    (updateMovementCounter st sample now).2 =
      ⟨sample.accel_x_mg, sample.accel_y_mg, sample.accel_z_mg, st.last_movement_ms, false,
        st.gMovementCounter⟩ := by
  cases hf : st.first_call
  · have hn : ¬ (max (axisDelta sample.accel_x_mg st.last_ax)
        (max (axisDelta sample.accel_y_mg st.last_ay) (axisDelta sample.accel_z_mg st.last_az)) ≥
          kDeltaThresholdMg ∧ (now + U32 - st.last_movement_ms) % U32 > 300) := by
      intro hc
      have := (updateMovementCounter_true_iff st sample now).mpr ⟨hf, hc.1, hc.2⟩
      rw [h] at this
      exact Bool.false_ne_true this
    simp only [updateMovementCounter]
    rw [if_neg (by simp [hf]), if_neg hn]
  · rw [updateMovementCounter_first st sample now hf]

/-! ## C27: when a movement is declared -/

/-- C27 (amended): for every sample after the first whose per-axis deltas from the previous
sample fit an `int16_t`, `updateMovementCounter` declares movement if and only if the maximum
of the three absolute per-axis deltas is at least 120 mg and more than 300 ms (modulo 2^32)
have passed since `last_movement_ms`; a declared movement increments the 8-bit counter by one
and records the time, anything else leaves both unchanged; the very first sample never
declares movement and leaves the counter unchanged. -/
theorem C27_movement_declared_iff (st : MovementState) (sample : SensorSample) (now : Nat)
    (hfirst : st.first_call = false)
    (hx : |sample.accel_x_mg - st.last_ax| ≤ 32767)
    (hy : |sample.accel_y_mg - st.last_ay| ≤ 32767)
    (hz : |sample.accel_z_mg - st.last_az| ≤ 32767) :
    ((updateMovementCounter st sample now).1 = true ↔
      120 ≤ max |sample.accel_x_mg - st.last_ax|
        (max |sample.accel_y_mg - st.last_ay| |sample.accel_z_mg - st.last_az|) ∧
      300 < (now + 4294967296 - st.last_movement_ms) % 4294967296) ∧
    ((updateMovementCounter st sample now).1 = true →
      (updateMovementCounter st sample now).2.gMovementCounter =
        (st.gMovementCounter + 1) % 256 ∧
      (updateMovementCounter st sample now).2.last_movement_ms = now) ∧
    ((updateMovementCounter st sample now).1 = false →
      (updateMovementCounter st sample now).2.gMovementCounter = st.gMovementCounter ∧
      (updateMovementCounter st sample now).2.last_movement_ms = st.last_movement_ms) ∧
    ((updateMovementCounter st sample now).2.last_ax = sample.accel_x_mg ∧
      (updateMovementCounter st sample now).2.last_ay = sample.accel_y_mg ∧
      (updateMovementCounter st sample now).2.last_az = sample.accel_z_mg) ∧
    (∀ (st0 : MovementState) (first : SensorSample) (t : Nat), st0.first_call = true →
      (updateMovementCounter st0 first t).1 = false ∧
      (updateMovementCounter st0 first t).2.gMovementCounter = st0.gMovementCounter ∧
      (updateMovementCounter st0 first t).2.first_call = false ∧
      (updateMovementCounter st0 first t).2.last_ax = first.accel_x_mg ∧
      (updateMovementCounter st0 first t).2.last_ay = first.accel_y_mg ∧
      (updateMovementCounter st0 first t).2.last_az = first.accel_z_mg) := by
  refine ⟨?_, ?_, ?_, ?_, ?_⟩
  · rw [updateMovementCounter_true_iff, axisDelta_of_le _ _ hx, axisDelta_of_le _ _ hy,
      axisDelta_of_le _ _ hz]
    simp [hfirst]
  · intro h
    rw [updateMovementCounter_of_true st sample now h]
    exact ⟨rfl, rfl⟩
  · intro h
    rw [updateMovementCounter_of_false st sample now h]
    exact ⟨rfl, rfl⟩
  · cases h : (updateMovementCounter st sample now).1
    · rw [updateMovementCounter_of_false st sample now h]
      exact ⟨rfl, rfl, rfl⟩
    · rw [updateMovementCounter_of_true st sample now h]
      exact ⟨rfl, rfl, rfl⟩
  · intro st0 first t h
    rw [updateMovementCounter_first st0 first t h]
    exact ⟨rfl, rfl, rfl, rfl, rfl, rfl⟩

/-- Witness for C27 (amended): a delta of 500 mg on one axis, 1000 ms after start-up. -/
theorem C27_movement_declared_iff_witness :
    ((updateMovementCounter ⟨0, 0, 0, 0, false, 0⟩ ⟨0, 0, 0, 0, 0, 500, 0, 0⟩ 1000).1 = true ↔
      120 ≤ max |(500 : Int) - 0| (max |(0 : Int) - 0| |(0 : Int) - 0|) ∧
      300 < (1000 + 4294967296 - 0) % 4294967296) :=
  (C27_movement_declared_iff ⟨0, 0, 0, 0, false, 0⟩ ⟨0, 0, 0, 0, 0, 500, 0, 0⟩ 1000 rfl
    (by decide) (by decide) (by decide)).1

/-- C27 (as stated) fails: with the previous sample at rest and the dead-time long over, a
sample whose largest per-axis delta is exactly 120 mg, which does not exceed the 120 mg
threshold, is declared a movement and increments the counter; and a sample whose X value
jumps from -32768 to 32767, a delta of 65535 mg, is not declared a movement. -/
theorem C27_threshold_value_declares_movement :
    ((updateMovementCounter ⟨0, 0, 0, 0, false, 7⟩ ⟨0, 0, 0, 0, 0, 120, 0, 0⟩ 1000).1 = true ∧
      (updateMovementCounter ⟨0, 0, 0, 0, false, 7⟩ ⟨0, 0, 0, 0, 0, 120, 0, 0⟩
        1000).2.gMovementCounter = 8 ∧
      ¬ (120 < max |(120 : Int) - 0| (max |(0 : Int) - 0| |(0 : Int) - 0|))) ∧
    ((updateMovementCounter ⟨-32768, 0, 0, 0, false, 7⟩ ⟨0, 0, 0, 0, 0, 32767, 0, 0⟩
        1000).1 = false ∧
      120 < max |(32767 : Int) - (-32768)| (max |(0 : Int) - 0| |(0 : Int) - 0|) ∧
      300 < (1000 + 4294967296 - 0) % 4294967296) := by
  decide

/-! ## C28: debounce -/

theorem declaredAt_after (calls : List (Nat × SensorSample)) (st : MovementState) (t0 : Nat)
    (hst : st.last_movement_ms = t0 % 4294967296)
    (hge : ∀ c ∈ calls, t0 ≤ c.1)
    (hsorted : calls.Pairwise (fun x y => x.1 ≤ y.1)) :
    (∀ d ∈ declaredAt st calls, t0 + 300 < d) ∧
      (declaredAt st calls).Pairwise (fun u v => u + 300 < v) := by
  induction calls generalizing st t0 with
  | nil => exact ⟨by simp [declaredAt], by simp [declaredAt]⟩
  | cons x rest ih =>
    obtain ⟨t, sample⟩ := x
    have ht0 : t0 ≤ t := hge (t, sample) (List.mem_cons_self _ _)
    rw [List.pairwise_cons] at hsorted
    cases h : (updateMovementCounter st sample (t % U32)).1
    · have hs := updateMovementCounter_of_false st sample _ h
      have := ih (updateMovementCounter st sample (t % U32)).2 t0 (by rw [hs]; exact hst)
        (fun c hc => hge c (List.mem_cons_of_mem _ hc)) hsorted.2
      simpa only [declaredAt, h, Bool.false_eq_true, if_false] using this
    · have hs := updateMovementCounter_of_true st sample _ h
      obtain ⟨-, -, hgap⟩ := (updateMovementCounter_true_iff st sample _).mp h
      have hgt : t0 + 300 < t := by
        rw [hst] at hgap
        simp only [U32] at hgap
        omega
      obtain ⟨a, b⟩ := ih (updateMovementCounter st sample (t % U32)).2 t
        (by rw [hs]; rfl) (fun c hc => hsorted.1 c hc) hsorted.2
      simp only [declaredAt, h, if_true]
      refine ⟨?_, List.pairwise_cons.mpr ⟨a, b⟩⟩
      intro d hd
      rcases List.mem_cons.mp hd with rfl | hd
      · exact hgt
      · have := a d hd
        omega

theorem declaredAt_pairwise (calls : List (Nat × SensorSample)) (st : MovementState)
    (hsorted : calls.Pairwise (fun x y => x.1 ≤ y.1)) :
    (declaredAt st calls).Pairwise (fun u v => u + 300 < v) := by
  induction calls generalizing st with
  | nil => simp [declaredAt]
  | cons x rest ih =>
    obtain ⟨t, sample⟩ := x
    rw [List.pairwise_cons] at hsorted
    cases h : (updateMovementCounter st sample (t % U32)).1
    · simpa only [declaredAt, h, Bool.false_eq_true, if_false] using ih _ hsorted.2
    · have hs := updateMovementCounter_of_true st sample _ h
      obtain ⟨a, b⟩ := declaredAt_after rest (updateMovementCounter st sample (t % U32)).2 t
        (by rw [hs]; rfl) (fun c hc => hsorted.1 c hc) hsorted.2
      simp only [declaredAt, h, if_true]
      exact List.pairwise_cons.mpr ⟨a, b⟩

/-- C28: when a sample processed at time `t1` is declared a movement and the next sample is
processed within the 300 ms dead-time (`t1 <= t2 <= t1 + 300`), the second call does not
declare movement whatever its deltas, so the counter has increased by exactly one (modulo
256) after both; and over any run of calls in time order, from any state, every two declared
movements are more than 300 ms apart. -/
theorem C28_debounce (st : MovementState) (a b : SensorSample) (t1 t2 : Nat)
    (h12 : t1 ≤ t2) (hwin : t2 ≤ t1 + 300)
    (hdecl : (updateMovementCounter st a (t1 % 4294967296)).1 = true) :
    (updateMovementCounter (updateMovementCounter st a (t1 % 4294967296)).2 b
      (t2 % 4294967296)).1 = false ∧
    (updateMovementCounter (updateMovementCounter st a (t1 % 4294967296)).2 b
      (t2 % 4294967296)).2.gMovementCounter = (st.gMovementCounter + 1) % 256 ∧
    (∀ (st0 : MovementState) (calls : List (Nat × SensorSample)),
      calls.Pairwise (fun x y => x.1 ≤ y.1) →
      (declaredAt st0 calls).Pairwise (fun u v => u + 300 < v)) := by
  have hs := updateMovementCounter_of_true st a _ hdecl
  have h2 : (updateMovementCounter (updateMovementCounter st a (t1 % 4294967296)).2 b
      (t2 % 4294967296)).1 = false := by
    rw [Bool.eq_false_iff]
    intro h
    obtain ⟨-, -, hgap⟩ := (updateMovementCounter_true_iff _ b _).mp h
    rw [hs] at hgap
    simp only at hgap
    omega
  refine ⟨h2, ?_, fun st0 calls hc => declaredAt_pairwise calls st0 hc⟩
  rw [updateMovementCounter_of_false _ b _ h2, hs]

/-- Witness for C28: two samples with deltas of 500 mg, 200 ms apart. -/
theorem C28_debounce_witness :
    (updateMovementCounter (updateMovementCounter ⟨0, 0, 0, 0, false, 0⟩
      ⟨0, 0, 0, 0, 0, 500, 0, 0⟩ (1000 % 4294967296)).2 ⟨0, 0, 0, 0, 0, 0, 0, 0⟩
      (1200 % 4294967296)).1 = false :=
  (C28_debounce ⟨0, 0, 0, 0, false, 0⟩ ⟨0, 0, 0, 0, 0, 500, 0, 0⟩ ⟨0, 0, 0, 0, 0, 0, 0, 0⟩
    1000 1200 (by decide) (by decide) (by decide)).1

/-! ## Scheduling in `loop()` -/

theorem loop_due_iff (cfg : BuildConfig) (st : LoopState) (now_ms : Nat) (sample : SensorSample)
    (now : Nat) :
    (loop cfg st now_ms sample now).1 = true ↔
      ((if st.first_loop then true else st.force_immediate_adv) = true ∨
        (now_ms + U32 - st.last_adv_ms) % U32 ≥
          (loopMode cfg now_ms st.gFastUntilMs).adv_interval_ms) := by
  simp only [loop]
  split_ifs <;> simp_all

theorem loop_of_movement (cfg : BuildConfig) (st : LoopState) (now_ms : Nat)
    (sample : SensorSample) (now : Nat) (hmode : cfg.OPERATING_MODE = 2)
    (hdue : (loop cfg st now_ms sample now).1 = true)
    (hmoved : (updateMovementCounter st.movement sample now).1 = true) :
    (loop cfg st now_ms sample now).2 =
      if (now_ms + FAST_MODE_MOVEMENT_MS) % U32 > st.gFastUntilMs then
        ⟨now_ms, (now_ms + FAST_MODE_MOVEMENT_MS) % U32, now_ms, true, false,
          (updateMovementCounter st.movement sample now).2⟩
      else
        ⟨now_ms, st.gFastUntilMs, now_ms, false, false,
          (updateMovementCounter st.movement sample now).2⟩ := by
  have hd := (loop_due_iff cfg st now_ms sample now).mp hdue
  simp only [loop]
  rw [if_pos hd, if_pos ⟨hmoved, hmode⟩]
  split_ifs <;> rfl

/-! ## C26: a movement extends the fast window -/

/-- C26 (amended): in hybrid mode, for every uptime with `uptime + 60000 < 2^32` and every
deadline, an iteration of `loop()` in which a movement is declared leaves
`fast_until_deadline = max(fast_until_deadline, uptime + 60000)`; it forces the next
advertisement exactly when that extends the deadline (`uptime + 60000` greater than the old
deadline), and a forced advertisement fires in the next iteration whatever the time and the
interval. -/
theorem C26_movement_extends_deadline (cfg : BuildConfig) (st : LoopState) (now_ms : Nat)
    (sample : SensorSample) (now : Nat) (hmode : cfg.OPERATING_MODE = 2)
    (hdue : (loop cfg st now_ms sample now).1 = true)
    (hmoved : (updateMovementCounter st.movement sample now).1 = true)
    (hnow : now_ms + 60000 < 4294967296) :
    (loop cfg st now_ms sample now).2.gUptimeMs = now_ms ∧
    (loop cfg st now_ms sample now).2.gFastUntilMs = max st.gFastUntilMs (now_ms + 60000) ∧
    ((loop cfg st now_ms sample now).2.force_immediate_adv = true ↔
      st.gFastUntilMs < now_ms + 60000) ∧
    ((loop cfg st now_ms sample now).2.force_immediate_adv = true →
      ∀ (now_ms1 : Nat) (sample1 : SensorSample) (now1 : Nat),
        (loop cfg (loop cfg st now_ms sample now).2 now_ms1 sample1 now1).1 = true) := by
  have hl := loop_of_movement cfg st now_ms sample now hmode hdue hmoved
  have e : (now_ms + FAST_MODE_MOVEMENT_MS) % U32 = now_ms + 60000 := by
    simp only [FAST_MODE_MOVEMENT_MS, U32]; omega
  rw [e] at hl
  refine ⟨?_, ?_, ?_, ?_⟩
  · rw [hl]; split_ifs <;> rfl
  · rw [hl]
    split_ifs with h
    · show now_ms + 60000 = max st.gFastUntilMs (now_ms + 60000)
      omega
    · show st.gFastUntilMs = max st.gFastUntilMs (now_ms + 60000)
      omega
  · rw [hl]
    split_ifs with h
    · simp only [true_iff]; omega
    · simp only [Bool.false_eq_true, false_iff]; omega
  · intro hf now_ms1 sample1 now1
    rw [loop_due_iff]
    left
    rw [hf]
    split_ifs <;> rfl

/-- Witness for C26 (amended): a movement at uptime 100000 ms with the deadline still 0. -/
theorem C26_movement_extends_deadline_witness :
    (loop ⟨2, 0, 0, 0⟩ ⟨0, 0, 0, false, false, ⟨0, 0, 0, 0, false, 0⟩⟩ 100000
      ⟨0, 0, 0, 0, 0, 500, 0, 0⟩ 100000).2.gFastUntilMs = max 0 (100000 + 60000) :=
  (C26_movement_extends_deadline ⟨2, 0, 0, 0⟩ ⟨0, 0, 0, false, false, ⟨0, 0, 0, 0, false, 0⟩⟩
    100000 ⟨0, 0, 0, 0, 0, 500, 0, 0⟩ 100000 rfl (by decide) (by decide) (by decide)).2.1

/-- C26 (as stated) fails.  First input: hybrid mode, uptime 10000 ms, deadline 100000 ms; a
movement is declared, the deadline stays 100000, the next advertisement is not forced and
the iteration 10 ms later does not advertise.  Second input: uptime 4294950000 ms, deadline
4294960000 ms; a movement is declared and the deadline stays 4294960000, below
`uptime + 60000`. -/
theorem C26_movement_without_forced_advertisement :
    ((updateMovementCounter ⟨0, 0, 0, 0, false, 0⟩ ⟨0, 0, 0, 0, 0, 500, 0, 0⟩ 10000).1 = true ∧
      (loop ⟨2, 0, 0, 0⟩ ⟨0, 100000, 0, false, false, ⟨0, 0, 0, 0, false, 0⟩⟩ 10000
        ⟨0, 0, 0, 0, 0, 500, 0, 0⟩ 10000) =
        (true, ⟨10000, 100000, 10000, false, false, ⟨500, 0, 0, 10000, false, 1⟩⟩) ∧
      (loop ⟨2, 0, 0, 0⟩ ⟨10000, 100000, 10000, false, false, ⟨500, 0, 0, 10000, false, 1⟩⟩
        10010 ⟨0, 0, 0, 0, 0, 0, 0, 0⟩ 10010).1 = false) ∧
    ((updateMovementCounter ⟨0, 0, 0, 0, false, 0⟩ ⟨0, 0, 0, 0, 0, 500, 0, 0⟩
        4294950000).1 = true ∧
      (loop ⟨2, 0, 0, 0⟩ ⟨0, 4294960000, 4294940000, false, false, ⟨0, 0, 0, 0, false, 0⟩⟩
        4294950000 ⟨0, 0, 0, 0, 0, 500, 0, 0⟩ 4294950000) =
        (true, ⟨4294950000, 4294960000, 4294950000, false, false,
          ⟨500, 0, 0, 4294950000, false, 1⟩⟩) ∧
      max 4294960000 (4294950000 + 60000) ≠ 4294960000) := by
  decide

/-! ## USB inference -/

theorem delta_raw_eq (batt_mv gLastBattMv : Nat) (hb : batt_mv < 32768)
    (hl : gLastBattMv < 32768) : delta_raw batt_mv gLastBattMv = (batt_mv : Int) - gLastBattMv := by
  unfold delta_raw toI16 toU16
  have e1 : batt_mv % 65536 = batt_mv := Nat.mod_eq_of_lt (by omega)
  have e2 : gLastBattMv % 65536 = gLastBattMv := Nat.mod_eq_of_lt (by omega)
  rw [e1, e2]
  split_ifs <;> omega

theorem detectUsbFromBattery_auto (override : Int) (g : PowerFilter) (batt_mv : Nat)
    (h0 : override ≠ 0) (h1 : override ≠ 1) :
    (detectUsbFromBattery override g batt_mv).2.gPowerScore = updatedScore g batt_mv ∧
    (detectUsbFromBattery override g batt_mv).2.gVf = filteredVoltage g batt_mv ∧
    (detectUsbFromBattery override g batt_mv).2.gSf = filteredSlope g batt_mv ∧
    (detectUsbFromBattery override g batt_mv).2.gVfPrev = filteredVoltage g batt_mv ∧
    (detectUsbFromBattery override g batt_mv).2.gLastBattMv = batt_mv := by
  simp only [detectUsbFromBattery, if_neg h0, if_neg h1, and_self]

theorem updatedScore_range (g : PowerFilter) (batt_mv : Nat)
    (h : -12 ≤ g.gPowerScore ∧ g.gPowerScore ≤ 12) :
    -12 ≤ updatedScore g batt_mv ∧ updatedScore g batt_mv ≤ 12 := by
  simp only [updatedScore, VBAT_SCORE_MAX]
  split_ifs <;> omega

theorem detectUsbFromBattery_range (override : Int) (g : PowerFilter) (batt_mv : Nat)
    (h : -12 ≤ g.gPowerScore ∧ g.gPowerScore ≤ 12) :
    -12 ≤ (detectUsbFromBattery override g batt_mv).2.gPowerScore ∧
      (detectUsbFromBattery override g batt_mv).2.gPowerScore ≤ 12 := by
  by_cases h0 : override = 0
  · simpa [detectUsbFromBattery, h0] using h
  · by_cases h1 : override = 1
    · simpa [detectUsbFromBattery, h1] using h
    · rw [(detectUsbFromBattery_auto override g batt_mv h0 h1).1]
      exact updatedScore_range g batt_mv h

theorem usbTicks_range (override : Int) (readings : List Nat) (g : PowerFilter)
    (h : -12 ≤ g.gPowerScore ∧ g.gPowerScore ≤ 12) :
    -12 ≤ (usbTicks override g readings).gPowerScore ∧
      (usbTicks override g readings).gPowerScore ≤ 12 := by
  induction readings generalizing g with
  | nil => exact h
  | cons b rest ih =>
    simp only [usbTicks, List.foldl_cons]
    exact ih _ (detectUsbFromBattery_range override g b h)

/-! ## C30: the evidence score -/

/-- C30: in auto mode, for readings that fit an `int16_t` and a score within [-12, 12]: when
there is a previous raw sample and the new one differs from it by more than 30 mV the score
is unchanged; otherwise the score moves by +2 if the smoothed slope (mV/min) exceeds 8, by
-1 if it is below -3, and by one unit toward zero otherwise, saturating at 12 and -12; the
voltage and slope filters are updated in either case; after the tick, and after any number
of ticks from start-up, the score lies in [-12, 12]. -/
theorem C30_score_update (override : Int) (g : PowerFilter) (batt_mv : Nat)
    (hauto : override ≠ 0 ∧ override ≠ 1)
    (hb : batt_mv < 32768) (hl : g.gLastBattMv < 32768)
    (hscore : -12 ≤ g.gPowerScore ∧ g.gPowerScore ≤ 12) :
    (g.gLastBattMv ≠ 0 → 30 < |(batt_mv : Int) - (g.gLastBattMv : Int)| →
      (detectUsbFromBattery override g batt_mv).2.gPowerScore = g.gPowerScore) ∧
    ((g.gLastBattMv = 0 ∨ |(batt_mv : Int) - (g.gLastBattMv : Int)| ≤ 30) →
      (8 < (detectUsbFromBattery override g batt_mv).2.gSf * 60 →
        (detectUsbFromBattery override g batt_mv).2.gPowerScore = min 12 (g.gPowerScore + 2)) ∧
      (¬ 8 < (detectUsbFromBattery override g batt_mv).2.gSf * 60 →
        (detectUsbFromBattery override g batt_mv).2.gSf * 60 < -3 →
        (detectUsbFromBattery override g batt_mv).2.gPowerScore =
          max (-12) (g.gPowerScore - 1)) ∧
      (¬ 8 < (detectUsbFromBattery override g batt_mv).2.gSf * 60 →
        ¬ (detectUsbFromBattery override g batt_mv).2.gSf * 60 < -3 →
        (detectUsbFromBattery override g batt_mv).2.gPowerScore =
          if 0 < g.gPowerScore then g.gPowerScore - 1
          else if g.gPowerScore < 0 then g.gPowerScore + 1 else g.gPowerScore)) ∧
    ((detectUsbFromBattery override g batt_mv).2.gVf =
        (if g.gVf = 0 then (batt_mv : ℚ) else g.gVf) +
          0.05 * ((batt_mv : ℚ) - (if g.gVf = 0 then (batt_mv : ℚ) else g.gVf)) ∧
      (detectUsbFromBattery override g batt_mv).2.gSf =
        g.gSf + 0.04 * (((detectUsbFromBattery override g batt_mv).2.gVf -
          (if g.gVf = 0 then (batt_mv : ℚ) else g.gVfPrev)) - g.gSf) ∧
      (detectUsbFromBattery override g batt_mv).2.gVfPrev =
        (detectUsbFromBattery override g batt_mv).2.gVf ∧
      (detectUsbFromBattery override g batt_mv).2.gLastBattMv = batt_mv) ∧
    (-12 ≤ (detectUsbFromBattery override g batt_mv).2.gPowerScore ∧
      (detectUsbFromBattery override g batt_mv).2.gPowerScore ≤ 12) ∧
    (∀ readings : List Nat,
      -12 ≤ (usbTicks override PowerFilter.init readings).gPowerScore ∧
        (usbTicks override PowerFilter.init readings).gPowerScore ≤ 12) := by
  obtain ⟨e1, e2, e3, e4, e5⟩ := detectUsbFromBattery_auto override g batt_mv hauto.1 hauto.2
  have hd := delta_raw_eq batt_mv g.gLastBattMv hb hl
  refine ⟨?_, ?_, ?_, detectUsbFromBattery_range override g batt_mv hscore,
    fun readings => usbTicks_range override readings PowerFilter.init
      ⟨by decide, by decide⟩⟩
  · intro hne hbig
    have hs : spike batt_mv g.gLastBattMv = true := by
      simp only [spike, hd, VBAT_SPIKE_MV]
      simp [hne, hbig]
    rw [e1]
    simp only [updatedScore, hs]
    simp
  · intro hsmall
    have hs : spike batt_mv g.gLastBattMv = false := by
      simp only [spike, hd, VBAT_SPIKE_MV]
      rcases hsmall with h | h
      · simp [h]
      · simp [not_lt.mpr h]
    rw [e1, e3]
    simp only [updatedScore, hs, VBAT_T_CHARGE, VBAT_T_DISCHARGE, VBAT_SCORE_MAX]
    refine ⟨?_, ?_, ?_⟩
    · intro h8
      simp only [Bool.not_false, if_true, gt_iff_lt, h8]
      split_ifs <;> omega
    · intro h8 h3
      simp only [Bool.not_false, if_true, gt_iff_lt, h8, if_false, h3]
      split_ifs <;> omega
    · intro h8 h3
      simp only [Bool.not_false, if_true, gt_iff_lt, h8, if_false, h3]
      split_ifs <;> omega
  · refine ⟨?_, ?_, ?_, e5⟩
    · rw [e2]; simp only [filteredVoltage, VBAT_ALPHA]
    · rw [e3, e2]; simp only [filteredSlope, VBAT_BETA]
    · rw [e4, e2]

/-- Witness for C30: a reading of 3300 mV after one of 3400 mV. -/
theorem C30_score_update_witness :
    (detectUsbFromBattery (-1) ⟨3400, false, 3400, 0, 5, 0, 3400⟩ 3300).2.gPowerScore = 5 :=
  (C30_score_update (-1) ⟨3400, false, 3400, 0, 5, 0, 3400⟩ 3300 ⟨by decide, by decide⟩
    (by decide) (by decide) ⟨by decide, by decide⟩).1 (by decide) (by decide)

/-! ## Witnesses for the advertisement claims -/

/-- Witness for C21: 21.5 C, 45.25 %, 1013.25 hPa. -/
theorem C21_roundtrip_within_step_witness :
    |((toI16 (be16At (buildDf5Payload ⟨21.5, 45.25, 1013.25, 3000, 4, 0, 0, 1000⟩
        [1, 2, 3, 4, 5, 6] 0 1).1 1) : Int) : ℚ) * 0.005 - 21.5| ≤ 0.005 :=
  (C21_roundtrip_within_step ⟨21.5, 45.25, 1013.25, 3000, 4, 0, 0, 1000⟩ [1, 2, 3, 4, 5, 6] 0 1
    ⟨by norm_num, by norm_num⟩ ⟨by norm_num, by norm_num⟩ ⟨by norm_num, by norm_num⟩).1

/-- Witness for C22: 200 C is encoded as the upper bound 32767. -/
theorem C22_encoders_round_and_clamp_witness : encodeTemperature 200 = 32767 :=
  (C22_encoders_round_and_clamp 200 0 0).2.2.2.2.2.2.2.1 (by norm_num) (by norm_num)

/-- Witness for C23: a sample with negative acceleration on one axis. -/
theorem C23_payload_layout_witness :
    toI16 (be16At (buildDf5Payload ⟨21.5, 45.25, 1013.25, 3000, 4, -5, 0, 1000⟩
      [1, 2, 3, 4, 5, 6] 7 65535).1 7) = -5 :=
  (C23_payload_layout ⟨21.5, 45.25, 1013.25, 3000, 4, -5, 0, 1000⟩ [1, 2, 3, 4, 5, 6] 7 65535
    ⟨by decide, ⟨by decide, by decide⟩, ⟨by decide, by decide⟩, ⟨by decide, by decide⟩,
      ⟨by decide, by decide⟩⟩ rfl (by decide) (by decide) (by decide)).2.2.2.2.2.2.1

/-- Witness for C24: the second of two payloads carries sequence number 2. -/
theorem C24_sequence_counter_witness :
    be16At ((buildPayloads gMeasurementSeq_init
      [(⟨21.5, 45.25, 1013.25, 3000, 4, -5, 0, 1000⟩, [1, 2, 3, 4, 5, 6], 0),
       (⟨21.5, 45.25, 1013.25, 3000, 4, -5, 0, 1000⟩, [1, 2, 3, 4, 5, 6], 0)]).getD 1 [])
      16 = (1 + 1) % 65536 :=
  (C24_sequence_counter
    [(⟨21.5, 45.25, 1013.25, 3000, 4, -5, 0, 1000⟩, [1, 2, 3, 4, 5, 6], 0),
     (⟨21.5, 45.25, 1013.25, 3000, 4, -5, 0, 1000⟩, [1, 2, 3, 4, 5, 6], 0)] 1
    (by decide)).2.1

/-- Witness for C25: hybrid mode, 70 s after start-up, no movement so far. -/
theorem C25_interval_class_witness :
    loopMode ⟨2, 0, 0, 0⟩ 70000 0 = ⟨false, true, ModeLabel.SLOW, 8995⟩ :=
  (C25_interval_class ⟨2, 0, 0, 0⟩ 70000 0).2.2.2.2.2 rfl rfl (by decide)

/-- Witness for C29: the development interval of 211 ms. -/
theorem C29_interval_units_witness :
    intervalUnitsFromMs 211 = max 32 (min 16384 (211 * 1000 / 625)) :=
  (C29_interval_units 211).1 (by decide)

/-! ## C34: the USB override -/

/-- C34: with the override 0 (force battery) `detectUsbFromBattery` returns false and with the
override 1 (force USB) it returns true, for every battery sample, and in both cases every
global of the filter (filtered voltage, filtered slope, score, previous raw sample, verdict,
USB state) is left as it was; the filter state can only change when the override is neither
0 nor 1 (auto mode), where the sample is taken in. -/
theorem C34_override_bypasses_filter (g : PowerFilter) (batt_mv : Nat) (override : Int) :
    detectUsbFromBattery 0 g batt_mv = (false, g) ∧
    detectUsbFromBattery 1 g batt_mv = (true, g) ∧
    ((detectUsbFromBattery override g batt_mv).2 ≠ g → override ≠ 0 ∧ override ≠ 1) ∧
    (override ≠ 0 → override ≠ 1 →
      (detectUsbFromBattery override g batt_mv).2.gLastBattMv = batt_mv ∧
      (detectUsbFromBattery override g batt_mv).2.gVf = filteredVoltage g batt_mv ∧
      (detectUsbFromBattery override g batt_mv).2.gSf = filteredSlope g batt_mv ∧
      (detectUsbFromBattery override g batt_mv).2.gPowerScore = updatedScore g batt_mv) := by
  refine ⟨by simp [detectUsbFromBattery], by simp [detectUsbFromBattery], ?_, ?_⟩
  · intro h
    constructor
    · intro h0
      apply h
      rw [h0]
      simp [detectUsbFromBattery]
    · intro h1
      apply h
      rw [h1]
      simp [detectUsbFromBattery]
  · intro h0 h1
    obtain ⟨e1, e2, e3, -, e5⟩ := detectUsbFromBattery_auto override g batt_mv h0 h1
    exact ⟨e5, e2, e3, e1⟩

/-- Witness for C34: in auto mode the first sample is taken in. -/
theorem C34_override_bypasses_filter_witness :
    (detectUsbFromBattery (-1) PowerFilter.init 3300).2.gLastBattMv = 3300 :=
  ((C34_override_bypasses_filter PowerFilter.init 3300 (-1)).2.2.2 (by decide) (by decide)).1

/-! ## C37: the wire values -/

theorem streamEntries_single (w : World) (e : HistoryEntry)
    (hc : w.nus.connected_ = true) (ht : w.nus.tx_char_ = true) :
    (streamEntries 0 w [e]).sent = w.sent ++
      [historyPacket RESP_STREAM_TEMP e.timestamp (temp_re e),
       historyPacket RESP_STREAM_HUM e.timestamp (hum_re e),
       historyPacket RESP_STREAM_PRES e.timestamp (pres_re e)] := by
  rw [streamEntries_connected 0 [e] w hc ht]
  simp [wanted, entryPackets, historyPacket_eq, RESP_STREAM_TEMP, RESP_STREAM_HUM,
    RESP_STREAM_PRES]

/-- C37: for every stored entry, the three packets streamed for it carry, as big-endian
two's-complement values, `temp_wire = t / 2` and `hum_wire = h / 4` with the division
truncating toward zero, and `pres_wire = p + 50000`, none of which overflows 32 bits; hence
`|2 * temp_wire - t| <= 1`, `0 <= h - 4 * hum_wire <= 3` and
`50000 <= pres_wire <= 115535`; a stored temperature of -3 streams as -1 and a stored
pressure of 12345 as 62345. -/
theorem C37_wire_values (w : World) (e : HistoryEntry) (hwf : e.WF)
    (hc : w.nus.connected_ = true) (ht : w.nus.tx_char_ = true) :
    (streamEntries 0 w [e]).sent = w.sent ++
      [historyPacket RESP_STREAM_TEMP e.timestamp (temp_re e),
       historyPacket RESP_STREAM_HUM e.timestamp (hum_re e),
       historyPacket RESP_STREAM_PRES e.timestamp (pres_re e)] ∧
    toI32 (parseTimestamp ((historyPacket RESP_STREAM_TEMP e.timestamp (temp_re e)).drop 7))
      = temp_re e ∧
    toI32 (parseTimestamp ((historyPacket RESP_STREAM_HUM e.timestamp (hum_re e)).drop 7))
      = hum_re e ∧
    toI32 (parseTimestamp ((historyPacket RESP_STREAM_PRES e.timestamp (pres_re e)).drop 7))
      = pres_re e ∧
    (0 ≤ e.temperature → temp_re e = e.temperature / 2) ∧
    (e.temperature < 0 → temp_re e = -((-e.temperature) / 2)) ∧
    |2 * temp_re e - e.temperature| ≤ 1 ∧
    hum_re e = ((e.humidity / 4 : Nat) : Int) ∧
    (0 ≤ (e.humidity : Int) - 4 * hum_re e ∧ (e.humidity : Int) - 4 * hum_re e ≤ 3) ∧
    pres_re e = (e.pressure : Int) + 50000 ∧
    (50000 ≤ pres_re e ∧ pres_re e ≤ 115535) ∧
    (e.temperature = -3 → temp_re e = -1) ∧
    (e.pressure = 12345 → pres_re e = 62345) := by
  obtain ⟨r1, r2, r3⟩ := wire_values_in_range e hwf
  obtain ⟨hts, htemp, hhum, hpres, -⟩ := hwf
  have d1 := (logValuePacket_decode RESP_STREAM_TEMP e.timestamp (temp_re e) hts r1.1 r1.2).2.2
  have d2 := (logValuePacket_decode RESP_STREAM_HUM e.timestamp (hum_re e) hts r2.1 r2.2).2.2
  have d3 := (logValuePacket_decode RESP_STREAM_PRES e.timestamp (pres_re e) hts r3.1 r3.2).2.2
  rw [← historyPacket_eq] at d1 d2 d3
  have t1 : 0 ≤ e.temperature → temp_re e = e.temperature / 2 := by
    intro h
    unfold temp_re
    exact Int.tdiv_eq_ediv h (by norm_num)
  have t2 : e.temperature < 0 → temp_re e = -((-e.temperature) / 2) := by
    intro h
    unfold temp_re
    have : e.temperature = -(-e.temperature) := by omega
    conv_lhs => rw [this]
    rw [Int.neg_tdiv, Int.tdiv_eq_ediv (by omega) (by norm_num)]
  have hh : hum_re e = ((e.humidity / 4 : Nat) : Int) := by
    unfold hum_re
    rw [Int.tdiv_eq_ediv (by omega) (by norm_num)]
    norm_cast
  refine ⟨streamEntries_single w e hc ht, d1, d2, d3, t1, t2, ?_, hh, ?_, rfl, ?_, ?_, ?_⟩
  · rw [abs_le]
    rcases le_or_lt 0 e.temperature with h | h
    · rw [t1 h]; omega
    · rw [t2 h]; omega
  · rw [hh]; omega
  · unfold pres_re; omega
  · intro h
    rw [t2 (by omega), h]
    decide
  · intro h
    unfold pres_re
    rw [h]
    decide

/-- Witness for C37: the entry `oddEntry` streamed to a connected client. -/
theorem C37_wire_values_witness : |2 * temp_re oddEntry - oddEntry.temperature| ≤ 1 :=
  (C37_wire_values oneEntryWorld oddEntry (by decide) rfl rfl).2.2.2.2.2.2.1

/-! ## C40: every entry older than the start timestamp -/

theorem streamEntries_all_older (start_timestamp : Nat) (hs : 0 < start_timestamp)
    (es : List HistoryEntry) (hold : ∀ e ∈ es, e.timestamp < start_timestamp) (w : World) :
    streamEntries start_timestamp w es = w := by
  induction es with
  | nil => rfl
  | cons e rest ih =>
    have he := hold e (List.mem_cons_self _ _)
    simp only [streamEntries]
    rw [if_pos ⟨hs, he⟩]
    exact ih (fun x hx => hold x (List.mem_cons_of_mem _ hx))

/-- C40: when `readAllEntries` yields a non-empty sequence of entries and each of them has a
timestamp below the requested non-zero start timestamp, `handleReadHistory` leaves the world
as it was: no notification is emitted, neither a data packet nor the empty acknowledgment
frame. -/
theorem C40_older_entries_send_nothing (w : World) (params : List Nat) (o : ReadOutcome)
    (es : List HistoryEntry) (hlen : 4 ≤ params.length) (hstart : 0 < parseTimestamp params)
    (hread : readAllEntries w.log w.fs o [] = (true, es)) (hne : es ≠ [])
    (hold : ∀ e ∈ es, e.timestamp < parseTimestamp params) :
    handleReadHistory w params o = w ∧ (handleReadHistory w params o).sent = w.sent := by
  have hl : es.length ≠ 0 := by
    intro h
    exact hne (List.length_eq_zero.mp h)
  have h : handleReadHistory w params o = w := by
    unfold handleReadHistory
    rw [hread]
    simp only [ge_iff_le, hlen, if_true, Bool.not_true, Bool.false_eq_true, if_false,
      beq_iff_eq, hl]
    exact streamEntries_all_older _ hstart es hold w
  exact ⟨h, by rw [h]⟩

/-! ## C38, C39: what the header check accepts -/

theorem loadMetadata_accepts_iff (s : HistoryLog) (d : Option (List Nat)) (file : List Nat)
    (o : LoadOutcome) (hlen : file.length = 40) :
    (loadMetadata s ⟨d, some file⟩ o).1 = true ↔
      o.openOk = true ∧ 40 ≤ o.readLimit ∧
      (HistoryMetadata.ofBytes file).magic = HISTORY_MAGIC ∧
      verifyChecksum (HistoryMetadata.ofBytes file) = true := by
  have e40 : sizeof_HistoryMetadata = 40 := rfl
  simp only [loadMetadata, e40]
  by_cases ho : o.openOk
  · simp only [ho, Bool.not_true, Bool.false_eq_true, if_false, true_and]
    by_cases hr : 40 ≤ o.readLimit
    · have hgot : readAt file 0 (min 40 o.readLimit) = file := by
        unfold readAt
        rw [List.drop_zero]
        exact List.take_of_length_le (by rw [hlen]; omega)
      have hdrop : List.drop 40 s.meta_.toBytes = [] :=
        List.drop_of_length_le (by rw [s.meta_.hdr_length])
      simp only [hgot, hlen, hdrop, List.append_nil, bne_self_eq_false, Bool.false_eq_true,
        if_false, hr, true_and]
      by_cases hm : (HistoryMetadata.ofBytes file).magic = HISTORY_MAGIC
      · by_cases hv : verifyChecksum (HistoryMetadata.ofBytes file) = true
        · simp [hm, hv]
        · simp [hm, hv]
      · simp [hm]
    · have hl : (readAt file 0 (min 40 o.readLimit)).length ≠ 40 := by
        unfold readAt
        rw [List.drop_zero, List.length_take, hlen]
        omega
      simp [hl, hr]
  · simp [ho]

theorem flipBit_getD_ne (b : List Nat) (i j n : Nat) (h : n ≠ i) :
    (flipBit b i j).getD n 0 = b.getD n 0 := by
  simp only [flipBit, List.getD_eq_getElem?_getD]
  rw [List.getElem?_set_ne (by omega)]

theorem flipBit_take (b : List Nat) (i j n : Nat) (h : i < n) :
    (flipBit b i j).take n = flipBit (b.take n) i j := by
  simp only [flipBit, List.set_take, List.getD_eq_getElem?_getD, List.getElem?_take, h,
    if_true]

theorem flipBit_take_of_le (b : List Nat) (i j n : Nat) (h : n ≤ i) :
    (flipBit b i j).take n = b.take n := by
  simp only [flipBit, List.set_take]
  exact List.set_eq_of_length_le (by rw [List.length_take]; omega)

theorem flipBit_ne (b : List Nat) (i j : Nat) (hi : i < b.length) : flipBit b i j ≠ b := by
  intro h
  have h1 : (flipBit b i j).getD i 0 = b.getD i 0 := by rw [h]
  simp only [flipBit, List.getD_eq_getElem?_getD] at h1
  rw [List.getElem?_set_self hi] at h1
  simp only [Option.getD_some] at h1
  have h0 : (b[i]?.getD 0) ^^^ 1 <<< j = (b[i]?.getD 0) ^^^ 0 := by
    rw [Nat.xor_zero]; exact h1
  have h2 := Nat.xor_right_injective h0
  rw [Nat.one_shiftLeft] at h2
  exact absurd h2 (Nat.pos_iff_ne_zero.mp (Nat.two_pow_pos j))

theorem xorBytes_two_flips (l : List Nat) (i j k : Nat) (hi : i < l.length)
    (hj : j < l.length) : xorBytes (flipBit (flipBit l i k) j k) = xorBytes l := by
  unfold flipBit
  rw [xorBytes_set _ _ _ (by rw [List.length_set]; exact hj), xorBytes_set _ _ _ hi,
    Nat.xor_assoc, Nat.xor_self, Nat.xor_zero]

/-- C39: for every 40-byte header that `loadMetadata` accepts, flipping one and the same bit
position in two distinct bytes among bytes 4..31 gives a different header that
`loadMetadata` accepts as well: acceptance is exactly that the file opens, 40 bytes are
read, the magic matches and byte 32 is the XOR of the first 32 bytes; there is no check of
capacity, entry count or indices. -/
theorem C39_compensating_flips_accepted (s : HistoryLog) (d : Option (List Nat))
    (file : List Nat) (o : LoadOutcome) (i j k : Nat) (hlen : file.length = 40)
    (hb : ∀ x ∈ file, x < 256) (hacc : (loadMetadata s ⟨d, some file⟩ o).1 = true)
    (hi : 4 ≤ i ∧ i < 32) (hj : 4 ≤ j ∧ j < 32) (hij : i ≠ j) (hk : k < 8) :
    (loadMetadata s ⟨d, some (flipBit (flipBit file i k) j k)⟩ o).1 = true ∧
    flipBit (flipBit file i k) j k ≠ file ∧
    ((loadMetadata s ⟨d, some file⟩ o).1 = true ↔
      o.openOk = true ∧ 40 ≤ o.readLimit ∧ fieldAt file 0 4 = 0x52555649 ∧
      file.getD 32 0 = xorBytes (file.take 32)) := by
  have hiff : (loadMetadata s ⟨d, some file⟩ o).1 = true ↔
      o.openOk = true ∧ 40 ≤ o.readLimit ∧ fieldAt file 0 4 = 0x52555649 ∧
      file.getD 32 0 = xorBytes (file.take 32) := by
    rw [loadMetadata_accepts_iff s d file o hlen, verifyChecksum_ofBytes file hlen hb]
    simp [HistoryMetadata.ofBytes, HISTORY_MAGIC]
  obtain ⟨h1, h2, h3, h4⟩ := hiff.mp hacc
  have hlen2 : (flipBit (flipBit file i k) j k).length = 40 := by
    rw [flipBit_length, flipBit_length, hlen]
  have hb2 : ∀ x ∈ flipBit (flipBit file i k) j k, x < 256 :=
    flipBit_lt _ j k hk (flipBit_lt file i k hk hb)
  refine ⟨?_, ?_, hiff⟩
  · rw [loadMetadata_accepts_iff s d _ o hlen2, verifyChecksum_ofBytes _ hlen2 hb2]
    refine ⟨h1, h2, ?_, ?_⟩
    · show fieldAt (flipBit (flipBit file i k) j k) 0 4 = HISTORY_MAGIC
      unfold fieldAt
      rw [List.drop_zero, flipBit_take_of_le _ j k 4 hj.1, flipBit_take_of_le _ i k 4 hi.1]
      have := h3
      unfold fieldAt at this
      rw [List.drop_zero] at this
      exact this
    · rw [flipBit_getD_ne _ j k 32 (by omega), flipBit_getD_ne _ i k 32 (by omega),
        flipBit_take _ j k 32 hj.2, flipBit_take _ i k 32 hi.2,
        xorBytes_two_flips _ i j k (by rw [List.length_take, hlen]; omega)
          (by rw [List.length_take, hlen]; omega), h4]
      simp
  · intro h
    have h1 : (flipBit (flipBit file i k) j k).getD i 0 = file.getD i 0 := by rw [h]
    rw [flipBit_getD_ne _ j k i hij] at h1
    have h2 : flipBit file i k ≠ file := flipBit_ne file i k (by omega)
    apply h2
    apply List.ext_getElem (by rw [flipBit_length])
    intro n hn1 hn2
    by_cases hni : n = i
    · subst hni
      have := h1
      simp only [List.getD_eq_getElem?_getD, List.getElem?_eq_getElem hn1,
        List.getElem?_eq_getElem hn2, Option.getD_some] at this
      exact this
    · have := flipBit_getD_ne file i k n hni
      simp only [List.getD_eq_getElem?_getD, List.getElem?_eq_getElem hn1,
        List.getElem?_eq_getElem hn2, Option.getD_some] at this
      exact this

/-- C38: for every in-memory header `m` (of the object `s`), a `saveMetadata` that writes all
40 bytes followed by a `loadMetadata` that reads them (a restart) is accepted and restores
entry count, oldest and newest index, capacity, clock offset and last write time exactly as
in `m`, with magic 0x52555649 and version 1; byte 32 of the file, the stored checksum, is
the XOR of the first 32 bytes. -/
theorem C38_save_load_roundtrip (s s0 : HistoryLog) (fs : FS) (hwf : s.meta_.WF) :
    (saveMetadata s fs SaveOutcome.good).1 = true ∧
    (saveMetadata s fs SaveOutcome.good).2.2.index = some (savedHeader s.meta_) ∧
    (savedHeader s.meta_).length = 40 ∧
    (savedHeader s.meta_).getD 32 0 = xorBytes ((savedHeader s.meta_).take 32) ∧
    (loadMetadata s0 (saveMetadata s fs SaveOutcome.good).2.2 LoadOutcome.good).1 = true ∧
    (loadMetadata s0 (saveMetadata s fs SaveOutcome.good).2.2 LoadOutcome.good).2.meta_ =
      ⟨0x52555649, 1, s.meta_.entry_count, s.meta_.oldest_index, s.meta_.newest_index,
        s.meta_.max_entries, s.meta_.rtc_offset, s.meta_.last_write_time,
        xorBytes ((savedHeader s.meta_).take 32), s.meta_.reserved⟩ ∧
    (loadMetadata s0 (saveMetadata s fs SaveOutcome.good).2.2 LoadOutcome.good).2.rtc_offset_ =
      s.meta_.rtc_offset := by
  have hsave := saveMetadata_good s fs
  have hwf' := saveMetadata_wf s fs SaveOutcome.good hwf
  rw [saveMetadata_meta] at hwf'
  have hload := loadMetadata_good s0 fs.data
    (calculateChecksum { s.meta_ with magic := HISTORY_MAGIC, version := 1 }) hwf' rfl
    (verifyChecksum_calculateChecksum _)
  have hfs : (saveMetadata s fs SaveOutcome.good).2.2 =
      ⟨fs.data, some (calculateChecksum
        { s.meta_ with magic := HISTORY_MAGIC, version := 1 }).toBytes⟩ := by
    rw [hsave]; rfl
  have hck : (calculateChecksum { s.meta_ with magic := HISTORY_MAGIC, version := 1 }) =
      ⟨0x52555649, 1, s.meta_.entry_count, s.meta_.oldest_index, s.meta_.newest_index,
        s.meta_.max_entries, s.meta_.rtc_offset, s.meta_.last_write_time,
        xorBytes ((savedHeader s.meta_).take 32), s.meta_.reserved⟩ := by
    unfold savedHeader
    rw [calculateChecksum_take32]
    rfl
  refine ⟨by rw [hsave], saveMetadata_good_index s fs, savedHeader_length _,
    savedHeader_checksum _, ?_, ?_, ?_⟩
  · rw [hfs, hload]
  · rw [hfs, hload]
    exact hck
  · rw [hfs, hload]
    show (calculateChecksum { s.meta_ with magic := HISTORY_MAGIC, version := 1 }).rtc_offset
      = s.meta_.rtc_offset
    rfl

/-! ## C31: a spike and the verdict -/

theorem detectUsbFromBattery_verdict (override : Int) (g : PowerFilter) (batt_mv : Nat)
    (h0 : override ≠ 0) (h1 : override ≠ 1) :
    (detectUsbFromBattery override g batt_mv).2.gPowerState =
      (if filteredVoltage g batt_mv > 4150 ∧ filteredSlope g batt_mv * 60 > -2 then 1
       else if updatedScore g batt_mv ≥ 12 then 1
       else if updatedScore g batt_mv ≤ -12 then 2 else g.gPowerState) ∧
    (detectUsbFromBattery override g batt_mv).1 =
      (detectUsbFromBattery override g batt_mv).2.gUsbState ∧
    (detectUsbFromBattery override g batt_mv).2.gUsbState =
      (if (detectUsbFromBattery override g batt_mv).2.gPowerState = 1 then true
       else if (detectUsbFromBattery override g batt_mv).2.gPowerState = 2 then false
       else g.gUsbState) := by
  simp only [detectUsbFromBattery, if_neg h0, if_neg h1, VBAT_SCORE_MAX, and_self, and_true]

theorem updatedScore_spike (g : PowerFilter) (batt_mv : Nat) (hb : batt_mv < 32768)
    (hl : g.gLastBattMv < 32768) (hne : g.gLastBattMv ≠ 0)
    (hbig : 30 < |(batt_mv : Int) - (g.gLastBattMv : Int)|) :
    updatedScore g batt_mv = g.gPowerScore := by
  have hd := delta_raw_eq batt_mv g.gLastBattMv hb hl
  have hs : spike batt_mv g.gLastBattMv = true := by
    simp only [spike, hd, VBAT_SPIKE_MV]
    simp [hne, hbig]
  simp only [updatedScore, hs]
  simp

/-- C31 (amended): in auto mode, for every filter state and every sample that differs from
the previous raw sample by more than 30 mV, the evidence score is unchanged; the verdict
after the sample is charging when the near-full override fires (filtered voltage after the
sample above 4150 mV and smoothed slope above -2 mV/min), and otherwise it is the verdict of
a saturated score (charging at 12, discharging at -12) or else the verdict before.  Hence,
when the override does not fire and the state before agrees with itself (charging at score
12, discharging at score -12, USB state following a charging or discharging verdict), the
verdict and the returned USB state are the same as before the sample. -/
theorem C31_spike_keeps_score (override : Int) (g : PowerFilter) (batt_mv : Nat)
    (hauto : override ≠ 0 ∧ override ≠ 1) (hb : batt_mv < 32768) (hl : g.gLastBattMv < 32768)
    (hprev : g.gLastBattMv ≠ 0)
    (hspike : 30 < |(batt_mv : Int) - (g.gLastBattMv : Int)|) :
    (detectUsbFromBattery override g batt_mv).2.gPowerScore = g.gPowerScore ∧
    (((detectUsbFromBattery override g batt_mv).2.gVf > 4150 ∧
        (detectUsbFromBattery override g batt_mv).2.gSf * 60 > -2) →
      (detectUsbFromBattery override g batt_mv).2.gPowerState = 1 ∧
      (detectUsbFromBattery override g batt_mv).1 = true) ∧
    (¬ ((detectUsbFromBattery override g batt_mv).2.gVf > 4150 ∧
        (detectUsbFromBattery override g batt_mv).2.gSf * 60 > -2) →
      (detectUsbFromBattery override g batt_mv).2.gPowerState =
        (if g.gPowerScore ≥ 12 then 1 else if g.gPowerScore ≤ -12 then 2
         else g.gPowerState) ∧
      ((g.gPowerScore ≥ 12 → g.gPowerState = 1) → (g.gPowerScore ≤ -12 → g.gPowerState = 2) →
        (g.gPowerState = 1 → g.gUsbState = true) → (g.gPowerState = 2 → g.gUsbState = false) →
        (detectUsbFromBattery override g batt_mv).2.gPowerState = g.gPowerState ∧
        (detectUsbFromBattery override g batt_mv).1 = g.gUsbState ∧
        (detectUsbFromBattery override g batt_mv).2.gUsbState = g.gUsbState)) := by
  obtain ⟨e1, e2, e3, -, -⟩ := detectUsbFromBattery_auto override g batt_mv hauto.1 hauto.2
  obtain ⟨v1, v2, v3⟩ := detectUsbFromBattery_verdict override g batt_mv hauto.1 hauto.2
  have hsc := updatedScore_spike g batt_mv hb hl hprev hspike
  rw [hsc] at v1
  refine ⟨by rw [e1, hsc], ?_, ?_⟩
  · intro hn
    rw [e2, e3] at hn
    have hst : (detectUsbFromBattery override g batt_mv).2.gPowerState = 1 := by
      rw [v1, if_pos hn]
    refine ⟨hst, ?_⟩
    rw [v2, v3, hst]
    simp
  · intro hn
    rw [e2, e3] at hn
    have hst : (detectUsbFromBattery override g batt_mv).2.gPowerState =
        (if g.gPowerScore ≥ 12 then 1 else if g.gPowerScore ≤ -12 then 2
         else g.gPowerState) := by
      rw [v1, if_neg hn]
    refine ⟨hst, ?_⟩
    intro c1 c2 c3 c4
    have hsame : (detectUsbFromBattery override g batt_mv).2.gPowerState = g.gPowerState := by
      rw [hst]
      split_ifs with a b
      · exact (c1 a).symm
      · exact (c2 b).symm
      · rfl
    have husb : (detectUsbFromBattery override g batt_mv).2.gUsbState = g.gUsbState := by
      rw [v3, hsame]
      split_ifs with a b
      · exact (c3 a).symm
      · exact (c4 b).symm
      · rfl
    exact ⟨hsame, by rw [v2, husb], husb⟩

/-- Witness for C31 (amended): a jump from 3400 mV to 3300 mV. -/
theorem C31_spike_keeps_score_witness :
    (detectUsbFromBattery (-1) ⟨3400, false, 3400, 0, 5, 0, 3400⟩ 3300).2.gPowerScore = 5 :=
  (C31_spike_keeps_score (-1) ⟨3400, false, 3400, 0, 5, 0, 3400⟩ 3300 ⟨by decide, by decide⟩
    (by decide) (by decide) (by decide) (by decide)).1

/-- C31 (as stated) fails: after a first reading of 4140 mV the verdict is unknown and the USB
state false; a second reading of 4400 mV differs from the previous raw sample by 260 mV, more
than the spike threshold, and after it the verdict is charging and the returned USB state
is true. -/
theorem C31_spike_flips_verdict :
    (usbTicks (-1) PowerFilter.init [4140]).gPowerState = 0 ∧
    (usbTicks (-1) PowerFilter.init [4140]).gUsbState = false ∧
    (usbTicks (-1) PowerFilter.init [4140]).gLastBattMv = 4140 ∧
    30 < |((4400 : Nat) : Int) - ((4140 : Nat) : Int)| ∧
    (detectUsbFromBattery (-1) (usbTicks (-1) PowerFilter.init [4140]) 4400).2.gPowerState = 1 ∧
    (detectUsbFromBattery (-1) (usbTicks (-1) PowerFilter.init [4140]) 4400).1 = true := by
  have h1 : usbTicks (-1) PowerFilter.init [4140] = ⟨4140, false, 4140, 0, 0, 0, 4140⟩ := by
    simp only [usbTicks, List.foldl_cons, List.foldl_nil]
    norm_num [detectUsbFromBattery, filteredVoltage, filteredSlope, updatedScore, spike,
      PowerFilter.init, VBAT_ALPHA, VBAT_BETA, VBAT_T_CHARGE, VBAT_T_DISCHARGE, VBAT_SCORE_MAX]
  rw [h1]
  refine ⟨rfl, rfl, rfl, by decide, ?_, ?_⟩
  · norm_num [detectUsbFromBattery, filteredVoltage, filteredSlope, updatedScore, spike,
      VBAT_ALPHA, VBAT_BETA, VBAT_T_CHARGE, VBAT_T_DISCHARGE, VBAT_SCORE_MAX]
  · norm_num [detectUsbFromBattery, filteredVoltage, filteredSlope, updatedScore, spike,
      VBAT_ALPHA, VBAT_BETA, VBAT_T_CHARGE, VBAT_T_DISCHARGE, VBAT_SCORE_MAX]

/-! ## C33: what `readSensors` returns -/

/-- C33 fails on the first call: the static `last` is initialised with an unchecked driver
reading.  When the driver delivers -127 C in the initialiser and -127 C again in the call
(both below -40 C), the second reading is discarded and the first one is returned although
it is out of range; `last` then holds it, so it is returned again for as long as the driver
readings stay out of range.  Once `last` holds an in-range reading, every returned
temperature and humidity is in range. -/
theorem C33_first_reading_unchecked :
    (readSensors none ⟨-127, 50, 1013, 0, 0, 0, 0, 0⟩ ⟨-127, 50, 1013, 0, 0, 0, 0, 0⟩ 3300
      0 0 0).1.temperature_c = -127 ∧
    ¬ ((-40 : ℚ) ≤ (readSensors none ⟨-127, 50, 1013, 0, 0, 0, 0, 0⟩
      ⟨-127, 50, 1013, 0, 0, 0, 0, 0⟩ 3300 0 0 0).1.temperature_c) ∧
    (readSensors (readSensors none ⟨-127, 50, 1013, 0, 0, 0, 0, 0⟩
        ⟨-127, 50, 1013, 0, 0, 0, 0, 0⟩ 3300 0 0 0).2 ⟨20, 50, 1013, 0, 0, 0, 0, 0⟩
      ⟨-90, 50, 1013, 0, 0, 0, 0, 0⟩ 3300 0 0 0).1.temperature_c = -127 ∧
    (∀ (last driver_init driver : SensorSample) (batt_raw : Nat) (ax ay az : Int),
      last.temperature_c ∈ Set.Icc (-40 : ℚ) 85 → last.humidity_rh ∈ Set.Icc (0 : ℚ) 100 →
      (readSensors (some last) driver_init driver batt_raw ax ay az).1.temperature_c ∈
          Set.Icc (-40 : ℚ) 85 ∧
        (readSensors (some last) driver_init driver batt_raw ax ay az).1.humidity_rh ∈
          Set.Icc (0 : ℚ) 100) := by
  refine ⟨?_, ?_, ?_, ?_⟩
  · norm_num [readSensors]
  · norm_num [readSensors]
  · norm_num [readSensors]
  · intro last driver_init driver batt_raw ax ay az ht hh
    simp only [readSensors, Set.mem_Icc] at ht hh ⊢
    split_ifs with h
    · exact ⟨ht, hh⟩
    · simp only [not_or, not_lt] at h
      exact ⟨⟨h.2.2.1, h.2.2.2⟩, ⟨h.1, h.2.1⟩⟩

/-! ## C35: the advertising health check -/

/-- C35 (amended): a health check runs in exactly those iterations of `loop()` that start at
least 1000 ms (modulo 2^32) after the previous check, or while the recorded check time is 0;
any other iteration makes no call and changes nothing.  A check that finds advertising
stopped increments the restart counter and calls `startAdvertising` with the cached sample
and the current interval; if advertising is still not running 100 ms later it de-initialises
and re-initialises the BLE stack, sets the power and calls `startAdvertising` again.  A check
that finds advertising running only records its time. -/
theorem C35_health_check (st : HealthState) (now_ms : Nat) (cached_sample : SensorSample)
    (adv_interval_ms : Nat) (isAdvertising isAdvertisingAfter : Bool) :
    (¬ ((now_ms + 4294967296 - st.last_adv_health_check_ms) % 4294967296 ≥ 1000 ∨
        st.last_adv_health_check_ms = 0) →
      healthCheck st now_ms cached_sample adv_interval_ms isAdvertising isAdvertisingAfter =
        (st, [])) ∧
    (((now_ms + 4294967296 - st.last_adv_health_check_ms) % 4294967296 ≥ 1000 ∨
        st.last_adv_health_check_ms = 0) →
      (healthCheck st now_ms cached_sample adv_interval_ms isAdvertising
        isAdvertisingAfter).1.last_adv_health_check_ms = now_ms ∧
      (isAdvertising = true →
        healthCheck st now_ms cached_sample adv_interval_ms isAdvertising isAdvertisingAfter =
          (⟨now_ms, st.gAdvRestartCount⟩, [])) ∧
      (isAdvertising = false →
        (healthCheck st now_ms cached_sample adv_interval_ms isAdvertising
          isAdvertisingAfter).1.gAdvRestartCount = (st.gAdvRestartCount + 1) % 4294967296 ∧
        (healthCheck st now_ms cached_sample adv_interval_ms isAdvertising
          isAdvertisingAfter).2.head? =
            some (BleCall.startAdvertising cached_sample adv_interval_ms)) ∧
      (isAdvertising = false → isAdvertisingAfter = true →
        (healthCheck st now_ms cached_sample adv_interval_ms isAdvertising
          isAdvertisingAfter).2 =
          [BleCall.startAdvertising cached_sample adv_interval_ms, BleCall.delay 100]) ∧
      (isAdvertising = false → isAdvertisingAfter = false →
        (healthCheck st now_ms cached_sample adv_interval_ms isAdvertising
          isAdvertisingAfter).2 =
          [BleCall.startAdvertising cached_sample adv_interval_ms, BleCall.delay 100,
            BleCall.deinit, BleCall.delay 500, BleCall.init, BleCall.setPower,
            BleCall.startAdvertising cached_sample adv_interval_ms])) := by
  refine ⟨?_, ?_⟩
  · intro h
    simp only [healthCheck, U32]
    rw [if_neg h]
  · intro h
    simp only [healthCheck, U32]
    rw [if_pos h]
    cases isAdvertising <;> cases isAdvertisingAfter <;> simp

/-- Witness for C35 (amended): a check 1050 ms after the previous one finds advertising
stopped and the restart without effect. -/
theorem C35_health_check_witness :
    (healthCheck ⟨5000, 0⟩ 6050 ⟨0, 0, 0, 0, 0, 0, 0, 0⟩ 1285 false false).2 =
      [BleCall.startAdvertising ⟨0, 0, 0, 0, 0, 0, 0, 0⟩ 1285, BleCall.delay 100,
        BleCall.deinit, BleCall.delay 500, BleCall.init, BleCall.setPower,
        BleCall.startAdvertising ⟨0, 0, 0, 0, 0, 0, 0, 0⟩ 1285] :=
  ((C35_health_check ⟨5000, 0⟩ 6050 ⟨0, 0, 0, 0, 0, 0, 0, 0⟩ 1285 false false).2
    (Or.inl (by decide))).2.2.2.2 rfl rfl

/-- C35 (as stated) fails: with the previous health check at 5000 ms and advertising stopped,
the iteration at 5999 ms makes no call and does not count a restart; the stop is detected by
the iteration at 6050 ms, which is more than 1 s after the previous check. -/
theorem C35_no_check_within_one_second :
    healthCheck ⟨5000, 0⟩ 5999 ⟨0, 0, 0, 0, 0, 0, 0, 0⟩ 1285 false false = (⟨5000, 0⟩, []) ∧
    (healthCheck ⟨5000, 0⟩ 6050 ⟨0, 0, 0, 0, 0, 0, 0, 0⟩ 1285 false true).1 = ⟨6050, 1⟩ ∧
    1000 < 6050 - 5000 := by
  refine ⟨?_, ?_, by decide⟩
  · simp [healthCheck, U32]
  · simp [healthCheck, U32]

/-! ## Written slots of the reachable log states -/

theorem Logged.reachable {s : HistoryLog} {fs : FS} {W : List Nat} (h : Logged s fs W) :
    Reachable s fs := by
  induction h with
  | boot g o hok => exact Reachable.boot g o hok
  | append e o _ he ih => exact Reachable.append e o ih he
  | sync x o _ hx ih => exact Reachable.sync x o ih hx
  | restart g o _ hok ih => exact Reachable.reboot g o ih hok

theorem HistoryMetadata.toBytes_inj {m m' : HistoryMetadata} (h : m.WF) (h' : m'.WF)
    (e : m.toBytes = m'.toBytes) : m = m' := by
  rw [← HistoryMetadata.hdr_ofBytes_toBytes m h, ← HistoryMetadata.hdr_ofBytes_toBytes m' h', e]

theorem saveMetadata_index (s : HistoryLog) (fs : FS) (o : SaveOutcome) :
    (saveMetadata s fs o).2.2.index =
      if o.openOk = true then
        some ((saveMetadata s fs o).2.1.meta_.toBytes.take (min o.written 40))
      else fs.index := by
  have e40 : sizeof_HistoryMetadata = 40 := rfl
  unfold saveMetadata
  by_cases h : o.openOk <;> simp [h, e40]

theorem PersistedIn.mono {fs fs' : FS} {W W' : List Nat} (h : PersistedIn fs W)
    (hi : fs'.index = fs.index) (hw : ∀ j, j ∈ W → j ∈ W') : PersistedIn fs' W' := by
  intro m hm hidx j hj
  exact hw j (h m hm (by rw [← hi]; exact hidx) j hj)

theorem saveMetadata_persisted (s : HistoryLog) (fs : FS) (o : SaveOutcome) (W : List Nat)
    (hwf : (saveMetadata s fs o).2.1.meta_.WF)
    (hmem : ∀ j, j < (saveMetadata s fs o).2.1.meta_.entry_count → j ∈ W)
    (hp : PersistedIn fs W) : PersistedIn (saveMetadata s fs o).2.2 W := by
  intro m hm hidx j hj
  rw [saveMetadata_index] at hidx
  split at hidx
  · simp only [Option.some.injEq] at hidx
    have hlen := congrArg List.length hidx
    rw [List.length_take, HistoryMetadata.hdr_length, HistoryMetadata.hdr_length] at hlen
    rw [List.take_of_length_le (by rw [HistoryMetadata.hdr_length]; omega)] at hidx
    have := HistoryMetadata.toBytes_inj hwf hm hidx
    rw [← this] at hj
    exact hmem j hj
  · exact hp m hm hidx j hj

theorem createNewMetadata_fresh (s : HistoryLog) (fs : FS) (o : CreateOutcome)
    (hok : (createNewMetadata s fs o).1 = true) :
    (createNewMetadata s fs o).2.1.meta_.entry_count = 0 ∧
    (createNewMetadata s fs o).2.2.index =
      some (createNewMetadata s fs o).2.1.meta_.toBytes := by
  obtain ⟨h1, h2, h3⟩ := (createNewMetadata_ok_iff s fs o).mp hok
  have e40 : sizeof_HistoryMetadata = 40 := rfl
  rw [e40] at h3
  unfold createNewMetadata
  simp only [h1, Bool.not_true, Bool.false_eq_true, if_false]
  refine ⟨by rw [saveMetadata_meta]; rfl, ?_⟩
  rw [saveMetadata_index, if_pos h2, min_eq_right h3,
    List.take_of_length_le (by rw [HistoryMetadata.hdr_length])]

theorem loadMetadata_loaded (s : HistoryLog) (fs : FS) (o : LoadOutcome) (hd : HeaderOnDisk fs)
    (hok : (loadMetadata s fs o).1 = true) :
    ∃ m : HistoryMetadata, m.WF ∧ fs.index = some m.toBytes ∧
      (loadMetadata s fs o).2.meta_ = m := by
  have e40 : sizeof_HistoryMetadata = 40 := rfl
  unfold loadMetadata at hok ⊢
  cases hidx : fs.index with
  | none => simp [hidx] at hok
  | some file =>
    obtain ⟨m, n, hwf, -, hfile⟩ := hd file hidx
    simp only [hidx, e40] at hok ⊢
    by_cases ho : o.openOk
    · simp only [ho, Bool.not_true, Bool.false_eq_true, if_false] at hok ⊢
      by_cases hr : (readAt file 0 (min 40 o.readLimit)).length = 40
      · have hn : 40 ≤ n := by
          unfold readAt at hr
          rw [List.drop_zero, hfile, List.take_take, List.length_take, m.hdr_length] at hr
          omega
        have hfile' : file = m.toBytes := by
          rw [hfile]; exact List.take_of_length_le (by rw [m.hdr_length]; exact hn)
        have hgot : readAt file 0 (min 40 o.readLimit) = m.toBytes := by
          unfold readAt at hr ⊢
          rw [List.drop_zero] at hr ⊢
          rw [hfile', List.length_take, m.hdr_length] at hr
          rw [hfile']
          exact List.take_of_length_le (by rw [m.hdr_length]; omega)
        have hdrop : List.drop 40 s.meta_.toBytes = [] :=
          List.drop_of_length_le (by rw [s.meta_.hdr_length])
        have hm : HistoryMetadata.ofBytes (m.toBytes ++ []) = m := by
          rw [List.append_nil]; exact HistoryMetadata.hdr_ofBytes_toBytes m hwf
        refine ⟨m, hwf, by rw [hfile'], ?_⟩
        simp only [hgot, m.hdr_length, hdrop, hm, bne_self_eq_false, Bool.false_eq_true,
          if_false]
        split <;> rfl
      · have hb : ((readAt file 0 (min 40 o.readLimit)).length != 40) = true := by
          simpa using hr
        simp [hb] at hok
    · simp [ho] at hok

theorem loadMetadata_none (s : HistoryLog) (d : Option (List Nat)) (o : LoadOutcome) :
    (loadMetadata s ⟨d, none⟩ o).1 = false := by
  simp [loadMetadata]

theorem begin_memory (g : HistoryMetadata) (fs : FS) (o : BeginOutcome) (W : List Nat)
    (hd : HeaderOnDisk fs) (hp : PersistedIn fs W)
    (hok : (begin (HistoryLog.new g) fs o).1 = true) :
    (∀ j, j < (begin (HistoryLog.new g) fs o).2.1.meta_.entry_count →
      j ∈ (if (loadMetadata (HistoryLog.new g)
              (if o.mount = MountResult.formatted then ⟨none, none⟩ else fs) o.load).1 = true
           then W else [])) ∧
    PersistedIn (begin (HistoryLog.new g) fs o).2.2
      (if (loadMetadata (HistoryLog.new g)
            (if o.mount = MountResult.formatted then ⟨none, none⟩ else fs) o.load).1 = true
       then W else []) := by
  have hm : o.mount ≠ MountResult.failed := by
    intro h
    rw [begin_mount_failed _ _ _ h] at hok
    exact absurd hok (by simp)
  obtain ⟨-, hwf, -, -⟩ := begin_inv g fs o hd hok
  by_cases hl : (loadMetadata (HistoryLog.new g)
      (if o.mount = MountResult.formatted then ⟨none, none⟩ else fs) o.load).1 = true
  · have hnf : ¬ o.mount = MountResult.formatted := by
      intro hf
      rw [if_pos hf, loadMetadata_none] at hl
      exact absurd hl (by simp)
    rw [if_pos hl, begin_loaded _ _ _ hm hl]
    rw [if_neg hnf] at hl ⊢
    obtain ⟨m, hmwf, hidx, hmeta⟩ := loadMetadata_loaded _ fs o.load hd hl
    refine ⟨?_, hp⟩
    intro j hj
    have hj' : j < m.entry_count := by rw [← hmeta]; exact hj
    exact hp m hmwf hidx j hj'
  · have hl' : (loadMetadata (HistoryLog.new g)
        (if o.mount = MountResult.formatted then ⟨none, none⟩ else fs) o.load).1 = false := by
      simpa using hl
    have hc : (createNewMetadata
        (loadMetadata (HistoryLog.new g)
          (if o.mount = MountResult.formatted then ⟨none, none⟩ else fs) o.load).2
        (if o.mount = MountResult.formatted then ⟨none, none⟩ else fs) o.create).1 = true := by
      rw [createNewMetadata_ok_iff]
      rcases (begin_ok_iff _ _ _ hm).mp hok with h | h
      · exact absurd h hl
      · exact h
    obtain ⟨c0, cidx⟩ := createNewMetadata_fresh _ _ _ hc
    rw [begin_created _ _ _ hm hl' hc] at hwf ⊢
    rw [if_neg hl]
    refine ⟨?_, ?_⟩
    · intro j hj
      have : j < 0 := by rw [← c0]; exact hj
      omega
    · intro m hmwf hidx j hj
      have hidx' : some (createNewMetadata
          (loadMetadata (HistoryLog.new g)
            (if o.mount = MountResult.formatted then ⟨none, none⟩ else fs) o.load).2
          (if o.mount = MountResult.formatted then ⟨none, none⟩ else fs)
          o.create).2.1.meta_.toBytes = some m.toBytes := by
        rw [← cidx]; exact hidx
      simp only [Option.some.injEq] at hidx'
      have := HistoryMetadata.toBytes_inj hwf hmwf hidx'
      have : j < 0 := by rw [← c0, this]; exact hj
      omega

theorem writeIndex_young (m : HistoryMetadata) (h : RingHeader m)
    (hc : m.entry_count < 2880) : writeIndex m = m.entry_count := by
  rw [writeIndex_ring m h]
  obtain ⟨-, -, -, hnew, hyoung⟩ := h
  have ho := hyoung hc
  split <;> omega

theorem Logged.written {s : HistoryLog} {fs : FS} {W : List Nat} (h : Logged s fs W) :
    (∀ j, j < s.meta_.entry_count → j ∈ W) ∧ PersistedIn fs W := by
  induction h with
  | boot g o hok =>
    have := begin_memory g ⟨none, none⟩ o [] (headerOnDisk_none none)
      (fun m _ hidx => by simp at hidx) hok
    simpa using this
  | @append s fs W e o hlog he ih =>
    obtain ⟨hinit, hwf, hring, hd⟩ := hlog.reachable.inv
    obtain ⟨-, hwf', -, -⟩ := logEntry_inv s fs e o he hinit hwf hring hd
    have hsub : ∀ j, j ∈ W →
        j ∈ (if (logEntry s fs e o).1 = true then writeIndex s.meta_ :: W else W) := by
      intro j hj
      split
      · exact List.mem_cons_of_mem _ hj
      · exact hj
    rcases logEntry_cases s fs e o with ⟨h1, h2⟩ | ⟨d, -, heq⟩
    · rw [h1]
      exact ⟨fun j hj => hsub j (ih.1 j hj), ih.2.mono h2 hsub⟩
    · obtain ⟨-, a2, -⟩ := advanceMeta_ring s.meta_ e hring
      have htrue : (logEntry s fs e o).1 = true := by rw [heq]
      rw [if_pos htrue] at hsub ⊢
      have hmem : ∀ j, j < (logEntry s fs e o).2.1.meta_.entry_count →
          j ∈ writeIndex s.meta_ :: W := by
        intro j hj
        rw [heq, saveMetadata_meta] at hj
        have hj' : j < min (s.meta_.entry_count + 1) 2880 := by rw [← a2]; exact hj
        by_cases hjc : j < s.meta_.entry_count
        · exact List.mem_cons_of_mem _ (ih.1 j hjc)
        · have hc : s.meta_.entry_count < 2880 := by omega
          rw [writeIndex_young s.meta_ hring hc]
          have : j = s.meta_.entry_count := by omega
          rw [this]
          exact List.mem_cons_self _ _
      refine ⟨hmem, ?_⟩
      have hp1 : PersistedIn ⟨some (writeAt d (slotOffset (writeIndex s.meta_)) e.toBytes),
          fs.index⟩ (writeIndex s.meta_ :: W) :=
        ih.2.mono rfl hsub
      rw [heq] at hwf' hmem ⊢
      exact saveMetadata_persisted _ _ o.save _ hwf' hmem hp1
  | @sync s fs W x o hlog hx ih =>
    obtain ⟨hinit, hwf, hring, hd⟩ := hlog.reachable.inv
    obtain ⟨-, hwf', -, -⟩ := setRTCOffset_inv s fs x o hx hinit hwf hring hd
    have heq : setRTCOffset s fs x o =
        ((saveMetadata ⟨s.initialized_, ⟨s.meta_.magic, s.meta_.version, s.meta_.entry_count,
          s.meta_.oldest_index, s.meta_.newest_index, s.meta_.max_entries, x,
          s.meta_.last_write_time, s.meta_.checksum, s.meta_.reserved⟩, x,
          s.last_write_time_⟩ fs o).2.1,
         (saveMetadata ⟨s.initialized_, ⟨s.meta_.magic, s.meta_.version, s.meta_.entry_count,
          s.meta_.oldest_index, s.meta_.newest_index, s.meta_.max_entries, x,
          s.meta_.last_write_time, s.meta_.checksum, s.meta_.reserved⟩, x,
          s.last_write_time_⟩ fs o).2.2) := rfl
    rw [heq] at hwf' ⊢
    have hmem : ∀ j, j < (saveMetadata ⟨s.initialized_, ⟨s.meta_.magic, s.meta_.version,
        s.meta_.entry_count, s.meta_.oldest_index, s.meta_.newest_index, s.meta_.max_entries,
        x, s.meta_.last_write_time, s.meta_.checksum, s.meta_.reserved⟩, x,
        s.last_write_time_⟩ fs o).2.1.meta_.entry_count → j ∈ W := by
      intro j hj
      rw [saveMetadata_meta] at hj
      exact ih.1 j hj
    exact ⟨hmem, saveMetadata_persisted _ _ o _ hwf' hmem ih.2⟩
  | @restart s fs W g o hlog hok ih =>
    obtain ⟨-, -, -, hd⟩ := hlog.reachable.inv
    exact begin_memory g fs o W hd ih.2 hok

/-! ## C36: invariants of the reachable log states -/

theorem logEntry_persisted (s : HistoryLog) (fs : FS) (e : HistoryEntry) (o : LogOutcome)
    (hring : RingHeader s.meta_) (ho : o.save.openOk = false ∨ 40 ≤ o.save.written) :
    (logEntry s fs e o).2.2.index = fs.index ∨
    ((logEntry s fs e o).2.2.index = some (logEntry s fs e o).2.1.meta_.toBytes ∧
      (logEntry s fs e o).2.1.meta_.entry_count =
        min (s.meta_.entry_count + 1) s.meta_.max_entries) := by
  rcases logEntry_cases s fs e o with ⟨-, h2⟩ | ⟨d, -, heq⟩
  · exact Or.inl h2
  · obtain ⟨-, a2, -⟩ := advanceMeta_ring s.meta_ e hring
    rw [heq]
    by_cases hopen : o.save.openOk = true
    · right
      have hw : 40 ≤ o.save.written := by
        rcases ho with h | h
        · rw [hopen] at h; exact absurd h (by simp)
        · exact h
      refine ⟨?_, ?_⟩
      · show (saveMetadata _ _ o.save).2.2.index = some (saveMetadata _ _ o.save).2.1.meta_.toBytes
        rw [saveMetadata_index, if_pos hopen, min_eq_right hw,
          List.take_of_length_le (by rw [HistoryMetadata.hdr_length])]
      · show (saveMetadata _ _ o.save).2.1.meta_.entry_count = _
        rw [saveMetadata_meta, hring.cap]
        exact a2
    · left
      show (saveMetadata _ _ o.save).2.2.index = fs.index
      rw [saveMetadata_index, if_neg hopen]

theorem appendedOnce_tracks :
    appendedOnce.1 = true ∧ Tracks appendedOnce.2.1 appendedOnce.2.2 [oddEntry] := by
  have h := Tracks.logEntry_good (firstBoot_tracks zeroMeta).2.2 oddEntry (by decide)
  exact ⟨h.1, h.2.2⟩

theorem appendedOnce_max_entries : appendedOnce.2.1.meta_.max_entries = 2880 := by
  have h := Tracks.logEntry_good (firstBoot_tracks zeroMeta).2.2 oddEntry (by decide)
  exact h.2.1.trans (firstBoot_tracks zeroMeta).2.1

theorem begin_failedReinit (g : HistoryMetadata) (fs : FS) :
    (begin (HistoryLog.new g) fs failedReinit).1 = false ∧
    (begin (HistoryLog.new g) fs failedReinit).2.2 =
      ⟨some (List.replicate 57600 0), fs.index⟩ := by
  have hl : (loadMetadata (HistoryLog.new g) fs failedReinit.load).1 = false := by
    unfold loadMetadata
    cases fs.index <;> simp [failedReinit]
  have hb := begin_of_load_failed (HistoryLog.new g) fs failedReinit rfl hl
  have hz : zeroFill 57600 (fun _ => 256) 0 [] = List.replicate 57600 0 := zeroFill_good 57600
  have hc : ∀ s : HistoryLog,
      (createNewMetadata s fs failedReinit.create).1 = false ∧
      (createNewMetadata s fs failedReinit.create).2.2 =
        ⟨some (List.replicate 57600 0), fs.index⟩ := by
    intro s
    have e1 : (computeMaxEntries * sizeof_HistoryEntry) % U32 = 57600 := by decide
    simp only [createNewMetadata, saveMetadata, failedReinit, e1, hz]
    exact ⟨rfl, rfl⟩
  rw [hb, if_neg (by rw [(hc _).1]; simp)]
  exact ⟨rfl, (hc _).2⟩

theorem readAt_replicate (n off len : Nat) (h : off + len ≤ n) :
    readAt (List.replicate n 0) off len = List.replicate len 0 := by
  unfold readAt
  rw [List.drop_replicate, List.take_replicate]
  congr 1
  omega

theorem Tracks.restart_on_file {s : HistoryLog} {fs : FS} {L : List HistoryEntry}
    (h : Tracks s fs L) (file : List Nat) (hflen : file.length = 20 * s.meta_.max_entries)
    (g : HistoryMetadata) (L' : List HistoryEntry) (hlen : L'.length = L.length)
    (hslots' : ∀ k x, L.length - s.meta_.max_entries ≤ k → L'[k]? = some x →
      readAt file (20 * (k % s.meta_.max_entries)) 20 = x.toBytes) :
    (restart g ⟨some file, fs.index⟩ BeginOutcome.good).1 = true ∧
    (restart g ⟨some file, fs.index⟩ BeginOutcome.good).2.1.meta_ = s.meta_ ∧
    Tracks (restart g ⟨some file, fs.index⟩ BeginOutcome.good).2.1
      (restart g ⟨some file, fs.index⟩ BeginOutcome.good).2.2 L' := by
  have hM := h.cap_pos
  have hsmall := h.cap_small
  have hfs : (⟨some file, fs.index⟩ : FS) = ⟨some file, some s.meta_.toBytes⟩ := by
    rw [h.index]
  have hload := loadMetadata_good (HistoryLog.new g) (some file) s.meta_ h.wf h.magic h.sum
  have hbegin := begin_of_load_ok (HistoryLog.new g) _ ⟨some file, some s.meta_.toBytes⟩
    BeginOutcome.good rfl hload
  unfold restart
  rw [hfs, hbegin]
  refine ⟨rfl, rfl, ?_⟩
  exact ⟨rfl, h.wf, h.magic, h.sum, rfl, hM, hsmall, by rw [hlen]; exact h.count,
    by rw [hlen]; exact h.newest, by rw [hlen]; exact h.oldest,
    ⟨file, rfl, hflen, by rw [hlen]; exact hslots'⟩⟩

theorem logEntry_short_header (s : HistoryLog) (d : List Nat) (idx : Option (List Nat))
    (e : HistoryEntry) (n : Nat) (hinit : s.initialized_ = true) (hn : n < 40) :
    (logEntry s ⟨some d, idx⟩ e ⟨true, true, sizeof_HistoryEntry, ⟨true, n⟩⟩).1 = true ∧
    (logEntry s ⟨some d, idx⟩ e ⟨true, true, sizeof_HistoryEntry, ⟨true, n⟩⟩).2.1.meta_.entry_count
      = (advanceMeta s.meta_ (writeIndex s.meta_) e).entry_count ∧
    ∃ file, file.length < 40 ∧
      (logEntry s ⟨some d, idx⟩ e ⟨true, true, sizeof_HistoryEntry, ⟨true, n⟩⟩).2.2 =
        ⟨some (writeAt d (slotOffset (writeIndex s.meta_)) e.toBytes), some file⟩ := by
  rw [logEntry_good_data s d idx e ⟨true, n⟩ hinit]
  refine ⟨rfl, ?_, ?_⟩
  · show (saveMetadata _ _ _).2.1.meta_.entry_count = _
    rw [saveMetadata_meta]
    rfl
  · have e40 : sizeof_HistoryMetadata = 40 := rfl
    refine ⟨List.take (min n sizeof_HistoryMetadata)
      (calculateChecksum { advanceMeta s.meta_ (writeIndex s.meta_) e with
        magic := HISTORY_MAGIC, version := 1 }).toBytes, ?_, rfl⟩
    rw [List.length_take, HistoryMetadata.hdr_length]
    omega

theorem loadMetadata_short_index (s : HistoryLog) (fs : FS) (file : List Nat) (o : LoadOutcome)
    (hi : fs.index = some file) (h : file.length < 40) : (loadMetadata s fs o).1 = false := by
  have hfs : fs = ⟨fs.data, some file⟩ := by rw [← hi]
  rw [hfs]
  exact loadMetadata_short s fs.data file o h

theorem logEntry_short_save (s : HistoryLog) (fs : FS) (e : HistoryEntry) (o : LogOutcome)
    (ho : o.save.openOk = true) (hw : o.save.written < 40) :
    (logEntry s fs e o).2.2.index = fs.index ∨
    ∀ (s0 : HistoryLog) (lo : LoadOutcome),
      (loadMetadata s0 (logEntry s fs e o).2.2 lo).1 = false := by
  rcases logEntry_cases s fs e o with ⟨-, h2⟩ | ⟨d, -, heq⟩
  · exact Or.inl h2
  · right
    intro s0 lo
    rw [heq]
    have hi := saveMetadata_index { s with meta_ := advanceMeta s.meta_ (writeIndex s.meta_) e }
      ⟨some (writeAt d (slotOffset (writeIndex s.meta_)) e.toBytes), fs.index⟩ o.save
    rw [if_pos ho] at hi
    refine loadMetadata_short_index s0 _ _ lo hi ?_
    rw [List.length_take, HistoryMetadata.hdr_length]
    omega

/-- C36 (as stated) fails in two ways.  After a first boot and one append (`readAllEntries`
returns the appended entry, entry count 1): (a) a second append whose header write returns
10 of the 40 bytes returns true with in-memory count 2, and the restart that follows does
not accept the index file and creates a new log, so the count it loads is 0, neither the
count before the append nor the one after; (b) a `begin()` that re-creates the data file but
can open the index file neither for reading nor for writing returns false and leaves the old
header over a zero-filled data file, so the next restart accepts the header with count 1 and
`readAllEntries` returns the all-zero record of slot 0, which no `logEntry` wrote. -/
theorem C36_lost_header_or_failed_begin :
    appendedOnce.1 = true ∧
    appendedOnce.2.1.meta_.entry_count = 1 ∧
    readAllEntries appendedOnce.2.1 appendedOnce.2.2 ReadOutcome.good [] = (true, [oddEntry]) ∧
    (logEntry appendedOnce.2.1 appendedOnce.2.2 oddEntry
      ⟨true, true, sizeof_HistoryEntry, ⟨true, 10⟩⟩).1 = true ∧
    (logEntry appendedOnce.2.1 appendedOnce.2.2 oddEntry
      ⟨true, true, sizeof_HistoryEntry, ⟨true, 10⟩⟩).2.1.meta_.entry_count = 2 ∧
    (restart zeroMeta (logEntry appendedOnce.2.1 appendedOnce.2.2 oddEntry
      ⟨true, true, sizeof_HistoryEntry, ⟨true, 10⟩⟩).2.2 BeginOutcome.good).1 = true ∧
    (restart zeroMeta (logEntry appendedOnce.2.1 appendedOnce.2.2 oddEntry
      ⟨true, true, sizeof_HistoryEntry, ⟨true, 10⟩⟩).2.2 BeginOutcome.good).2.1.meta_.entry_count
      = 0 ∧
    (restart zeroMeta appendedOnce.2.2 failedReinit).1 = false ∧
    (restart zeroMeta (restart zeroMeta appendedOnce.2.2 failedReinit).2.2
      BeginOutcome.good).1 = true ∧
    (restart zeroMeta (restart zeroMeta appendedOnce.2.2 failedReinit).2.2
      BeginOutcome.good).2.1.meta_.entry_count = 1 ∧
    readAllEntries
      (restart zeroMeta (restart zeroMeta appendedOnce.2.2 failedReinit).2.2
        BeginOutcome.good).2.1
      (restart zeroMeta (restart zeroMeta appendedOnce.2.2 failedReinit).2.2
        BeginOutcome.good).2.2 ReadOutcome.good [] = (true, [zeroEntry]) := by
  obtain ⟨hok, T⟩ := appendedOnce_tracks
  have hm := appendedOnce_max_entries
  have hc : appendedOnce.2.1.meta_.entry_count = 1 := by
    rw [T.count, hm]; rfl
  obtain ⟨d, hd, hdlen, -⟩ := T.data
  have hfs : appendedOnce.2.2 = ⟨some d, appendedOnce.2.2.index⟩ := by rw [← hd]
  have hread := Tracks.readAll T (by decide) (by simp) []
  rw [hm] at hread
  -- (a) the short header write
  obtain ⟨s1, s2, file, hflen, s3⟩ := logEntry_short_header appendedOnce.2.1 d
    appendedOnce.2.2.index oddEntry 10 T.init (by decide)
  rw [← hfs] at s1 s2 s3
  have hadv : (advanceMeta appendedOnce.2.1.meta_ (writeIndex appendedOnce.2.1.meta_)
      oddEntry).entry_count = 2 := by
    simp only [advanceMeta, hc, hm, U32]
    rfl
  -- (b) the failed `begin()`
  obtain ⟨f1, f2⟩ := begin_failedReinit zeroMeta appendedOnce.2.2
  have hrl : (List.replicate 57600 0).length = 20 * appendedOnce.2.1.meta_.max_entries := by
    rw [hm, List.length_replicate]
  have hslots : ∀ k x, [oddEntry].length - appendedOnce.2.1.meta_.max_entries ≤ k →
      [zeroEntry][k]? = some x →
      readAt (List.replicate 57600 0) (20 * (k % appendedOnce.2.1.meta_.max_entries)) 20
        = x.toBytes := by
    intro k x _ hk
    cases k with
    | zero =>
      simp only [List.getElem?_cons_zero, Option.some.injEq] at hk
      subst hk
      rw [Nat.zero_mod, readAt_replicate _ _ _ (by norm_num)]
      decide
    | succ k => simp at hk
  obtain ⟨r1, r2, r3⟩ := Tracks.restart_on_file T (List.replicate 57600 0) hrl zeroMeta
    [zeroEntry] rfl hslots
  have hread2 := Tracks.readAll r3 (by decide) (by simp) []
  rw [r2, hm] at hread2
  have hre : restart zeroMeta appendedOnce.2.2 failedReinit =
      begin (HistoryLog.new zeroMeta) appendedOnce.2.2 failedReinit := rfl
  rw [hre, f2]
  refine ⟨hok, hc, hread, s1, by rw [s2, hadv], ?_, ?_, f1, r1, by rw [r2, hc], hread2⟩
  · rw [s3, restart_of_short_index _ _ _ hflen]
  · rw [s3, restart_of_short_index _ _ _ hflen]
    rfl

/-- C36 (amended): in every state reached from a first boot by `logEntry` calls (whatever
the outcome of their storage calls), `setRTCOffset` calls and restarts whose `begin()`
returns true: the capacity is 2880, hence positive; `entry_count <= capacity`,
`oldest_index < capacity`, `newest_index < capacity`; `oldest_index = 0` while
`entry_count < capacity`; `newest_index = (oldest_index + entry_count - 1) mod capacity`
when `entry_count > 0`.  After a further `logEntry` whose header write does not open the
index file or writes all 40 bytes, the persisted header is the one persisted before or the
new one with the post-append count; after one whose header write is short, the index file is
the one persisted before (the data write failed) or is rejected by every later load.  Every
slot that `readEntries` visits, with the header in memory or with the persisted header that
a restart would load, has received a complete `logEntry` data write since the data file was
created. -/
theorem C36_ring_invariants {s : HistoryLog} {fs : FS} {W : List Nat} (h : Logged s fs W) :
    s.meta_.max_entries = 2880 ∧ 0 < s.meta_.max_entries ∧
    s.meta_.entry_count ≤ s.meta_.max_entries ∧
    s.meta_.oldest_index < s.meta_.max_entries ∧
    s.meta_.newest_index < s.meta_.max_entries ∧
    (s.meta_.entry_count < s.meta_.max_entries → s.meta_.oldest_index = 0) ∧
    (0 < s.meta_.entry_count →
      s.meta_.newest_index =
        (s.meta_.oldest_index + s.meta_.entry_count - 1) % s.meta_.max_entries) ∧
    (∀ (e : HistoryEntry) (o : LogOutcome),
      (o.save.openOk = false ∨ 40 ≤ o.save.written) →
      (logEntry s fs e o).2.2.index = fs.index ∨
      ((logEntry s fs e o).2.2.index = some (logEntry s fs e o).2.1.meta_.toBytes ∧
        (logEntry s fs e o).2.1.meta_.entry_count =
          min (s.meta_.entry_count + 1) s.meta_.max_entries)) ∧
    (∀ (e : HistoryEntry) (o : LogOutcome),
      o.save.openOk = true → o.save.written < 40 →
      (logEntry s fs e o).2.2.index = fs.index ∨
      ∀ (s0 : HistoryLog) (lo : LoadOutcome),
        (loadMetadata s0 (logEntry s fs e o).2.2 lo).1 = false) ∧
    (∀ i, i < min s.meta_.entry_count s.meta_.max_entries →
      ((s.meta_.oldest_index + i) % 4294967296) % s.meta_.max_entries ∈ W) ∧
    (∀ m : HistoryMetadata, m.WF → fs.index = some m.toBytes →
      m.max_entries = 2880 ∧ m.entry_count ≤ 2880 ∧
      ∀ i, i < min m.entry_count m.max_entries →
        ((m.oldest_index + i) % 4294967296) % m.max_entries ∈ W) := by
  obtain ⟨-, -, hring, hd⟩ := h.reachable.inv
  obtain ⟨i2, i3⟩ := h.written
  have visited : ∀ m : HistoryMetadata, RingHeader m → (∀ j, j < m.entry_count → j ∈ W) →
      ∀ i, i < min m.entry_count m.max_entries →
        ((m.oldest_index + i) % 4294967296) % m.max_entries ∈ W := by
    intro m hr hm i hi
    obtain ⟨hcap, hcnt, hold, -, hyoung⟩ := hr
    rw [hcap] at hi ⊢
    apply hm
    by_cases hc : m.entry_count < 2880
    · have := hyoung hc
      omega
    · have : (m.oldest_index + i) % 4294967296 % 2880 < 2880 := Nat.mod_lt _ (by norm_num)
      omega
  obtain ⟨hcap, hcnt, hold, hnew, hyoung⟩ := hring
  refine ⟨hcap, by omega, by omega, by omega, ?_, ?_, ?_, ?_, ?_, ?_, ?_⟩
  · rw [hnew, hcap]
    exact Nat.mod_lt _ (by norm_num)
  · intro hc
    exact hyoung (by omega)
  · intro _
    rw [hcap]
    exact hnew
  · intro e o ho
    exact logEntry_persisted s fs e o ⟨hcap, hcnt, hold, hnew, hyoung⟩ ho
  · intro e o ho hw
    exact logEntry_short_save s fs e o ho hw
  · exact visited s.meta_ ⟨hcap, hcnt, hold, hnew, hyoung⟩ i2
  · intro m hm hidx
    obtain ⟨m', n, hm', hr', hbytes⟩ := hd m.toBytes hidx
    have hn : 40 ≤ n := by
      have := congrArg List.length hbytes
      rw [List.length_take, HistoryMetadata.hdr_length, HistoryMetadata.hdr_length] at this
      omega
    rw [List.take_of_length_le (by rw [HistoryMetadata.hdr_length]; exact hn)] at hbytes
    have := HistoryMetadata.toBytes_inj hm hm' hbytes
    subst this
    exact ⟨hr'.cap, hr'.count_le, visited m hr' (i3 m hm hidx)⟩

theorem appendedOnce_logged : Logged appendedOnce.2.1 appendedOnce.2.2 [0] := by
  have hb : Logged (firstBoot zeroMeta).2.1 (firstBoot zeroMeta).2.2 [] :=
    Logged.boot zeroMeta BeginOutcome.good (firstBoot_tracks zeroMeta).1
  have ha := Logged.append oddEntry LogOutcome.good hb (by decide)
  have hT := (firstBoot_tracks zeroMeta).2.2
  have hw : writeIndex (firstBoot zeroMeta).2.1.meta_ = 0 := by
    rw [writeIndex_of_tracks _ 0 hT.cap_pos hT.cap_small hT.count hT.newest]
    exact Nat.zero_mod _
  have h1 : (logEntry (firstBoot zeroMeta).2.1 (firstBoot zeroMeta).2.2 oddEntry
      LogOutcome.good).1 = true := appendedOnce_tracks.1
  rw [if_pos h1, hw] at ha
  exact ha

/-- Witness for C36 (amended): the log after a first boot and one append; the slot that
`readEntries` visits is slot 0, the one the append wrote. -/
theorem C36_ring_invariants_witness :
    appendedOnce.2.1.meta_.max_entries = 2880 ∧
    ∀ i, i < min appendedOnce.2.1.meta_.entry_count appendedOnce.2.1.meta_.max_entries →
      ((appendedOnce.2.1.meta_.oldest_index + i) % 4294967296) %
        appendedOnce.2.1.meta_.max_entries ∈ [0] :=
  ⟨(C36_ring_invariants appendedOnce_logged).1,
    (C36_ring_invariants appendedOnce_logged).2.2.2.2.2.2.2.2.2.1⟩

/-- Witness for C39: the header of a fresh log with bit 0 flipped in the lowest byte of
`entry_count` (byte 8) and of `max_entries` (byte 20). -/
theorem C39_compensating_flips_accepted_witness :
    (loadMetadata (HistoryLog.new zeroMeta)
      ⟨none, some (flipBit (flipBit (savedHeader zeroMeta) 8 0) 20 0)⟩ LoadOutcome.good).1
      = true :=
  (C39_compensating_flips_accepted (HistoryLog.new zeroMeta) none (savedHeader zeroMeta)
    LoadOutcome.good 8 20 0 (savedHeader_length _) (savedHeader_lt _) (by decide)
    ⟨by decide, by decide⟩ ⟨by decide, by decide⟩ (by decide) (by decide)).1

/-- Witness for C38: the header of a log that holds one entry. -/
theorem C38_save_load_roundtrip_witness :
    (loadMetadata (HistoryLog.new zeroMeta)
      (saveMetadata oneEntryLog.1 oneEntryLog.2 SaveOutcome.good).2.2 LoadOutcome.good).1
      = true :=
  (C38_save_load_roundtrip oneEntryLog.1 (HistoryLog.new zeroMeta) oneEntryLog.2
    (by decide)).2.2.2.2.1

/-- Witness for C40: a log whose only entry is of 1700000000, asked for entries from
1800000000 on. -/
theorem C40_older_entries_send_nothing_witness :
    handleReadHistory oneEntryWorld (be32 1800000000 ++ [0, 0, 0, 0]) ReadOutcome.good
      = oneEntryWorld :=
  (C40_older_entries_send_nothing oneEntryWorld (be32 1800000000 ++ [0, 0, 0, 0])
    ReadOutcome.good [oddEntry] (by decide)
    (by rw [parseTimestamp_be32 _ _ (by decide)]; decide) oneEntryWorld_read (by decide)
    (by rw [parseTimestamp_be32 _ _ (by decide)]; decide)).1

/-! ## C32: steady rise and steady fall -/

theorem usbTicks_snoc (override : Int) (g : PowerFilter) (l : List Nat) (x : Nat) :
    usbTicks override g (l ++ [x]) = (detectUsbFromBattery override (usbTicks override g l) x).2 := by
  simp [usbTicks, List.foldl_append]

theorem risingReadings_succ (v0 r n : Nat) :
    risingReadings v0 r (n + 1) = risingReadings v0 r n ++ [v0 + n * r] := by
  simp [risingReadings, List.range_succ]

theorem fallingReadings_succ (v0 r n : Nat) :
    fallingReadings v0 r (n + 1) = fallingReadings v0 r n ++ [v0 - n * r] := by
  simp [fallingReadings, List.range_succ]

theorem delta_raw_small (batt_mv gLastBattMv : Nat) (hb : batt_mv < 65536)
    (hl : gLastBattMv < 65536)
    (hd : |(batt_mv : Int) - (gLastBattMv : Int)| < 32768) :
    delta_raw batt_mv gLastBattMv = (batt_mv : Int) - gLastBattMv := by
  rw [abs_lt] at hd
  unfold delta_raw toI16 toU16
  have e1 : batt_mv % 65536 = batt_mv := Nat.mod_eq_of_lt hb
  have e2 : gLastBattMv % 65536 = gLastBattMv := Nat.mod_eq_of_lt hl
  rw [e1, e2]
  split_ifs <;> omega

theorem filtered_of_ne_zero (g : PowerFilter) (batt_mv : Nat) (h : g.gVf ≠ 0) :
    filteredVoltage g batt_mv = g.gVf + 0.05 * ((batt_mv : ℚ) - g.gVf) ∧
    filteredSlope g batt_mv =
      g.gSf + 0.04 * ((g.gVf + 0.05 * ((batt_mv : ℚ) - g.gVf) - g.gVfPrev) - g.gSf) := by
  simp [filteredVoltage, filteredSlope, h, VBAT_ALPHA, VBAT_BETA]

theorem updatedScore_no_spike (g : PowerFilter) (batt_mv : Nat)
    (hs : spike batt_mv g.gLastBattMv = false) :
    updatedScore g batt_mv =
      max (-12) (min 12
        (if filteredSlope g batt_mv * 60 > 8 then g.gPowerScore + 2
         else if filteredSlope g batt_mv * 60 < -3 then g.gPowerScore - 1
         else if g.gPowerScore > 0 then g.gPowerScore - 1
         else if g.gPowerScore < 0 then g.gPowerScore + 1 else g.gPowerScore)) := by
  simp only [updatedScore, hs, VBAT_T_CHARGE, VBAT_T_DISCHARGE, VBAT_SCORE_MAX,
    Bool.not_false, if_true]
  split_ifs <;> omega

theorem rising_step (override : Int) (hauto : override ≠ 0 ∧ override ≠ 1) (v0 r k : Nat)
    (a b a' b' : ℚ) (g : PowerFilter) (h : Rising v0 r k a b g) (hv0 : 1 ≤ v0) (hr1 : 1 ≤ r)
    (hr30 : r ≤ 30) (hfit : v0 + (k + 1) * r < 65536)
    (ha0 : 0 ≤ a) (ha' : a' ≤ 0.95 * (a + 1)) (hb' : b' ≤ 0.96 * b + 0.002 * (a + 1))
    (hb0 : 0 ≤ b') :
    Rising v0 r (k + 1) a' b' (detectUsbFromBattery override g (v0 + (k + 1) * r)).2 ∧
    (2 / 15 < b' → (detectUsbFromBattery override g (v0 + (k + 1) * r)).2.gPowerScore =
      min 12 (g.gPowerScore + 2)) ∧
    ((detectUsbFromBattery override g (v0 + (k + 1) * r)).2.gPowerScore = 12 →
      (detectUsbFromBattery override g (v0 + (k + 1) * r)).2.gPowerState = 1 ∧
      (detectUsbFromBattery override g (v0 + (k + 1) * r)).2.gUsbState = true ∧
      (detectUsbFromBattery override g (v0 + (k + 1) * r)).1 = true) := by
  obtain ⟨hlast, hprev, hge, hlag, hslope, hs0, hs12⟩ := h
  obtain ⟨e1, e2, e3, e4, e5⟩ :=
    detectUsbFromBattery_auto override g (v0 + (k + 1) * r) hauto.1 hauto.2
  obtain ⟨v1, v2, v3⟩ :=
    detectUsbFromBattery_verdict override g (v0 + (k + 1) * r) hauto.1 hauto.2
  have hr0 : (0 : ℚ) < (r : ℚ) := by exact_mod_cast hr1
  have hv : (1 : ℚ) ≤ (v0 : ℚ) := by exact_mod_cast hv0
  have hne : g.gVf ≠ 0 := by
    intro h0
    rw [h0] at hge
    linarith
  obtain ⟨fv, fs⟩ := filtered_of_ne_zero g (v0 + (k + 1) * r) hne
  have hbatt : ((v0 + (k + 1) * r : Nat) : ℚ) = ((v0 + k * r : Nat) : ℚ) + (r : ℚ) := by
    push_cast; ring
  have ha1 : a' * (r : ℚ) ≤ 0.95 * (a + 1) * (r : ℚ) := mul_le_mul_of_nonneg_right ha' hr0.le
  have hb1 : b' * (r : ℚ) ≤ (0.96 * b + 0.002 * (a + 1)) * (r : ℚ) :=
    mul_le_mul_of_nonneg_right hb' hr0.le
  have hb2 : 0 ≤ b' * (r : ℚ) := mul_nonneg hb0 hr0.le
  have ha2 : 0 ≤ a * (r : ℚ) := mul_nonneg ha0 hr0.le
  have hk : (k + 1) * r = k * r + r := Nat.succ_mul k r
  have hspike : spike (v0 + (k + 1) * r) g.gLastBattMv = false := by
    have hd : delta_raw (v0 + (k + 1) * r) g.gLastBattMv = (r : Int) := by
      rw [hlast, delta_raw_small _ _ hfit (by omega) (by rw [abs_lt]; constructor <;> omega)]
      omega
    simp only [spike, hd, VBAT_SPIKE_MV]
    have : ¬ (30 : Int) < |(r : Int)| := by
      rw [abs_of_nonneg (by omega)]; omega
    simp [this]
    exact fun _ => hr30
  have hfs_ge : b' * (r : ℚ) ≤ filteredSlope g (v0 + (k + 1) * r) := by
    rw [fs, hbatt, hprev]
    linarith
  have hn3 : ¬ filteredSlope g (v0 + (k + 1) * r) * 60 < -3 := by
    intro hc
    linarith
  have hscore := updatedScore_no_spike g (v0 + (k + 1) * r) hspike
  simp only [if_neg hn3] at hscore
  refine ⟨⟨e5, by rw [e4, e2], ?_, ?_, by rw [e3]; exact hfs_ge, ?_, ?_⟩, ?_, ?_⟩
  · rw [e2, fv, hbatt]
    linarith
  · rw [e2, fv, hbatt]
    linarith
  · rw [e1, hscore]
    split_ifs <;> omega
  · rw [e1, hscore]
    split_ifs <;> omega
  · intro hthr
    have h8 : filteredSlope g (v0 + (k + 1) * r) * 60 > 8 := by
      have : (2 / 15 : ℚ) * (r : ℚ) < b' * (r : ℚ) := mul_lt_mul_of_pos_right hthr hr0
      have : (1 : ℚ) ≤ (r : ℚ) := by exact_mod_cast hr1
      linarith
    rw [e1, hscore, if_pos h8]
    omega
  · intro h12
    rw [e1] at h12
    have hst : (detectUsbFromBattery override g (v0 + (k + 1) * r)).2.gPowerState = 1 := by
      rw [v1]
      split_ifs with c1 c2
      · rfl
      · rfl
      · exact absurd (by omega : updatedScore g (v0 + (k + 1) * r) ≥ 12) c2
      · exact absurd (by omega : updatedScore g (v0 + (k + 1) * r) ≥ 12) c2
    have husb : (detectUsbFromBattery override g (v0 + (k + 1) * r)).2.gUsbState = true := by
      rw [v3, hst]; simp
    exact ⟨hst, husb, by rw [v2, husb]⟩

theorem falling_step (override : Int) (hauto : override ≠ 0 ∧ override ≠ 1) (v0 r k : Nat)
    (a b a' b' : ℚ) (g : PowerFilter) (h : Falling v0 r k a b g) (hv0 : v0 ≤ 4150)
    (hr1 : 1 ≤ r) (hr30 : r ≤ 30) (hfit : (k + 1) * r < v0)
    (ha0 : 0 ≤ a) (ha' : a' ≤ 0.95 * (a + 1)) (hb' : b' ≤ 0.96 * b + 0.002 * (a + 1))
    (hb0 : 0 ≤ b') :
    Falling v0 r (k + 1) a' b' (detectUsbFromBattery override g (v0 - (k + 1) * r)).2 ∧
    (1 / 20 < b' → (detectUsbFromBattery override g (v0 - (k + 1) * r)).2.gPowerScore =
      max (-12) (g.gPowerScore - 1)) ∧
    ((detectUsbFromBattery override g (v0 - (k + 1) * r)).2.gPowerScore = -12 →
      (detectUsbFromBattery override g (v0 - (k + 1) * r)).2.gPowerState = 2 ∧
      (detectUsbFromBattery override g (v0 - (k + 1) * r)).2.gUsbState = false ∧
      (detectUsbFromBattery override g (v0 - (k + 1) * r)).1 = false) := by
  obtain ⟨hlast, hprev, hle, hlag, hslope, hs12, hs0⟩ := h
  obtain ⟨e1, e2, e3, e4, e5⟩ :=
    detectUsbFromBattery_auto override g (v0 - (k + 1) * r) hauto.1 hauto.2
  obtain ⟨v1, v2, v3⟩ :=
    detectUsbFromBattery_verdict override g (v0 - (k + 1) * r) hauto.1 hauto.2
  have hr0 : (0 : ℚ) < (r : ℚ) := by exact_mod_cast hr1
  have hk : (k + 1) * r = k * r + r := Nat.succ_mul k r
  have ha2 : 0 ≤ a * (r : ℚ) := mul_nonneg ha0 hr0.le
  have hb1n : (1 : ℚ) ≤ ((v0 - k * r : Nat) : ℚ) := by
    have : 1 ≤ v0 - k * r := by omega
    exact_mod_cast this
  have hne : g.gVf ≠ 0 := by
    intro h0
    rw [h0] at hlag
    linarith
  obtain ⟨fv, fs⟩ := filtered_of_ne_zero g (v0 - (k + 1) * r) hne
  have hbatt : ((v0 - (k + 1) * r : Nat) : ℚ) = ((v0 - k * r : Nat) : ℚ) - (r : ℚ) := by
    have : v0 - (k + 1) * r = (v0 - k * r) - r := by omega
    rw [this, Nat.cast_sub (by omega)]
  have ha1 : a' * (r : ℚ) ≤ 0.95 * (a + 1) * (r : ℚ) := mul_le_mul_of_nonneg_right ha' hr0.le
  have hb1 : b' * (r : ℚ) ≤ (0.96 * b + 0.002 * (a + 1)) * (r : ℚ) :=
    mul_le_mul_of_nonneg_right hb' hr0.le
  have hb2 : 0 ≤ b' * (r : ℚ) := mul_nonneg hb0 hr0.le
  have hspike : spike (v0 - (k + 1) * r) g.gLastBattMv = false := by
    have hd : delta_raw (v0 - (k + 1) * r) g.gLastBattMv = -(r : Int) := by
      rw [hlast, delta_raw_small _ _ (by omega) (by omega)
        (by rw [abs_lt]; constructor <;> omega)]
      omega
    simp only [spike, hd, VBAT_SPIKE_MV]
    have : ¬ (30 : Int) < |-(r : Int)| := by
      rw [abs_neg, abs_of_nonneg (by omega)]; omega
    simp [this]
    exact fun _ => hr30
  have hfs_le : filteredSlope g (v0 - (k + 1) * r) ≤ -(b' * (r : ℚ)) := by
    rw [fs, hbatt, hprev]
    linarith
  have hn8 : ¬ filteredSlope g (v0 - (k + 1) * r) * 60 > 8 := by
    intro hc
    linarith
  have hfv_le : filteredVoltage g (v0 - (k + 1) * r) ≤ (v0 : ℚ) := by
    rw [fv, hbatt]
    linarith
  have hscore := updatedScore_no_spike g (v0 - (k + 1) * r) hspike
  simp only [if_neg hn8] at hscore
  have hnear : ¬ (filteredVoltage g (v0 - (k + 1) * r) > 4150 ∧
      filteredSlope g (v0 - (k + 1) * r) * 60 > -2) := by
    intro hc
    have : (v0 : ℚ) ≤ 4150 := by exact_mod_cast hv0
    linarith [hc.1]
  refine ⟨⟨e5, by rw [e4, e2], by rw [e2]; exact hfv_le, ?_, by rw [e3]; exact hfs_le, ?_, ?_⟩,
    ?_, ?_⟩
  · rw [e2, fv, hbatt]
    linarith
  · rw [e1, hscore]
    split_ifs <;> omega
  · rw [e1, hscore]
    split_ifs <;> omega
  · intro hthr
    have h3 : filteredSlope g (v0 - (k + 1) * r) * 60 < -3 := by
      have : (1 / 20 : ℚ) * (r : ℚ) < b' * (r : ℚ) := mul_lt_mul_of_pos_right hthr hr0
      have : (1 : ℚ) ≤ (r : ℚ) := by exact_mod_cast hr1
      linarith
    rw [e1, hscore, if_pos h3]
    omega
  · intro h12
    rw [e1] at h12
    have hst : (detectUsbFromBattery override g (v0 - (k + 1) * r)).2.gPowerState = 2 := by
      rw [v1, if_neg hnear, if_neg (by omega), if_pos (by omega)]
    have husb : (detectUsbFromBattery override g (v0 - (k + 1) * r)).2.gUsbState = false := by
      rw [v3, hst]; simp
    exact ⟨hst, husb, by rw [v2, husb]⟩

theorem lagBound_nonneg (k : Nat) : 0 ≤ lagBound k := by
  induction k with
  | zero => exact le_refl _
  | succ k ih =>
    show 0 ≤ 0.95 * (lagBound k + 1)
    have : (0 : ℚ) ≤ 0.95 := by norm_num
    exact mul_nonneg this (by linarith)

theorem slopeBound_nonneg (k : Nat) : 0 ≤ slopeBound k := by
  induction k with
  | zero => exact le_refl _
  | succ k ih =>
    show 0 ≤ 0.96 * slopeBound k + 0.002 * (lagBound k + 1)
    have h1 : (0 : ℚ) ≤ 0.96 * slopeBound k := mul_nonneg (by norm_num) ih
    have h2 : (0 : ℚ) ≤ 0.002 * (lagBound k + 1) :=
      mul_nonneg (by norm_num) (by linarith [lagBound_nonneg k])
    linarith

theorem first_reading (override : Int) (hauto : override ≠ 0 ∧ override ≠ 1) (v0 : Nat) :
    (detectUsbFromBattery override PowerFilter.init v0).2.gLastBattMv = v0 ∧
    (detectUsbFromBattery override PowerFilter.init v0).2.gVfPrev = (v0 : ℚ) ∧
    (detectUsbFromBattery override PowerFilter.init v0).2.gVf = (v0 : ℚ) ∧
    (detectUsbFromBattery override PowerFilter.init v0).2.gSf = 0 ∧
    (detectUsbFromBattery override PowerFilter.init v0).2.gPowerScore = 0 := by
  obtain ⟨e1, e2, e3, e4, e5⟩ :=
    detectUsbFromBattery_auto override PowerFilter.init v0 hauto.1 hauto.2
  have fv : filteredVoltage PowerFilter.init v0 = (v0 : ℚ) := by
    simp [filteredVoltage, PowerFilter.init]
  have fs : filteredSlope PowerFilter.init v0 = 0 := by
    simp [filteredSlope, filteredVoltage, PowerFilter.init]
  have hs : spike v0 PowerFilter.init.gLastBattMv = false := by
    simp [spike, PowerFilter.init]
  have hsc := updatedScore_no_spike PowerFilter.init v0 hs
  rw [fs] at hsc
  refine ⟨e5, by rw [e4, fv], by rw [e2, fv], by rw [e3, fs], ?_⟩
  rw [e1, hsc]
  norm_num [PowerFilter.init]

theorem rising_prefix (override : Int) (hauto : override ≠ 0 ∧ override ≠ 1) (v0 r : Nat)
    (hv0 : 1 ≤ v0) (hr1 : 1 ≤ r) (hr30 : r ≤ 30) :
    ∀ k, v0 + k * r < 65536 →
      Rising v0 r k (lagBound k) (slopeBound k)
        (usbTicks override PowerFilter.init (risingReadings v0 r (k + 1))) := by
  intro k
  induction k with
  | zero =>
    intro _
    obtain ⟨f1, f2, f3, f4, f5⟩ := first_reading override hauto v0
    have e : usbTicks override PowerFilter.init (risingReadings v0 r (0 + 1)) =
        (detectUsbFromBattery override PowerFilter.init v0).2 := by
      simp [risingReadings, usbTicks, List.range_succ]
    rw [e]
    refine ⟨by rw [f1]; simp, by rw [f2, f3], by rw [f3], ?_, ?_, by rw [f5], by rw [f5]; decide⟩
    · rw [f3]; simp [lagBound]
    · rw [f4]; simp [slopeBound]
  | succ k ih =>
    intro hfit
    have hk : (k + 1) * r = k * r + r := Nat.succ_mul k r
    have h := ih (by omega)
    rw [risingReadings_succ, usbTicks_snoc]
    exact (rising_step override hauto v0 r k (lagBound k) (slopeBound k) (lagBound (k + 1))
      (slopeBound (k + 1)) _ h hv0 hr1 hr30 hfit (lagBound_nonneg k) (le_refl _) (le_refl _)
      (slopeBound_nonneg (k + 1))).1

theorem falling_prefix (override : Int) (hauto : override ≠ 0 ∧ override ≠ 1) (v0 r : Nat)
    (hv0 : v0 ≤ 4150) (hr1 : 1 ≤ r) (hr30 : r ≤ 30) :
    ∀ k, k * r < v0 →
      Falling v0 r k (lagBound k) (slopeBound k)
        (usbTicks override PowerFilter.init (fallingReadings v0 r (k + 1))) := by
  intro k
  induction k with
  | zero =>
    intro _
    obtain ⟨f1, f2, f3, f4, f5⟩ := first_reading override hauto v0
    have e : usbTicks override PowerFilter.init (fallingReadings v0 r (0 + 1)) =
        (detectUsbFromBattery override PowerFilter.init v0).2 := by
      simp [fallingReadings, usbTicks, List.range_succ]
    rw [e]
    refine ⟨by rw [f1]; simp, by rw [f2, f3], by rw [f3], ?_, ?_, by rw [f5]; decide, by rw [f5]⟩
    · rw [f3]; simp [lagBound]
    · rw [f4]; simp [slopeBound]
  | succ k ih =>
    intro hfit
    have hk : (k + 1) * r = k * r + r := Nat.succ_mul k r
    have h := ih (by omega)
    rw [fallingReadings_succ, usbTicks_snoc]
    exact (falling_step override hauto v0 r k (lagBound k) (slopeBound k) (lagBound (k + 1))
      (slopeBound (k + 1)) _ h hv0 hr1 hr30 hfit (lagBound_nonneg k) (le_refl _) (le_refl _)
      (slopeBound_nonneg (k + 1))).1

theorem lagBound_13 : (9 : ℚ) ≤ 0.95 * (lagBound 13 + 1) := by
  norm_num [lagBound]

theorem slopeBound_13 : (7 / 50 : ℚ) ≤ 0.96 * slopeBound 13 + 0.002 * (lagBound 13 + 1) := by
  norm_num [lagBound, slopeBound]

theorem lagBound_7 : (6 : ℚ) ≤ 0.95 * (lagBound 7 + 1) := by
  norm_num [lagBound]

theorem slopeBound_7 : (11 / 200 : ℚ) ≤ 0.96 * slopeBound 7 + 0.002 * (lagBound 7 + 1) := by
  norm_num [lagBound, slopeBound]

theorem rising_steady (override : Int) (hauto : override ≠ 0 ∧ override ≠ 1) (v0 r : Nat)
    (hv0 : 1 ≤ v0) (hr1 : 1 ≤ r) (hr30 : r ≤ 30) :
    ∀ j, v0 + (14 + j) * r < 65536 →
      Rising v0 r (14 + j) 9 (7 / 50)
        (usbTicks override PowerFilter.init (risingReadings v0 r (14 + j + 1))) ∧
      min 12 (2 * ((j : Int) + 1)) ≤
        (usbTicks override PowerFilter.init (risingReadings v0 r (14 + j + 1))).gPowerScore ∧
      ((usbTicks override PowerFilter.init (risingReadings v0 r (14 + j + 1))).gPowerScore = 12 →
        (usbTicks override PowerFilter.init (risingReadings v0 r (14 + j + 1))).gPowerState = 1 ∧
        (usbTicks override PowerFilter.init (risingReadings v0 r (14 + j + 1))).gUsbState = true) := by
  intro j
  induction j with
  | zero =>
    intro hfit
    have h13 := rising_prefix override hauto v0 r hv0 hr1 hr30 13 (by omega)
    have hstep := rising_step override hauto v0 r 13 (lagBound 13) (slopeBound 13) 9 (7 / 50) _
      h13 hv0 hr1 hr30 hfit (lagBound_nonneg 13) lagBound_13 slopeBound_13 (by norm_num)
    rw [risingReadings_succ, usbTicks_snoc]
    refine ⟨hstep.1, ?_, fun h => ⟨(hstep.2.2 h).1, (hstep.2.2 h).2.1⟩⟩
    rw [hstep.2.1 (by norm_num)]
    have := h13.2.2.2.2.2.1
    simp only [Nat.cast_zero]
    omega
  | succ j ih =>
    intro hfit
    have hk : (14 + j + 1) * r = (14 + j) * r + r := Nat.succ_mul (14 + j) r
    have hfit2 : v0 + (14 + j + 1) * r < 65536 := hfit
    obtain ⟨hR, hsc, _⟩ := ih (by omega)
    have hstep := rising_step override hauto v0 r (14 + j) 9 (7 / 50) 9 (7 / 50) _
      hR hv0 hr1 hr30 hfit2 (by norm_num) (by norm_num) (by norm_num) (by norm_num)
    have he : usbTicks override PowerFilter.init (risingReadings v0 r (14 + (j + 1) + 1)) =
        (detectUsbFromBattery override
          (usbTicks override PowerFilter.init (risingReadings v0 r (14 + j + 1)))
          (v0 + (14 + j + 1) * r)).2 := by
      rw [show 14 + (j + 1) + 1 = (14 + j + 1) + 1 from rfl, risingReadings_succ, usbTicks_snoc]
    rw [he]
    refine ⟨hstep.1, ?_, fun h => ⟨(hstep.2.2 h).1, (hstep.2.2 h).2.1⟩⟩
    rw [hstep.2.1 (by norm_num)]
    push_cast
    omega

theorem falling_steady (override : Int) (hauto : override ≠ 0 ∧ override ≠ 1) (v0 r : Nat)
    (hv0 : v0 ≤ 4150) (hr1 : 1 ≤ r) (hr30 : r ≤ 30) :
    ∀ j, (8 + j) * r < v0 →
      Falling v0 r (8 + j) 6 (11 / 200)
        (usbTicks override PowerFilter.init (fallingReadings v0 r (8 + j + 1))) ∧
      (usbTicks override PowerFilter.init (fallingReadings v0 r (8 + j + 1))).gPowerScore ≤
        max (-12) (-((j : Int) + 1)) ∧
      ((usbTicks override PowerFilter.init (fallingReadings v0 r (8 + j + 1))).gPowerScore = -12 →
        (usbTicks override PowerFilter.init (fallingReadings v0 r (8 + j + 1))).gPowerState = 2 ∧
        (usbTicks override PowerFilter.init (fallingReadings v0 r (8 + j + 1))).gUsbState = false) := by
  intro j
  induction j with
  | zero =>
    intro hfit
    have h7 := falling_prefix override hauto v0 r hv0 hr1 hr30 7 (by omega)
    have hstep := falling_step override hauto v0 r 7 (lagBound 7) (slopeBound 7) 6 (11 / 200) _
      h7 hv0 hr1 hr30 hfit (lagBound_nonneg 7) lagBound_7 slopeBound_7 (by norm_num)
    rw [fallingReadings_succ, usbTicks_snoc]
    refine ⟨hstep.1, ?_, fun h => ⟨(hstep.2.2 h).1, (hstep.2.2 h).2.1⟩⟩
    rw [hstep.2.1 (by norm_num)]
    have := h7.2.2.2.2.2.2
    simp only [Nat.cast_zero]
    omega
  | succ j ih =>
    intro hfit
    have hk : (8 + j + 1) * r = (8 + j) * r + r := Nat.succ_mul (8 + j) r
    have hfit2 : (8 + j + 1) * r < v0 := hfit
    obtain ⟨hR, hsc, _⟩ := ih (by omega)
    have hstep := falling_step override hauto v0 r (8 + j) 6 (11 / 200) 6 (11 / 200) _
      hR hv0 hr1 hr30 hfit2 (by norm_num) (by norm_num) (by norm_num) (by norm_num)
    have he : usbTicks override PowerFilter.init (fallingReadings v0 r (8 + (j + 1) + 1)) =
        (detectUsbFromBattery override
          (usbTicks override PowerFilter.init (fallingReadings v0 r (8 + j + 1)))
          (v0 - (8 + j + 1) * r)).2 := by
      rw [show 8 + (j + 1) + 1 = (8 + j + 1) + 1 from rfl, fallingReadings_succ, usbTicks_snoc]
    rw [he]
    refine ⟨hstep.1, ?_, fun h => ⟨(hstep.2.2 h).1, (hstep.2.2 h).2.1⟩⟩
    rw [hstep.2.1 (by norm_num)]
    push_cast
    omega

/-- C32: in automatic mode, starting from the start-up state, a raw voltage sequence that
rises by a constant `r` mV per tick with `1 ≤ r ≤ 30` (every reading a positive 16-bit
value) has, after any number `n ≥ 20` of readings, the evidence score saturated at +12, the
verdict charging and the USB state true, and the next call on the same slope returns true;
a sequence that falls by `r` mV per tick from at most 4150 mV (every reading positive)
has, after any number `n ≥ 20` of readings, the score at -12, the verdict discharging and
the USB state false, and the next call on the same slope returns false. -/
theorem C32_steady_slope_saturates (override : Int) (v0 r n : Nat)
    (hauto : override ≠ 0 ∧ override ≠ 1) (hr1 : 1 ≤ r) (hr30 : r ≤ 30) (hn : 20 ≤ n) :
    (1 ≤ v0 → v0 + n * r < 65536 →
      (usbTicks override PowerFilter.init (risingReadings v0 r n)).gPowerScore = 12 ∧
      (usbTicks override PowerFilter.init (risingReadings v0 r n)).gPowerState = 1 ∧
      (usbTicks override PowerFilter.init (risingReadings v0 r n)).gUsbState = true ∧
      (detectUsbFromBattery override (usbTicks override PowerFilter.init (risingReadings v0 r n))
        (v0 + n * r)).1 = true) ∧
    (v0 ≤ 4150 → n * r < v0 →
      (usbTicks override PowerFilter.init (fallingReadings v0 r n)).gPowerScore = -12 ∧
      (usbTicks override PowerFilter.init (fallingReadings v0 r n)).gPowerState = 2 ∧
      (usbTicks override PowerFilter.init (fallingReadings v0 r n)).gUsbState = false ∧
      (detectUsbFromBattery override (usbTicks override PowerFilter.init (fallingReadings v0 r n))
        (v0 - n * r)).1 = false) := by
  constructor
  · intro hv0 hfit
    obtain ⟨j, rfl⟩ : ∃ j, n = 14 + (j + 5) + 1 := ⟨n - 20, by omega⟩
    have hk : (14 + (j + 5) + 1) * r = (14 + (j + 5)) * r + r := Nat.succ_mul _ r
    obtain ⟨hR, hsc, hv⟩ := rising_steady override hauto v0 r hv0 hr1 hr30 (j + 5) (by omega)
    have h12 := hR.2.2.2.2.2.2
    have hs : (usbTicks override PowerFilter.init
        (risingReadings v0 r (14 + (j + 5) + 1))).gPowerScore = 12 := by
      push_cast at hsc
      omega
    have hstep := rising_step override hauto v0 r (14 + (j + 5)) 9 (7 / 50) 9 (7 / 50) _
      hR hv0 hr1 hr30 hfit (by norm_num) (by norm_num) (by norm_num) (by norm_num)
    have hnext := hstep.2.1 (by norm_num)
    rw [hs] at hnext
    exact ⟨hs, (hv hs).1, (hv hs).2, (hstep.2.2 (by rw [hnext]; decide)).2.2⟩
  · intro hv0 hfit
    obtain ⟨j, rfl⟩ : ∃ j, n = 8 + (j + 11) + 1 := ⟨n - 20, by omega⟩
    have hk : (8 + (j + 11) + 1) * r = (8 + (j + 11)) * r + r := Nat.succ_mul _ r
    obtain ⟨hR, hsc, hv⟩ := falling_steady override hauto v0 r hv0 hr1 hr30 (j + 11) (by omega)
    have h12 := hR.2.2.2.2.2.1
    have hs : (usbTicks override PowerFilter.init
        (fallingReadings v0 r (8 + (j + 11) + 1))).gPowerScore = -12 := by
      push_cast at hsc
      omega
    have hstep := falling_step override hauto v0 r (8 + (j + 11)) 6 (11 / 200) 6 (11 / 200) _
      hR hv0 hr1 hr30 hfit (by norm_num) (by norm_num) (by norm_num) (by norm_num)
    have hnext := hstep.2.1 (by norm_num)
    rw [hs] at hnext
    exact ⟨hs, (hv hs).1, (hv hs).2, (hstep.2.2 (by rw [hnext]; decide)).2.2⟩

theorem C32_steady_slope_saturates_witness :
    ((-1 : Int) ≠ 0 ∧ (-1 : Int) ≠ 1) ∧ 1 ≤ 1 ∧ 1 ≤ 30 ∧ 20 ≤ 20 ∧
    (1 ≤ 3000 ∧ 3000 + 20 * 1 < 65536 ∧
      (usbTicks (-1) PowerFilter.init (risingReadings 3000 1 20)).gPowerScore = 12 ∧
      (usbTicks (-1) PowerFilter.init (risingReadings 3000 1 20)).gPowerState = 1 ∧
      (usbTicks (-1) PowerFilter.init (risingReadings 3000 1 20)).gUsbState = true ∧
      (detectUsbFromBattery (-1) (usbTicks (-1) PowerFilter.init (risingReadings 3000 1 20))
        (3000 + 20 * 1)).1 = true) ∧
    (3000 ≤ 4150 ∧ 20 * 1 < 3000 ∧
      (usbTicks (-1) PowerFilter.init (fallingReadings 3000 1 20)).gPowerScore = -12 ∧
      (usbTicks (-1) PowerFilter.init (fallingReadings 3000 1 20)).gPowerState = 2 ∧
      (usbTicks (-1) PowerFilter.init (fallingReadings 3000 1 20)).gUsbState = false ∧
      (detectUsbFromBattery (-1) (usbTicks (-1) PowerFilter.init (fallingReadings 3000 1 20))
        (3000 - 20 * 1)).1 = false) :=
  ⟨by decide, by decide, by decide, by decide,
    ⟨by decide, by decide,
      (C32_steady_slope_saturates (-1) 3000 1 20 (by decide) (by decide) (by decide)
        (by decide)).1 (by decide) (by decide)⟩,
    ⟨by decide, by decide,
      (C32_steady_slope_saturates (-1) 3000 1 20 (by decide) (by decide) (by decide)
        (by decide)).2 (by decide) (by decide)⟩⟩

end RuuviClone
